import Mathlib

/-!
# JNLuaJIT native bridge (`src/main/c/jnlua.c`): embedding and verified properties

The bridge is C code that sits between two runtimes it does not contain:
the Lua 5.1 engine (LuaJIT) and the Java virtual machine reached through JNI.
The embedding therefore has three layers.

* The engine: a value stack, a heap of tables / userdata / closures, the
  registry and the globals table.  Each `lua_*` primitive the bridge calls is
  given the meaning the Lua 5.1 reference manual gives it.
* The host: pending exception, the log of raised exceptions, the log of
  released global references, and a record `Host` of the answers the Java side
  gives (method results, whether an allocation succeeds).
* The bridge functions themselves, transcribed statement by statement from
  `jnlua.c` on top of the two layers, keeping the C names.

The value stack is kept as a list with the TOP FIRST: pushing is `v :: stack`,
index `-1` is the head, index `1` is the last element.
-/

namespace JNLua

/-! ## Constants -/

/-- Option of `lua_call`/`lua_pcall` asking for all results (`lua.h`). -/
def LUA_MULTRET : Int := -1

/-- Pseudo-index of the registry in the Lua 5.1 API (`lua.h`, as shipped with LuaJIT). -/
def LUA_REGISTRYINDEX : Int := -10000

/-- Pseudo-index of the running C function's environment (`lua.h`, Lua 5.1 API). -/
def LUA_ENVIRONINDEX : Int := -10001

/-- Pseudo-index of the globals table (`lua.h`, Lua 5.1 API). -/
def LUA_GLOBALSINDEX : Int := -10002

/-- Status `LUA_ERRRUN` of `lua.h` (Lua 5.1 API). -/
def LUA_ERRRUN : Int := 2

/-- Status `LUA_ERRSYNTAX` of `lua.h` (Lua 5.1 API). -/
def LUA_ERRSYNTAX : Int := 3

/-- Status `LUA_ERRMEM` of `lua.h` (Lua 5.1 API). -/
def LUA_ERRMEM : Int := 4

/-- Status `LUA_ERRERR` of `lua.h` (Lua 5.1 API). -/
def LUA_ERRERR : Int := 5

/-- Status for a failing finalizer.  The Lua 5.1 header does not define it, so
`jnlua.c` lines 35-42 define it as `LUA_ERRERR + 2`. -/
def LUA_ERRGCMM : Int := LUA_ERRERR + 2

/-- Modelled from the spec: the type tags of section 6 (`nil=0, boolean=1,
number=3, string=4, table=5, function=6, handle=7`); they are the `LUA_T*`
values of `lua.h`, which adds `none=-1`, light userdata `2` and thread `8`. -/
def LUA_TNONE : Int := -1

/-- Modelled from the spec: tag of nil (section 6). -/
def LUA_TNIL : Int := 0

/-- Modelled from the spec: tag of booleans (section 6). -/
def LUA_TBOOLEAN : Int := 1

/-- Tag of light userdata (`lua.h`). -/
def LUA_TLIGHTUSERDATA : Int := 2

/-- Modelled from the spec: tag of numbers (section 6). -/
def LUA_TNUMBER : Int := 3

/-- Modelled from the spec: tag of strings (section 6). -/
def LUA_TSTRING : Int := 4

/-- Modelled from the spec: tag of tables (section 6). -/
def LUA_TTABLE : Int := 5

/-- Modelled from the spec: tag of functions (section 6). -/
def LUA_TFUNCTION : Int := 6

/-- Modelled from the spec: tag of full userdata, the handles (section 6). -/
def LUA_TUSERDATA : Int := 7

/-- Tag of coroutines (`lua.h`). -/
def LUA_TTHREAD : Int := 8

/-- Guaranteed free stack slots on entry of a C function (`lua.h`). -/
def LUA_MINSTACK : Int := 20

/-- Source: `#define LUA_TJAVAFUNCTION LUA_TFUNCTION + 3`. -/
def LUA_TJAVAFUNCTION : Int := LUA_TFUNCTION + 3

/-- Source: `#define LUA_TJAVAOBJECT LUA_TUSERDATA + 3`. -/
def LUA_TJAVAOBJECT : Int := LUA_TUSERDATA + 3

/-- Source: `#define JNLUA_MINSTACK LUA_MINSTACK`. -/
def JNLUA_MINSTACK : Int := LUA_MINSTACK

/-! ## Bytes and C strings -/

/-- A byte sequence: the content of an engine string or of a host `byte[]`. -/
abbrev Bytes := List UInt8

/-- The bytes of an ASCII literal of the C source. -/
def lit (s : String) : Bytes := s.toList.map (fun c => c.toNat.toUInt8)

/-- What C code sees through a `const char *`: the bytes before the first NUL. -/
def cstr (b : Bytes) : Bytes := b.takeWhile (fun c => c != 0)

/-- Source: `#define JNLUA_OBJECT "jnlua.Object"`. -/
def JNLUA_OBJECT : Bytes := lit "jnlua.Object"

/-- Source: `#define JNLUA_OBJECT_META "jnlua.Object.Meta"`. -/
def JNLUA_OBJECT_META : Bytes := lit "jnlua.Object.Meta"

/-- Source: `static const char *CLASS_NAME = "java_class_name"`. -/
def CLASS_NAME : Bytes := lit "java_class_name"

/-! ## Engine values and heap objects -/

/-- A C function of the bridge that is pushed as an engine function, or any other C function. -/
inductive CFunction where
  | calljavafunction
  | messagehandler
  | throw_protected
  | pushmetafunction_protected
  | gcjavaobject
  | findjavafunction
  | tablemove_protected
  | pcall_table_pair_get
  | pcall_table_pair_push
  | other (id : Nat)
deriving DecidableEq, Repr

/-- An engine value.  Numbers are C doubles; the bridge only moves, formats and
integer-tests them, so a double is represented by the rational it denotes.
Tables, functions, full userdata and threads are references into the heap. -/
inductive LuaValue where
  | nil
  | boolean (b : Bool)
  | lightuserdata (p : Nat)
  | number (n : ℚ)
  | string (s : Bytes)
  | table (ref : Nat)
  | function (ref : Nat)
  | userdata (ref : Nat)
  | thread (ref : Nat)
deriving DecidableEq

/-- The Java classes cached by `JNI_OnLoad` that the bridge throws or tests against. -/
inductive JClass where
  | LuaRuntimeException
  | LuaSyntaxException
  | LuaMemoryAllocationException
  | LuaGcMetamethodException
  | LuaMessageHandlerException
  | LuaError
  | JavaFunction
  | NullPointerException
  | IllegalArgumentException
  | IllegalStateException
  | ArrayIndexOutOfBoundsException
  | Error
  | LuaStackTraceElement
  | other (id : Nat)
deriving DecidableEq, Repr

/-- A host (Java) value as seen through a `jobject`: the null reference, a
`byte[]`, a `java.lang.Double`, an `Object[]`, a throwable built by the bridge
(its class, its message with null = `none`, and the object linked to it: the
cause of a `LuaError`, the `LuaError` attached to an exception with
`setLuaError`, null when there is none), or any other object, known by its
identity. -/
inductive JValue where
  | null
  | bytes (b : Bytes)
  | double (d : ℚ)
  | array (elems : List JValue)
  | throwable (cls : JClass) (message : Option Bytes) (linked : JValue)
  | object (id : Nat)

/-- Is the reference NULL. -/
def JValue.isNull : JValue → Bool
  | JValue.null => true
  | _ => false

/-- An object of the engine heap. -/
inductive GCObject where
  | table (entries : List (LuaValue × LuaValue)) (metatable : Option Nat)
  | userdata (payload : JValue) (metatable : Option Nat) (env : Nat)
  | cclosure (fn : CFunction) (upvalues : List LuaValue)
  | lfunction

/-- The engine heap: the object at each address in use. -/
abbrev Heap := Nat → Option GCObject

/-- Heap address of the registry table. -/
def REGISTRY : Nat := 0

/-- Heap address of the globals table. -/
def GLOBALS : Nat := 1

/-- The state the bridge acts on: the engine state of one instance (value
stack of the running frame, top first; heap; next free heap address; stack
capacity; the metatables shared by all values of a basic type) and the JNI
state of the calling thread (pending exception, every exception raised so
far by the bridge with `Throw`/`ThrowNew`, every global reference released
so far with `DeleteGlobalRef`). -/
structure World where
  stack : List LuaValue
  heap : Heap
  next : Nat
  limit : Nat
  basemt : Int → Option Nat
  pending : Option JValue
  raised : List JValue
  released : List JValue

/-- Result of running bridge code: normal completion, a Lua error raised with
`lua_error` (the non-local exit, carrying the error value), or behaviour that
neither the engine API nor JNI defines. -/
inductive Res (α : Type) where
  | ok (a : α) (w : World)
  | raise (e : LuaValue) (w : World)
  | undef

/-- Bridge code: a state transformer with the two abnormal outcomes of `Res`. -/
def LuaM (α : Type) : Type := World → Res α

instance : Monad LuaM where
  pure a := fun w => Res.ok a w
  bind m f := fun w =>
    match m w with
    | Res.ok a w1 => f a w1
    | Res.raise e w1 => Res.raise e w1
    | Res.undef => Res.undef

/-! ## The host side -/

/-- How a call of an engine function ends: it returns its results (first
result first) or aborts with a status and an error value. -/
inductive CallOutcome where
  | returns (results : List LuaValue)
  | fails (status : Int) (e : LuaValue)

/-- The answers of everything the bridge calls but does not contain.  A failure
is an answer here exactly when the C source tests for it; failures the source
never tests for (for instance `NewByteArray` returning NULL) are outside the
embedding.

* `fmtNumber`: the string form `lua_tolstring` gives a number;
* `fmtPointer`: the text `lua_pushfstring` renders for `"%s: %p"`;
* `whereStr`: the position text pushed by `luaL_where(L, 1)`;
* `call`: the outcome of running an engine function on arguments;
* `onError h st e`: the status and error value a protected call ends with
  when the call aborted with status `st` and value `e` under the message
  handler `h`;
* `newObjectOk c`: `NewObject` of class `c` returns an object;
* `throwOk`: `Throw` returns 0;
* `isInstanceOf`: JNI `IsInstanceOf`;
* `setLuaErrorThrows`: the exception `setLuaError` itself throws, if any;
* `toStringOf`: `Object.toString()` as UTF characters, `none` when it throws
  or returns null;
* `className`: `LuaState.getClassName(obj)`, `none` when it throws or returns null;
* `mallocOk n`: `malloc(n)` returns a block;
* `utfCharsOk`: `GetStringUTFChars` returns the characters;
* `globalRefOk`: `NewGlobalRef` of a non-null object returns a reference;
* `boxOk`: `Double.valueOf` returns without throwing;
* `str2number`: the number the engine reads from a string, if it is a numeral;
* `upvalueOf f n`: upvalue `n` of the Lua function at heap address `f`, if it
  has that many;
* `invoke f javastate n w`: what `JavaFunction.invoke` of the host callable `f`
  does when called with `n` arguments in the state `w`: the `int` it returns
  and the state it leaves, in which an exception is pending when it threw;
* `newArrayOk n`: `NewObjectArray` of length `n` returns an array;
* `setLuaStackTraceThrows`: the exception `setLuaStackTrace` itself throws, if any. -/
structure Host where
  fmtNumber : ℚ → Bytes
  fmtPointer : LuaValue → Bytes
  whereStr : Bytes
  call : LuaValue → List LuaValue → CallOutcome
  onError : LuaValue → Int → LuaValue → Int × LuaValue
  newObjectOk : JClass → Bool
  throwOk : Bool
  isInstanceOf : JValue → JClass → Bool
  setLuaErrorThrows : Option JValue
  toStringOf : JValue → Option Bytes
  className : JValue → Option Bytes
  mallocOk : Nat → Bool
  utfCharsOk : Bool
  globalRefOk : Bool
  boxOk : Bool
  str2number : Bytes → Option ℚ
  upvalueOf : Nat → Nat → Option LuaValue
  invoke : JValue → JValue → Int → World → Int × World
  newArrayOk : Nat → Bool
  setLuaStackTraceThrows : Option JValue

/-! ## Engine primitives (Lua 5.1 reference manual) -/

/-- The type tag `lua_type` reports for a value. -/
def LuaValue.tag : LuaValue → Int
  | LuaValue.nil => LUA_TNIL
  | LuaValue.boolean _ => LUA_TBOOLEAN
  | LuaValue.lightuserdata _ => LUA_TLIGHTUSERDATA
  | LuaValue.number _ => LUA_TNUMBER
  | LuaValue.string _ => LUA_TSTRING
  | LuaValue.table _ => LUA_TTABLE
  | LuaValue.function _ => LUA_TFUNCTION
  | LuaValue.userdata _ => LUA_TUSERDATA
  | LuaValue.thread _ => LUA_TTHREAD

/-- Position, in the top-first list, of the stack slot a real index denotes:
`1 .. top` counts from the bottom, `-1 .. -top` from the top; an index at or
below `LUA_REGISTRYINDEX` is a pseudo-index and denotes no slot. -/
def slot (w : World) (idx : Int) : Option Nat :=
  if 0 < idx then
    if idx ≤ w.stack.length then some (w.stack.length - idx.toNat) else none
  else if idx < 0 ∧ LUA_REGISTRYINDEX < idx then
    if -idx ≤ w.stack.length then some ((-idx).toNat - 1) else none
  else none

/-- The value an index denotes (`index2adr`): a stack slot, the registry or
the globals table.  The C functions of the bridge keep the default
environment, so `LUA_ENVIRONINDEX` denotes the globals table as well. -/
def index2value (w : World) (idx : Int) : Option LuaValue :=
  if idx = LUA_REGISTRYINDEX then some (LuaValue.table REGISTRY)
  else if idx = LUA_GLOBALSINDEX ∨ idx = LUA_ENVIRONINDEX then some (LuaValue.table GLOBALS)
  else match slot w idx with
    | some p => w.stack.get? p
    | none => none

/-- Raw table read: the value stored under a key, nil when there is none. -/
def tget : List (LuaValue × LuaValue) → LuaValue → LuaValue
  | [], _ => LuaValue.nil
  | (k, v) :: es, x => if k = x then v else tget es x

/-- Raw table write: storing nil removes the entry. -/
def tset (es : List (LuaValue × LuaValue)) (k v : LuaValue) : List (LuaValue × LuaValue) :=
  if v = LuaValue.nil then es.filter (fun e => e.1 ≠ k)
  else (k, v) :: es.filter (fun e => e.1 ≠ k)

/-- The entries of the table at a heap address (none for an address that holds no table). -/
def Heap.entries (h : Heap) (r : Nat) : List (LuaValue × LuaValue) :=
  match h r with
  | some (GCObject.table es _) => es
  | _ => []

/-- The metatable of the table at a heap address. -/
def Heap.tmeta (h : Heap) (r : Nat) : Option Nat :=
  match h r with
  | some (GCObject.table _ m) => m
  | _ => none

/-- The `jobject` stored in the block of the full userdata at a heap address. -/
def Heap.payload (h : Heap) (r : Nat) : JValue :=
  match h r with
  | some (GCObject.userdata p _ _) => p
  | _ => JValue.null

/-- The metatable of the full userdata at a heap address. -/
def Heap.umeta (h : Heap) (r : Nat) : Option Nat :=
  match h r with
  | some (GCObject.userdata _ m _) => m
  | _ => none

/-- The environment table of the full userdata at a heap address. -/
def Heap.uenv (h : Heap) (r : Nat) : Nat :=
  match h r with
  | some (GCObject.userdata _ _ e) => e
  | _ => GLOBALS

/-- The metatable of a value: its own for tables and full userdata, the one
shared by the basic type otherwise. -/
def metatableOf (h : Heap) (basemt : Int → Option Nat) (v : LuaValue) : Option Nat :=
  match v with
  | LuaValue.table r => h.tmeta r
  | LuaValue.userdata r => h.umeta r
  | v => basemt v.tag

/-- Replace the heap object at an address. -/
def World.store (w : World) (r : Nat) (o : GCObject) : World :=
  { w with heap := Function.update w.heap r (some o) }

/-- Behaviour the engine API leaves undefined. -/
def undefined {α : Type} : LuaM α := fun _ => Res.undef

/-- Read the current state. -/
def getW : LuaM World := fun w => Res.ok w w

/-- Engine `lua_error`: raise the value on top of the stack. -/
def lua_error {α : Type} : LuaM α := fun w =>
  match w.stack with
  | e :: _ => Res.raise e w
  | [] => Res.undef

/-- Engine `lua_gettop`. -/
def lua_gettop : LuaM Int := fun w => Res.ok w.stack.length w

/-- Engine `lua_checkstack`: can the stack grow by `n` slots. -/
def lua_checkstack (n : Int) : LuaM Bool := fun w =>
  Res.ok (decide ((w.stack.length : Int) + n ≤ w.limit)) w

/-- Push one value. -/
def push (v : LuaValue) : LuaM Unit := fun w => Res.ok () { w with stack := v :: w.stack }

/-- Engine `lua_pushstring`: the C string up to its first NUL, nil for NULL. -/
def lua_pushstring (s : Option Bytes) : LuaM Unit :=
  match s with
  | some b => push (LuaValue.string (cstr b))
  | none => push LuaValue.nil

/-- Engine macro `lua_pushliteral`. -/
def lua_pushliteral (s : String) : LuaM Unit := push (LuaValue.string (lit s))

/-- Engine `lua_settop`. -/
def lua_settop (idx : Int) : LuaM Unit := fun w =>
  if 0 ≤ idx then
    if idx ≤ w.stack.length then
      Res.ok () { w with stack := w.stack.drop (w.stack.length - idx.toNat) }
    else
      Res.ok () { w with stack := List.replicate (idx.toNat - w.stack.length) LuaValue.nil ++ w.stack }
  else if -(idx + 1) ≤ w.stack.length then
    Res.ok () { w with stack := w.stack.drop (-(idx + 1)).toNat }
  else Res.undef

/-- Engine macro `lua_pop(L, n)`, which is `lua_settop(L, -(n)-1)`. -/
def lua_pop (n : Int) : LuaM Unit := lua_settop (-n - 1)

/-- Engine `lua_type`: `LUA_TNONE` for an index that denotes nothing. -/
def lua_type (idx : Int) : LuaM Int := fun w =>
  Res.ok (match index2value w idx with
    | some v => v.tag
    | none => LUA_TNONE) w

/-- Engine `lua_pushvalue`. -/
def lua_pushvalue (idx : Int) : LuaM Unit := fun w =>
  match index2value w idx with
  | some v => Res.ok () { w with stack := v :: w.stack }
  | none => Res.undef

/-- Engine `lua_remove`: the index must denote a stack slot. -/
def lua_remove (idx : Int) : LuaM Unit := fun w =>
  match slot w idx with
  | some p => Res.ok () { w with stack := w.stack.eraseIdx p }
  | none => Res.undef

/-- Engine `lua_insert`: move the top value into the slot, shifting up the
values above it; the index must denote a stack slot. -/
def lua_insert (idx : Int) : LuaM Unit := fun w =>
  match slot w idx, w.stack with
  | some p, t :: rest => Res.ok () { w with stack := rest.take p ++ t :: rest.drop p }
  | _, _ => Res.undef

/-- Allocate a heap object at the next free address. -/
def alloc (o : GCObject) : LuaM Nat := fun w =>
  Res.ok w.next { w with heap := Function.update w.heap w.next (some o), next := w.next + 1 }

/-- The address of the table an index denotes. -/
def tableAt (w : World) (idx : Int) : Option Nat :=
  match index2value w idx with
  | some (LuaValue.table r) => some r
  | _ => none

/-- Engine `lua_rawget`: replace the key on top by the table's value for it. -/
def lua_rawget (idx : Int) : LuaM Unit := fun w =>
  match tableAt w idx, w.stack with
  | some r, k :: rest => Res.ok () { w with stack := tget (w.heap.entries r) k :: rest }
  | _, _ => Res.undef

/-- Engine `lua_rawset`: store the value on top under the key below it and pop
both; a nil key is the engine error "table index is nil". -/
def lua_rawset (idx : Int) : LuaM Unit := fun w =>
  match tableAt w idx, w.stack with
  | some r, v :: k :: rest =>
    if k = LuaValue.nil then Res.raise (LuaValue.string (lit "table index is nil")) w
    else Res.ok () { w.store r (GCObject.table (tset (w.heap.entries r) k v) (w.heap.tmeta r)) with stack := rest }
  | _, _ => Res.undef

/-- Engine `lua_rawgeti`. -/
def lua_rawgeti (idx : Int) (n : Int) : LuaM Unit := fun w =>
  match tableAt w idx with
  | some r => Res.ok () { w with stack := tget (w.heap.entries r) (LuaValue.number n) :: w.stack }
  | none => Res.undef

/-- Engine `lua_rawseti`: store the value on top under an integer key and pop it. -/
def lua_rawseti (idx : Int) (n : Int) : LuaM Unit := fun w =>
  match tableAt w idx, w.stack with
  | some r, v :: rest =>
    Res.ok () { w.store r (GCObject.table (tset (w.heap.entries r) (LuaValue.number n) v) (w.heap.tmeta r)) with
      stack := rest }
  | _, _ => Res.undef

/-- Engine `lua_createtable` / `lua_newtable` (the size hints have no meaning here). -/
def lua_createtable : LuaM Unit := fun w =>
  Res.ok () { w with
    heap := Function.update w.heap w.next (some (GCObject.table [] none)),
    next := w.next + 1,
    stack := LuaValue.table w.next :: w.stack }

/-- Engine `luaL_getmetatable(L, name)`: the registry entry `name`. -/
def luaL_getmetatable (name : Bytes) : LuaM Unit := fun w =>
  Res.ok () { w with stack := tget (w.heap.entries REGISTRY) (LuaValue.string name) :: w.stack }

/-- Engine `lua_getmetatable`: push the metatable of the value and answer
true, or push nothing and answer false. -/
def lua_getmetatable (idx : Int) : LuaM Bool := fun w =>
  match index2value w idx with
  | some v =>
    match metatableOf w.heap w.basemt v with
    | some m => Res.ok true { w with stack := LuaValue.table m :: w.stack }
    | none => Res.ok false w
  | none => Res.ok false w

/-- The metatable argument of `lua_setmetatable`: a table or nil. -/
def asMetatable : LuaValue → Option (Option Nat)
  | LuaValue.nil => some none
  | LuaValue.table m => some (some m)
  | _ => none

/-- Engine `lua_setmetatable`: pop a table or nil and make it the metatable of
the value at the index. -/
def lua_setmetatable (idx : Int) : LuaM Unit := fun w =>
  match index2value w idx, w.stack with
  | some v, t :: rest =>
    match asMetatable t with
    | none => Res.undef
    | some mt =>
      match v with
      | LuaValue.table r =>
        Res.ok () { w.store r (GCObject.table (w.heap.entries r) mt) with stack := rest }
      | LuaValue.userdata r =>
        Res.ok () { w.store r (GCObject.userdata (w.heap.payload r) mt (w.heap.uenv r)) with stack := rest }
      | v => Res.ok () { w with basemt := Function.update w.basemt v.tag mt, stack := rest }
  | _, _ => Res.undef

/-- Engine `lua_rawequal`: primitive equality of two values, false when an
index denotes nothing. -/
def lua_rawequal (i1 i2 : Int) : LuaM Bool := fun w =>
  match index2value w i1, index2value w i2 with
  | some a, some b => Res.ok (decide (a = b)) w
  | _, _ => Res.ok false w

/-- Engine `lua_isuserdata`: full or light userdata. -/
def lua_isuserdata (idx : Int) : LuaM Bool := fun w =>
  Res.ok (match index2value w idx with
    | some (LuaValue.userdata _) => true
    | some (LuaValue.lightuserdata _) => true
    | _ => false) w

/-- Engine `lua_isnil`. -/
def lua_isnil (idx : Int) : LuaM Bool := fun w =>
  Res.ok (match index2value w idx with
    | some LuaValue.nil => true
    | _ => false) w

/-- Engine `lua_toboolean`: false for nil, false and for no value. -/
def lua_toboolean (idx : Int) : LuaM Bool := fun w =>
  Res.ok (match index2value w idx with
    | some LuaValue.nil => false
    | some (LuaValue.boolean b) => b
    | some _ => true
    | none => false) w

/-- Engine `lua_newuserdata`: a fresh block, here one `jobject` wide, whose
content stays the null reference until the bridge writes it. -/
def lua_newuserdata : LuaM Nat := fun w =>
  Res.ok w.next { w with
    heap := Function.update w.heap w.next (some (GCObject.userdata JValue.null none GLOBALS)),
    next := w.next + 1,
    stack := LuaValue.userdata w.next :: w.stack }

/-- Write the `jobject` stored in the block of a full userdata (`*user_data = ...`). -/
def writePayload (r : Nat) (p : JValue) : LuaM Unit := fun w =>
  Res.ok () (w.store r (GCObject.userdata p (w.heap.umeta r) (w.heap.uenv r)))

/-- Engine `lua_setfenv`: pop a table and make it the environment of the
userdata at the index (environments of functions and threads are not part of
the embedding); answer false for other values. -/
def lua_setfenv (idx : Int) : LuaM Bool := fun w =>
  match index2value w idx, w.stack with
  | some v, LuaValue.table t :: rest =>
    match v with
    | LuaValue.userdata r =>
      Res.ok true { w.store r (GCObject.userdata (w.heap.payload r) (w.heap.umeta r) t) with stack := rest }
    | LuaValue.function _ => Res.ok true { w with stack := rest }
    | LuaValue.thread _ => Res.ok true { w with stack := rest }
    | _ => Res.ok false { w with stack := rest }
  | _, _ => Res.undef

/-- Engine `lua_pushcclosure(L, fn, n)`: pop `n` upvalues (the deepest is
upvalue 1) and push a new C closure over them. -/
def lua_pushcclosure (fn : CFunction) (n : Nat) : LuaM Unit := fun w =>
  if n ≤ w.stack.length then
    Res.ok () { w with
      heap := Function.update w.heap w.next (some (GCObject.cclosure fn (w.stack.take n).reverse)),
      next := w.next + 1,
      stack := LuaValue.function w.next :: w.stack.drop n }
  else Res.undef

/-- Engine macro `lua_pushcfunction`. -/
def lua_pushcfunction (fn : CFunction) : LuaM Unit := lua_pushcclosure fn 0

/-- Engine `lua_tocfunction`: the C function of a C closure, NULL otherwise. -/
def lua_tocfunction (idx : Int) : LuaM (Option CFunction) := fun w =>
  Res.ok (match index2value w idx with
    | some (LuaValue.function r) =>
      match w.heap r with
      | some (GCObject.cclosure fn _) => some fn
      | _ => none
    | _ => none) w

/-- Engine `lua_tolstring`: the bytes of a string; a number is first converted
in place to its string form; NULL for anything else. -/
def lua_tolstring (H : Host) (idx : Int) : LuaM (Option Bytes) := fun w =>
  match index2value w idx with
  | some (LuaValue.string s) => Res.ok (some s) w
  | some (LuaValue.number n) =>
    match slot w idx with
    | some p =>
      Res.ok (some (H.fmtNumber n)) { w with stack := w.stack.set p (LuaValue.string (H.fmtNumber n)) }
    | none => Res.undef
  | _ => Res.ok none w

/-- Engine `lua_concat(L, 2)` on two strings; other operands are outside the embedding. -/
def lua_concat2 : LuaM Unit := fun w =>
  match w.stack with
  | LuaValue.string b :: LuaValue.string a :: rest =>
    Res.ok () { w with stack := LuaValue.string (a ++ b) :: rest }
  | _ => Res.undef

/-- Engine `luaL_callmeta(L, idx, event)`: when the value has a metatable with
a field `event`, call it on the value, push its first result and answer true
(an error of the call propagates); otherwise push nothing and answer false. -/
def luaL_callmeta (H : Host) (idx : Int) (event : Bytes) : LuaM Bool := fun w =>
  match index2value w idx with
  | none => Res.ok false w
  | some v =>
    match metatableOf w.heap w.basemt v with
    | none => Res.ok false w
    | some m =>
      if tget (w.heap.entries m) (LuaValue.string event) = LuaValue.nil then Res.ok false w
      else
        match H.call (tget (w.heap.entries m) (LuaValue.string event)) [v] with
        | CallOutcome.returns rs => Res.ok true { w with stack := rs.headD LuaValue.nil :: w.stack }
        | CallOutcome.fails _ e => Res.raise e w

/-- Adjust a list of results (top first, so the first result is last) to the
count a caller asked for: all of them for `LUA_MULTRET`, otherwise the first
`nresults`, padded with nil. -/
def adjustResults (rs : List LuaValue) (nresults : Int) : List LuaValue :=
  if nresults = LUA_MULTRET then rs
  else List.replicate (nresults.toNat - rs.length) LuaValue.nil ++ rs.drop (rs.length - nresults.toNat)

/-- Engine `lua_pcall(L, nargs, nresults, 0)` of a C function of the bridge
whose body is `body`: the function runs in a frame of its own holding the
arguments; on return its top `n` values, adjusted, replace function and
arguments; a raised error is caught and replaces them by the error value,
with status `LUA_ERRRUN`. -/
def pcallC (body : LuaM Int) (nargs : Nat) (nresults : Int) : LuaM Int := fun w =>
  if w.stack.length < nargs + 1 then Res.undef
  else
    match body { w with stack := w.stack.take nargs } with
    | Res.ok n w1 =>
      Res.ok 0 { w1 with stack := adjustResults (w1.stack.take n.toNat) nresults ++ w.stack.drop (nargs + 1) }
    | Res.raise e w1 => Res.ok LUA_ERRRUN { w1 with stack := e :: w.stack.drop (nargs + 1) }
    | Res.undef => Res.undef

/-! ## JNI primitives -/

/-- JNI `ExceptionCheck`. -/
def ExceptionCheck : LuaM Bool := fun w => Res.ok w.pending.isSome w

/-- JNI `ExceptionClear`. -/
def ExceptionClear : LuaM Unit := fun w => Res.ok () { w with pending := none }

/-- JNI `Throw` when it succeeds: the throwable becomes the pending exception. -/
def Throw (t : JValue) : LuaM Unit := fun w =>
  Res.ok () { w with pending := some t, raised := w.raised ++ [t] }

/-- JNI `ThrowNew`: build a throwable of the class with the message and throw it. -/
def ThrowNew (cls : JClass) (msg : Bytes) : LuaM Unit :=
  Throw (JValue.throwable cls (some (cstr msg)) JValue.null)

/-- A Java method called by the bridge threw: the exception becomes pending. -/
def hostThrows (t : JValue) : LuaM Unit := fun w => Res.ok () { w with pending := some t }

/-- JNI `IsInstanceOf`: NULL is an instance of every class, a throwable built
by the bridge is an instance of its own class, the host answers the rest. -/
def IsInstanceOf (H : Host) (o : JValue) (c : JClass) : Bool :=
  match o with
  | JValue.null => true
  | JValue.throwable cls _ _ => decide (cls = c) || H.isInstanceOf o c
  | o => H.isInstanceOf o c

/-- JNI `NewGlobalRef`: NULL for NULL, and NULL when the host is out of memory. -/
def NewGlobalRef (H : Host) (o : JValue) : JValue :=
  match o with
  | JValue.null => JValue.null
  | o => if H.globalRefOk then o else JValue.null

/-- JNI `DeleteGlobalRef`. -/
def DeleteGlobalRef (o : JValue) : LuaM Unit := fun w =>
  Res.ok () { w with released := w.released ++ [o] }

/-! ## Bridge: validation helpers (`jnlua.c` 4060-4238) -/

/-- Source: `check`. -/
def check (cond : Bool) (throwable_class : JClass) (msg : String) : LuaM Bool :=
  if cond then pure true
  else do
    ThrowNew throwable_class (lit msg)
    pure false

/-- Source: `checkstack`. -/
def checkstack (space : Int) : LuaM Bool := do
  let ok ← lua_checkstack space
  check ok JClass.IllegalStateException "stack overflow"

/-- Source: `checkarg`. -/
def checkarg (cond : Bool) (msg : String) : LuaM Bool :=
  check cond JClass.IllegalArgumentException msg

/-- Source: `checkstate`. -/
def checkstate (cond : Bool) (msg : String) : LuaM Bool :=
  check cond JClass.IllegalStateException msg

/-- Source: `checknelems`. -/
def checknelems (n : Int) : LuaM Bool := do
  let top ← lua_gettop
  checkstate (decide (top ≥ n)) "stack underflow"

/-- Source: `validindex`. -/
def validindex (index : Int) : LuaM Bool := do
  let top ← lua_gettop
  if index ≤ 0 then
    if index > LUA_REGISTRYINDEX then
      pure (decide (top + index + 1 ≥ 1 ∧ top + index + 1 ≤ top))
    else
      pure (decide (index = LUA_REGISTRYINDEX ∨ index = LUA_ENVIRONINDEX ∨ index = LUA_GLOBALSINDEX))
  else
    pure (decide (index ≥ 1 ∧ index ≤ top))

/-- Source: `checkindex`. -/
def checkindex (index : Int) : LuaM Bool := do
  let v ← validindex index
  checkarg v "illegal index"

/-- Source: macro `lua_absindex(L, index)`, expanded on its argument. -/
def lua_absindex (index : Int) : LuaM Int := do
  if index > 0 ∨ index ≤ LUA_REGISTRYINDEX then pure index
  else
    let top ← lua_gettop
    pure (top + index + 1)

/-! ## Bridge: objects, strings, error translation -/

/-- Source: `tojavaobject`.  The block of a light userdata is not a `jobject`
slot of the bridge, so reading through it is undefined. -/
def tojavaobject (H : Host) (index : Int) (cls : Option JClass) : LuaM JValue := do
  let isud ← lua_isuserdata index
  if !isud then pure JValue.null
  else
    let hasmt ← lua_getmetatable index
    if !hasmt then pure JValue.null
    else
      luaL_getmetatable JNLUA_OBJECT
      let result ← lua_rawequal (-1) (-2)
      lua_pop 2
      if !result then pure JValue.null
      else
        let w ← getW
        match index2value w index with
        | some (LuaValue.userdata r) =>
          let object := w.heap.payload r
          match cls with
          | some c => if !IsInstanceOf H object c then pure JValue.null else pure object
          | none => pure object
        | _ => undefined

/-- Source: `to_string`. -/
def to_string (H : Host) (index : Int) : LuaM (Option Bytes) := do
  let called ← luaL_callmeta H index (lit "__tostring")
  if !called then
    let w ← getW
    match index2value w index with
    | some (LuaValue.number _) => lua_pushvalue index
    | some (LuaValue.string _) => lua_pushvalue index
    | some (LuaValue.boolean b) => lua_pushliteral (if b then "true" else "false")
    | some LuaValue.nil => lua_pushliteral "nil"
    | some v => push (LuaValue.string (H.fmtPointer v))
    | none => push (LuaValue.string (H.fmtPointer LuaValue.nil))
  let string ← lua_tolstring H (-1)
  lua_pop 1
  pure string

/-- Source: `tostring`; a `jstring` is represented by its UTF characters. -/
def tostring (H : Host) (index : Int) : LuaM (Option Bytes) := do
  let s ← to_string H index
  pure (s.map cstr)

/-- Source: `pushjavaobject`. -/
def pushjavaobject (H : Host) (object : JValue) (cls : Option Bytes) (type : Int) : LuaM Unit := do
  let user_data ← lua_newuserdata
  luaL_getmetatable JNLUA_OBJECT
  lua_setmetatable (-2)
  writePayload user_data (NewGlobalRef H object)
  if (NewGlobalRef H object).isNull then
    lua_pushliteral "JNI error: NewGlobalRef() failed pushing Java object"
    lua_error
  else if type > 1 then
    push (LuaValue.boolean (decide (type = 3)))
    lua_pushstring cls
    lua_pushcclosure CFunction.calljavafunction 3
  else
    match cls with
    | some c =>
      lua_pushstring (some c)
      lua_rawget LUA_REGISTRYINDEX
      let isnil ← lua_isnil (-1)
      if !isnil then
        let _ ← lua_setfenv (-2)
      else
        lua_pop 1
    | none => pure ()

/-- Source: `handlejavaexception`. -/
def handlejavaexception (H : Host) (raise : Nat) : LuaM Int := do
  let w ← getW
  match w.pending with
  | none => pure 0
  | some exc =>
    push (LuaValue.string H.whereStr)
    let whereStr ← tostring H (-1)
    ExceptionClear
    if raise &&& 2 = 0 then
      if H.newObjectOk JClass.LuaError then
        lua_pop 1
        pushjavaobject H (JValue.throwable JClass.LuaError whereStr exc)
          (some (lit "com.naef.jnlua.LuaError")) 1
      else
        lua_pushliteral "JNI error: NewObject() failed creating Lua error"
        lua_concat2
    else
      lua_pushliteral "Java exception occurred."
      lua_concat2
    if raise &&& 1 ≠ 0 then lua_error else pure 1

/-- The `switch` of `throw_protected`: the exception class chosen for a status. -/
def throwClass (status : Int) : Option JClass :=
  if status = LUA_ERRRUN then some JClass.LuaRuntimeException
  else if status = LUA_ERRSYNTAX then some JClass.LuaSyntaxException
  else if status = LUA_ERRMEM then some JClass.LuaMemoryAllocationException
  else if status = LUA_ERRGCMM then some JClass.LuaGcMetamethodException
  else if status = LUA_ERRERR then some JClass.LuaMessageHandlerException
  else none

/-- Source: `throw_protected`, with the thread-local `throw_status` as an argument. -/
def throw_protected (H : Host) (throw_status : Int) : LuaM Int :=
  match throwClass throw_status with
  | none => do
    push (LuaValue.string (lit ("unknown Lua status " ++ toString throw_status)))
    lua_error
  | some cls => do
    let message ← tostring H 1
    if !H.newObjectOk cls then
      lua_pushliteral "JNI error: NewObject() failed creating throwable"
      lua_error
    else
      let luaerror ← tojavaobject H 1 (some JClass.LuaError)
      let attach := !luaerror.isNull && decide (cls = JClass.LuaRuntimeException)
      if attach then
        match H.setLuaErrorThrows with
        | some t => hostThrows t
        | none => pure ()
        let _ ← handlejavaexception H 3
      if !H.throwOk then
        lua_pushliteral "JNI error: Throw() failed"
        lua_error
      else
        Throw (JValue.throwable cls message (if attach then luaerror else JValue.null))
        pure 0

/-- Source: `throw`. -/
def throw (H : Host) (status : Int) : LuaM Unit := do
  let ok ← checkstack JNLUA_MINSTACK
  if ok then
    lua_pushcfunction CFunction.throw_protected
    lua_insert (-2)
    let st ← pcallC (throw_protected H status) 1 0
    if st ≠ 0 then
      let message ← lua_tolstring H (-1)
      ThrowNew JClass.Error (message.getD (lit "error throwing Lua exception"))


/-! ## Bridge: calls (`jnlua.c` 1673-1697) -/

/-- Largest value of a C `int` / JNI `jint`. -/
def INT_MAX : Int := 2147483647

/-- Engine `lua_pcall(L, nargs, nresults, errfunc)` of the function below its
`nargs` arguments.  The callee is run by the host record; its results,
adjusted to `nresults`, replace function and arguments and the status is 0.
When it aborts, the error value (as left by the message handler at `errfunc`,
if one is given) replaces them and the abort status is returned.  `errfunc`
is 0 or the index of a stack slot: the engine does not accept a pseudo-index. -/
def lua_pcall (H : Host) (nargs nresults errfunc : Int) : LuaM Int := fun w =>
  if nargs < 0 ∨ (w.stack.length : Int) < nargs + 1 then Res.undef
  else
    match (if errfunc = 0 then some none else (slot w errfunc).map some) with
    | none => Res.undef
    | some handlerSlot =>
      match w.stack.get? nargs.toNat with
      | none => Res.undef
      | some f =>
        match H.call f (w.stack.take nargs.toNat).reverse with
        | CallOutcome.returns rs =>
          Res.ok 0 { w with stack := adjustResults rs.reverse nresults ++ w.stack.drop (nargs.toNat + 1) }
        | CallOutcome.fails st e =>
          match handlerSlot.bind w.stack.get? with
          | some h =>
            Res.ok (H.onError h st e).1
              { w with stack := (H.onError h st e).2 :: w.stack.drop (nargs.toNat + 1) }
          | none => Res.ok st { w with stack := e :: w.stack.drop (nargs.toNat + 1) }

/-- Source: the guarded block of `jcall_call` (lines 1683-1693): insert the
message handler below the function, call, remove the handler, translate a
failure, and count what the call left. -/
def jcall_call_block (H : Host) (nargs nresults : Int) : LuaM Int := do
  let top0 ← lua_gettop
  let top := top0 - 1 - nargs
  let index ← lua_absindex (-nargs - 1)
  lua_pushcfunction CFunction.messagehandler
  lua_insert index
  let status ← lua_pcall H nargs nresults index
  lua_remove index
  if status ≠ 0 then
    throw H status
  let top1 ← lua_gettop
  pure (top1 - top)

/-- Source: the last conjunct of the guard of `jcall_call`:
`nresults == LUA_MULTRET || nresults <= nargs + 1 || checkstack(L, nresults - (nargs + 1))`. -/
def jcall_call_room (nargs nresults : Int) : LuaM Bool :=
  if nresults = LUA_MULTRET ∨ nresults ≤ nargs + 1 then pure true
  else checkstack (nresults - (nargs + 1))

/-- Source: `jcall_call` (the thread enter and leave steps `JNLUA_ENV_L` and
`JNLUA_DETACH_L` act on the thread context only and are embedded apart).
The arguments are `jint`; `nargs + 1` is evaluated once `nargs >= 0` is
known, and overflows, which C leaves undefined, only for `nargs = INT_MAX`. -/
def jcall_call (H : Host) (nargs nresults : Int) : LuaM Int := do
  let c1 ← checkarg (decide (nargs ≥ 0)) "illegal argument count"
  if !c1 then pure 0
  else if nargs + 1 > INT_MAX then undefined
  else
    let c2 ← checknelems (nargs + 1)
    if !c2 then pure 0
    else
      let c3 ← checkarg (decide (nresults ≥ 0 ∨ nresults = LUA_MULTRET)) "illegal return count"
      if !c3 then pure 0
      else
        let c4 ← jcall_call_room nargs nresults
        if !c4 then pure 0
        else jcall_call_block H nargs nresults

/-! ## More engine primitives -/

/-- Engine `lua_istable`. -/
def lua_istable (idx : Int) : LuaM Bool := fun w =>
  Res.ok (match index2value w idx with
    | some (LuaValue.table _) => true
    | _ => false) w

/-- Engine `lua_settable` on a table without metatable, where it is a raw
write; dispatch to `__newindex` is outside the embedding. -/
def lua_settable (idx : Int) : LuaM Unit := fun w =>
  match tableAt w idx with
  | some r => if (w.heap.tmeta r).isSome then Res.undef else lua_rawset idx w
  | none => Res.undef

/-- The C conversion `(lua_Integer)n` of a double: truncation toward zero.  The
conversion of a value outside the 64-bit range is not defined by C; the
embedding gives it the value the x86-64 instruction produces, `-2^63`. -/
def toLuaInteger (n : ℚ) : Int :=
  if -(2 : Int) ^ 63 ≤ Int.tdiv n.num n.den ∧ Int.tdiv n.num n.den < (2 : Int) ^ 63 then Int.tdiv n.num n.den
  else -(2 : Int) ^ 63

/-- Engine `lua_tointeger`: a number, or a string holding a numeral, converted
to an integer; 0 for anything else. -/
def lua_tointeger (H : Host) (idx : Int) : LuaM Int := fun w =>
  Res.ok (match index2value w idx with
    | some (LuaValue.number n) => toLuaInteger n
    | some (LuaValue.string s) =>
      match H.str2number s with
      | some n => toLuaInteger n
      | none => 0
    | _ => 0) w

/-- A border of a table: a count `n` with `t[n+1]` nil (and `t[n]` non-nil
unless `n = 0`).  When the integer keys have holes the engine may report any
border; the embedding takes the least one. -/
def border (es : List (LuaValue × LuaValue)) : Nat :=
  ((List.range (es.length + 1)).find?
    (fun (n : Nat) => decide (tget es (LuaValue.number (Nat.cast (n + 1))) = LuaValue.nil))).getD 0

/-- Engine `luaL_ref(L, t)` (`lauxlib.c` of Lua 5.1) for a table index `t`:
pop the value and store it under a fresh or recycled integer key of the table. -/
def luaL_ref (H : Host) (t : Int) : LuaM Int := do
  let isnil ← lua_isnil (-1)
  if isnil then
    lua_pop 1
    pure (-1)
  else
    lua_rawgeti t 0
    let free ← lua_tointeger H (-1)
    lua_pop 1
    if free ≠ 0 then
      lua_rawgeti t free
      lua_rawseti t 0
      lua_rawseti t free
      pure free
    else
      let w ← getW
      match tableAt w t with
      | none => undefined
      | some r =>
        let ref : Int := (border (w.heap.entries r) : Int) + 1
        lua_rawseti t ref
        pure ref

/-! ## Bridge: byte strings (`jnlua.c` 414-470) -/

/-- Source: `bytes2string`.  The argument is a `jbyteArray`; `len < 0` asks for
the array length.  The result is the `const char *` returned: NULL when the
array is NULL, when `malloc` fails and when bit 2 of `pop` is set. -/
def bytes2string (H : Host) (bytes : JValue) (len : Int) (pop : Nat) : LuaM (Option Bytes) :=
  match bytes with
  | JValue.null => pure none
  | JValue.bytes b => do
    let len : Int := if len < 0 then b.length else len
    let pushed ←
      if len = 0 then do
        lua_pushstring (some [])
        pure true
      else if !H.mallocOk len.toNat then do
        ThrowNew JClass.LuaMemoryAllocationException (lit "JNI error: malloc() failed in bytes2string")
        pure false
      else if len ≤ b.length then do
        push (LuaValue.string (b.take len.toNat))
        pure true
      else undefined
    if !pushed then pure none
    else
      let name ← if pop &&& 2 ≠ 0 then pure none else lua_tolstring H (-1)
      if pop &&& 1 ≠ 0 then
        lua_pop 1
      pure name
  | _ => undefined

/-- Source: `string2bytes`; the result is the new `jbyteArray`, NULL when a
check fails or the value has no string form. -/
def string2bytes (H : Host) (index : Int) (pop : Bool) : LuaM JValue := do
  let c1 ← checkstack JNLUA_MINSTACK
  if !c1 then pure JValue.null
  else
    let c2 ← checkindex index
    if !c2 then pure JValue.null
    else
      let ty ← lua_type index
      let str ←
        if ty = LUA_TNUMBER then do
          lua_pushvalue index
          let s ← lua_tolstring H (-1)
          lua_pop 1
          pure s
        else lua_tolstring H index
      if pop then
        lua_remove index
      match str with
      | some s => pure (JValue.bytes s)
      | none => pure JValue.null

/-! ## Bridge: class metadata and object push (`jnlua.c` 1027-1396) -/

/-- Source: one caching step of `precache_metadata_functions`:
`class_table[name] = metatable[field]` for the shared object metatable. -/
def precache_from_metatable (name : String) (field : String) : LuaM Unit := do
  lua_pushstring (some (lit name))
  luaL_getmetatable JNLUA_OBJECT
  lua_pushstring (some (lit field))
  lua_rawget (-2)
  lua_remove (-2)
  lua_rawset (-3)

/-- Source: one caching step of `precache_metadata_functions`:
`class_table[name] = _G["java"][field]` when `_G["java"]` is a table. -/
def precache_from_module (name : String) (field : String) : LuaM Unit := do
  lua_pushstring (some (lit name))
  lua_pushstring (some (lit "java"))
  lua_rawget LUA_GLOBALSINDEX
  let ist ← lua_istable (-1)
  if ist then
    lua_pushstring (some (lit field))
    lua_rawget (-2)
    lua_remove (-2)
    lua_rawset (-3)
  else
    lua_pop 2

/-- Source: `precache_metadata_functions`. -/
def precache_metadata_functions (className : Option Bytes) : LuaM Unit := do
  lua_pushstring className
  lua_rawget LUA_REGISTRYINDEX
  let isnil ← lua_isnil (-1)
  if isnil then
    lua_pop 1
  else
    precache_from_metatable "JNI_GC" "__gc"
    precache_from_metatable "java_fields" "__javafields"
    precache_from_metatable "java_methods" "__javamethods"
    precache_from_metatable "java_properties" "__javaproperties"
    precache_from_module "to_table" "totable"
    precache_from_module "to_lua" "tolua"
    lua_pop 1

/-- Source: the class-table creation block of `pushmetafunction_protected`
(lines 1249-1309), entered with the nil lookup result on top. -/
def create_class_table (className : Option Bytes) : LuaM Unit := do
  lua_pop 1
  luaL_getmetatable JNLUA_OBJECT
  lua_pushstring (some JNLUA_OBJECT_META)
  lua_rawget LUA_REGISTRYINDEX
  lua_pushstring className
  lua_createtable
  lua_pushstring className
  lua_pushvalue (-2)
  lua_rawset LUA_REGISTRYINDEX
  lua_rawset (-3)
  lua_pushstring className
  lua_rawget LUA_REGISTRYINDEX
  lua_pushstring (some CLASS_NAME)
  lua_pushstring className
  lua_rawset (-3)
  lua_remove (-2)
  lua_remove (-2)
  precache_metadata_functions className
  lua_pushstring className
  lua_rawget LUA_REGISTRYINDEX

/-- Source: `pushmetafunction_protected`, with the thread-locals `meta_class`,
`meta_method`, `meta_obj`, `meta_call_type` as arguments. -/
def pushmetafunction_protected (H : Host) (meta_class meta_method meta_obj : JValue)
    (meta_call_type : Int) : LuaM Int := do
  let classObj : JValue :=
    if meta_class.isNull then
      match H.className meta_obj with
      | some b => JValue.bytes b
      | none => JValue.null
    else meta_class
  let className ← bytes2string H classObj (-1) 1
  lua_pushstring className
  lua_rawget LUA_REGISTRYINDEX
  let isnil ← lua_isnil (-1)
  if isnil && (decide (meta_call_type ≠ 2) || !meta_method.isNull) then
    create_class_table className
  if meta_method.isNull then
    lua_pop 1
    pushjavaobject H meta_obj className meta_call_type
  else
    let key ← bytes2string H meta_method (-1) 0
    match className, key with
    | some c, some k =>
      pushjavaobject H meta_obj (some (cstr c ++ lit "." ++ cstr k)) meta_call_type
      lua_settable (-3)
      lua_pushstring (some k)
      lua_rawget (-2)
      lua_remove (-2)
    | _, _ => undefined
  if meta_call_type = 3 then
    lua_pop 1
    pure 0
  else pure 1

/-- Source: `jcall_pushmetafunction`, with the macro `JNLUA_PCALL` expanded. -/
def jcall_pushmetafunction (H : Host) (cls method object : JValue) (call_type : Int) : LuaM Int := do
  let ok ← checkstack JNLUA_MINSTACK
  if ok then
    lua_pushcfunction CFunction.pushmetafunction_protected
    let status ← pcallC (pushmetafunction_protected H cls method object call_type) 0 LUA_MULTRET
    if status ≠ 0 then
      throw H status
  pure 1

/-- Source: `jcall_pushjavaobject`. -/
def jcall_pushjavaobject (H : Host) (jobj cls : JValue) : LuaM Unit := do
  let _ ← jcall_pushmetafunction H cls JValue.null jobj 1

/-- Source: `jcall_pushjavafunction`. -/
def jcall_pushjavafunction (H : Host) (jfunc fname : JValue) : LuaM Unit := do
  let _ ← jcall_pushmetafunction H fname JValue.null jfunc 2

/-- Source: `jcall_pushnumber`; `lua_pushinteger` pushes the integer as a number. -/
def jcall_pushnumber (n : ℚ) : LuaM Unit := do
  let ok ← checkstack JNLUA_MINSTACK
  if ok then
    if n = ((toLuaInteger n : Int) : ℚ) then
      push (LuaValue.number ((toLuaInteger n : Int) : ℚ))
    else
      push (LuaValue.number n)

/-- Source: `jcall_pushstring` with `getstringchars`; the `jstring` is given by
its UTF characters, `none` being the null reference. -/
def jcall_pushstring (H : Host) (s : Option Bytes) : LuaM Unit := do
  let ok ← checkstack JNLUA_MINSTACK
  if ok then
    match s with
    | none =>
      let _ ← check false JClass.NullPointerException "null"
    | some str =>
      let got ← check H.utfCharsOk JClass.LuaMemoryAllocationException "JNI error: GetStringUTFChars() failed"
      if got then
        push (LuaValue.string str)

/-! ## Bridge: argument marshaling (`jnlua.c` 3025-3178) -/

/-- The reusable argument buffer (`Args`): the host array of values, the host
array of type tags, and the C buffer `bytes` the tags are staged in. -/
structure ArgBuf where
  values : List JValue
  types : List Int
  bytes : List Int

/-- JNI `SetObjectArrayElement`: an index outside the array raises
`ArrayIndexOutOfBoundsException` and stores nothing. -/
def SetObjectArrayElement (values : List JValue) (idx : Nat) (v : JValue) : LuaM (List JValue) :=
  if idx < values.length then pure (values.set idx v)
  else do
    hostThrows (JValue.throwable JClass.ArrayIndexOutOfBoundsException none JValue.null)
    pure values

/-- JNI `Double.valueOf((jdouble) ref)` followed by the exception test of
`build_args`: the boxed number, or NULL after the exception was cleared. -/
def boxDouble (H : Host) (ref : Int) : LuaM JValue :=
  if H.boxOk then pure (JValue.double ref)
  else do
    ExceptionClear
    pure JValue.null

/-- Source: one iteration of the loop of `build_args`, for stack index `i` and
buffer position `idx`.  Writing `bytes_[idx]` outside the buffer is undefined. -/
def build_args_slot (H : Host) (pushtable : Bool) (i : Int) (idx : Nat) (buf : ArgBuf) : LuaM ArgBuf :=
  if buf.bytes.length ≤ idx then undefined
  else do
    let ty ← lua_type i
    if ty = LUA_TSTRING ∨ ty = LUA_TNUMBER then
      let ba ← string2bytes H i false
      let values ← SetObjectArrayElement buf.values idx ba
      pure { buf with bytes := buf.bytes.set idx ty, values := values }
    else if ty = LUA_TBOOLEAN then
      let b ← lua_toboolean i
      lua_pushstring (some (lit (if b then "1" else "0")))
      let ba ← string2bytes H (-1) true
      let values ← SetObjectArrayElement buf.values idx ba
      pure { buf with bytes := buf.bytes.set idx ty, values := values }
    else if ty = LUA_TFUNCTION ∨ ty = LUA_TUSERDATA then
      let obj ← tojavaobject H i none
      let values ← SetObjectArrayElement buf.values idx obj
      pure { buf with bytes := buf.bytes.set idx (if obj.isNull then ty else ty + 3), values := values }
    else if ty = LUA_TTABLE then
      if pushtable then
        lua_pushvalue i
        let ref ← luaL_ref H LUA_GLOBALSINDEX
        let doubleObj ← boxDouble H ref
        let values ← SetObjectArrayElement buf.values idx doubleObj
        pure { buf with bytes := buf.bytes.set idx ty, values := values }
      else
        pure { buf with bytes := buf.bytes.set idx ty }
    else
      let values ← SetObjectArrayElement buf.values idx JValue.null
      pure { buf with bytes := buf.bytes.set idx ty, values := values }

/-- Source: the `for` loop of `build_args`, with `count` iterations left. -/
def build_args_loop (H : Host) (pushtable : Bool) : Nat → Int → Nat → ArgBuf → LuaM ArgBuf
  | 0, _, _, buf => pure buf
  | count + 1, i, idx, buf => do
    let buf1 ← build_args_slot H pushtable i idx buf
    build_args_loop H pushtable count (i + 1) (idx + 1) buf1

/-- JNI `SetByteArrayRegion(types, 0, len, bytes_)`: copy the staged tags into
the host array; a region outside the array raises
`ArrayIndexOutOfBoundsException`; reading past the C buffer is undefined. -/
def SetByteArrayRegion (buf : ArgBuf) (len : Int) : LuaM ArgBuf :=
  if len < 0 ∨ (buf.types.length : Int) < len then do
    hostThrows (JValue.throwable JClass.ArrayIndexOutOfBoundsException none JValue.null)
    pure buf
  else if (buf.bytes.length : Int) < len then undefined
  else pure { buf with types := buf.bytes.take len.toNat ++ buf.types.drop len.toNat }

/-- Source: `build_args`. -/
def build_args (H : Host) (start stop : Int) (buf : ArgBuf) (pushtable sync : Bool) : LuaM ArgBuf := do
  let buf1 ← build_args_loop H pushtable (stop - start + 1).toNat start 0 buf
  if sync then SetByteArrayRegion buf1 (stop - start + 1)
  else pure buf1

/-- JNI `CallDoubleMethod(o, Double.doubleValue)`: the value of a
`java.lang.Double`; on any other object the call raises a host exception
(section 4.6 of the spec: the value "cannot produce a numeric primitive"). -/
def doubleValue : JValue → Option ℚ
  | JValue.double d => some d
  | _ => none

/-- Source: the loop of `push_args` over the elements of a host array
(lines 3108-3113): each element is pushed by `pushSlot` under the element tag
and stored at key `j + 1` of the table below it.  The result is `t[0]` after
the loop, when there is a first element. -/
def push_elements (pushSlot : JValue → Int → LuaM Int) (elemTag : Int) :
    List JValue → Nat → Option Int → LuaM (Option Int)
  | [], _, t0 => pure t0
  | o :: rest, j, t0 => do
    let tj ← pushSlot o elemTag
    lua_rawseti (-2) ((j : Int) + 1)
    push_elements pushSlot elemTag rest (j + 1) (if j = 0 then some tj else t0)

/-- Source: the body of the loop of `push_args` for one slot holding the host
value `o` under the tag `tag`; the result is the tag left in `types[i]`.
`depth` bounds the nesting of the recursive calls; `push_args` supplies
enough of it. -/
def push_slot (H : Host) : Nat → JValue → Int → LuaM Int
  | 0, _, _ => undefined
  | depth + 1, o, tag =>
    if tag > 16 then
      match o with
      | JValue.null => do
        push LuaValue.nil
        pure tag
      | JValue.array elems =>
        if elems.length > 100000 then do
          push LuaValue.nil
          pure tag
        else if !H.mallocOk (elems.length + 1) then do
          push LuaValue.nil
          pure tag
        else do
          lua_createtable
          let t0 ← push_elements (push_slot H depth) (tag - 16) elems 0 none
          pure (match t0 with
            | some t => t
            | none => tag - 16)
      | _ => undefined
    else if tag = LUA_TNIL then do
      push LuaValue.nil
      pure tag
    else if tag = LUA_TBOOLEAN then
      if o.isNull then do
        push LuaValue.nil
        pure tag
      else do
        let b ← bytes2string H o 1 1
        match b with
        | some s =>
          push (LuaValue.boolean (decide (cstr s = cstr (lit "1"))))
          pure tag
        | none => undefined
    else if tag = LUA_TSTRING then
      if o.isNull then do
        push LuaValue.nil
        pure tag
      else do
        let _ ← bytes2string H o (-1) 2
        pure tag
    else if tag = LUA_TNUMBER then
      if o.isNull then do
        push LuaValue.nil
        pure tag
      else
        match doubleValue o with
        | some value => do
          jcall_pushnumber value
          pure tag
        | none => do
          hostThrows (JValue.throwable (JClass.other 0) none JValue.null)
          ExceptionClear
          match H.toStringOf o with
          | some str =>
            jcall_pushstring H (some str)
            pure tag
          | none =>
            ExceptionClear
            push LuaValue.nil
            pure tag
    else if tag = LUA_TJAVAFUNCTION then do
      jcall_pushjavafunction H o JValue.null
      pure tag
    else do
      jcall_pushjavaobject H o JValue.null
      pure tag

/-- The nesting depth `push_args` can reach for a tag: one level per 16. -/
def depthFor (tag : Int) : Nat := tag.toNat / 16 + 1

/-- Source: the `for` loop of `push_args` over the slots `i .. stop`, with
`count` iterations left.  Reading `types[i]` outside the C buffer is
undefined; `GetObjectArrayElement` outside the array raises
`ArrayIndexOutOfBoundsException` and yields NULL. -/
def push_args_loop (H : Host) (values : List JValue) : Nat → Int → List Int → LuaM (List Int)
  | 0, _, types => pure types
  | count + 1, i, types =>
    if i < 0 then undefined
    else
      match types.get? i.toNat with
      | none => undefined
      | some tag => do
        let o ←
          match values.get? i.toNat with
          | some o => pure o
          | none => do
            hostThrows (JValue.throwable JClass.ArrayIndexOutOfBoundsException none JValue.null)
            pure JValue.null
        let tag1 ← push_slot H (depthFor tag) o tag
        push_args_loop H values count (i + 1) (types.set i.toNat tag1)

/-- Source: `push_args`; the result is the C buffer of tags as the call leaves it. -/
def push_args (H : Host) (start stop : Int) (values : List JValue) (types : List Int) :
    LuaM (List Int) :=
  push_args_loop H values (stop - start + 1).toNat start types

/-! ## Bridge: type tests (`jnlua.c` 1883-1889) -/

/-- Source: `jcall_isjavafunction` (thread enter and leave steps apart). -/
def jcall_isjavafunction (index : Int) : LuaM Int := do
  let valid ← validindex index
  if !valid then pure 0
  else
    let f ← lua_tocfunction index
    pure (if f = some CFunction.calljavafunction then 1 else 0)

/-! ## Concrete host and state used to instantiate the theorems -/

/-- A host in which every call succeeds: numbers print as `0`, every engine
function returns nothing, no Java method throws. -/
def exampleHost : Host where
  fmtNumber := fun _ => lit "0"
  fmtPointer := fun _ => lit "userdata: 0x0"
  whereStr := lit ""
  call := fun _ _ => CallOutcome.returns []
  onError := fun _ st e => (st, e)
  newObjectOk := fun _ => true
  throwOk := true
  isInstanceOf := fun _ _ => false
  setLuaErrorThrows := none
  toStringOf := fun _ => none
  className := fun _ => none
  mallocOk := fun _ => true
  utfCharsOk := true
  globalRefOk := true
  boxOk := true
  str2number := fun _ => none
  upvalueOf := fun _ _ => none
  invoke := fun _ _ _ w => (0, w)
  newArrayOk := fun _ => true
  setLuaStackTraceThrows := none

/-- A fresh engine state: empty stack, empty registry and globals tables,
room for 8000 stack slots, no pending exception. -/
def exampleWorld : World where
  stack := []
  heap := fun r => if r = REGISTRY ∨ r = GLOBALS then some (GCObject.table [] none) else none
  next := 2
  limit := 8000
  basemt := fun _ => none
  pending := none
  raised := []
  released := []

/-- A state whose stack holds an engine function below 9999 nil arguments:
10000 values, within the 65500 slots a LuaJIT stack can reach. -/
def bigStackWorld : World where
  stack := List.replicate 9999 LuaValue.nil ++ [LuaValue.function 2]
  heap := fun r =>
    if r = REGISTRY ∨ r = GLOBALS then some (GCObject.table [] none)
    else if r = 2 then some GCObject.lfunction else none
  next := 3
  limit := 65500
  basemt := fun _ => none
  pending := none
  raised := []
  released := []

/-- A state after some bridge use: the registry holds the shared object
metatable (table 2) under "jnlua.Object" and the class-table index (table 3)
under "jnlua.Object.Meta"; address 4 is a handle wrapping host object 42;
address 5 is the closure `pushjavaobject` builds for a host callable: the C
function `calljavafunction` over the handle, the base-class flag and a name. -/
def handleWorld : World where
  stack := []
  heap := fun r =>
    if r = REGISTRY then
      some (GCObject.table [(LuaValue.string JNLUA_OBJECT, LuaValue.table 2),
        (LuaValue.string JNLUA_OBJECT_META, LuaValue.table 3)] none)
    else if r = GLOBALS then some (GCObject.table [] none)
    else if r = 2 then some (GCObject.table [] none)
    else if r = 3 then some (GCObject.table [] none)
    else if r = 4 then some (GCObject.userdata (JValue.object 42) (some 2) GLOBALS)
    else if r = 5 then
      some (GCObject.cclosure CFunction.calljavafunction
        [LuaValue.userdata 4, LuaValue.boolean false, LuaValue.string (lit "f")])
    else none
  next := 6
  limit := 8000
  basemt := fun _ => none
  pending := none
  raised := []
  released := []

/-- A host as `exampleHost` whose `LuaState.getClassName` answers
`java.lang.Object` for every object. -/
def objectHost : Host :=
  { exampleHost with className := fun _ => some (lit "java.lang.Object") }

/-- The state `handleWorld` during a call: a table of the caller (address 6,
empty) is the one value on the stack. -/
def callerWorld : World :=
  { handleWorld with
    stack := [LuaValue.table 6]
    heap := Function.update handleWorld.heap 6 (some (GCObject.table [] none))
    next := 7 }

/-- A host as `exampleHost` in which `toString` of every object answers
`2024-01-01`. -/
def textHost : Host :=
  { exampleHost with toStringOf := fun _ => some (lit "2024-01-01") }

/-! ## Engine primitives used by the finalizer and the member lookup -/

/-- Engine `lua_getfenv`: push the environment table of a userdata; nil for a
value that has none (environments of functions and threads are not part of
the embedding and read as the globals table). -/
def lua_getfenv (idx : Int) : LuaM Unit := fun w =>
  match index2value w idx with
  | some (LuaValue.userdata r) => Res.ok () { w with stack := LuaValue.table (w.heap.uenv r) :: w.stack }
  | some (LuaValue.function _) => Res.ok () { w with stack := LuaValue.table GLOBALS :: w.stack }
  | some (LuaValue.thread _) => Res.ok () { w with stack := LuaValue.table GLOBALS :: w.stack }
  | some _ => Res.ok () { w with stack := LuaValue.nil :: w.stack }
  | none => Res.undef

/-- Engine `luaV_gettable`: indexing with the `__index` metamethod.  A raw
entry of a table wins; otherwise the `__index` field of the metatable is
called when it is a function and indexed in turn when it is not, at most 100
times (`MAXTAGLOOP`); a value without `__index` that is no table cannot be
indexed.  The text of the two engine errors is abbreviated. -/
def luaV_gettable (H : Host) : Nat → LuaValue → LuaValue → LuaM LuaValue
  | 0, _, _ => fun w => Res.raise (LuaValue.string (lit "loop in gettable")) w
  | fuel + 1, t, key => fun w =>
    let raw : LuaValue :=
      match t with
      | LuaValue.table r => tget (w.heap.entries r) key
      | _ => LuaValue.nil
    let tm : LuaValue :=
      match metatableOf w.heap w.basemt t with
      | some m => tget (w.heap.entries m) (LuaValue.string (lit "__index"))
      | none => LuaValue.nil
    let viaTm : Res LuaValue :=
      match tm with
      | LuaValue.function _ =>
        match H.call tm [t, key] with
        | CallOutcome.returns rs => Res.ok (rs.headD LuaValue.nil) w
        | CallOutcome.fails _ e => Res.raise e w
      | _ => luaV_gettable H fuel tm key w
    match t with
    | LuaValue.table _ => if raw ≠ LuaValue.nil ∨ tm = LuaValue.nil then Res.ok raw w else viaTm
    | _ =>
      if tm = LuaValue.nil then Res.raise (LuaValue.string (lit "attempt to index a value")) w
      else viaTm

/-- Engine `lua_getfield`: push `t[k]` for the value `t` at the index, with metamethods. -/
def lua_getfield (H : Host) (idx : Int) (k : Bytes) : LuaM Unit := do
  let w ← getW
  match index2value w idx with
  | some t =>
    let v ← luaV_gettable H 100 t (LuaValue.string (cstr k))
    push v
  | none => undefined

/-- Engine `lua_isfunction`. -/
def lua_isfunction (idx : Int) : LuaM Bool := fun w =>
  Res.ok (match index2value w idx with
    | some (LuaValue.function _) => true
    | _ => false) w

/-- Engine `lua_islightuserdata`. -/
def lua_islightuserdata (idx : Int) : LuaM Bool := fun w =>
  Res.ok (match index2value w idx with
    | some (LuaValue.lightuserdata _) => true
    | _ => false) w

/-- Engine `lua_iscfunction`: a function whose heap object is a C closure. -/
def lua_iscfunction (idx : Int) : LuaM Bool := fun w =>
  Res.ok (match index2value w idx with
    | some (LuaValue.function r) =>
      match w.heap r with
      | some (GCObject.cclosure _ _) => true
      | _ => false
    | _ => false) w

/-- Engine `lua_getupvalue(L, idx, n)`: push upvalue `n` of the function at
the index and answer true (the name returned is not NULL), or push nothing
and answer false (NULL). -/
def lua_getupvalue (H : Host) (idx : Int) (n : Nat) : LuaM Bool := fun w =>
  match index2value w idx with
  | some (LuaValue.function r) =>
    match w.heap r with
    | some (GCObject.cclosure _ ups) =>
      if 1 ≤ n ∧ n ≤ ups.length then
        Res.ok true { w with stack := ups.getD (n - 1) LuaValue.nil :: w.stack }
      else Res.ok false w
    | _ =>
      match H.upvalueOf r n with
      | some v => Res.ok true { w with stack := v :: w.stack }
      | none => Res.ok false w
  | _ => Res.ok false w

/-- Engine `lua_call(L, nargs, 1)`: run the function below its arguments; its
first result replaces function and arguments; an error propagates. -/
def lua_call1 (H : Host) (nargs : Nat) : LuaM Unit := fun w =>
  if w.stack.length < nargs + 1 then Res.undef
  else
    match w.stack.get? nargs with
    | none => Res.undef
    | some f =>
      match H.call f (w.stack.take nargs).reverse with
      | CallOutcome.returns rs =>
        Res.ok () { w with stack := rs.headD LuaValue.nil :: w.stack.drop (nargs + 1) }
      | CallOutcome.fails _ e => Res.raise e { w with stack := w.stack.drop (nargs + 1) }

/-! ## Bridge: finalizer (`jnlua.c` 4272-4311) -/

/-- Source: `gcjavaobject`.  `envPresent` is `thread_env != NULL` and `trace`
the global trace mask; what `println` prints is not part of the state.  The
block of a light userdata is not a `jobject` slot, so reading through a
non-null light pointer is undefined. -/
def gcjavaobject (H : Host) (envPresent : Bool) (trace : Int) : LuaM Int := do
  if !envPresent then pure 0
  else
    let isud ← lua_isuserdata 1
    if !isud then pure 0
    else
      let w ← getW
      match index2value w 1 with
      | some (LuaValue.userdata r) =>
        let obj := w.heap.payload r
        if obj.isNull then pure 0
        else
          writePayload r JValue.null
          lua_createtable
          lua_setmetatable (-2)
          if Int.land trace 9 = 1 then
            lua_getfenv 1
            lua_getfield H (-1) CLASS_NAME
            let isnil ← lua_isnil (-1)
            let cls ← if !isnil then lua_tolstring H (-1) else pure none
            lua_pop 2
            let isf ← lua_isfunction (-1)
            if cls.isNone && isf then
              let _ ← lua_getupvalue H (-1) 3
          DeleteGlobalRef obj
          pure 0
      | some (LuaValue.lightuserdata p) => if p = 0 then pure 0 else undefined
      | _ => pure 0

/-- A sequence of finalizer invocations on the userdata at address `r`, each
in a frame of its own holding the userdata as the one argument and each with
its own `thread_env` and trace mask; an error raised by an invocation ends
that invocation only.  The result is the state after the last invocation,
`none` when an invocation is undefined. -/
def finalizeAll (H : Host) (r : Nat) : List (Bool × Int) → World → Option World
  | [], w => some w
  | (envPresent, trace) :: rest, w =>
    match gcjavaobject H envPresent trace { w with stack := [LuaValue.userdata r] } with
    | Res.ok _ w1 => finalizeAll H r rest { w1 with stack := w.stack }
    | Res.raise _ w1 => finalizeAll H r rest { w1 with stack := w.stack }
    | Res.undef => none

/-! ## Bridge: member lookup and negative cache (`jnlua.c` 847-987, 1438-1471) -/

/-- Source: `#define JNLUA_OBJECT_INDEX "jnlua.Object.Index"`. -/
def JNLUA_OBJECT_INDEX : Bytes := lit "jnlua.Object.Index"

/-- Source: `#define JNLUA_NEGATIVE_CACHE "jnlua.NegativeCache"`. -/
def JNLUA_NEGATIVE_CACHE : Bytes := lit "jnlua.NegativeCache"

/-- A C pointer as `lua_touserdata` returns it: NULL, the pointer a light
userdata carries, or the block of a full userdata. -/
inductive CPointer where
  | null
  | light (p : Nat)
  | block (r : Nat)
deriving DecidableEq

/-- Engine `lua_touserdata`. -/
def lua_touserdata (idx : Int) : LuaM CPointer := fun w =>
  Res.ok (match index2value w idx with
    | some (LuaValue.lightuserdata p) => if p = 0 then CPointer.null else CPointer.light p
    | some (LuaValue.userdata r) => CPointer.block r
    | _ => CPointer.null) w

/-- Source: the fallback at the end of `findjavafunction` (lines 980-986): call
the registered index function on the object and the key. -/
def findjavafunction_fallback (H : Host) : LuaM Int := do
  lua_pushstring (some JNLUA_OBJECT_INDEX)
  lua_rawget LUA_REGISTRYINDEX
  lua_insert (-3)
  lua_call1 H 2
  pure 1

/-- Source: the part of `findjavafunction` that follows the lookup of the
member in the environment table (lines 904-952), entered with the value found
on top of key and object. -/
def findjavafunction_found (H : Host) : LuaM Int := do
  let islight ← lua_islightuserdata (-1)
  let hit ←
    if islight then do
      let marker ← lua_touserdata (-1)
      lua_pushstring (some JNLUA_NEGATIVE_CACHE)
      lua_rawget LUA_REGISTRYINDEX
      let negative_marker ← lua_touserdata (-1)
      lua_pop 1
      pure (decide (marker = negative_marker))
    else pure false
  if hit then
    lua_pop 3
    push LuaValue.nil
    pure 1
  else
    let iscf ← lua_iscfunction (-1)
    if iscf then
      let got ← lua_getupvalue H (-1) 2
      let call_type ←
        if got then do
          let c ← lua_toboolean (-1)
          lua_pop 1
          pure c
        else pure false
      if call_type then
        lua_insert (-3)
        lua_call1 H 2
        pure 1
      else
        lua_remove (-2)
        lua_remove (-2)
        pure 1
    else
      lua_pop 1
      findjavafunction_fallback H

/-- Source: `findjavafunction`, with the global trace mask as an argument;
what `println` prints is not part of the state. -/
def findjavafunction (H : Host) (trace : Int) : LuaM Int := do
  let ty ← lua_type (-1)
  if ty = LUA_TSTRING then
    let func ← lua_tolstring H (-1)
    let obj ← tojavaobject H (-2) none
    let debug : Bool := decide (Int.land trace 9 = 1)
    if !obj.isNull then
      lua_getfenv (-2)
      let isClassName : Bool := decide (func.map cstr = some (cstr CLASS_NAME))
      if debug || isClassName then
        lua_pushstring (some CLASS_NAME)
        lua_rawget (-2)
        let cls ← lua_tolstring H (-1)
        if isClassName then
          lua_pop 4
          lua_pushstring cls
          pure 1
        else
          lua_pop 1
          lua_pushstring func
          lua_rawget (-2)
          lua_remove (-2)
          findjavafunction_found H
      else
        lua_pushstring func
        lua_rawget (-2)
        lua_remove (-2)
        findjavafunction_found H
    else findjavafunction_fallback H
  else findjavafunction_fallback H

/-- Source: `jcall_set_negative_cache` (thread enter and leave steps apart). -/
def jcall_set_negative_cache (H : Host) (cls key : JValue) : LuaM Unit := do
  let ok ← checkstack JNLUA_MINSTACK
  if ok then
    let className ← bytes2string H cls (-1) 1
    let keyName ← bytes2string H key (-1) 0
    lua_pushstring className
    lua_rawget LUA_REGISTRYINDEX
    let isnil ← lua_isnil (-1)
    if !isnil then
      lua_pushstring (some JNLUA_NEGATIVE_CACHE)
      lua_rawget LUA_REGISTRYINDEX
      lua_pushstring keyName
      lua_pushvalue (-2)
      lua_rawset (-4)
      lua_pop 2
    else
      lua_pop 1

/-! ## A state with a forged handle -/

/-- The state `handleWorld` with a second userdata (address 6) that wraps the
same host object but carries table 3 as its metatable: a table with the same
(empty) contents as the shared object metatable, table 2.  The stack holds
the handle (index 1) below the forged userdata (index 2). -/
def forgedWorld : World :=
  { handleWorld with
    stack := [LuaValue.userdata 6, LuaValue.userdata 4]
    heap := Function.update handleWorld.heap 6 (some (GCObject.userdata (JValue.object 42) (some 3) GLOBALS))
    next := 7 }

/-! ## A state with a registered class -/

/-- A state after `jcall_newstate` and one object push: the registry holds the
shared object metatable (table 2), the class-table index (table 3), the
negative-cache marker (a light userdata), the index function (function 6) and
the class table of `java.lang.Object` (table 5, which records the class name
and holds the accessor `hashCode`, closure 7); address 4 is a handle wrapping
host object 42 whose environment is that class table. -/
def cacheWorld : World where
  stack := []
  heap := fun r =>
    if r = REGISTRY then
      some (GCObject.table [(LuaValue.string JNLUA_OBJECT, LuaValue.table 2),
        (LuaValue.string JNLUA_OBJECT_META, LuaValue.table 3),
        (LuaValue.string JNLUA_NEGATIVE_CACHE, LuaValue.lightuserdata 99),
        (LuaValue.string JNLUA_OBJECT_INDEX, LuaValue.function 6),
        (LuaValue.string (lit "java.lang.Object"), LuaValue.table 5)] none)
    else if r = GLOBALS then some (GCObject.table [] none)
    else if r = 2 then some (GCObject.table [] none)
    else if r = 3 then some (GCObject.table [(LuaValue.string (lit "java.lang.Object"), LuaValue.table 5)] none)
    else if r = 4 then some (GCObject.userdata (JValue.object 42) (some 2) 5)
    else if r = 5 then
      some (GCObject.table [(LuaValue.string CLASS_NAME, LuaValue.string (lit "java.lang.Object")),
        (LuaValue.string (lit "hashCode"), LuaValue.function 7)] none)
    else if r = 6 then some GCObject.lfunction
    else if r = 7 then
      some (GCObject.cclosure CFunction.calljavafunction
        [LuaValue.userdata 8, LuaValue.boolean false, LuaValue.string (lit "java.lang.Object.hashCode")])
    else if r = 8 then some (GCObject.userdata (JValue.object 43) (some 2) GLOBALS)
    else none
  next := 9
  limit := 8000
  basemt := fun _ => none
  pending := none
  raised := []
  released := []

/-! ## Bridge: thread enter and leave (`jnlua.c` 83-143) -/

/-- JNI `JNI_OK`. -/
def JNI_OK : Int := 0

/-- JNI `JNI_EDETACHED`. -/
def JNI_EDETACHED : Int := -2

/-- What the enter and leave macros see of the calling thread: the thread-local
`JNLUA_CONTROL`, whether the thread is attached to the Java VM, and how many
times `AttachCurrentThread` and `DetachCurrentThread` were called on it. -/
structure ThreadState where
  JNLUA_CONTROL : Int
  attached : Bool
  attachCalls : Nat
  detachCalls : Nat
deriving DecidableEq

/-- JNI `GetEnv` for a supported version: `JNI_OK` on an attached thread,
`JNI_EDETACHED` otherwise. -/
def GetEnv (t : ThreadState) : Int := if t.attached then JNI_OK else JNI_EDETACHED

/-- JNI `AttachCurrentThread`; `ok` says whether it succeeds (returns 0). -/
def AttachCurrentThread (ok : Bool) (t : ThreadState) : ThreadState :=
  { t with attachCalls := t.attachCalls + 1, attached := t.attached || ok }

/-- JNI `DetachCurrentThread`. -/
def DetachCurrentThread (t : ThreadState) : ThreadState :=
  { t with detachCalls := t.detachCalls + 1, attached := false }

/-- Source: macro `JNLUA_ENV`; the result is the local `envStat` and the thread
afterwards.  `attachOk` is the outcome of `AttachCurrentThread` should it be
called; timing and printing under `trace` are not part of the state. -/
def JNLUA_ENV (attachOk : Bool) (t : ThreadState) : Int × ThreadState :=
  if t.JNLUA_CONTROL = 0 then
    let t1 : ThreadState := { t with JNLUA_CONTROL := t.JNLUA_CONTROL + 1 }
    let envStat : Int := 0 + GetEnv t1
    if envStat = JNI_EDETACHED then (envStat, AttachCurrentThread attachOk t1)
    else (envStat, t1)
  else (0 + 10, t)

/-- Source: macro `JNLUA_DETACH` for the `envStat` of the matching `JNLUA_ENV`. -/
def JNLUA_DETACH (envStat : Int) (t : ThreadState) : ThreadState :=
  if envStat < 10 then
    let t1 : ThreadState := if envStat = JNI_EDETACHED then DetachCurrentThread t else t
    { t1 with JNLUA_CONTROL := t1.JNLUA_CONTROL * 0 }
  else t

/-- `depth` nested crossings on one thread: each level runs `JNLUA_ENV`, then
the levels nested in it, then `JNLUA_DETACH` with its own `envStat`. -/
def nestedCrossings (attachOk : Bool) : Nat → ThreadState → ThreadState
  | 0, t => t
  | depth + 1, t =>
    JNLUA_DETACH (JNLUA_ENV attachOk t).1 (nestedCrossings attachOk depth (JNLUA_ENV attachOk t).2)

/-! ## Bridge: the capped allocator (`jnlua.c` 608-640) -/

/-- Conversion of an integer value to `size_t` (64 bits): reduction modulo 2^64.
It is what the usual arithmetic conversions do to a `jint` operand next to a
`size_t` operand, and what `size_t` subtraction and addition do to their result. -/
def size_t (x : Int) : Int := x % 18446744073709551616

/-- Conversion of a `size_t` value to `jint` (32 bits, two's complement). -/
def jint (x : Int) : Int := (x + 2147483648) % 4294967296 - 2147483648

/-- What `l_alloc` returns: the result of `malloc(nsize)`, the result of
`realloc(ptr, nsize)`, or NULL: after `free(ptr)` for a release request, or
without any call when the request is refused. -/
inductive AllocCall where
  | malloc (nsize : Int)
  | realloc (nsize : Int)
  | freed
  | refused
deriving DecidableEq

/-- Source: `l_alloc`.  `total` and `used` are the `jint` fields read by
`getluamemory`; the second component of the result is the value of the field
`luaMemoryUsed` afterwards (`setluamemoryused`).  `ptrNull` is `ptr == NULL`;
`osize` and `nsize` are `size_t` values. -/
def l_alloc (total used : Int) (ptrNull : Bool) (osize nsize : Int) : AllocCall × Int :=
  if nsize = 0 then
    (AllocCall.freed, jint (size_t (size_t used - osize)))
  else if ptrNull then
    if total ≥ 0 ∧ size_t (size_t total - nsize) ≥ size_t used then
      (AllocCall.malloc nsize, jint (size_t (size_t used + nsize)))
    else (AllocCall.refused, used)
  else
    if nsize ≤ osize ∨ size_t (size_t total - size_t (nsize - osize)) ≥ size_t used then
      (AllocCall.realloc nsize, jint (size_t (size_t used + size_t (nsize - osize))))
    else (AllocCall.refused, used)

/-! ## Bridge: stack operations of the call surface (`jnlua.c` 2308-2330, 4130-4140) -/

/-- Source: `checkrealindex`. -/
def checkrealindex (index : Int) : LuaM Bool := do
  let top ← lua_gettop
  let index : Int := if index ≤ 0 then top + index + 1 else index
  checkarg (decide (index ≥ 1 ∧ index ≤ top)) "illegal index"

/-- Source: `jcall_insert` (thread enter and leave steps apart). -/
def jcall_insert (index : Int) : LuaM Unit := do
  let ok ← checkrealindex index
  if ok then
    lua_insert index

/-- Source: `jcall_pop` (thread enter and leave steps apart). -/
def jcall_pop (n : Int) : LuaM Unit := do
  let top ← lua_gettop
  let ok ← checkarg (decide (n ≥ 0 ∧ n ≤ top)) "illegal count"
  if ok then
    lua_pop n

/-! ## Bridge: index checks and table moves (`jnlua.c` 2344-2352, 2939-2980, 4151-4154) -/

/-- Source: `jcall_remove` (thread enter and leave steps apart). -/
def jcall_remove (index : Int) : LuaM Unit := do
  let ok ← checkrealindex index
  if ok then
    lua_remove index

/-- Source: `checktype`. -/
def checktype (index : Int) (type : Int) : LuaM Bool := do
  let c ← checkindex index
  if !c then pure false
  else
    let ty ← lua_type index
    checkarg (decide (ty = type)) "illegal type"

/-- Least value of a C `int`. -/
def INT_MIN : Int := -2147483648

/-- A C `int` sum: signed overflow is undefined. -/
def addInt (a b : Int) : LuaM Int :=
  if INT_MIN ≤ a + b ∧ a + b ≤ INT_MAX then pure (a + b) else undefined

/-- Source: the loop of `tablemove_protected` for `from < to`, which runs `i`
from `count - 1` down to 0; the argument is the number of iterations left,
which is `i + 1`. -/
def tablemove_down (tablemove_from tablemove_to : Int) : Nat → LuaM Unit
  | 0 => pure ()
  | i + 1 => do
    let src ← addInt tablemove_from i
    lua_rawgeti 1 src
    let dst ← addInt tablemove_to i
    lua_rawseti 1 dst
    tablemove_down tablemove_from tablemove_to i

/-- Source: the loop of `tablemove_protected` for `from > to`, which runs `i`
from 0 up to `count - 1`; the first argument is the number of iterations left. -/
def tablemove_up (tablemove_from tablemove_to : Int) : Nat → Int → LuaM Unit
  | 0, _ => pure ()
  | left + 1, i => do
    let src ← addInt tablemove_from i
    lua_rawgeti 1 src
    let dst ← addInt tablemove_to i
    lua_rawseti 1 dst
    tablemove_up tablemove_from tablemove_to left (i + 1)

/-- Source: `tablemove_protected`, with the thread-locals `tablemove_from`,
`tablemove_to` and `tablemove_count` as arguments. -/
def tablemove_protected (tablemove_from tablemove_to tablemove_count : Int) : LuaM Int := do
  if tablemove_from < tablemove_to then
    tablemove_down tablemove_from tablemove_to tablemove_count.toNat
  else if tablemove_from > tablemove_to then
    tablemove_up tablemove_from tablemove_to tablemove_count.toNat 0
  pure 0

/-- Source: macro `JNLUA_PCALL(L, nargs, nresults)` around a C function of the
bridge whose body is `body` (the leave step it runs after `throw` acts on the
thread context only and is embedded apart). -/
def JNLUA_PCALL (H : Host) (body : LuaM Int) (nargs : Nat) (nresults : Int) : LuaM Unit := do
  let status ← pcallC body nargs nresults
  if status ≠ 0 then
    throw H status

/-- Source: `jcall_tablemove` (thread enter and leave steps apart). -/
def jcall_tablemove (H : Host) (index tablemove_from tablemove_to tablemove_count : Int) : LuaM Unit := do
  let c1 ← checkstack JNLUA_MINSTACK
  if c1 then
    let c2 ← checktype index LUA_TTABLE
    if c2 then
      let c3 ← checkarg (decide (tablemove_count ≥ 0)) "illegal count"
      if c3 then
        let index ← lua_absindex index
        lua_pushcfunction CFunction.tablemove_protected
        lua_pushvalue index
        JNLUA_PCALL H (tablemove_protected tablemove_from tablemove_to tablemove_count) 1 0

/-! ## More engine primitives used by the table pair operations -/

/-- Engine `lua_objlen`: the length of a string, a border of a table, the size
of the block of a userdata (a `jobject`, 8 bytes, in the embedding), 0 for
other values. -/
def lua_objlen (idx : Int) : LuaM Int := fun w =>
  Res.ok (match index2value w idx with
    | some (LuaValue.string s) => (s.length : Int)
    | some (LuaValue.table r) => (border (w.heap.entries r) : Int)
    | some (LuaValue.userdata _) => 8
    | _ => 0) w

/-- Engine `lua_tointegerx`: the integer and whether the value is a number or
a string holding a numeral. -/
def lua_tointegerx (H : Host) (idx : Int) : LuaM (Int × Bool) := fun w =>
  Res.ok (match index2value w idx with
    | some (LuaValue.number n) => (toLuaInteger n, true)
    | some (LuaValue.string s) =>
      match H.str2number s with
      | some n => (toLuaInteger n, true)
      | none => (0, false)
    | _ => (0, false)) w

/-- Engine `lua_pushinteger`: the integer is pushed as a number. -/
def lua_pushinteger (n : Int) : LuaM Unit := push (LuaValue.number n)

/-- Engine `lua_gettable`: replace the key on top by `t[key]` for the value
`t` at the index, with metamethods. -/
def lua_gettable (H : Host) (idx : Int) : LuaM Unit := fun w =>
  match index2value w idx, w.stack with
  | some t, k :: rest =>
    match luaV_gettable H 100 t k w with
    | Res.ok v w1 => Res.ok () { w1 with stack := v :: rest }
    | Res.raise e w1 => Res.raise e w1
    | Res.undef => Res.undef
  | _, _ => Res.undef

/-- The entry that follows a key in the traversal order of a table, which the
embedding takes to be the order of its entry list: `some none` at the end,
`none` for a key that is not in the table. -/
def nextEntry : List (LuaValue × LuaValue) → LuaValue → Option (Option (LuaValue × LuaValue))
  | [], x => if x = LuaValue.nil then some none else none
  | (k, v) :: es, x =>
    if x = LuaValue.nil then some (some (k, v))
    else if k = x then some es.head?
    else
      match nextEntry es x with
      | some (some e) => some (some e)
      | some none => some none
      | none => none

/-- Engine `lua_next`: pop a key and push the pair that follows it, or push
nothing and answer false at the end of the traversal. -/
def lua_next (idx : Int) : LuaM Bool := fun w =>
  match tableAt w idx, w.stack with
  | some r, k :: rest =>
    match nextEntry (w.heap.entries r) k with
    | none => Res.raise (LuaValue.string (lit "invalid key to next")) w
    | some none => Res.ok false { w with stack := rest }
    | some (some (k1, v1)) => Res.ok true { w with stack := v1 :: k1 :: rest }
  | _, _ => Res.undef

/-! ## Bridge: table pair operations (`jnlua.c` 3295-3499) -/

/-- Source: `#define JNLUA_PAIRS "JNLUA.Pairs"`. -/
def JNLUA_PAIRS : Bytes := lit "JNLUA.Pairs"

/-- Source: `table_pair`: the pointer stored in the registry under `JNLUA_PAIRS`. -/
def table_pair : LuaM CPointer := do
  lua_pushstring (some JNLUA_PAIRS)
  lua_rawget LUA_REGISTRYINDEX
  let isud ← lua_isuserdata (-1)
  if !isud then
    lua_pop 1
    pure CPointer.null
  else
    let pair ← lua_touserdata (-1)
    lua_pop 1
    pure pair

/-- JNI `GetByteArrayRegion(types, start, len, bytes)`: copy tags of the host
array into the front of the C buffer; a region outside the array raises
`ArrayIndexOutOfBoundsException`; writing past the C buffer is undefined. -/
def GetByteArrayRegion (buf : ArgBuf) (start len : Nat) : LuaM ArgBuf :=
  if buf.types.length < start + len then do
    hostThrows (JValue.throwable JClass.ArrayIndexOutOfBoundsException none JValue.null)
    pure buf
  else if buf.bytes.length < len then undefined
  else pure { buf with bytes := (buf.types.drop start).take len ++ buf.bytes.drop len }

/-- Source: `pcall_table_pair_get`, with the block behind the pointer of
`table_pair` and the thread-locals `table_pair_index`, `table_pair_options` as
arguments.  The host arrays that `build_args` fills are what the Java caller
reads afterwards; they are not part of the engine state and are dropped. -/
def pcall_table_pair_get (H : Host) (args : ArgBuf) (table_pair_index table_pair_options : Int) :
    LuaM Int := do
  let pair ← table_pair
  match pair with
  | CPointer.block _ =>
    let buf ← GetByteArrayRegion args 0 2
    let bytes ← push_args H 0 0 buf.values buf.bytes
    let count : Int ←
      if Int.land table_pair_options 32 ≠ 0 then do
        let more ← lua_next table_pair_index
        if !more then
          push LuaValue.nil
          push LuaValue.nil
        pure 2
      else do
        lua_gettable H table_pair_index
        pure 1
    let _ ← build_args H (-1 * count) (-1) { buf with bytes := bytes } true true
    lua_pop count
    if Int.land table_pair_options 1 ≠ 0 then
      lua_remove table_pair_index
    pure 0
  | _ => undefined

/-- Source: the block `if ((options & 8) > 0)` of `pcall_table_pair_push`
(lines 3391-3397): report the value stored under the key so far. -/
def pcall_table_pair_push_original (H : Host) (buf : ArgBuf) (index options : Int) : LuaM ArgBuf :=
  if Int.land options 8 > 0 then do
    lua_pushvalue (-1)
    lua_gettable H index
    let buf1 ← build_args H (-1) (-1) buf true true
    lua_pop 1
    pure buf1
  else pure buf

/-- Source: the rest of `pcall_table_pair_push` once the key is accepted
(lines 3399-3422): in insert mode pop the key and move one element out of the
way, then push the value (`i = 1`) and store it. -/
def pcall_table_pair_push_store (H : Host) (buf : ArgBuf) (index options size len : Int) : LuaM Int :=
  match buf.bytes.get? 1 with
  | none => undefined
  | some valueTag => do
    let size1 : Int ←
      if Int.land options 4 > 0 then do
        lua_pop 1
        if len > size - 1 then
          if valueTag = LUA_TNIL then do
            jcall_tablemove H index (size + 1) size 1
            pure len
          else do
            jcall_tablemove H index size (size + 1) 1
            pure size
        else pure size
      else pure size
    let _ ← push_args H 1 1 buf.values buf.bytes
    if Int.land options 4 > 0 then
      lua_rawseti index size1
    else
      lua_rawset index
    pure 0

/-- Source: `pcall_table_pair_push`, with the block behind the pointer of
`table_pair` and the thread-locals `table_pair_index`, `table_pair_options` as
arguments.  `size` is a C `int`: the `lua_Integer` of the key is narrowed to
32 bits. -/
def pcall_table_pair_push (H : Host) (args : ArgBuf) (table_pair_index table_pair_options : Int) :
    LuaM Int := do
  let pair ← table_pair
  match pair with
  | CPointer.block _ =>
    let buf0 ← GetByteArrayRegion args 0 2
    let bytes ← push_args H 0 0 buf0.values buf0.bytes
    let buf : ArgBuf := { buf0 with bytes := bytes }
    if Int.land table_pair_options 4 > 0 then
      let key ← lua_tointegerx H (-1)
      if !key.2 then
        let r ← check false JClass.IllegalArgumentException
          "lua_table_pair_push: Cannot use table.insert mode to append an non-integer key."
        pure (if r then 1 else 0)
      else
        let len ← lua_objlen table_pair_index
        let size : Int ←
          if jint key.1 ≤ 0 then do
            lua_pop 1
            lua_pushinteger (jint key.1 + (len + 1))
            pure (jint key.1 + (len + 1))
          else pure (jint key.1)
        if size < 0 ∨ size > len + 1 then
          lua_pop (if Int.land table_pair_options 2 > 0 then 2 else 1)
          let _ ← check false JClass.IllegalArgumentException "lua_table_pair_push: key index out of range."
          pure 0
        else
          let buf1 ← pcall_table_pair_push_original H buf table_pair_index table_pair_options
          pcall_table_pair_push_store H buf1 table_pair_index table_pair_options size len
    else
      let buf1 ← pcall_table_pair_push_original H buf table_pair_index table_pair_options
      pcall_table_pair_push_store H buf1 table_pair_index table_pair_options 0 0
  | _ => undefined

/-- Source: macro `JNLUA_DETACH`, the value it leaves in the local `envStat`. -/
def JNLUA_DETACH_envStat (envStat : Int) : Int :=
  if envStat < 10 then
    if envStat = JNI_EDETACHED then envStat * 0 else envStat
  else envStat

/-- Source: `jcall_table_pair_get`, together with its enter and leave steps:
the result is the state of the calling thread when the function returns.
`table_pair_obj` is the thread-local of that name as the call finds it and
`obj` the `jobject` of the caller; `DeleteLocalRef` is not part of the state. -/
def jcall_table_pair_get (H : Host) (attachOk : Bool) (args : ArgBuf) (table_pair_obj obj : JValue)
    (index options : Int) (t : ThreadState) : LuaM ThreadState := do
  let envStat := (JNLUA_ENV attachOk t).1
  let t1 := (JNLUA_ENV attachOk t).2
  if Int.land options 2 ≠ 0 then
    lua_rawgeti LUA_REGISTRYINDEX index
  let index : Int := if Int.land options 2 ≠ 0 then -1 else index
  let index ← if index < 0 then lua_absindex index else pure index
  let istable ← lua_istable index
  if !istable then
    if Int.land options 2 ≠ 0 then
      lua_pop 1
    let _ ← check false JClass.IllegalArgumentException "illegal table at the specific index."
    pure t1
  else
    if !table_pair_obj.isNull then
      DeleteGlobalRef table_pair_obj
    if (NewGlobalRef H obj).isNull then
      lua_pop 2
      let _ ← check false JClass.LuaRuntimeException "Failed to create global reference"
      pure (JNLUA_DETACH envStat t1)
    else
      lua_pushcfunction
        (if Int.land options 32768 ≠ 0 then CFunction.pcall_table_pair_push else CFunction.pcall_table_pair_get)
      lua_pushvalue index
      let status ← pcallC
        (if Int.land options 32768 ≠ 0 then pcall_table_pair_push H args 1 (Int.xor options 32768)
         else pcall_table_pair_get H args 1 (Int.xor options 32768)) 1 0
      let failed : Bool := decide (status ≠ 0)
      if failed then
        throw H status
      DeleteGlobalRef (NewGlobalRef H obj)
      if Int.land options 1 ≠ 0 then
        lua_remove index
      pure (JNLUA_DETACH (if failed then JNLUA_DETACH_envStat envStat else envStat)
        (if failed then JNLUA_DETACH envStat t1 else t1))

/-- Source: `jcall_table_pair_push`, together with its enter and leave steps. -/
def jcall_table_pair_push (H : Host) (attachOk : Bool) (args : ArgBuf) (table_pair_obj obj : JValue)
    (index options : Int) (t : ThreadState) : LuaM ThreadState := do
  let envStat := (JNLUA_ENV attachOk t).1
  let t1 := (JNLUA_ENV attachOk t).2
  let index ←
    if Int.land options 192 = 192 then do
      lua_createtable
      lua_absindex (-1)
    else pure index
  let t2 ← jcall_table_pair_get H attachOk args table_pair_obj obj index (Int.lor options 32768) t1
  if Int.land options 192 = 192 then
    lua_rawgeti index 1
    lua_remove index
  pure (JNLUA_DETACH envStat t2)

/-! ## Bridge: message handler (`jnlua.c` 4441-4532) -/

/-- The fields of a `lua_Debug` record that `lua_getinfo(L, "nSl", &ar)` fills
and the bridge reads; a `char *` field is `none` when it is NULL. -/
structure lua_Debug where
  name : Option Bytes
  what : Option Bytes
  source : Option Bytes
  currentline : Int
deriving DecidableEq

/-- Source: `isrelevant`: the answer, and the record as the function leaves it
(`'='` is byte 61 and `'@'` byte 64). -/
def isrelevant (ar : lua_Debug) : Bool × lua_Debug :=
  let name : Option Bytes :=
    match ar.name with
    | some n => if (cstr n).length = 0 then none else some n
    | none => none
  let source1 : Option Bytes :=
    match ar.what with
    | some wh => if cstr wh = cstr (lit "C") then none else ar.source
    | none => ar.source
  let source : Option Bytes :=
    match source1 with
    | some (c :: rest) => if c = 61 ∨ c = 64 then some rest else some (c :: rest)
    | some [] => some []
    | none => none
  (name.isSome || source.isSome, { ar with name := name, source := source })

/-- A Java `LuaStackTraceElement(functionName, sourceName, lineNumber)`; a
string argument is `none` when it is null. -/
structure LuaStackTraceElement where
  functionName : Option Bytes
  sourceName : Option Bytes
  lineNumber : Int
deriving DecidableEq

/-- Source: the first loop of `messagehandler` (lines 4452-4462) over the
activation records of the levels from the current one upward. -/
def messagehandler_count : List lua_Debug → Nat → Nat
  | [], count => count
  | ar :: rest, count => messagehandler_count rest (if (isrelevant ar).1 then count + 1 else count)

/-- Source: the second loop of `messagehandler` (lines 4472-4492), filling the
host array; `none` is the jump to `END`.  `SetObjectArrayElement` outside the
array raises `ArrayIndexOutOfBoundsException`. -/
def messagehandler_fill (H : Host) :
    List lua_Debug → Nat → List (Option LuaStackTraceElement) → LuaM (Option (List (Option LuaStackTraceElement)))
  | [], _, luastacktrace => pure (some luastacktrace)
  | ar :: rest, count, luastacktrace =>
    if (isrelevant ar).1 then
      if !H.newObjectOk JClass.LuaStackTraceElement then pure none
      else if luastacktrace.length ≤ count then do
        hostThrows (JValue.throwable JClass.ArrayIndexOutOfBoundsException none JValue.null)
        pure none
      else
        messagehandler_fill H rest (count + 1)
          (luastacktrace.set count (some
            { functionName := (isrelevant ar).2.name.map cstr,
              sourceName := (isrelevant ar).2.source.map cstr,
              lineNumber := (isrelevant ar).2.currentline }))
    else messagehandler_fill H rest count luastacktrace

/-- Source: `messagehandler`.  `frames` are the activation records
`lua_getstack` and `lua_getinfo` report for the levels 1, 2, ... at the time
of the error.  Next to the C result (always 1: the value on top is the error
value) the function answers the call of `setLuaStackTrace` it made: the
object and the array, `none` when it left through `END`. -/
def messagehandler (H : Host) (frames : List lua_Debug) :
    LuaM (Int × Option (JValue × List (Option LuaStackTraceElement))) := do
  let count := messagehandler_count frames 0
  if !H.newArrayOk count then pure (1, none)
  else
    let filled ← messagehandler_fill H frames 0 (List.replicate count none)
    match filled with
    | none => pure (1, none)
    | some luastacktrace =>
      let found ← tojavaobject H (-1) (some JClass.LuaError)
      let luaerror ←
        if found.isNull then do
          let message ← tostring H (-1)
          if H.newObjectOk JClass.LuaError then
            pure (JValue.throwable JClass.LuaError message JValue.null)
          else pure JValue.null
        else pure found
      if luaerror.isNull then pure (1, none)
      else
        match H.setLuaStackTraceThrows with
        | some t => hostThrows t
        | none => pure ()
        let _ ← handlejavaexception H 3
        pushjavaobject H luaerror (some (lit "com.naef.jnlua.LuaError")) 1
        pure (1, some (luaerror, luastacktrace))

/-! ## Bridge: calling a host callable (`jnlua.c` 4316-4438) -/

/-- Source: `#define JNLUA_JAVASTATE "jnlua.JavaState"`. -/
def JNLUA_JAVASTATE : Bytes := lit "jnlua.JavaState"

/-- Source: `#define JNLUA_ARGS "JNLUA.Args"`. -/
def JNLUA_ARGS : Bytes := lit "JNLUA.Args"

/-- Engine `lua_pushvalue(L, lua_upvalueindex(i))` in a C closure with the
given upvalues: an index past the last upvalue denotes nil. -/
def lua_pushupvalue (upvalues : List LuaValue) (i : Nat) : LuaM Unit :=
  push (upvalues.getD (i - 1) LuaValue.nil)

/-- JNI `CallIntMethod(javafunction, invoke_id, javastate, lua_ptr, n)`. -/
def CallIntMethod_invoke (H : Host) (javafunction javastate : JValue) (n : Int) : LuaM Int := fun w =>
  Res.ok (H.invoke javafunction javastate n w).1 (H.invoke javafunction javastate n w).2

/-- Engine `lua_yield`: the value a C function returns to suspend the running
coroutine; the suspension itself is not part of the embedding. -/
def lua_yield (_nresults : Int) : LuaM Int := pure (-1)

/-- Source: the end of `calljavafunction` (lines 4401-4437): the special
return counts and the yield request.  `mainThread` is
`L == getluastate(javastate)`. -/
def calljavafunction_return (H : Host) (args : ArgBuf) (n nresults : Int) (mainThread : Bool) : LuaM Int := do
  let r : Int × ArgBuf ←
    if nresults = -128 then do
      let top ← lua_gettop
      pure (top - n, args)
    else if nresults = -64 then do
      let buf ← GetByteArrayRegion args 0 1
      let bytes ← push_args H 0 0 buf.values buf.bytes
      pure (1, { buf with bytes := bytes })
    else pure (nresults, args)
  let buf ←
    if r.2.types.length > 32 then GetByteArrayRegion r.2 32 1
    else if r.2.bytes.length = 0 then undefined
    else pure { r.2 with bytes := r.2.bytes.set 0 0 }
  match buf.bytes.get? 0 with
  | none => undefined
  | some b =>
    if b ≠ 0 then do
      let top ← lua_gettop
      if r.1 < 0 ∨ r.1 > top then
        lua_pushliteral "illegal return count"
        lua_error
      else if mainThread then
        lua_pushliteral "not in a thread"
        lua_error
      else lua_yield r.1
    else pure r.1

/-- Source: the middle of `calljavafunction` (lines 4376-4399): pack the
arguments, call the host method, translate a host exception into an engine
error. -/
def calljavafunction_call (H : Host) (javafunction javastate : JValue) (args : ArgBuf)
    (mainThread : Bool) : LuaM Int := do
  let n ← lua_gettop
  let args1 ← if n = 0 then pure args else build_args H 1 n args false true
  let nresults ← CallIntMethod_invoke H javafunction javastate n
  let err ← handlejavaexception H 0
  if err ≠ 0 then lua_error
  else calljavafunction_return H args1 n nresults mainThread

/-- Source: `calljavafunction`.  `upvalues` are the upvalues of the running
closure, `trace` the global trace mask, `args` the block behind the pointer
stored under `JNLUA_ARGS`; what `println` prints is not part of the state, nor
are the JNI local frames and the thread-local `luastate_obj`. -/
def calljavafunction (H : Host) (upvalues : List LuaValue) (trace : Int) (args : ArgBuf)
    (mainThread : Bool) : LuaM Int := do
  lua_pushstring (some JNLUA_JAVASTATE)
  lua_rawget LUA_REGISTRYINDEX
  let isud ← lua_isuserdata (-1)
  if !isud then
    lua_pushliteral "no Java state"
    lua_error
  else
    let w ← getW
    match index2value w (-1) with
    | some (LuaValue.userdata r) =>
      let javastate := w.heap.payload r
      lua_pushupvalue upvalues 1
      let javafunction ← tojavaobject H (-1) none
      let debug : Int := if Int.land (Int.land trace 11) 8 > 0 then Int.land trace 11 * 0 else Int.land trace 11
      if Int.land debug 1 > 0 then
        lua_pushupvalue upvalues 3
        let _ ← lua_tolstring H (-1)
        lua_pop 1
      if javafunction.isNull then
        lua_pop 2
        lua_pushliteral "no Java function"
        lua_error
      else
        lua_pushstring (some JNLUA_ARGS)
        lua_rawget LUA_REGISTRYINDEX
        let isud2 ← lua_isuserdata (-1)
        if !isud2 then
          lua_pop 3
          lua_pushliteral "no args"
          lua_error
        else
          let args_ptr ← lua_touserdata (-1)
          match args_ptr with
          | CPointer.null =>
            lua_pop 3
            lua_pushliteral "invalid args"
            lua_error
          | CPointer.light _ => undefined
          | CPointer.block _ =>
            lua_pop 3
            calljavafunction_call H javafunction javastate args mainThread
    | _ => undefined

/-! ## Concrete inputs for the table operations -/

/-- A host array nested seven deep: one null element under seven levels of arrays. -/
def sevenDeep : JValue :=
  JValue.array [JValue.array [JValue.array [JValue.array [JValue.array [JValue.array
    [JValue.array [JValue.null]]]]]]]

/-- A state for the table operations and for calls of host callables: the
state `handleWorld` with the argument block (userdata 5) registered under
"JNLUA.Pairs" and "JNLUA.Args", the Java state (userdata 7) under
"jnlua.JavaState", and a table (address 6) holding the sequence "a", "b",
"c", which is the one value on the stack. -/
def seqWorld : World where
  stack := [LuaValue.table 6]
  heap := fun r =>
    if r = REGISTRY then
      some (GCObject.table [(LuaValue.string JNLUA_OBJECT, LuaValue.table 2),
        (LuaValue.string JNLUA_OBJECT_META, LuaValue.table 3),
        (LuaValue.string JNLUA_PAIRS, LuaValue.userdata 5),
        (LuaValue.string JNLUA_ARGS, LuaValue.userdata 5),
        (LuaValue.string JNLUA_JAVASTATE, LuaValue.userdata 7)] none)
    else if r = GLOBALS then some (GCObject.table [] none)
    else if r = 2 then some (GCObject.table [] none)
    else if r = 3 then some (GCObject.table [] none)
    else if r = 4 then some (GCObject.userdata (JValue.object 42) (some 2) GLOBALS)
    else if r = 5 then some (GCObject.userdata JValue.null none GLOBALS)
    else if r = 6 then
      some (GCObject.table [(LuaValue.number 1, LuaValue.string (lit "a")),
        (LuaValue.number 2, LuaValue.string (lit "b")),
        (LuaValue.number 3, LuaValue.string (lit "c"))] none)
    else if r = 7 then some (GCObject.userdata (JValue.object 1) none GLOBALS)
    else none
  next := 8
  limit := 8000
  basemt := fun _ => none
  pending := none
  raised := []
  released := []

/-! ## The trace the specification describes -/

/-- The name of an activation record as a trace shows it: none for a missing
or an empty name. -/
def frameName (ar : lua_Debug) : Option Bytes :=
  match ar.name with
  | some n => if cstr n = [] then none else some (cstr n)
  | none => none

/-- The source of an activation record as a trace shows it: none for a C
function and for a missing source, otherwise the source text without a
leading `=` or `@`. -/
def frameSource (ar : lua_Debug) : Option Bytes :=
  if ar.what.map cstr = some (lit "C") then none
  else
    match ar.source with
    | some (c :: rest) => if c = 61 ∨ c = 64 then some (cstr rest) else some (cstr (c :: rest))
    | some [] => some []
    | none => none

/-- The trace of the specification, in its words: the activation records of
the levels 1, 2, ... that have a name or a source, in that order, each as one
element. -/
def spec_trace (frames : List lua_Debug) : List LuaStackTraceElement :=
  (frames.filter (fun ar => (frameName ar).isSome || (frameSource ar).isSome)).map
    (fun ar => { functionName := frameName ar, sourceName := frameSource ar, lineNumber := ar.currentline })

/-! ## Concrete inputs for the error paths -/

/-- The state `handleWorld` after a host callable failed: address 6 is a
handle to a `LuaError` whose message is "boom" and whose cause is the host
throwable 7; the handle is the one value on the stack. -/
def errorWorld : World :=
  { handleWorld with
    stack := [LuaValue.userdata 6]
    heap := Function.update handleWorld.heap 6
      (some (GCObject.userdata (JValue.throwable JClass.LuaError (some (lit "boom")) (JValue.object 7))
        (some 2) GLOBALS))
    next := 7 }

/-- Three activation records: a Lua function `f` defined in the chunk `@main.lua`
at line 3, a C function without a name, and the main chunk. -/
def exampleFrames : List lua_Debug :=
  [{ name := some (lit "f"), what := some (lit "Lua"), source := some (lit "@main.lua"), currentline := 3 },
   { name := none, what := some (lit "C"), source := some (lit "=[C]"), currentline := -1 },
   { name := none, what := some (lit "main"), source := some (lit "@main.lua"), currentline := 7 }]

/-- A host as `exampleHost` in which every host callable throws the host
throwable 7. -/
def throwingHost : Host :=
  { exampleHost with invoke := fun _ _ _ w => (0, { w with pending := some (JValue.object 7) }) }

/-! ## The recursion of `push_args` (`jnlua.c` 3079-3178) -/

/-- Source: the `switch` of the loop body of `push_args` (lines 3117-3170), taken for a slot
whose tag is not above 16; it makes no recursive call.  The result is the tag left in
`types[i]`. -/
def push_scalar (H : Host) (o : JValue) (tag : Int) : LuaM Int :=
  if tag = LUA_TNIL then do
    push LuaValue.nil
    pure tag
  else if tag = LUA_TBOOLEAN then
    if o.isNull then do
      push LuaValue.nil
      pure tag
    else do
      let b ← bytes2string H o 1 1
      match b with
      | some s =>
        push (LuaValue.boolean (decide (cstr s = cstr (lit "1"))))
        pure tag
      | none => undefined
  else if tag = LUA_TSTRING then
    if o.isNull then do
      push LuaValue.nil
      pure tag
    else do
      let _ ← bytes2string H o (-1) 2
      pure tag
  else if tag = LUA_TNUMBER then
    if o.isNull then do
      push LuaValue.nil
      pure tag
    else
      match doubleValue o with
      | some value => do
        jcall_pushnumber value
        pure tag
      | none => do
        hostThrows (JValue.throwable (JClass.other 0) none JValue.null)
        ExceptionClear
        match H.toStringOf o with
        | some str =>
          jcall_pushstring H (some str)
          pure tag
        | none =>
          ExceptionClear
          push LuaValue.nil
          pure tag
  else if tag = LUA_TJAVAFUNCTION then do
    jcall_pushjavafunction H o JValue.null
    pure tag
  else do
    jcall_pushjavaobject H o JValue.null
    pure tag

/-- Source: the branch `types[i] > 16` of the loop body of `push_args` (lines 3084-3115), for a
slot holding a host array.  `pushSlot` stands for the recursive call
`push_args(L, env, obj, lua, j, j, o, t)` made for each element, after `t[j] = types[i] - 16`. -/
def push_array (H : Host) (pushSlot : JValue → Int → LuaM Int) (o : JValue) (tag : Int) : LuaM Int :=
  match o with
  | JValue.null => do
    push LuaValue.nil
    pure tag
  | JValue.array elems =>
    if elems.length > 100000 then do
      push LuaValue.nil
      pure tag
    else if !H.mallocOk (elems.length + 1) then do
      push LuaValue.nil
      pure tag
    else do
      lua_createtable
      let t0 ← push_elements pushSlot (tag - 16) elems 0 none
      pure (match t0 with
        | some t => t
        | none => tag - 16)
  | _ => undefined

/-- The loop body of `push_args` with a budget of nested calls, as `push_slot`, but answering
`out` when the budget is used up. -/
def push_slot_with (H : Host) (out : LuaM Int) : Nat → JValue → Int → LuaM Int
  | 0, _, _ => out
  | depth + 1, o, tag =>
    if tag > 16 then push_array H (push_slot_with H out depth) o tag
    else push_scalar H o tag

/-- Source: the body of the loop of `push_args` for one slot, with the recursion of the source
itself and no budget: the recursive call is made only under `types[i] > 16` and on the tag
`types[i] - 16` written to `t[j]`, so the tag decreases along every chain of calls. -/
def push_args_slot (H : Host) (o : JValue) (tag : Int) : LuaM Int :=
  if h : tag > 16 then push_array H (fun o1 _ => push_args_slot H o1 (tag - 16)) o tag
  else push_scalar H o tag
termination_by tag.toNat
decreasing_by omega

/-- Source: the `for` loop of `push_args` over the slots `i .. stop`, as `push_args_loop`, with
the loop body `push_args_slot`. -/
def push_args_total_loop (H : Host) (values : List JValue) : Nat → Int → List Int → LuaM (List Int)
  | 0, _, types => pure types
  | count + 1, i, types =>
    if i < 0 then undefined
    else
      match types.get? i.toNat with
      | none => undefined
      | some tag => do
        let o ←
          match values.get? i.toNat with
          | some o => pure o
          | none => do
            hostThrows (JValue.throwable JClass.ArrayIndexOutOfBoundsException none JValue.null)
            pure JValue.null
        let tag1 ← push_args_slot H o tag
        push_args_total_loop H values count (i + 1) (types.set i.toNat tag1)

/-- Source: `push_args`, with the loop body `push_args_slot`. -/
def push_args_total (H : Host) (start stop : Int) (values : List JValue) (types : List Int) :
    LuaM (List Int) :=
  push_args_total_loop H values (stop - start + 1).toNat start types

/-! # Theorems -/

/-! ## The monad of bridge code -/

@[simp] theorem bind_apply {α β : Type} (m : LuaM α) (f : α → LuaM β) (w : World) :
    (m >>= f) w = match m w with
      | Res.ok a w1 => f a w1
      | Res.raise e w1 => Res.raise e w1
      | Res.undef => Res.undef := rfl

@[simp] theorem pure_apply {α : Type} (a : α) (w : World) : (pure a : LuaM α) w = Res.ok a w := rfl

@[simp] theorem getW_apply (w : World) : getW w = Res.ok w w := rfl

@[simp] theorem push_apply (v : LuaValue) (w : World) :
    push v w = Res.ok () { w with stack := v :: w.stack } := rfl

@[simp] theorem World.eta (w : World) :
    (⟨w.stack, w.heap, w.next, w.limit, w.basemt, w.pending, w.raised, w.released⟩ : World) = w := rfl

@[simp] theorem undefined_apply {α : Type} (w : World) : (undefined : LuaM α) w = Res.undef := rfl

@[simp] theorem ExceptionCheck_apply (w : World) : ExceptionCheck w = Res.ok w.pending.isSome w := rfl

@[simp] theorem ExceptionClear_apply (w : World) :
    ExceptionClear w = Res.ok () { w with pending := none } := rfl

@[simp] theorem Throw_apply (t : JValue) (w : World) :
    Throw t w = Res.ok () { w with pending := some t, raised := w.raised ++ [t] } := rfl

@[simp] theorem hostThrows_apply (t : JValue) (w : World) :
    hostThrows t w = Res.ok () { w with pending := some t } := rfl

@[simp] theorem DeleteGlobalRef_apply (o : JValue) (w : World) :
    DeleteGlobalRef o w = Res.ok () { w with released := w.released ++ [o] } := rfl

@[simp] theorem lua_gettop_apply (w : World) : lua_gettop w = Res.ok (w.stack.length : Int) w := rfl

@[simp] theorem lua_checkstack_apply (n : Int) (w : World) :
    lua_checkstack n w = Res.ok (decide ((w.stack.length : Int) + n ≤ w.limit)) w := rfl

/-! ## Stack indices near the top -/

@[simp] theorem slot_m1 (v : LuaValue) (s : List LuaValue) (h : Heap) (n l : Nat)
    (b : Int → Option Nat) (p : Option JValue) (r rl : List JValue) :
    slot ⟨v :: s, h, n, l, b, p, r, rl⟩ (-1) = some 0 := by
  simp [slot, LUA_REGISTRYINDEX]

@[simp] theorem index2value_m1 (v : LuaValue) (s : List LuaValue) (h : Heap) (n l : Nat)
    (b : Int → Option Nat) (p : Option JValue) (r rl : List JValue) :
    index2value ⟨v :: s, h, n, l, b, p, r, rl⟩ (-1) = some v := by
  simp [index2value, LUA_REGISTRYINDEX, LUA_GLOBALSINDEX, LUA_ENVIRONINDEX]

@[simp] theorem slot_m2 (v u : LuaValue) (s : List LuaValue) (h : Heap) (n l : Nat)
    (b : Int → Option Nat) (p : Option JValue) (r rl : List JValue) :
    slot ⟨v :: u :: s, h, n, l, b, p, r, rl⟩ (-2) = some 1 := by
  simp [slot, LUA_REGISTRYINDEX]
  omega

@[simp] theorem index2value_m2 (v u : LuaValue) (s : List LuaValue) (h : Heap) (n l : Nat)
    (b : Int → Option Nat) (p : Option JValue) (r rl : List JValue) :
    index2value ⟨v :: u :: s, h, n, l, b, p, r, rl⟩ (-2) = some u := by
  simp [index2value, LUA_REGISTRYINDEX, LUA_GLOBALSINDEX, LUA_ENVIRONINDEX]

@[simp] theorem lua_pop_1 (v : LuaValue) (s : List LuaValue) (h : Heap) (n l : Nat)
    (b : Int → Option Nat) (p : Option JValue) (r rl : List JValue) :
    lua_pop 1 ⟨v :: s, h, n, l, b, p, r, rl⟩ = Res.ok () ⟨s, h, n, l, b, p, r, rl⟩ := by
  simp [lua_pop, lua_settop]

@[simp] theorem lua_pop_2 (v u : LuaValue) (s : List LuaValue) (h : Heap) (n l : Nat)
    (b : Int → Option Nat) (p : Option JValue) (r rl : List JValue) :
    lua_pop 2 ⟨v :: u :: s, h, n, l, b, p, r, rl⟩ = Res.ok () ⟨s, h, n, l, b, p, r, rl⟩ := by
  have : (2 : Int) ≤ (s.length : Int) + 1 + 1 := by omega
  simp [lua_pop, lua_settop, this]

/-! ## Error translation: `throw` -/

/-- Converting a value to its string form leaves the state as it was, provided
a `__tostring` metamethod, if the value has one, returns. -/
theorem to_string_keeps (H : Host) (w : World) (idx : Int) (e : LuaValue)
    (hidx : index2value w idx = some e)
    (hmeta : ∀ f, ∃ rs, H.call f [e] = CallOutcome.returns rs) :
    ∃ m, to_string H idx w = Res.ok m w := by
  have tail : ∀ v : LuaValue, ∃ m, (do
        let string ← lua_tolstring H (-1)
        lua_pop 1
        pure string : LuaM (Option Bytes)) { w with stack := v :: w.stack } = Res.ok m w := by
    intro v
    cases v <;> simp [lua_tolstring]
  have plain : ∃ m, (do
        let w ← getW
        match index2value w idx with
        | some (LuaValue.number _) => lua_pushvalue idx
        | some (LuaValue.string _) => lua_pushvalue idx
        | some (LuaValue.boolean b) => lua_pushliteral (if b then "true" else "false")
        | some LuaValue.nil => lua_pushliteral "nil"
        | some v => push (LuaValue.string (H.fmtPointer v))
        | none => push (LuaValue.string (H.fmtPointer LuaValue.nil))
        let string ← lua_tolstring H (-1)
        lua_pop 1
        pure string : LuaM (Option Bytes)) w = Res.ok m w := by
    cases e <;> simp [hidx, lua_pushvalue, lua_pushliteral] <;> exact tail _
  unfold to_string
  simp only [bind_apply]
  unfold luaL_callmeta
  simp only [hidx]
  cases hm : metatableOf w.heap w.basemt e with
  | none => simpa using plain
  | some m =>
    by_cases hf : tget (w.heap.entries m) (LuaValue.string (lit "__tostring")) = LuaValue.nil
    · simpa [hf] using plain
    · obtain ⟨rs, hrs⟩ := hmeta (tget (w.heap.entries m) (LuaValue.string (lit "__tostring")))
      simp [hf, hrs]
      exact tail _

/-- Looking up the host object behind a stack value leaves the state as it was. -/
theorem tojavaobject_keeps (H : Host) (w : World) (idx : Int) (cls : Option JClass)
    (hlight : w.basemt LUA_TLIGHTUSERDATA = none) :
    ∃ o, tojavaobject H idx cls w = Res.ok o w := by
  unfold tojavaobject
  simp only [bind_apply, lua_isuserdata]
  cases hidx : index2value w idx with
  | none => simp
  | some e =>
    cases e <;> simp [lua_getmetatable, hidx, metatableOf, LuaValue.tag, hlight]
    case userdata r =>
      cases hm : w.heap.umeta r with
      | none => simp
      | some m =>
        simp [luaL_getmetatable, lua_rawequal, hidx]
        split
        · cases cls with
          | none => simp [hidx]
          | some c => simp [hidx]; split <;> simp
        · simp
/-- Index 1 of a one-value frame. -/
theorem index2value_one (e : LuaValue) (h : Heap) (n l : Nat)
    (b : Int → Option Nat) (p : Option JValue) (r rl : List JValue) :
    index2value ⟨[e], h, n, l, b, p, r, rl⟩ 1 = some e := by
  simp [index2value, slot, LUA_REGISTRYINDEX, LUA_GLOBALSINDEX, LUA_ENVIRONINDEX]

/-- The protected body of `throw` on a frame holding the error value: for a
known status it throws one exception of the class of that status. -/
theorem throw_protected_ok (H : Host) (w : World) (e : LuaValue) (status : Int) (cls : JClass)
    (hstack : w.stack = [e]) (hcls : throwClass status = some cls)
    (hnew : H.newObjectOk cls = true) (hthrow : H.throwOk = true)
    (hset : H.setLuaErrorThrows = none)
    (hmeta : ∀ f, ∃ rs, H.call f [e] = CallOutcome.returns rs)
    (hlight : w.basemt LUA_TLIGHTUSERDATA = none) (hpend : w.pending = none) :
    ∃ msg linked, throw_protected H status w =
      Res.ok 0 { w with pending := some (JValue.throwable cls msg linked),
                        raised := w.raised ++ [JValue.throwable cls msg linked] } := by
  have h1 : index2value w 1 = some e := by
    obtain ⟨s, h, n, l, b, p, r, rl⟩ := w
    simp at hstack
    subst hstack
    exact index2value_one _ _ _ _ _ _ _ _
  obtain ⟨m, hm⟩ := to_string_keeps H w 1 e h1 hmeta
  obtain ⟨o, ho⟩ := tojavaobject_keeps H w 1 (some JClass.LuaError) hlight
  unfold throw_protected
  simp only [hcls, tostring, bind_apply, hm, pure_apply, hnew]
  simp only [Bool.not_true, Bool.false_eq_true, if_false, bind_apply, ho]
  by_cases hatt : (!o.isNull && decide (cls = JClass.LuaRuntimeException)) = true
  · simp only [hatt, if_true, hset, bind_apply, pure_apply, handlejavaexception, getW_apply, hpend, hthrow,
      Bool.not_true, Bool.false_eq_true, if_false, Throw]
    exact ⟨_, _, rfl⟩
  · simp only [hatt, if_false, hset, bind_apply, pure_apply, hthrow,
      Bool.not_true, Bool.false_eq_true, Throw]
    exact ⟨_, _, rfl⟩

/-- The `switch` of `throw_protected` sends different statuses to different classes. -/
theorem throwClass_injective (s1 s2 : Int) (c : JClass)
    (h1 : throwClass s1 = some c) (h2 : throwClass s2 = some c) : s1 = s2 := by
  unfold throwClass at h1 h2
  split_ifs at h1 h2 <;>
    first
    | exact absurd (h1.trans h2.symm) (by decide)
    | (subst_vars; rfl)

/-- C1: for each of the five abort statuses `throw` raises exactly one host
exception, of the class the status selects (LUA_ERRRUN: LuaRuntimeException,
LUA_ERRSYNTAX: LuaSyntaxException, LUA_ERRMEM: LuaMemoryAllocationException,
LUA_ERRGCMM: LuaGcMetamethodException, LUA_ERRERR: LuaMessageHandlerException);
the five codes are pairwise distinct, LUA_ERRGCMM being LUA_ERRERR + 2, and the
map from status to class is one-to-one.  The environment is the ordinary one:
the error value is on top of the stack, the stack can grow by LUA_MINSTACK, no
exception is pending, object creation and `Throw` succeed, `setLuaError` does
not throw, a `__tostring` metamethod of the error value returns, and light
userdata carry no metatable. -/
theorem throw_raises_typed_exception (H : Host) (w : World) (e : LuaValue) (rest : List LuaValue)
    (status : Int) (cls : JClass)
    (hstack : w.stack = e :: rest)
    (hroom : (w.stack.length : Int) + JNLUA_MINSTACK ≤ w.limit)
    (hpend : w.pending = none)
    (hcls : (status, cls) ∈ [(LUA_ERRRUN, JClass.LuaRuntimeException),
      (LUA_ERRSYNTAX, JClass.LuaSyntaxException), (LUA_ERRMEM, JClass.LuaMemoryAllocationException),
      (LUA_ERRGCMM, JClass.LuaGcMetamethodException), (LUA_ERRERR, JClass.LuaMessageHandlerException)])
    (hnew : H.newObjectOk cls = true) (hthrow : H.throwOk = true)
    (hset : H.setLuaErrorThrows = none)
    (hmeta : ∀ f, ∃ rs, H.call f [e] = CallOutcome.returns rs)
    (hlight : w.basemt LUA_TLIGHTUSERDATA = none) :
    (∃ w1 msg linked, throw H status w = Res.ok () w1 ∧
      w1.raised = w.raised ++ [JValue.throwable cls msg linked] ∧
      w1.pending = some (JValue.throwable cls msg linked) ∧ w1.stack = rest) ∧
    [LUA_ERRRUN, LUA_ERRSYNTAX, LUA_ERRMEM, LUA_ERRGCMM, LUA_ERRERR].Nodup ∧
    LUA_ERRGCMM = LUA_ERRERR + 2 ∧
    (∀ s1 s2 c, throwClass s1 = some c → throwClass s2 = some c → s1 = s2) := by
  refine ⟨?_, by decide, rfl, ?_⟩
  · have hc : throwClass status = some cls := by
      simp only [List.mem_cons, Prod.mk.injEq, List.mem_singleton, List.not_mem_nil, or_false] at hcls
      rcases hcls with ⟨rfl, rfl⟩ | ⟨rfl, rfl⟩ | ⟨rfl, rfl⟩ | ⟨rfl, rfl⟩ | ⟨rfl, rfl⟩ <;> decide
    obtain ⟨s, h, n, l, b, p, r, rl⟩ := w
    simp only at hstack hpend hlight hroom
    subst hstack
    obtain ⟨msg, linked, hb⟩ := throw_protected_ok H
      ⟨[e], Function.update h n (some (GCObject.cclosure CFunction.throw_protected [])), n + 1, l, b, p, r, rl⟩
      e status cls rfl hc hnew hthrow hset hmeta hlight hpend
    simp only at hb
    refine ⟨⟨rest, Function.update h n (some (GCObject.cclosure CFunction.throw_protected [])), n + 1, l, b,
      some (JValue.throwable cls msg linked), r ++ [JValue.throwable cls msg linked], rl⟩,
      msg, linked, ?_, rfl, rfl, rfl⟩
    simp only [throw, checkstack, lua_checkstack, bind_apply, hroom, decide_True, check, if_true,
      pure_apply, lua_pushcfunction, lua_pushcclosure, Nat.zero_le, List.take_zero, List.reverse_nil,
      List.drop_zero, lua_insert, slot_m2, List.take_succ_cons, List.take_zero, List.drop_succ_cons,
      List.drop_zero, List.nil_append, List.cons_append, pcallC]
    have hlen : ¬ (rest.length + 1 + 1 < 2) := by omega
    simp [hb, adjustResults, LUA_MULTRET, hlen]
  · exact throwClass_injective

/-- Witness for C1: a runtime abort with error value "boom" on a fresh state. -/
theorem throw_raises_typed_exception_witness :
    ∃ w1 msg linked,
      throw exampleHost LUA_ERRRUN { exampleWorld with stack := [LuaValue.string (lit "boom")] } = Res.ok () w1 ∧
      w1.raised = [] ++ [JValue.throwable JClass.LuaRuntimeException msg linked] ∧
      w1.pending = some (JValue.throwable JClass.LuaRuntimeException msg linked) ∧ w1.stack = [] :=
  (throw_raises_typed_exception exampleHost { exampleWorld with stack := [LuaValue.string (lit "boom")] }
    (LuaValue.string (lit "boom")) [] LUA_ERRRUN JClass.LuaRuntimeException rfl (by decide) rfl
    (by decide) rfl rfl rfl (fun _ => ⟨[], rfl⟩) rfl).1

/-! ## Calls: `jcall_call` -/

/-- Adjusting to a fixed count leaves exactly that many values. -/
theorem adjustResults_length (rs : List LuaValue) (n : Int) (hn : 0 ≤ n) :
    ((adjustResults rs n).length : Int) = n := by
  have h : ¬ n = LUA_MULTRET := by simp [LUA_MULTRET]; omega
  simp only [adjustResults, h, if_false, List.length_append, List.length_replicate, List.length_drop]
  omega

/-- The absolute index of a value with `below.length` values under it. -/
theorem slot_above (up below : List LuaValue) (v : LuaValue) (h : Heap) (n l : Nat)
    (b : Int → Option Nat) (p : Option JValue) (r rl : List JValue) :
    slot ⟨up ++ v :: below, h, n, l, b, p, r, rl⟩ ((below.length : Int) + 1) = some up.length := by
  have h1 : (0 : Int) < (below.length : Int) + 1 := by omega
  have h2 : (below.length : Int) + 1 ≤ ((up ++ v :: below).length : Nat) := by
    simp only [List.length_append, List.length_cons]; omega
  have h3 : (up ++ v :: below).length - ((below.length : Int) + 1).toNat = up.length := by
    simp only [List.length_append, List.length_cons]; omega
  simp only [slot, h1, if_true, h2, h3]

/-- Inserting the top value at the absolute index of `v` puts it right under `v`. -/
theorem lua_insert_above (up below : List LuaValue) (t v : LuaValue) (h : Heap) (n l : Nat)
    (b : Int → Option Nat) (p : Option JValue) (r rl : List JValue) :
    lua_insert ((below.length : Int) + 1) ⟨t :: (up ++ v :: below), h, n, l, b, p, r, rl⟩ =
      Res.ok () ⟨up ++ v :: t :: below, h, n, l, b, p, r, rl⟩ := by
  have hs := slot_above (t :: up) below v h n l b p r rl
  simp only [List.cons_append] at hs
  simp only [lua_insert, hs, List.length_cons]
  have e1 : List.take (up.length + 1) (up ++ v :: below) = up ++ [v] := by
    rw [show up.length + 1 = (up ++ [v]).length by simp]
    rw [show up ++ v :: below = (up ++ [v]) ++ below by simp]
    exact List.take_left' rfl
  have e2 : List.drop (up.length + 1) (up ++ v :: below) = below := by
    rw [show up.length + 1 = (up ++ [v]).length by simp]
    rw [show up ++ v :: below = (up ++ [v]) ++ below by simp]
    exact List.drop_left' rfl
  rw [e1, e2]
  simp

/-- Removing at an absolute index removes the value with that many values under it. -/
theorem lua_remove_above (up below : List LuaValue) (v : LuaValue) (h : Heap) (n l : Nat)
    (b : Int → Option Nat) (p : Option JValue) (r rl : List JValue) :
    lua_remove ((below.length : Int) + 1) ⟨up ++ v :: below, h, n, l, b, p, r, rl⟩ =
      Res.ok () ⟨up ++ below, h, n, l, b, p, r, rl⟩ := by
  simp only [lua_remove, slot_above]
  congr 2
  exact List.eraseIdx_append_of_length_le (Nat.le_refl _) _ ▸ by simp

/-- A protected call whose callee returns: the adjusted results replace function and arguments. -/
theorem lua_pcall_returns (H : Host) (nargs nresults : Int) (fn mh : LuaValue)
    (args below rs : List LuaValue) (h : Heap) (n l : Nat)
    (b : Int → Option Nat) (p : Option JValue) (r rl : List JValue)
    (hlen : (args.length : Int) = nargs)
    (hcall : H.call fn args = CallOutcome.returns rs) :
    lua_pcall H nargs nresults ((below.length : Int) + 1)
        ⟨args.reverse ++ fn :: mh :: below, h, n, l, b, p, r, rl⟩ =
      Res.ok 0 ⟨adjustResults rs.reverse nresults ++ mh :: below, h, n, l, b, p, r, rl⟩ := by
  have hargs : nargs.toNat = args.reverse.length := by simp; omega
  have h1 : ¬ (nargs < 0 ∨ ((args.reverse ++ fn :: mh :: below).length : Int) < nargs + 1) := by
    simp only [List.length_append, List.length_reverse, List.length_cons]; omega
  have h2 : ¬ ((below.length : Int) + 1 = 0) := by omega
  have hs := slot_above (args.reverse ++ [fn]) below mh h n l b p r rl
  simp only [List.append_assoc, List.singleton_append] at hs
  have e0 : (args.reverse ++ fn :: mh :: below).get? nargs.toNat = some fn := by
    rw [hargs, List.get?_eq_getElem?, List.getElem?_append_right (Nat.le_refl _)]
    simp
  have e1 : List.take nargs.toNat (args.reverse ++ fn :: mh :: below) = args.reverse := by
    rw [hargs]; simp
  have e2 : List.drop (nargs.toNat + 1) (args.reverse ++ fn :: mh :: below) = mh :: below := by
    rw [hargs, show args.reverse ++ fn :: mh :: below = (args.reverse ++ [fn]) ++ mh :: below by simp]
    exact List.drop_left' (by simp)
  simp only [lua_pcall, h1, if_false, h2, hs, Option.map_some', e0, e1, List.reverse_reverse, hcall, e2]

/-- The guarded block of `jcall_call` when the index of the function is a real index and the callee returns. -/
theorem jcall_call_block_ok (H : Host) (w : World) (nargs nresults : Int) (fn : LuaValue)
    (args below rs : List LuaValue)
    (hstack : w.stack = args.reverse ++ fn :: below)
    (hlen : (args.length : Int) = nargs)
    (hsmall : nargs + 1 < -LUA_REGISTRYINDEX)
    (hcall : H.call fn args = CallOutcome.returns rs) :
    jcall_call_block H nargs nresults w =
      Res.ok (((adjustResults rs.reverse nresults).length : Nat) : Int)
        { w with stack := adjustResults rs.reverse nresults ++ below,
                 heap := Function.update w.heap w.next (some (GCObject.cclosure CFunction.messagehandler [])),
                 next := w.next + 1 } := by
  obtain ⟨s, h, n, l, b, p, r, rl⟩ := w
  simp only at hstack
  subst hstack
  have hn0 : 0 ≤ nargs := by omega
  have hargs : args.length = nargs.toNat := by omega
  simp only [LUA_REGISTRYINDEX] at hsmall
  have habs : ¬ (-nargs - 1 > 0 ∨ -nargs - 1 ≤ -10000) := by omega
  have htop : ((args.reverse ++ fn :: below).length : Int) = nargs + 1 + below.length := by
    simp only [List.length_append, List.length_reverse, List.length_cons]; omega
  simp only [jcall_call_block, lua_gettop, bind_apply, pure_apply, lua_absindex, LUA_REGISTRYINDEX, habs,
    if_false, lua_pushcfunction, lua_pushcclosure, Nat.zero_le, if_true, List.take_zero, List.reverse_nil,
    List.drop_zero, htop]
  have hidx : nargs + 1 + ↑below.length + (-nargs - 1) + 1 = (below.length : Int) + 1 := by omega
  rw [hidx, lua_insert_above]
  simp only [lua_pcall_returns H nargs nresults fn _ args below rs _ _ _ _ _ _ _ hlen hcall,
    lua_remove_above, ne_eq, not_true_eq_false, if_false, bind_apply, pure_apply, lua_gettop]
  congr 1
  simp only [List.length_append]
  push_cast
  omega

/-- A successful call through `jcall_call` when the index `-nargs - 1` of the function is a real
index (`nargs + 1 < -LUA_REGISTRYINDEX`): the results, adjusted to `nresults`, stand in place of
the function and its arguments, the message handler is removed and no exception is raised; the
return value is `nresults`, and for `LUA_MULTRET` the number of values the callee returned. -/
theorem jcall_call_success (H : Host) (w : World) (nargs nresults : Int) (fn : LuaValue)
    (args below rs : List LuaValue)
    (hstack : w.stack = args.reverse ++ fn :: below)
    (hlen : (args.length : Int) = nargs)
    (hsmall : nargs + 1 < -LUA_REGISTRYINDEX)
    (hres : 0 ≤ nresults ∨ nresults = LUA_MULTRET)
    (hroom : nresults ≤ nargs + 1 ∨ (w.stack.length : Int) + (nresults - (nargs + 1)) ≤ w.limit)
    (hcall : H.call fn args = CallOutcome.returns rs) :
    ∃ w1, jcall_call H nargs nresults w =
        Res.ok (if nresults = LUA_MULTRET then (rs.length : Int) else nresults) w1 ∧
      w1.stack = adjustResults rs.reverse nresults ++ below ∧
      (0 ≤ nresults → (w1.stack.length : Int) = (w.stack.length : Int) - nargs - 1 + nresults) ∧
      w1.pending = w.pending ∧ w1.raised = w.raised := by
  have hblock := jcall_call_block_ok H w nargs nresults fn args below rs hstack hlen hsmall hcall
  have hn0 : 0 ≤ nargs := by omega
  have hmax : ¬ nargs + 1 > INT_MAX := by
    simp only [LUA_REGISTRYINDEX] at hsmall
    simp only [INT_MAX]; omega
  have htop : (w.stack.length : Int) = nargs + 1 + below.length := by
    rw [hstack]
    simp only [List.length_append, List.length_reverse, List.length_cons]; omega
  have hnel : nargs + 1 ≤ (w.stack.length : Int) := by omega
  have hc4 : jcall_call_room nargs nresults w = Res.ok true w := by
    unfold jcall_call_room
    by_cases hc : nresults = LUA_MULTRET ∨ nresults ≤ nargs + 1
    · simp only [hc, if_true, pure_apply]
    · have hr : (w.stack.length : Int) + (nresults - (nargs + 1)) ≤ w.limit := by
        rcases hroom with h1 | h1
        · exact absurd (Or.inr h1) hc
        · exact h1
      simp only [hc, if_false, checkstack, lua_checkstack, bind_apply, hr, decide_True, check, if_true,
        pure_apply]
  have hrun : jcall_call H nargs nresults w = jcall_call_block H nargs nresults w := by
    simp only [jcall_call, checkarg, check, checknelems, checkstate, lua_gettop, bind_apply, pure_apply,
      hn0, ge_iff_le, decide_True, if_true, Bool.not_true, Bool.false_eq_true, if_false, hmax, hnel,
      hres, hc4]
  rw [hrun, hblock]
  refine ⟨{ w with stack := adjustResults rs.reverse nresults ++ below,
                   heap := Function.update w.heap w.next (some (GCObject.cclosure CFunction.messagehandler [])),
                   next := w.next + 1 }, ?_, rfl, ?_, rfl, rfl⟩
  · congr 1
    by_cases hm : nresults = LUA_MULTRET
    · simp [hm, adjustResults]
    · have h0 : 0 ≤ nresults := by
        rcases hres with h1 | h1
        · exact h1
        · exact absurd h1 hm
      simp only [hm, if_false]
      exact adjustResults_length _ _ h0
  · intro h0
    simp only [List.length_append]
    have := adjustResults_length rs.reverse nresults h0
    push_cast
    omega

/-- An index at or below `LUA_REGISTRYINDEX` denotes no stack slot. -/
theorem slot_pseudo (w : World) (idx : Int) (h : idx ≤ LUA_REGISTRYINDEX) : slot w idx = none := by
  have h0 : ¬ 0 < idx := by simp only [LUA_REGISTRYINDEX] at h; omega
  have h1 : ¬ (idx < 0 ∧ LUA_REGISTRYINDEX < idx) := by omega
  simp only [slot, h0, h1, if_false]

/-- The macro `lua_absindex` passes an index at or below `LUA_REGISTRYINDEX` through. -/
theorem lua_absindex_pseudo (w : World) (idx : Int) (h : idx ≤ LUA_REGISTRYINDEX) :
    lua_absindex idx w = Res.ok idx w := by
  simp only [lua_absindex, h, or_true, if_true, pure_apply]

/-- With `nargs + 1 >= 10000` values of function and arguments the index of the function,
`-nargs - 1`, is at or below `LUA_REGISTRYINDEX`: `lua_absindex` passes it through as a
pseudo-index and `lua_insert` is handed an index that denotes no stack slot. -/
theorem jcall_call_pseudo_slot (H : Host) (w : World) (nargs nresults : Int)
    (hbig : -LUA_REGISTRYINDEX ≤ nargs + 1)
    (hnel : nargs + 1 ≤ (w.stack.length : Int))
    (hres : 0 ≤ nresults ∨ nresults = LUA_MULTRET)
    (hroom : nresults ≤ nargs + 1 ∨ (w.stack.length : Int) + (nresults - (nargs + 1)) ≤ w.limit) :
    jcall_call H nargs nresults w = Res.undef := by
  have hn0 : 0 ≤ nargs := by simp only [LUA_REGISTRYINDEX] at hbig; omega
  by_cases hmax : nargs + 1 > INT_MAX
  · simp only [jcall_call, checkarg, check, bind_apply, pure_apply, hn0, ge_iff_le, decide_True, if_true,
      Bool.not_true, Bool.false_eq_true, if_false, hmax, undefined]
  · have hc4 : jcall_call_room nargs nresults w = Res.ok true w := by
      unfold jcall_call_room
      by_cases hc : nresults = LUA_MULTRET ∨ nresults ≤ nargs + 1
      · simp only [hc, if_true, pure_apply]
      · have hr : (w.stack.length : Int) + (nresults - (nargs + 1)) ≤ w.limit := by
          rcases hroom with h1 | h1
          · exact absurd (Or.inr h1) hc
          · exact h1
        simp only [hc, if_false, checkstack, lua_checkstack, bind_apply, hr, decide_True, check, if_true,
          pure_apply]
    have hrun : jcall_call H nargs nresults w = jcall_call_block H nargs nresults w := by
      simp only [jcall_call, checkarg, check, checknelems, checkstate, lua_gettop, bind_apply, pure_apply,
        hn0, ge_iff_le, decide_True, if_true, Bool.not_true, Bool.false_eq_true, if_false, hmax, hnel,
        hres, hc4]
    have hidx : -nargs - 1 ≤ LUA_REGISTRYINDEX := by omega
    rw [hrun]
    simp only [jcall_call_block, lua_gettop, bind_apply, pure_apply, lua_absindex_pseudo _ _ hidx,
      lua_pushcfunction, lua_pushcclosure, Nat.zero_le, if_true, lua_insert, slot_pseudo _ _ hidx]

/-- C2: on a stack holding a function below `nargs >= 0` arguments, with `nresults >= 0` or
`nresults = LUA_MULTRET`, room for the extra results and a callee that returns:
when `nargs + 1 < 10000` (`-LUA_REGISTRYINDEX`), `jcall_call` leaves the results, adjusted to
`nresults`, in place of the function and its arguments, with the message handler removed and no
exception raised; it returns `nresults`, and for `LUA_MULTRET` the number of values the callee
returned; for `nresults >= 0` the stack height becomes `h - nargs - 1 + nresults`.
When `nargs + 1 >= 10000` the index `-nargs - 1` of the function is at or below
`LUA_REGISTRYINDEX`: the macro `lua_absindex` returns it unchanged, it denotes no stack slot, and
`jcall_call` hands it to `lua_insert`, which the engine defines for stack slots only, so the call
has no defined result (for `nargs = INT_MAX` already the sum `nargs + 1` is undefined). -/
theorem jcall_call_handler_index (H : Host) (w : World) (nargs nresults : Int) (fn : LuaValue)
    (args below rs : List LuaValue)
    (hstack : w.stack = args.reverse ++ fn :: below)
    (hlen : (args.length : Int) = nargs)
    (hres : 0 ≤ nresults ∨ nresults = LUA_MULTRET)
    (hroom : nresults ≤ nargs + 1 ∨ (w.stack.length : Int) + (nresults - (nargs + 1)) ≤ w.limit)
    (hcall : H.call fn args = CallOutcome.returns rs) :
    (nargs + 1 < -LUA_REGISTRYINDEX →
      ∃ w1, jcall_call H nargs nresults w =
          Res.ok (if nresults = LUA_MULTRET then (rs.length : Int) else nresults) w1 ∧
        w1.stack = adjustResults rs.reverse nresults ++ below ∧
        (0 ≤ nresults → (w1.stack.length : Int) = (w.stack.length : Int) - nargs - 1 + nresults) ∧
        w1.pending = w.pending ∧ w1.raised = w.raised) ∧
    (-LUA_REGISTRYINDEX ≤ nargs + 1 →
      (∀ w0 : World, lua_absindex (-nargs - 1) w0 = Res.ok (-nargs - 1) w0) ∧
      (∀ w0 : World, slot w0 (-nargs - 1) = none) ∧
      jcall_call H nargs nresults w = Res.undef) := by
  refine ⟨fun hsmall => jcall_call_success H w nargs nresults fn args below rs hstack hlen hsmall hres hroom hcall,
    fun hbig => ?_⟩
  have hidx : -nargs - 1 ≤ LUA_REGISTRYINDEX := by omega
  have hnel : nargs + 1 ≤ (w.stack.length : Int) := by
    rw [hstack]
    simp only [List.length_append, List.length_reverse, List.length_cons]; omega
  exact ⟨fun w0 => lua_absindex_pseudo w0 _ hidx, fun w0 => slot_pseudo w0 _ hidx,
    jcall_call_pseudo_slot H w nargs nresults hbig hnel hres hroom⟩

/-- Witness for C2: one nil argument, one result asked for and a callee returning nothing; and
the function below 9999 nil arguments of `bigStackWorld`, no result asked for. -/
theorem jcall_call_handler_index_witness :
    (∃ w1, jcall_call exampleHost 1 1
        { exampleWorld with stack := [LuaValue.nil, LuaValue.function 2, LuaValue.boolean true] } =
        Res.ok (if (1 : Int) = LUA_MULTRET then (([] : List LuaValue).length : Int) else 1) w1 ∧
      w1.stack = adjustResults ([] : List LuaValue).reverse 1 ++ [LuaValue.boolean true] ∧
      ((0 : Int) ≤ 1 → (w1.stack.length : Int) = ((3 : Nat) : Int) - 1 - 1 + 1) ∧
      w1.pending = none ∧ w1.raised = []) ∧
    (exampleHost.call (LuaValue.function 2) (List.replicate 9999 LuaValue.nil) = CallOutcome.returns [] ∧
      bigStackWorld.stack.length = 10000 ∧
      jcall_call exampleHost 9999 0 bigStackWorld = Res.undef) :=
  ⟨(jcall_call_handler_index exampleHost
      { exampleWorld with stack := [LuaValue.nil, LuaValue.function 2, LuaValue.boolean true] }
      1 1 (LuaValue.function 2) [LuaValue.nil] [LuaValue.boolean true] [] rfl rfl
      (Or.inl (by decide)) (Or.inl (by decide)) rfl).1 (by decide),
    rfl,
    by simp only [bigStackWorld, List.length_append, List.length_replicate, List.length_singleton],
    ((jcall_call_handler_index exampleHost bigStackWorld 9999 0 (LuaValue.function 2)
      (List.replicate 9999 LuaValue.nil) [] [] (by rw [List.reverse_replicate]; rfl)
      (by rw [List.length_replicate]; rfl) (Or.inl (by decide)) (Or.inl (by decide)) rfl).2 (by decide)).2.2⟩


/-! ## Argument marshaling: `build_args` and `push_args` -/

/-- `validindex` accepts the index of a stack slot. -/
theorem validindex_real (w : World) (i : Int)
    (hreal : (1 ≤ i ∧ i ≤ w.stack.length) ∨ (LUA_REGISTRYINDEX < i ∧ i ≤ -1 ∧ -i ≤ w.stack.length)) :
    validindex i w = Res.ok true w := by
  simp only [validindex, lua_gettop, bind_apply]
  rcases hreal with ⟨h1, h2⟩ | ⟨h1, h2, h3⟩
  · have : ¬ i ≤ 0 := by omega
    simp [this, h1, h2]
  · have : i ≤ 0 := by omega
    simp only [this, if_true, gt_iff_lt, h1, pure_apply]
    congr 1
    simp
    omega

/-- `checkindex` accepts the index of a stack slot and raises nothing. -/
theorem checkindex_real (w : World) (i : Int)
    (hreal : (1 ≤ i ∧ i ≤ w.stack.length) ∨ (LUA_REGISTRYINDEX < i ∧ i ≤ -1 ∧ -i ≤ w.stack.length)) :
    checkindex i w = Res.ok true w := by
  simp [checkindex, validindex_real w i hreal, checkarg, check]

/-- `checkstack` succeeds and raises nothing when the stack has room. -/
theorem checkstack_room (w : World) (n : Int) (h : (w.stack.length : Int) + n ≤ w.limit) :
    checkstack n w = Res.ok true w := by
  simp [checkstack, lua_checkstack, h, check]

/-- `string2bytes` of a slot holding a string: a byte array with the same bytes. -/
theorem string2bytes_string (H : Host) (w : World) (i : Int) (s : Bytes)
    (hreal : (1 ≤ i ∧ i ≤ w.stack.length) ∨ (LUA_REGISTRYINDEX < i ∧ i ≤ -1 ∧ -i ≤ w.stack.length))
    (hval : index2value w i = some (LuaValue.string s))
    (hroom : (w.stack.length : Int) + JNLUA_MINSTACK ≤ w.limit) :
    string2bytes H i false w = Res.ok (JValue.bytes s) w := by
  simp [string2bytes, checkstack_room w _ hroom, checkindex_real w i hreal, lua_type, hval, LuaValue.tag,
    LUA_TSTRING, LUA_TNUMBER, lua_tolstring]

/-- `build_args` over a one-slot range, from what the loop body does for the slot. -/
theorem build_args_one (H : Host) (w : World) (i : Int) (buf : ArgBuf) (pushtable : Bool)
    (tag : Int) (v : JValue)
    (hbuf : 0 < buf.values.length ∧ 0 < buf.types.length ∧ 0 < buf.bytes.length)
    (hslot : build_args_slot H pushtable i 0 buf w =
      Res.ok { buf with bytes := buf.bytes.set 0 tag, values := buf.values.set 0 v } w) :
    build_args H i i buf pushtable true w =
      Res.ok { values := buf.values.set 0 v, bytes := buf.bytes.set 0 tag,
               types := tag :: buf.types.drop 1 } w := by
  obtain ⟨hv, ht, hb⟩ := hbuf
  have h1 : (i - i + 1).toNat = 1 := by simp
  have h2 : ¬ ((1 : Int) < 0 ∨ (buf.types.length : Int) < 1) := by omega
  have h3 : ¬ (((buf.bytes.set 0 tag).length : Int) < 1) := by rw [List.length_set]; omega
  have h4 : List.take 1 (buf.bytes.set 0 tag) = [tag] := by
    cases hbb : buf.bytes with
    | nil => simp [hbb] at hb
    | cons a t => simp
  simp only [build_args, h1, build_args_loop, bind_apply, hslot, pure_apply, if_true, SetByteArrayRegion,
    sub_self, zero_add, h2, if_false, h3, Int.toNat_one, h4, List.singleton_append]

/-- The loop body of `build_args` on a string slot. -/
theorem build_args_slot_string (H : Host) (w : World) (i : Int) (s : Bytes) (buf : ArgBuf) (pushtable : Bool)
    (hreal : (1 ≤ i ∧ i ≤ w.stack.length) ∨ (LUA_REGISTRYINDEX < i ∧ i ≤ -1 ∧ -i ≤ w.stack.length))
    (hval : index2value w i = some (LuaValue.string s))
    (hroom : (w.stack.length : Int) + JNLUA_MINSTACK ≤ w.limit)
    (hbuf : 0 < buf.values.length ∧ 0 < buf.types.length ∧ 0 < buf.bytes.length) :
    build_args_slot H pushtable i 0 buf w =
      Res.ok { buf with bytes := buf.bytes.set 0 LUA_TSTRING, values := buf.values.set 0 (JValue.bytes s) } w := by
  obtain ⟨hv, ht, hb⟩ := hbuf
  have hb' : ¬ buf.bytes.length ≤ 0 := by omega
  simp [build_args_slot, hb', lua_type, hval, LuaValue.tag, string2bytes_string H w i s hreal hval hroom,
    SetObjectArrayElement, hv]

/-- `push_args` on a string-tagged slot holding a byte array pushes those bytes. -/
theorem push_slot_string (H : Host) (w : World) (s : Bytes) (hmalloc : ∀ n, H.mallocOk n = true) :
    push_slot H 1 (JValue.bytes s) LUA_TSTRING w = Res.ok LUA_TSTRING { w with stack := LuaValue.string s :: w.stack } := by
  cases s with
  | nil => simp [push_slot, LUA_TSTRING, LUA_TNIL, LUA_TBOOLEAN, JValue.isNull, bytes2string, lua_pushstring, cstr]
  | cons a t =>
    have hne : ¬ ((t.length : Int) + 1 = 0) := by omega
    simp [push_slot, LUA_TSTRING, LUA_TNIL, LUA_TBOOLEAN, JValue.isNull, bytes2string, lua_pushstring, hmalloc,
      hne]

/-- `push_args` over the one-slot range `0 .. 0`, from what the loop body does for the slot. -/
theorem push_args_one (H : Host) (w w1 : World) (values : List JValue) (types : List Int)
    (o : JValue) (tag tag1 : Int)
    (hv : values[0]? = some o) (ht : types[0]? = some tag)
    (hslot : push_slot H (depthFor tag) o tag w = Res.ok tag1 w1) :
    push_args H 0 0 values types w = Res.ok (types.set 0 tag1) w1 := by
  simp [push_args, push_args_loop, hv, ht, hslot]

/-- The loop body of `build_args` on a nil slot. -/
theorem build_args_slot_nil (H : Host) (w : World) (i : Int) (buf : ArgBuf) (pushtable : Bool)
    (hval : index2value w i = some LuaValue.nil)
    (hbuf : 0 < buf.values.length ∧ 0 < buf.types.length ∧ 0 < buf.bytes.length) :
    build_args_slot H pushtable i 0 buf w =
      Res.ok { buf with bytes := buf.bytes.set 0 LUA_TNIL, values := buf.values.set 0 JValue.null } w := by
  obtain ⟨hv, ht, hb⟩ := hbuf
  have hb' : ¬ buf.bytes.length ≤ 0 := by omega
  simp [build_args_slot, hb', lua_type, hval, LuaValue.tag, SetObjectArrayElement, hv,
    LUA_TNIL, LUA_TSTRING, LUA_TNUMBER, LUA_TBOOLEAN, LUA_TFUNCTION, LUA_TUSERDATA, LUA_TTABLE]

/-- `push_args` on a nil-tagged slot pushes nil. -/
theorem push_slot_nil (H : Host) (w : World) :
    push_slot H 1 JValue.null LUA_TNIL w = Res.ok LUA_TNIL { w with stack := LuaValue.nil :: w.stack } := by
  simp [push_slot, LUA_TNIL]

/-- `string2bytes(L, -1, 1)` of a string on top of the stack: its bytes, and the string popped. -/
theorem string2bytes_top (H : Host) (t : Bytes) (s : List LuaValue) (h : Heap) (n l : Nat)
    (b : Int → Option Nat) (p : Option JValue) (r rl : List JValue)
    (hroom : (s.length : Int) + 1 + JNLUA_MINSTACK ≤ l) :
    string2bytes H (-1) true ⟨LuaValue.string t :: s, h, n, l, b, p, r, rl⟩ =
      Res.ok (JValue.bytes t) ⟨s, h, n, l, b, p, r, rl⟩ := by
  have hr : ((⟨LuaValue.string t :: s, h, n, l, b, p, r, rl⟩ : World).stack.length : Int) + JNLUA_MINSTACK ≤
      (⟨LuaValue.string t :: s, h, n, l, b, p, r, rl⟩ : World).limit := by
    simp only [List.length_cons]
    push_cast
    exact hroom
  have hreal : (1 ≤ (-1 : Int) ∧ (-1 : Int) ≤ (⟨LuaValue.string t :: s, h, n, l, b, p, r, rl⟩ : World).stack.length) ∨
      (LUA_REGISTRYINDEX < -1 ∧ (-1 : Int) ≤ -1 ∧
        -(-1 : Int) ≤ (⟨LuaValue.string t :: s, h, n, l, b, p, r, rl⟩ : World).stack.length) := by
    right
    simp [LUA_REGISTRYINDEX]
  simp [string2bytes, checkstack_room _ _ hr, checkindex_real _ _ hreal, lua_type, LuaValue.tag,
    LUA_TSTRING, LUA_TNUMBER, lua_tolstring, lua_remove]

/-- The loop body of `build_args` on a boolean slot: the one-byte array "1" or "0". -/
theorem build_args_slot_boolean (H : Host) (w : World) (i : Int) (b : Bool) (buf : ArgBuf) (pushtable : Bool)
    (hval : index2value w i = some (LuaValue.boolean b))
    (hroom : (w.stack.length : Int) + 1 + JNLUA_MINSTACK ≤ w.limit)
    (hbuf : 0 < buf.values.length ∧ 0 < buf.types.length ∧ 0 < buf.bytes.length) :
    build_args_slot H pushtable i 0 buf w =
      Res.ok { buf with bytes := buf.bytes.set 0 LUA_TBOOLEAN,
                        values := buf.values.set 0 (JValue.bytes (lit (if b then "1" else "0"))) } w := by
  obtain ⟨hv, ht, hb⟩ := hbuf
  obtain ⟨s, h, n, l, bm, p, r, rl⟩ := w
  have hb' : ¬ buf.bytes.length ≤ 0 := by omega
  have hc : cstr (lit (if b then "1" else "0")) = lit (if b then "1" else "0") := by
    cases b <;> decide
  have hpush := string2bytes_top H (lit (if b then "1" else "0")) s h n l bm p r rl hroom
  simp [build_args_slot, hb', lua_type, hval, LuaValue.tag, SetObjectArrayElement, hv, lua_toboolean,
    lua_pushstring, hc, hpush,
    LUA_TNIL, LUA_TSTRING, LUA_TNUMBER, LUA_TBOOLEAN, LUA_TFUNCTION, LUA_TUSERDATA, LUA_TTABLE]

/-- `push_args` on a boolean-tagged slot holding "1" or "0" pushes that boolean. -/
theorem push_slot_boolean (H : Host) (w : World) (b : Bool) (hmalloc : ∀ n, H.mallocOk n = true) :
    push_slot H 1 (JValue.bytes (lit (if b then "1" else "0"))) LUA_TBOOLEAN w =
      Res.ok LUA_TBOOLEAN { w with stack := LuaValue.boolean b :: w.stack } := by
  have h1 : (lit (if b then "1" else "0")).length = 1 := by cases b <;> rfl
  have h2 : List.take 1 (lit (if b then "1" else "0")) = lit (if b then "1" else "0") := by cases b <;> rfl
  have h3 : decide (cstr (lit (if b then "1" else "0")) = cstr (lit "1")) = b := by cases b <;> decide
  simp [push_slot, LUA_TBOOLEAN, LUA_TNIL, JValue.isNull, bytes2string, hmalloc, h1, h2, lua_tolstring, h3]


/-- C3: for every engine string `s` (any byte sequence, the empty one and those with NUL bytes
included), for nil and for each boolean, packing the stack slot with `build_args` leaves the state
as it was and unpacking the produced (value, tag) slot with `push_args` pushes the same value:
a byte-identical string, nil, the same boolean.  The environment is the ordinary one: the index
denotes a stack slot, the stack can grow by 1 + LUA_MINSTACK, `malloc` succeeds and the argument
buffer has a slot. -/
theorem pack_unpack_string_nil_boolean (H : Host) (w : World) (i : Int) (v : LuaValue) (buf : ArgBuf)
    (pushtable : Bool)
    (hkind : v = LuaValue.nil ∨ (∃ b, v = LuaValue.boolean b) ∨ (∃ s, v = LuaValue.string s))
    (hreal : (1 ≤ i ∧ i ≤ w.stack.length) ∨ (LUA_REGISTRYINDEX < i ∧ i ≤ -1 ∧ -i ≤ w.stack.length))
    (hval : index2value w i = some v)
    (hroom : (w.stack.length : Int) + 1 + JNLUA_MINSTACK ≤ w.limit)
    (hmalloc : ∀ n, H.mallocOk n = true)
    (hbuf : 0 < buf.values.length ∧ 0 < buf.types.length ∧ 0 < buf.bytes.length) :
    ∃ buf1 types1, build_args H i i buf pushtable true w = Res.ok buf1 w ∧
      buf1.types[0]? = some v.tag ∧
      push_args H 0 0 buf1.values buf1.types w = Res.ok types1 { w with stack := v :: w.stack } := by
  have hv0 : ∀ x : JValue, (buf.values.set 0 x)[0]? = some x := by
    intro x
    rw [List.getElem?_set_self]
    exact hbuf.1
  rcases hkind with rfl | ⟨b, rfl⟩ | ⟨s, rfl⟩
  · refine ⟨_, (LUA_TNIL :: List.drop 1 buf.types).set 0 LUA_TNIL, build_args_one H w i buf pushtable LUA_TNIL JValue.null hbuf
      (build_args_slot_nil H w i buf pushtable hval hbuf), by simp [LuaValue.tag], ?_⟩
    exact push_args_one H w _ _ _ JValue.null LUA_TNIL LUA_TNIL (hv0 _) (by simp) (push_slot_nil H w)
  · refine ⟨_, (LUA_TBOOLEAN :: List.drop 1 buf.types).set 0 LUA_TBOOLEAN, build_args_one H w i buf pushtable LUA_TBOOLEAN _ hbuf
      (build_args_slot_boolean H w i b buf pushtable hval hroom hbuf), by simp [LuaValue.tag], ?_⟩
    exact push_args_one H w _ _ _ _ LUA_TBOOLEAN LUA_TBOOLEAN (hv0 _) (by simp) (push_slot_boolean H w b hmalloc)
  · have hroom1 : (w.stack.length : Int) + JNLUA_MINSTACK ≤ w.limit := by omega
    refine ⟨_, (LUA_TSTRING :: List.drop 1 buf.types).set 0 LUA_TSTRING, build_args_one H w i buf pushtable LUA_TSTRING _ hbuf
      (build_args_slot_string H w i s buf pushtable hreal hval hroom1 hbuf), by simp [LuaValue.tag], ?_⟩
    exact push_args_one H w _ _ _ _ LUA_TSTRING LUA_TSTRING (hv0 _) (by simp) (push_slot_string H w s hmalloc)

/-- Witness for C3: the three-byte string `a NUL b` in slot 1 of a one-value stack. -/
theorem pack_unpack_string_nil_boolean_witness :
    ∃ buf1 types1,
      build_args exampleHost 1 1 ⟨[JValue.null], [0], [0]⟩ false true
        { exampleWorld with stack := [LuaValue.string [97, 0, 98]] } =
        Res.ok buf1 { exampleWorld with stack := [LuaValue.string [97, 0, 98]] } ∧
      buf1.types[0]? = some (LuaValue.string [97, 0, 98]).tag ∧
      push_args exampleHost 0 0 buf1.values buf1.types
        { exampleWorld with stack := [LuaValue.string [97, 0, 98]] } =
        Res.ok types1 { exampleWorld with stack := [LuaValue.string [97, 0, 98], LuaValue.string [97, 0, 98]] } :=
  pack_unpack_string_nil_boolean exampleHost { exampleWorld with stack := [LuaValue.string [97, 0, 98]] }
    1 (LuaValue.string [97, 0, 98]) ⟨[JValue.null], [0], [0]⟩ false
    (Or.inr (Or.inr ⟨_, rfl⟩)) (Or.inl (by decide)) (by decide) (by decide) (fun _ => rfl)
    (by decide)

/-- `string2bytes` of a slot holding a number: the bytes of its string form; the slot itself stays a number. -/
theorem string2bytes_number (H : Host) (w : World) (i : Int) (n : ℚ)
    (hreal : (1 ≤ i ∧ i ≤ w.stack.length) ∨ (LUA_REGISTRYINDEX < i ∧ i ≤ -1 ∧ -i ≤ w.stack.length))
    (hval : index2value w i = some (LuaValue.number n))
    (hroom : (w.stack.length : Int) + JNLUA_MINSTACK ≤ w.limit) :
    string2bytes H i false w = Res.ok (JValue.bytes (H.fmtNumber n)) w := by
  simp [string2bytes, checkstack_room w _ hroom, checkindex_real w i hreal, lua_type, hval, LuaValue.tag,
    LUA_TSTRING, LUA_TNUMBER, lua_tolstring, lua_pushvalue]

/-- The loop body of `build_args` on a number slot. -/
theorem build_args_slot_number (H : Host) (w : World) (i : Int) (n : ℚ) (buf : ArgBuf) (pushtable : Bool)
    (hreal : (1 ≤ i ∧ i ≤ w.stack.length) ∨ (LUA_REGISTRYINDEX < i ∧ i ≤ -1 ∧ -i ≤ w.stack.length))
    (hval : index2value w i = some (LuaValue.number n))
    (hroom : (w.stack.length : Int) + JNLUA_MINSTACK ≤ w.limit)
    (hbuf : 0 < buf.values.length ∧ 0 < buf.types.length ∧ 0 < buf.bytes.length) :
    build_args_slot H pushtable i 0 buf w =
      Res.ok { buf with bytes := buf.bytes.set 0 LUA_TNUMBER,
                        values := buf.values.set 0 (JValue.bytes (H.fmtNumber n)) } w := by
  obtain ⟨hv, ht, hb⟩ := hbuf
  have hb' : ¬ buf.bytes.length ≤ 0 := by omega
  simp [build_args_slot, hb', lua_type, hval, LuaValue.tag, string2bytes_number H w i n hreal hval hroom,
    SetObjectArrayElement, hv]

/-- `push_args` on a number-tagged slot holding a `java.lang.Double` pushes its value. -/
theorem push_slot_double (H : Host) (w : World) (d : ℚ)
    (hroom : (w.stack.length : Int) + JNLUA_MINSTACK ≤ w.limit) :
    push_slot H 1 (JValue.double d) LUA_TNUMBER w =
      Res.ok LUA_TNUMBER { w with stack := LuaValue.number d :: w.stack } := by
  simp only [push_slot, LUA_TNUMBER, LUA_TNIL, LUA_TBOOLEAN, LUA_TSTRING, JValue.isNull, doubleValue,
    jcall_pushnumber, bind_apply, checkstack_room w _ hroom]
  by_cases hd : d = ((toLuaInteger d : Int) : ℚ)
  · simp [← hd, checkstack_room w _ hroom]
  · simp [hd, checkstack_room w _ hroom]


/-- `push_args` on a number-tagged slot holding a byte array, for any host: the numeric
extraction fails, so what is pushed, if anything, is a string or nil, never a number. -/
theorem push_slot_bytes_as_number (H : Host) (w : World) (b : Bytes) (t : Int) (w1 : World)
    (h : push_slot H 1 (JValue.bytes b) LUA_TNUMBER w = Res.ok t w1) :
    w1.stack = w.stack ∨ w1.stack = LuaValue.nil :: w.stack ∨ ∃ s, w1.stack = LuaValue.string s :: w.stack := by
  simp only [push_slot, LUA_TNUMBER, LUA_TNIL, LUA_TBOOLEAN, LUA_TSTRING, JValue.isNull, doubleValue,
    bind_apply, hostThrows_apply, ExceptionClear_apply] at h
  cases hs : H.toStringOf (JValue.bytes b) with
  | none =>
    simp [hs] at h
    right; left
    rw [← h.2]
  | some str =>
    simp only [hs, jcall_pushstring, checkstack, lua_checkstack_apply, check, bind_apply] at h
    by_cases hroom : (w.stack.length : Int) + JNLUA_MINSTACK ≤ w.limit
    · by_cases hu : H.utfCharsOk = true
      · simp [hroom, hu] at h
        right; right
        exact ⟨str, by rw [← h.2]⟩
      · simp [hroom, hu, ThrowNew] at h
        left
        rw [← h.2]
    · simp [hroom, ThrowNew] at h
      left
      rw [← h.2]

/-- C4 (amended): for every engine number `n`, `build_args` packs the slot as tag 3
(LUA_TNUMBER) with a byte array holding the string form of `n`, leaving the state as it was; and
`push_args`, given a slot tagged number whose host value is a `java.lang.Double` of value `d`,
pushes a number equal to `d`.  The two formats differ: the value `build_args` produces is not one
`push_args` reads back as a number. -/
theorem pack_number_unpack_double (H : Host) (w : World) (i : Int) (n d : ℚ) (buf : ArgBuf)
    (pushtable : Bool)
    (hreal : (1 ≤ i ∧ i ≤ w.stack.length) ∨ (LUA_REGISTRYINDEX < i ∧ i ≤ -1 ∧ -i ≤ w.stack.length))
    (hval : index2value w i = some (LuaValue.number n))
    (hroom : (w.stack.length : Int) + JNLUA_MINSTACK ≤ w.limit)
    (hbuf : 0 < buf.values.length ∧ 0 < buf.types.length ∧ 0 < buf.bytes.length) :
    build_args H i i buf pushtable true w =
      Res.ok { values := buf.values.set 0 (JValue.bytes (H.fmtNumber n)),
               bytes := buf.bytes.set 0 LUA_TNUMBER,
               types := LUA_TNUMBER :: buf.types.drop 1 } w ∧
    (∀ values types, values[0]? = some (JValue.double d) → types[0]? = some LUA_TNUMBER →
      push_args H 0 0 values types w =
        Res.ok (types.set 0 LUA_TNUMBER) { w with stack := LuaValue.number d :: w.stack }) :=
  ⟨build_args_one H w i buf pushtable LUA_TNUMBER _ hbuf
      (build_args_slot_number H w i n buf pushtable hreal hval hroom hbuf),
   fun values types hv ht =>
      push_args_one H w _ values types _ LUA_TNUMBER LUA_TNUMBER hv ht (push_slot_double H w d hroom)⟩

/-- Witness for C4 (amended): the number 5 in slot 1 of a one-value stack, the Double 7/2. -/
theorem pack_number_unpack_double_witness :
    build_args exampleHost 1 1 ⟨[JValue.null], [0], [0]⟩ false true
        { exampleWorld with stack := [LuaValue.number 5] } =
      Res.ok { values := [JValue.null].set 0 (JValue.bytes (exampleHost.fmtNumber 5)),
               bytes := [0].set 0 LUA_TNUMBER,
               types := LUA_TNUMBER :: [0].drop 1 } { exampleWorld with stack := [LuaValue.number 5] } ∧
    (∀ values types, values[0]? = some (JValue.double (7 / 2)) → types[0]? = some LUA_TNUMBER →
      push_args exampleHost 0 0 values types { exampleWorld with stack := [LuaValue.number 5] } =
        Res.ok (types.set 0 LUA_TNUMBER)
          { exampleWorld with stack := [LuaValue.number (7 / 2), LuaValue.number 5] }) :=
  pack_number_unpack_double exampleHost { exampleWorld with stack := [LuaValue.number 5] } 1 5 (7 / 2)
    ⟨[JValue.null], [0], [0]⟩ false (Or.inl (by decide)) (by decide) (by decide) (by decide)

/-- Counterexample to C4 as stated: the number 5 is packed by `build_args` as a byte array under
tag 3, and `push_args` applied to that very slot pushes nil (the byte array has no `doubleValue`
and, in this host, no string form), not the number 5. -/
theorem pack_number_counterexample :
    build_args exampleHost 1 1 ⟨[JValue.null], [0], [0]⟩ false true
        { exampleWorld with stack := [LuaValue.number 5] } =
      Res.ok ⟨[JValue.bytes (exampleHost.fmtNumber 5)], [3], [3]⟩
        { exampleWorld with stack := [LuaValue.number 5] } ∧
    push_args exampleHost 0 0 [JValue.bytes (exampleHost.fmtNumber 5)] [3]
        { exampleWorld with stack := [LuaValue.number 5] } =
      Res.ok [3] { exampleWorld with stack := [LuaValue.nil, LuaValue.number 5] } ∧
    LuaValue.nil ≠ LuaValue.number 5 :=
  ⟨build_args_one exampleHost _ 1 ⟨[JValue.null], [0], [0]⟩ false LUA_TNUMBER _ (by decide)
    (build_args_slot_number exampleHost _ 1 5 _ false (Or.inl (by decide)) (by decide) (by decide)
      (by decide)), rfl, by decide⟩

/-- C6, evaluation at the failing input: the closure `pushjavaobject` builds for a host
callable sits in slot 1.  `jcall_isjavafunction` recognises it (answer 1), but `build_args` asks
`tojavaobject`, which rejects every value that is not a userdata: the tag written is 6
(LUA_TFUNCTION), not 9 (LUA_TJAVAFUNCTION), and the value is NULL. -/
theorem build_args_host_callable_tag :
    jcall_isjavafunction 1 { handleWorld with stack := [LuaValue.function 5] } =
      Res.ok 1 { handleWorld with stack := [LuaValue.function 5] } ∧
    build_args exampleHost 1 1 ⟨[JValue.object 0], [0], [0]⟩ false true
        { handleWorld with stack := [LuaValue.function 5] } =
      Res.ok ⟨[JValue.null], [LUA_TFUNCTION], [LUA_TFUNCTION]⟩
        { handleWorld with stack := [LuaValue.function 5] } ∧
    LUA_TFUNCTION = 6 ∧ LUA_TJAVAFUNCTION = 9 :=
  ⟨rfl, rfl, rfl, rfl⟩

/-! ## Tables and heap updates -/

/-- Removing a key does not change what another key reads. -/
theorem tget_filter_ne (es : List (LuaValue × LuaValue)) (k k1 : LuaValue) (h : k1 ≠ k) :
    tget (es.filter (fun e => e.1 ≠ k)) k1 = tget es k1 := by
  induction es with
  | nil => rfl
  | cons e t ih =>
    obtain ⟨a, b⟩ := e
    by_cases ha : a = k
    · have h2 : ¬ a = k1 := fun hh => h (hh.symm.trans ha)
      rw [List.filter_cons_of_neg (by simpa using ha), ih]
      simp only [tget, h2, if_false]
    · rw [List.filter_cons_of_pos (by simpa using ha)]
      simp only [tget, ih]

/-- A removed key reads nil. -/
theorem tget_filter_same (es : List (LuaValue × LuaValue)) (k : LuaValue) :
    tget (es.filter (fun e => e.1 ≠ k)) k = LuaValue.nil := by
  induction es with
  | nil => rfl
  | cons e t ih =>
    obtain ⟨a, b⟩ := e
    by_cases ha : a = k
    · rw [List.filter_cons_of_neg (by simpa using ha), ih]
    · rw [List.filter_cons_of_pos (by simpa using ha)]
      simp only [tget, ha, if_false, ih]

/-- A raw write is read back under its key. -/
theorem tget_tset_same (es : List (LuaValue × LuaValue)) (k v : LuaValue) :
    tget (tset es k v) k = v := by
  unfold tset
  by_cases hv : v = LuaValue.nil
  · rw [if_pos hv, tget_filter_same, hv]
  · rw [if_neg hv]
    simp only [tget, if_true]

/-- A raw write does not change what another key reads. -/
theorem tget_tset_ne (es : List (LuaValue × LuaValue)) (k v k1 : LuaValue) (h : k1 ≠ k) :
    tget (tset es k v) k1 = tget es k1 := by
  unfold tset
  have h' : ¬ k = k1 := fun hh => h hh.symm
  by_cases hv : v = LuaValue.nil
  · rw [if_pos hv, tget_filter_ne es k k1 h]
  · rw [if_neg hv]
    simp only [tget, h', if_false, tget_filter_ne es k k1 h]

/-- Entries after a table is stored at an address. -/
@[simp] theorem entries_update_table (h : Heap) (r r1 : Nat) (es : List (LuaValue × LuaValue)) (m : Option Nat) :
    Heap.entries (Function.update h r (some (GCObject.table es m))) r1 = if r1 = r then es else h.entries r1 := by
  unfold Heap.entries
  by_cases hr : r1 = r
  · subst hr; simp
  · simp [hr, Function.update_noteq hr]

/-- Entries after a userdata is stored at an address. -/
@[simp] theorem entries_update_userdata (h : Heap) (r r1 : Nat) (p : JValue) (m : Option Nat) (e : Nat) :
    Heap.entries (Function.update h r (some (GCObject.userdata p m e))) r1 = if r1 = r then [] else h.entries r1 := by
  unfold Heap.entries
  by_cases hr : r1 = r
  · subst hr; simp
  · simp [hr, Function.update_noteq hr]

/-- Entries after a closure is stored at an address. -/
@[simp] theorem entries_update_cclosure (h : Heap) (r r1 : Nat) (f : CFunction) (u : List LuaValue) :
    Heap.entries (Function.update h r (some (GCObject.cclosure f u))) r1 = if r1 = r then [] else h.entries r1 := by
  unfold Heap.entries
  by_cases hr : r1 = r
  · subst hr; simp
  · simp [hr, Function.update_noteq hr]

/-- Userdata metatable after a userdata is stored at an address. -/
@[simp] theorem umeta_update_userdata (h : Heap) (r r1 : Nat) (p : JValue) (m : Option Nat) (e : Nat) :
    Heap.umeta (Function.update h r (some (GCObject.userdata p m e))) r1 = if r1 = r then m else h.umeta r1 := by
  unfold Heap.umeta
  by_cases hr : r1 = r
  · subst hr; simp
  · simp [hr, Function.update_noteq hr]

/-- Userdata payload after a userdata is stored at an address. -/
@[simp] theorem payload_update_userdata (h : Heap) (r r1 : Nat) (p : JValue) (m : Option Nat) (e : Nat) :
    Heap.payload (Function.update h r (some (GCObject.userdata p m e))) r1 = if r1 = r then p else h.payload r1 := by
  unfold Heap.payload
  by_cases hr : r1 = r
  · subst hr; simp
  · simp [hr, Function.update_noteq hr]

/-- Userdata environment after a userdata is stored at an address. -/
@[simp] theorem uenv_update_userdata (h : Heap) (r r1 : Nat) (p : JValue) (m : Option Nat) (e : Nat) :
    Heap.uenv (Function.update h r (some (GCObject.userdata p m e))) r1 = if r1 = r then e else h.uenv r1 := by
  unfold Heap.uenv
  by_cases hr : r1 = r
  · subst hr; simp
  · simp [hr, Function.update_noteq hr]

/-- Table metatable after a table is stored at an address. -/
@[simp] theorem tmeta_update_table (h : Heap) (r r1 : Nat) (es : List (LuaValue × LuaValue)) (m : Option Nat) :
    Heap.tmeta (Function.update h r (some (GCObject.table es m))) r1 = if r1 = r then m else h.tmeta r1 := by
  unfold Heap.tmeta
  by_cases hr : r1 = r
  · subst hr; simp
  · simp [hr, Function.update_noteq hr]

/-- `tojavaobject` on a userdata whose metatable is the registry's shared object metatable: its payload. -/
theorem tojavaobject_handle (H : Host) (w : World) (i : Int) (r m : Nat)
    (hidx : index2value w i = some (LuaValue.userdata r))
    (hm : w.heap.umeta r = some m)
    (hreg : tget (w.heap.entries REGISTRY) (LuaValue.string JNLUA_OBJECT) = LuaValue.table m) :
    tojavaobject H i none w = Res.ok (w.heap.payload r) w := by
  simp [tojavaobject, lua_isuserdata, hidx, lua_getmetatable, metatableOf, hm, luaL_getmetatable, hreg,
    lua_rawequal]


/-! ## Steps of the engine primitives on a stack with known top values -/

/-- The registry pseudo-index denotes the registry table. -/
@[simp] theorem index2value_registry (w : World) :
    index2value w LUA_REGISTRYINDEX = some (LuaValue.table REGISTRY) := by
  simp [index2value]

/-- The globals pseudo-index denotes the globals table. -/
@[simp] theorem index2value_globals (w : World) :
    index2value w LUA_GLOBALSINDEX = some (LuaValue.table GLOBALS) := by
  simp [index2value, LUA_GLOBALSINDEX, LUA_REGISTRYINDEX]

/-- Index -3 is the third slot from the top. -/
@[simp] theorem slot_m3 (v u x : LuaValue) (s : List LuaValue) (h : Heap) (n l : Nat)
    (b : Int → Option Nat) (p : Option JValue) (r rl : List JValue) :
    slot ⟨v :: u :: x :: s, h, n, l, b, p, r, rl⟩ (-3) = some 2 := by
  simp [slot, LUA_REGISTRYINDEX]
  omega

/-- Index -3 denotes the third value from the top. -/
@[simp] theorem index2value_m3 (v u x : LuaValue) (s : List LuaValue) (h : Heap) (n l : Nat)
    (b : Int → Option Nat) (p : Option JValue) (r rl : List JValue) :
    index2value ⟨v :: u :: x :: s, h, n, l, b, p, r, rl⟩ (-3) = some x := by
  simp [index2value, LUA_REGISTRYINDEX, LUA_GLOBALSINDEX, LUA_ENVIRONINDEX]

/-- What `lua_pushstring` pushes. -/
@[simp] theorem lua_pushstring_apply (s : Option Bytes) (w : World) :
    lua_pushstring s w = Res.ok () { w with stack := (match s with
      | some b => LuaValue.string (cstr b)
      | none => LuaValue.nil) :: w.stack } := by
  cases s <;> rfl

/-- What `lua_pushliteral` pushes. -/
@[simp] theorem lua_pushliteral_apply (s : String) (w : World) :
    lua_pushliteral s w = Res.ok () { w with stack := LuaValue.string (lit s) :: w.stack } := rfl

/-- What `luaL_getmetatable` pushes. -/
@[simp] theorem luaL_getmetatable_apply (name : Bytes) (w : World) :
    luaL_getmetatable name w =
      Res.ok () { w with stack := tget (w.heap.entries REGISTRY) (LuaValue.string name) :: w.stack } := rfl

/-- `lua_createtable` allocates at the next free address. -/
@[simp] theorem lua_createtable_apply (w : World) :
    lua_createtable w = Res.ok () { w with
      heap := Function.update w.heap w.next (some (GCObject.table [] none)),
      next := w.next + 1,
      stack := LuaValue.table w.next :: w.stack } := rfl

/-- `lua_newuserdata` allocates at the next free address. -/
@[simp] theorem lua_newuserdata_apply (w : World) :
    lua_newuserdata w = Res.ok w.next { w with
      heap := Function.update w.heap w.next (some (GCObject.userdata JValue.null none GLOBALS)),
      next := w.next + 1,
      stack := LuaValue.userdata w.next :: w.stack } := rfl

/-- Writing the `jobject` slot of a userdata. -/
@[simp] theorem writePayload_apply (r : Nat) (p : JValue) (w : World) :
    writePayload r p w = Res.ok () { w with
      heap := Function.update w.heap r (some (GCObject.userdata p (w.heap.umeta r) (w.heap.uenv r))) } := rfl

/-- Raw read of the registry with the key on top. -/
@[simp] theorem lua_rawget_registry (k : LuaValue) (s : List LuaValue) (h : Heap) (n l : Nat)
    (b : Int → Option Nat) (p : Option JValue) (r rl : List JValue) :
    lua_rawget LUA_REGISTRYINDEX ⟨k :: s, h, n, l, b, p, r, rl⟩ =
      Res.ok () ⟨tget (h.entries REGISTRY) k :: s, h, n, l, b, p, r, rl⟩ := by
  simp [lua_rawget, tableAt]

/-- Raw read of the globals table with the key on top. -/
@[simp] theorem lua_rawget_globals (k : LuaValue) (s : List LuaValue) (h : Heap) (n l : Nat)
    (b : Int → Option Nat) (p : Option JValue) (r rl : List JValue) :
    lua_rawget LUA_GLOBALSINDEX ⟨k :: s, h, n, l, b, p, r, rl⟩ =
      Res.ok () ⟨tget (h.entries GLOBALS) k :: s, h, n, l, b, p, r, rl⟩ := by
  simp [lua_rawget, tableAt]

/-- Raw read of the table right below the key. -/
@[simp] theorem lua_rawget_m2 (k : LuaValue) (t : Nat) (s : List LuaValue) (h : Heap) (n l : Nat)
    (b : Int → Option Nat) (p : Option JValue) (r rl : List JValue) :
    lua_rawget (-2) ⟨k :: LuaValue.table t :: s, h, n, l, b, p, r, rl⟩ =
      Res.ok () ⟨tget (h.entries t) k :: LuaValue.table t :: s, h, n, l, b, p, r, rl⟩ := by
  simp [lua_rawget, tableAt]

/-- Raw write into the registry. -/
@[simp] theorem lua_rawset_registry (v k : LuaValue) (s : List LuaValue) (h : Heap) (n l : Nat)
    (b : Int → Option Nat) (p : Option JValue) (r rl : List JValue) :
    lua_rawset LUA_REGISTRYINDEX ⟨v :: k :: s, h, n, l, b, p, r, rl⟩ =
      if k = LuaValue.nil then
        Res.raise (LuaValue.string (lit "table index is nil")) ⟨v :: k :: s, h, n, l, b, p, r, rl⟩
      else Res.ok () ⟨s, Function.update h REGISTRY
        (some (GCObject.table (tset (h.entries REGISTRY) k v) (h.tmeta REGISTRY))), n, l, b, p, r, rl⟩ := by
  simp [lua_rawset, tableAt, World.store]

/-- Raw write into the table right below key and value. -/
@[simp] theorem lua_rawset_m3 (v k : LuaValue) (t : Nat) (s : List LuaValue) (h : Heap) (n l : Nat)
    (b : Int → Option Nat) (p : Option JValue) (r rl : List JValue) :
    lua_rawset (-3) ⟨v :: k :: LuaValue.table t :: s, h, n, l, b, p, r, rl⟩ =
      if k = LuaValue.nil then
        Res.raise (LuaValue.string (lit "table index is nil"))
          ⟨v :: k :: LuaValue.table t :: s, h, n, l, b, p, r, rl⟩
      else Res.ok () ⟨LuaValue.table t :: s, Function.update h t
        (some (GCObject.table (tset (h.entries t) k v) (h.tmeta t))), n, l, b, p, r, rl⟩ := by
  simp [lua_rawset, tableAt, World.store]

/-- Removing the second value from the top. -/
@[simp] theorem lua_remove_m2 (v u : LuaValue) (s : List LuaValue) (h : Heap) (n l : Nat)
    (b : Int → Option Nat) (p : Option JValue) (r rl : List JValue) :
    lua_remove (-2) ⟨v :: u :: s, h, n, l, b, p, r, rl⟩ = Res.ok () ⟨v :: s, h, n, l, b, p, r, rl⟩ := by
  simp [lua_remove]

/-- Copying the second value from the top. -/
@[simp] theorem lua_pushvalue_m2 (v u : LuaValue) (s : List LuaValue) (h : Heap) (n l : Nat)
    (b : Int → Option Nat) (p : Option JValue) (r rl : List JValue) :
    lua_pushvalue (-2) ⟨v :: u :: s, h, n, l, b, p, r, rl⟩ =
      Res.ok () ⟨u :: v :: u :: s, h, n, l, b, p, r, rl⟩ := by
  simp [lua_pushvalue]

/-- Nil test of the top value. -/
@[simp] theorem lua_isnil_m1 (v : LuaValue) (s : List LuaValue) (h : Heap) (n l : Nat)
    (b : Int → Option Nat) (p : Option JValue) (r rl : List JValue) :
    lua_isnil (-1) ⟨v :: s, h, n, l, b, p, r, rl⟩ =
      Res.ok (decide (v = LuaValue.nil)) ⟨v :: s, h, n, l, b, p, r, rl⟩ := by
  cases v <;> simp [lua_isnil]

/-- Table test of the top value. -/
@[simp] theorem lua_istable_m1 (v : LuaValue) (s : List LuaValue) (h : Heap) (n l : Nat)
    (b : Int → Option Nat) (p : Option JValue) (r rl : List JValue) :
    lua_istable (-1) ⟨v :: s, h, n, l, b, p, r, rl⟩ =
      Res.ok (match v with
        | LuaValue.table _ => true
        | _ => false) ⟨v :: s, h, n, l, b, p, r, rl⟩ := by
  cases v <;> simp [lua_istable]

/-- Setting the metatable of the userdata right below the table on top. -/
@[simp] theorem lua_setmetatable_m2_userdata (t u : Nat) (s : List LuaValue) (h : Heap) (n l : Nat)
    (b : Int → Option Nat) (p : Option JValue) (r rl : List JValue) :
    lua_setmetatable (-2) ⟨LuaValue.table t :: LuaValue.userdata u :: s, h, n, l, b, p, r, rl⟩ =
      Res.ok () ⟨LuaValue.userdata u :: s,
        Function.update h u (some (GCObject.userdata (h.payload u) (some t) (h.uenv u))), n, l, b, p, r, rl⟩ := by
  simp [lua_setmetatable, asMetatable, World.store]

/-- Setting the environment of the userdata right below the table on top. -/
@[simp] theorem lua_setfenv_m2_userdata (t u : Nat) (s : List LuaValue) (h : Heap) (n l : Nat)
    (b : Int → Option Nat) (p : Option JValue) (r rl : List JValue) :
    lua_setfenv (-2) ⟨LuaValue.table t :: LuaValue.userdata u :: s, h, n, l, b, p, r, rl⟩ =
      Res.ok true ⟨LuaValue.userdata u :: s,
        Function.update h u (some (GCObject.userdata (h.payload u) (h.umeta u) t)), n, l, b, p, r, rl⟩ := by
  simp [lua_setfenv, World.store]

/-- `pushjavaobject` of a non-null object of a named class: a fresh userdata with the shared
object metatable and the object as payload is pushed. -/
theorem pushjavaobject_object (H : Host) (w : World) (o : JValue) (cn : Bytes) (m : Nat)
    (hreg : tget (w.heap.entries REGISTRY) (LuaValue.string JNLUA_OBJECT) = LuaValue.table m)
    (hfresh : REGISTRY ≠ w.next)
    (hcls : tget (w.heap.entries REGISTRY) (LuaValue.string (cstr cn)) = LuaValue.nil ∨
      ∃ ct, tget (w.heap.entries REGISTRY) (LuaValue.string (cstr cn)) = LuaValue.table ct)
    (ho : o.isNull = false) (hg : H.globalRefOk = true) :
    ∃ env, pushjavaobject H o (some cn) 1 w =
      Res.ok () { w with stack := LuaValue.userdata w.next :: w.stack,
                         heap := Function.update w.heap w.next (some (GCObject.userdata o (some m) env)),
                         next := w.next + 1 } := by
  have hng : NewGlobalRef H o = o := by
    cases o <;> simp_all [NewGlobalRef, JValue.isNull]
  rcases hcls with hc | ⟨ct, hc⟩
  · refine ⟨GLOBALS, ?_⟩
    simp [pushjavaobject, hfresh, hreg, hng, ho, hc]
  · refine ⟨ct, ?_⟩
    simp [pushjavaobject, hfresh, hreg, hng, ho, hc]

/-! ## Class tables (`pushmetafunction_protected`) -/

/-- The registry key of the class-table index holds no NUL byte. -/
theorem cstr_JNLUA_OBJECT_META : cstr JNLUA_OBJECT_META = JNLUA_OBJECT_META := by decide

/-- The entries read at an address depend on the object at that address only. -/
theorem entries_congr (h h1 : Heap) (r : Nat) (e : h1 r = h r) : h1.entries r = h.entries r := by
  unfold Heap.entries
  rw [e]

/-- One caching step from the shared metatable writes into the class table only and
restores the stack. -/
theorem precache_from_metatable_frame (name field : String) (ct m : Nat) (s : List LuaValue) (h : Heap)
    (n l : Nat) (b : Int → Option Nat) (p : Option JValue) (r rl : List JValue)
    (hreg : tget (h.entries REGISTRY) (LuaValue.string JNLUA_OBJECT) = LuaValue.table m) :
    ∃ h1, precache_from_metatable name field ⟨LuaValue.table ct :: s, h, n, l, b, p, r, rl⟩ =
        Res.ok () ⟨LuaValue.table ct :: s, h1, n, l, b, p, r, rl⟩ ∧ ∀ a, a ≠ ct → h1 a = h a := by
  refine ⟨Function.update h ct (some (GCObject.table (tset (h.entries ct) (LuaValue.string (cstr (lit name)))
    (tget (h.entries m) (LuaValue.string (cstr (lit field))))) (h.tmeta ct))), ?_, ?_⟩
  · simp [precache_from_metatable, hreg]
  · intro a ha
    simp [Function.update_noteq ha]

/-- One caching step from the `java` module writes into the class table only and
restores the stack. -/
theorem precache_from_module_frame (name field : String) (ct : Nat) (s : List LuaValue) (h : Heap)
    (n l : Nat) (b : Int → Option Nat) (p : Option JValue) (r rl : List JValue) :
    ∃ h1, precache_from_module name field ⟨LuaValue.table ct :: s, h, n, l, b, p, r, rl⟩ =
        Res.ok () ⟨LuaValue.table ct :: s, h1, n, l, b, p, r, rl⟩ ∧ ∀ a, a ≠ ct → h1 a = h a := by
  cases hj : tget (h.entries GLOBALS) (LuaValue.string (cstr (lit "java"))) with
  | table j =>
    refine ⟨Function.update h ct (some (GCObject.table (tset (h.entries ct) (LuaValue.string (cstr (lit name)))
      (tget (h.entries j) (LuaValue.string (cstr (lit field))))) (h.tmeta ct))), ?_, ?_⟩
    · simp [precache_from_module, hj]
    · intro a ha
      simp [Function.update_noteq ha]
  | _ =>
    refine ⟨h, ?_, fun _ _ => rfl⟩
    simp [precache_from_module, hj]

/-- `precache_metadata_functions` for a registered class writes into the class table only and
leaves the stack as it found it. -/
theorem precache_metadata_functions_frame (cn : Bytes) (ct m : Nat) (s : List LuaValue) (h : Heap)
    (n l : Nat) (b : Int → Option Nat) (p : Option JValue) (r rl : List JValue)
    (hreg : tget (h.entries REGISTRY) (LuaValue.string JNLUA_OBJECT) = LuaValue.table m)
    (hcls : tget (h.entries REGISTRY) (LuaValue.string (cstr cn)) = LuaValue.table ct)
    (hct : REGISTRY ≠ ct) :
    ∃ h1, precache_metadata_functions (some cn) ⟨s, h, n, l, b, p, r, rl⟩ =
        Res.ok () ⟨s, h1, n, l, b, p, r, rl⟩ ∧ ∀ a, a ≠ ct → h1 a = h a := by
  obtain ⟨h1, e1, f1⟩ := precache_from_metatable_frame "JNI_GC" "__gc" ct m s h n l b p r rl hreg
  have r1 : tget (h1.entries REGISTRY) (LuaValue.string JNLUA_OBJECT) = LuaValue.table m := by
    rw [entries_congr h h1 REGISTRY (f1 _ hct)]; exact hreg
  obtain ⟨h2, e2, f2⟩ := precache_from_metatable_frame "java_fields" "__javafields" ct m s h1 n l b p r rl r1
  have r2 : tget (h2.entries REGISTRY) (LuaValue.string JNLUA_OBJECT) = LuaValue.table m := by
    rw [entries_congr h1 h2 REGISTRY (f2 _ hct)]; exact r1
  obtain ⟨h3, e3, f3⟩ := precache_from_metatable_frame "java_methods" "__javamethods" ct m s h2 n l b p r rl r2
  have r3 : tget (h3.entries REGISTRY) (LuaValue.string JNLUA_OBJECT) = LuaValue.table m := by
    rw [entries_congr h2 h3 REGISTRY (f3 _ hct)]; exact r2
  obtain ⟨h4, e4, f4⟩ := precache_from_metatable_frame "java_properties" "__javaproperties" ct m s h3 n l b p r rl r3
  obtain ⟨h5, e5, f5⟩ := precache_from_module_frame "to_table" "totable" ct s h4 n l b p r rl
  obtain ⟨h6, e6, f6⟩ := precache_from_module_frame "to_lua" "tolua" ct s h5 n l b p r rl
  refine ⟨h6, ?_, ?_⟩
  · simp [precache_metadata_functions, hcls, e1, e2, e3, e4, e5, e6]
  · intro a ha
    rw [f6 a ha, f5 a ha, f4 a ha, f3 a ha, f2 a ha, f1 a ha]

/-- The class-table creation block on a registry without a table for the class: a new table is
registered under the class name and left twice on the stack; the shared object metatable stays
registered. -/
theorem create_class_table_ok (cn : Bytes) (s : List LuaValue) (h : Heap) (n l : Nat)
    (b : Int → Option Nat) (p : Option JValue) (r rl : List JValue) (m mm : Nat)
    (hreg : tget (h.entries REGISTRY) (LuaValue.string JNLUA_OBJECT) = LuaValue.table m)
    (hmeta : tget (h.entries REGISTRY) (LuaValue.string JNLUA_OBJECT_META) = LuaValue.table mm)
    (hcls : tget (h.entries REGISTRY) (LuaValue.string (cstr cn)) = LuaValue.nil)
    (hn : REGISTRY ≠ n) (hmm : REGISTRY ≠ mm) :
    ∃ h1, create_class_table (some cn) ⟨LuaValue.nil :: s, h, n, l, b, p, r, rl⟩ =
        Res.ok () ⟨LuaValue.table n :: LuaValue.table n :: s, h1, n + 1, l, b, p, r, rl⟩ ∧
      tget (h1.entries REGISTRY) (LuaValue.string JNLUA_OBJECT) = LuaValue.table m ∧
      tget (h1.entries REGISTRY) (LuaValue.string (cstr cn)) = LuaValue.table n := by
  have hne : LuaValue.string JNLUA_OBJECT ≠ LuaValue.string (cstr cn) := by
    intro hh
    rw [← hh, hreg] at hcls
    cases hcls
  have key : ∀ h4 : Heap, tget (h4.entries REGISTRY) (LuaValue.string JNLUA_OBJECT) = LuaValue.table m →
      tget (h4.entries REGISTRY) (LuaValue.string (cstr cn)) = LuaValue.table n →
      ∃ h1, (precache_metadata_functions (some cn) >>= fun _ =>
          lua_pushstring (some cn) >>= fun _ => lua_rawget LUA_REGISTRYINDEX)
            ⟨LuaValue.table n :: s, h4, n + 1, l, b, p, r, rl⟩ =
          Res.ok () ⟨LuaValue.table n :: LuaValue.table n :: s, h1, n + 1, l, b, p, r, rl⟩ ∧
        tget (h1.entries REGISTRY) (LuaValue.string JNLUA_OBJECT) = LuaValue.table m ∧
        tget (h1.entries REGISTRY) (LuaValue.string (cstr cn)) = LuaValue.table n := by
    intro h4 r4 c4
    obtain ⟨h5, e5, f5⟩ := precache_metadata_functions_frame cn n m (LuaValue.table n :: s) h4 (n + 1) l b p r rl
      r4 c4 hn
    have q := entries_congr h4 h5 REGISTRY (f5 _ hn)
    refine ⟨h5, ?_, ?_, ?_⟩
    · simp [e5, q, c4]
    · rw [q]; exact r4
    · rw [q]; exact c4
  have hn1 : n ≠ REGISTRY := Ne.symm hn
  have hmm1 : mm ≠ REGISTRY := Ne.symm hmm
  simp only [bind_apply, lua_pushstring_apply, lua_rawget_registry] at key
  simp [create_class_table, hreg, hmeta, cstr_JNLUA_OBJECT_META, hn, hmm, hn1, hmm1, tget_tset_same]
  refine key _ ?_ ?_
  · simp [hn, hmm, hn1, hmm1, tget_tset_ne _ _ _ _ hne, hreg]
  · simp [hn, hmm, hn1, hmm1, tget_tset_same]

/-- `bytes2string(L, bytes, -1, 1)` returns the bytes and leaves the stack as it was. -/
theorem bytes2string_name (H : Host) (cn : Bytes) (s : List LuaValue) (h : Heap) (n l : Nat)
    (b : Int → Option Nat) (p : Option JValue) (r rl : List JValue)
    (hmalloc : H.mallocOk cn.length = true) :
    bytes2string H (JValue.bytes cn) (-1) 1 ⟨s, h, n, l, b, p, r, rl⟩ =
      Res.ok (some cn) ⟨s, h, n, l, b, p, r, rl⟩ := by
  by_cases hz : cn = []
  · subst hz
    simp [bytes2string, lua_tolstring, cstr]
  · have hl : ¬ ((cn.length : Int) = 0) := by
      intro hh
      exact hz (List.length_eq_zero.mp (by exact_mod_cast hh))
    simp [bytes2string, lua_tolstring, hl, hmalloc, push]

/-- `pushmetafunction_protected` for an object (no class, no method, call type 1) returns 1 with a
fresh handle on top: payload the object, metatable the shared object metatable. -/
theorem pushmetafunction_protected_object (H : Host) (o : JValue) (cn : Bytes) (s : List LuaValue) (h : Heap)
    (n l : Nat) (b : Int → Option Nat) (p : Option JValue) (r rl : List JValue) (m mm : Nat)
    (hname : H.className o = some cn) (hmalloc : H.mallocOk cn.length = true)
    (ho : o.isNull = false) (hg : H.globalRefOk = true)
    (hreg : tget (h.entries REGISTRY) (LuaValue.string JNLUA_OBJECT) = LuaValue.table m)
    (hmeta : tget (h.entries REGISTRY) (LuaValue.string JNLUA_OBJECT_META) = LuaValue.table mm)
    (hcls : tget (h.entries REGISTRY) (LuaValue.string (cstr cn)) = LuaValue.nil ∨
      ∃ ct, tget (h.entries REGISTRY) (LuaValue.string (cstr cn)) = LuaValue.table ct)
    (hn : REGISTRY < n) (hmm : REGISTRY ≠ mm) :
    ∃ u h1 n1 rest, pushmetafunction_protected H JValue.null JValue.null o 1 ⟨s, h, n, l, b, p, r, rl⟩ =
        Res.ok 1 ⟨LuaValue.userdata u :: rest, h1, n1, l, b, p, r, rl⟩ ∧
      h1.payload u = o ∧ h1.umeta u = some m ∧
      tget (h1.entries REGISTRY) (LuaValue.string JNLUA_OBJECT) = LuaValue.table m := by
  have hn0 : REGISTRY ≠ n := Nat.ne_of_lt hn
  have hn1 : REGISTRY ≠ n + 1 := by omega
  rcases hcls with hc | ⟨ct, hc⟩
  · obtain ⟨h1, e1, r1, c1⟩ := create_class_table_ok cn s h n l b p r rl m mm hreg hmeta hc hn0 hmm
    obtain ⟨env, e2⟩ := pushjavaobject_object H ⟨LuaValue.table n :: s, h1, n + 1, l, b, p, r, rl⟩ o cn m
      r1 hn1 (Or.inr ⟨n, c1⟩) ho hg
    dsimp only at e2
    refine ⟨n + 1, Function.update h1 (n + 1) (some (GCObject.userdata o (some m) env)), n + 1 + 1,
      LuaValue.table n :: s, ?_, ?_, ?_, ?_⟩
    · simp [pushmetafunction_protected, JValue.isNull, hname, bytes2string_name H cn s h n l b p r rl hmalloc,
        hc, e1, e2]
    · simp
    · simp
    · simp [hn1, r1]
  · obtain ⟨env, e2⟩ := pushjavaobject_object H ⟨s, h, n, l, b, p, r, rl⟩ o cn m
      hreg hn0 (Or.inr ⟨ct, hc⟩) ho hg
    dsimp only at e2
    refine ⟨n, Function.update h n (some (GCObject.userdata o (some m) env)), n + 1, s, ?_, ?_, ?_, ?_⟩
    · simp [pushmetafunction_protected, JValue.isNull, hname, bytes2string_name H cn s h n l b p r rl hmalloc,
        hc, e2]
    · simp
    · simp
    · simp [hn0, hreg]

/-- `jcall_pushjavaobject` of a non-null object pushes exactly one fresh handle of the object
and raises nothing. -/
theorem jcall_pushjavaobject_object (H : Host) (o : JValue) (cn : Bytes) (s : List LuaValue) (h : Heap)
    (n l : Nat) (b : Int → Option Nat) (p : Option JValue) (r rl : List JValue) (m mm : Nat)
    (hname : H.className o = some cn) (hmalloc : H.mallocOk cn.length = true)
    (ho : o.isNull = false) (hg : H.globalRefOk = true)
    (hreg : tget (h.entries REGISTRY) (LuaValue.string JNLUA_OBJECT) = LuaValue.table m)
    (hmeta : tget (h.entries REGISTRY) (LuaValue.string JNLUA_OBJECT_META) = LuaValue.table mm)
    (hcls : tget (h.entries REGISTRY) (LuaValue.string (cstr cn)) = LuaValue.nil ∨
      ∃ ct, tget (h.entries REGISTRY) (LuaValue.string (cstr cn)) = LuaValue.table ct)
    (hn : REGISTRY < n) (hmm : REGISTRY ≠ mm)
    (hroom : (s.length : Int) + JNLUA_MINSTACK ≤ l) :
    ∃ u h1 n1, jcall_pushjavaobject H o JValue.null ⟨s, h, n, l, b, p, r, rl⟩ =
        Res.ok () ⟨LuaValue.userdata u :: s, h1, n1, l, b, p, r, rl⟩ ∧
      h1.payload u = o ∧ h1.umeta u = some m ∧
      tget (h1.entries REGISTRY) (LuaValue.string JNLUA_OBJECT) = LuaValue.table m := by
  have hn0 : REGISTRY ≠ n := Nat.ne_of_lt hn
  obtain ⟨u, h1, n1, rest, e, hp, hu, hr⟩ := pushmetafunction_protected_object H o cn []
    (Function.update h n (some (GCObject.cclosure CFunction.pushmetafunction_protected []))) (n + 1) l b p r rl m mm
    hname hmalloc ho hg (by simp [hn0, hreg]) (by simp [hn0, hmeta])
    (by simpa [hn0] using hcls) (by omega) hmm
  refine ⟨u, h1, n1, ?_, hp, hu, hr⟩
  have hr0 : ((⟨s, h, n, l, b, p, r, rl⟩ : World).stack.length : Int) + JNLUA_MINSTACK ≤
      (⟨s, h, n, l, b, p, r, rl⟩ : World).limit := hroom
  simp [jcall_pushjavaobject, jcall_pushmetafunction, checkstack_room _ _ hr0, lua_pushcfunction,
    lua_pushcclosure, pcallC, e, adjustResults, LUA_MULTRET]

/-! ## C5: handles through `build_args` and `push_args` -/

/-- The loop body of `build_args` on a slot holding a handle with a live payload: the
host-object tag and the payload itself. -/
theorem build_args_slot_handle (H : Host) (w : World) (i : Int) (ud m : Nat) (buf : ArgBuf) (pushtable : Bool)
    (hval : index2value w i = some (LuaValue.userdata ud))
    (hm : w.heap.umeta ud = some m)
    (hreg : tget (w.heap.entries REGISTRY) (LuaValue.string JNLUA_OBJECT) = LuaValue.table m)
    (ho : (w.heap.payload ud).isNull = false)
    (hbuf : 0 < buf.values.length ∧ 0 < buf.types.length ∧ 0 < buf.bytes.length) :
    build_args_slot H pushtable i 0 buf w =
      Res.ok { buf with bytes := buf.bytes.set 0 LUA_TJAVAOBJECT,
                        values := buf.values.set 0 (w.heap.payload ud) } w := by
  obtain ⟨hv, ht, hb⟩ := hbuf
  have hb' : ¬ buf.bytes.length ≤ 0 := by omega
  simp [build_args_slot, hb', lua_type, hval, LuaValue.tag, tojavaobject_handle H w i ud m hval hm hreg,
    SetObjectArrayElement, hv, ho, LUA_TJAVAOBJECT, LUA_TUSERDATA, LUA_TSTRING, LUA_TNUMBER, LUA_TBOOLEAN,
    LUA_TFUNCTION]

/-- The loop body of `push_args` on a slot tagged host object: one fresh handle of the object. -/
theorem push_slot_object (H : Host) (o : JValue) (cn : Bytes) (w : World) (m mm : Nat)
    (hname : H.className o = some cn) (hmalloc : H.mallocOk cn.length = true)
    (ho : o.isNull = false) (hg : H.globalRefOk = true)
    (hreg : tget (w.heap.entries REGISTRY) (LuaValue.string JNLUA_OBJECT) = LuaValue.table m)
    (hmeta : tget (w.heap.entries REGISTRY) (LuaValue.string JNLUA_OBJECT_META) = LuaValue.table mm)
    (hcls : tget (w.heap.entries REGISTRY) (LuaValue.string (cstr cn)) = LuaValue.nil ∨
      ∃ ct, tget (w.heap.entries REGISTRY) (LuaValue.string (cstr cn)) = LuaValue.table ct)
    (hn : REGISTRY < w.next) (hmm : REGISTRY ≠ mm)
    (hroom : (w.stack.length : Int) + JNLUA_MINSTACK ≤ w.limit) :
    ∃ u h1 n1, push_slot H 1 o LUA_TJAVAOBJECT w =
        Res.ok LUA_TJAVAOBJECT { w with stack := LuaValue.userdata u :: w.stack, heap := h1, next := n1 } ∧
      h1.payload u = o ∧ h1.umeta u = some m ∧
      tget (h1.entries REGISTRY) (LuaValue.string JNLUA_OBJECT) = LuaValue.table m := by
  obtain ⟨s, h, n, l, b, p, r, rl⟩ := w
  obtain ⟨u, h1, n1, e, hp, hu, hr⟩ := jcall_pushjavaobject_object H o cn s h n l b p r rl m mm hname hmalloc ho hg
    hreg hmeta hcls hn hmm hroom
  refine ⟨u, h1, n1, ?_, hp, hu, hr⟩
  simp [push_slot, LUA_TJAVAOBJECT, LUA_TNIL, LUA_TBOOLEAN, LUA_TSTRING, LUA_TNUMBER, LUA_TJAVAFUNCTION,
    LUA_TUSERDATA, LUA_TFUNCTION, e]

/-- C5: for every handle (a userdata carrying the shared object metatable) that wraps a host
object `o`, `build_args` leaves the state as it was and emits the host-object tag, which is
userdata + 3 = 10, with value `o`; and `push_args` applied to the produced slot pushes exactly one
value, a handle from which `tojavaobject` returns `o`, raising and releasing nothing.  The
environment is the ordinary one: the registry as `jcall_newstate` sets it up (object metatable
and class-table index registered, the entry of the class a table or absent), the host answers
the class name, `malloc` and `NewGlobalRef` succeed, the stack can grow by LUA_MINSTACK and the
argument buffer has a slot. -/
theorem handle_pack_unpack (H : Host) (w : World) (i : Int) (ud m mm : Nat) (cn : Bytes) (buf : ArgBuf)
    (pushtable : Bool)
    (hval : index2value w i = some (LuaValue.userdata ud))
    (hm : w.heap.umeta ud = some m)
    (hreg : tget (w.heap.entries REGISTRY) (LuaValue.string JNLUA_OBJECT) = LuaValue.table m)
    (ho : (w.heap.payload ud).isNull = false)
    (hmeta : tget (w.heap.entries REGISTRY) (LuaValue.string JNLUA_OBJECT_META) = LuaValue.table mm)
    (hcls : tget (w.heap.entries REGISTRY) (LuaValue.string (cstr cn)) = LuaValue.nil ∨
      ∃ ct, tget (w.heap.entries REGISTRY) (LuaValue.string (cstr cn)) = LuaValue.table ct)
    (hn : REGISTRY < w.next) (hmm : REGISTRY ≠ mm)
    (hname : H.className (w.heap.payload ud) = some cn) (hmalloc : H.mallocOk cn.length = true)
    (hg : H.globalRefOk = true)
    (hroom : (w.stack.length : Int) + JNLUA_MINSTACK ≤ w.limit)
    (hbuf : 0 < buf.values.length ∧ 0 < buf.types.length ∧ 0 < buf.bytes.length) :
    LUA_TJAVAOBJECT = LUA_TUSERDATA + 3 ∧ LUA_TJAVAOBJECT = 10 ∧
    ∃ buf1 types1 u w1,
      build_args H i i buf pushtable true w = Res.ok buf1 w ∧
      buf1.types[0]? = some LUA_TJAVAOBJECT ∧ buf1.values[0]? = some (w.heap.payload ud) ∧
      push_args H 0 0 buf1.values buf1.types w = Res.ok types1 w1 ∧
      w1.stack = LuaValue.userdata u :: w.stack ∧
      w1.pending = w.pending ∧ w1.raised = w.raised ∧ w1.released = w.released ∧
      tojavaobject H (-1) none w1 = Res.ok (w.heap.payload ud) w1 := by
  refine ⟨rfl, rfl, ?_⟩
  obtain ⟨u, h1, n1, e, hp, hu, hr⟩ := push_slot_object H (w.heap.payload ud) cn w m mm hname hmalloc ho hg
    hreg hmeta hcls hn hmm hroom
  have hv0 : (buf.values.set 0 (w.heap.payload ud))[0]? = some (w.heap.payload ud) := by
    rw [List.getElem?_set_self]
    exact hbuf.1
  refine ⟨_, (LUA_TJAVAOBJECT :: List.drop 1 buf.types).set 0 LUA_TJAVAOBJECT, u,
    { w with stack := LuaValue.userdata u :: w.stack, heap := h1, next := n1 },
    build_args_one H w i buf pushtable LUA_TJAVAOBJECT _ hbuf
      (build_args_slot_handle H w i ud m buf pushtable hval hm hreg ho hbuf),
    by simp, hv0, ?_, rfl, rfl, rfl, rfl, ?_⟩
  · exact push_args_one H w _ _ _ _ LUA_TJAVAOBJECT LUA_TJAVAOBJECT hv0 (by simp) e
  · have q := tojavaobject_handle H { w with stack := LuaValue.userdata u :: w.stack, heap := h1, next := n1 }
      (-1) u m (by obtain ⟨s, h, n, l, b, p, r, rl⟩ := w; simp) hu hr
    rw [q]
    simp only [hp]

/-- Witness for C5: the handle of host object 42 in slot 1, class `java.lang.Object` not yet
registered. -/
theorem handle_pack_unpack_witness :
    LUA_TJAVAOBJECT = LUA_TUSERDATA + 3 ∧ LUA_TJAVAOBJECT = 10 ∧
    ∃ buf1 types1 u w1,
      build_args objectHost 1 1 ⟨[JValue.null], [0], [0]⟩ false true
        { handleWorld with stack := [LuaValue.userdata 4] } =
        Res.ok buf1 { handleWorld with stack := [LuaValue.userdata 4] } ∧
      buf1.types[0]? = some LUA_TJAVAOBJECT ∧ buf1.values[0]? = some (JValue.object 42) ∧
      push_args objectHost 0 0 buf1.values buf1.types { handleWorld with stack := [LuaValue.userdata 4] } =
        Res.ok types1 w1 ∧
      w1.stack = [LuaValue.userdata u, LuaValue.userdata 4] ∧
      w1.pending = none ∧ w1.raised = [] ∧ w1.released = [] ∧
      tojavaobject objectHost (-1) none w1 = Res.ok (JValue.object 42) w1 :=
  handle_pack_unpack objectHost { handleWorld with stack := [LuaValue.userdata 4] } 1 4 2 3
    (lit "java.lang.Object") ⟨[JValue.null], [0], [0]⟩ false
    (by decide) (by decide) (by decide) (by decide) (by decide) (Or.inl (by decide)) (by decide) (by decide)
    rfl rfl rfl (by decide) (by decide)

/-! ## C7: arrays through `push_args` -/

/-- `throw` with the error value on top and no exception pending: the error value is consumed
and one exception of the class of the status becomes pending. -/
theorem throw_ok (H : Host) (e : LuaValue) (rest : List LuaValue) (h : Heap) (n l : Nat)
    (b : Int → Option Nat) (r rl : List JValue) (status : Int) (cls : JClass)
    (hcls : throwClass status = some cls)
    (hroom : (rest.length : Int) + 1 + JNLUA_MINSTACK ≤ l)
    (hnew : H.newObjectOk cls = true) (hthrow : H.throwOk = true)
    (hset : H.setLuaErrorThrows = none)
    (hmeta : ∀ f, ∃ rs, H.call f [e] = CallOutcome.returns rs)
    (hlight : b LUA_TLIGHTUSERDATA = none) :
    ∃ msg linked, throw H status ⟨e :: rest, h, n, l, b, none, r, rl⟩ =
      Res.ok () ⟨rest, Function.update h n (some (GCObject.cclosure CFunction.throw_protected [])), n + 1, l, b,
        some (JValue.throwable cls msg linked), r ++ [JValue.throwable cls msg linked], rl⟩ := by
  obtain ⟨msg, linked, hb⟩ := throw_protected_ok H
    ⟨[e], Function.update h n (some (GCObject.cclosure CFunction.throw_protected [])), n + 1, l, b, none, r, rl⟩
    e status cls rfl hcls hnew hthrow hset hmeta hlight rfl
  simp only at hb
  refine ⟨msg, linked, ?_⟩
  have hroom1 : ((rest.length + 1 : Nat) : Int) + JNLUA_MINSTACK ≤ (l : Int) := by push_cast; exact hroom
  simp only [throw, checkstack, lua_checkstack, bind_apply, List.length_cons, hroom1, decide_True, check, if_true,
    pure_apply, lua_pushcfunction, lua_pushcclosure, Nat.zero_le, List.take_zero, List.reverse_nil,
    List.drop_zero, lua_insert, slot_m2, List.take_succ_cons, List.take_zero, List.drop_succ_cons,
    List.drop_zero, List.nil_append, List.cons_append, pcallC]
  have hlen : ¬ (rest.length + 1 + 1 < 2) := by omega
  simp [hb, adjustResults, LUA_MULTRET, hlen]

/-- `pushmetafunction_protected` for an object whose class name the host does not answer:
the registry write under the NULL class name raises the engine error "table index is nil". -/
theorem pushmetafunction_protected_nameless (H : Host) (o : JValue) (s : List LuaValue) (h : Heap)
    (n l : Nat) (b : Int → Option Nat) (p : Option JValue) (r rl : List JValue)
    (hname : H.className o = none)
    (hnil : tget (h.entries REGISTRY) LuaValue.nil = LuaValue.nil) :
    ∃ st, pushmetafunction_protected H JValue.null JValue.null o 1 ⟨s, h, n, l, b, p, r, rl⟩ =
      Res.raise (LuaValue.string (lit "table index is nil"))
        ⟨st, Function.update h n (some (GCObject.table [] none)), n + 1, l, b, p, r, rl⟩ := by
  refine ⟨LuaValue.table n :: LuaValue.nil :: LuaValue.table n :: LuaValue.nil ::
    tget (h.entries REGISTRY) (LuaValue.string JNLUA_OBJECT_META) ::
    tget (h.entries REGISTRY) (LuaValue.string JNLUA_OBJECT) :: s, ?_⟩
  simp [pushmetafunction_protected, JValue.isNull, hname, bytes2string, hnil, create_class_table,
    cstr_JNLUA_OBJECT_META]

/-- `jcall_pushjavaobject` of an object whose class name the host does not answer pushes
nothing: the error of the protected call is turned into a pending `LuaRuntimeException`. -/
theorem jcall_pushjavaobject_nameless (H : Host) (o : JValue) (s : List LuaValue) (h : Heap)
    (n l : Nat) (b : Int → Option Nat) (r rl : List JValue)
    (hname : H.className o = none)
    (hnil : tget (h.entries REGISTRY) LuaValue.nil = LuaValue.nil)
    (hn : REGISTRY ≠ n)
    (hroom : (s.length : Int) + 1 + JNLUA_MINSTACK ≤ l)
    (hnew : H.newObjectOk JClass.LuaRuntimeException = true) (hthrow : H.throwOk = true)
    (hset : H.setLuaErrorThrows = none)
    (hmeta : ∀ f e, ∃ rs, H.call f [e] = CallOutcome.returns rs)
    (hlight : b LUA_TLIGHTUSERDATA = none) :
    ∃ msg linked, jcall_pushjavaobject H o JValue.null ⟨s, h, n, l, b, none, r, rl⟩ =
      Res.ok () ⟨s,
        Function.update (Function.update (Function.update h n
          (some (GCObject.cclosure CFunction.pushmetafunction_protected []))) (n + 1)
          (some (GCObject.table [] none))) (n + 1 + 1)
          (some (GCObject.cclosure CFunction.throw_protected [])),
        n + 1 + 1 + 1, l, b, some (JValue.throwable JClass.LuaRuntimeException msg linked),
        r ++ [JValue.throwable JClass.LuaRuntimeException msg linked], rl⟩ := by
  obtain ⟨st, e1⟩ := pushmetafunction_protected_nameless H o []
    (Function.update h n (some (GCObject.cclosure CFunction.pushmetafunction_protected []))) (n + 1) l b none r rl
    hname (by simp [hn, hnil])
  obtain ⟨msg, linked, e2⟩ := throw_ok H (LuaValue.string (lit "table index is nil")) s
    (Function.update (Function.update h n (some (GCObject.cclosure CFunction.pushmetafunction_protected [])))
      (n + 1) (some (GCObject.table [] none))) (n + 1 + 1) l b r rl LUA_ERRRUN JClass.LuaRuntimeException
    rfl hroom hnew hthrow hset (fun f => hmeta f _) hlight
  refine ⟨msg, linked, ?_⟩
  have h2 : LUA_ERRRUN = 2 := rfl
  rw [h2] at e2
  have hr0 : ((⟨s, h, n, l, b, none, r, rl⟩ : World).stack.length : Int) + JNLUA_MINSTACK ≤
      (⟨s, h, n, l, b, none, r, rl⟩ : World).limit := by
    show (s.length : Int) + JNLUA_MINSTACK ≤ l
    omega
  simp [jcall_pushjavaobject, jcall_pushmetafunction, checkstack_room _ _ hr0, lua_pushcfunction,
    lua_pushcclosure, pcallC, e1, LUA_ERRRUN, e2]

/-- C7, at the failing input: a slot tagged array of host objects (tag LUA_TJAVAOBJECT + 16 = 26)
whose host array holds one null element, unpacked while a table of the caller is on top of the
stack.  `push_args` creates the table for the array, but `jcall_pushjavaobject(NULL)` pushes
nothing for the element (it leaves a pending exception), so the `lua_rawseti(L, -2, 1)` of the
loop takes the new table itself as the value and the caller's table as the target: the call
returns with the stack as it found it (no table pushed), the new table stored under key 1 of the
caller's table, and a `LuaRuntimeException` pending.  The host here answers no class name for
null; every other host call succeeds. -/
theorem push_args_object_array_null_element (H : Host) (w : World) (t : Nat) (rest : List LuaValue)
    (hstack : w.stack = LuaValue.table t :: rest)
    (hpend : w.pending = none)
    (hname : H.className JValue.null = none)
    (hmalloc : H.mallocOk 2 = true)
    (hnil : tget (w.heap.entries REGISTRY) LuaValue.nil = LuaValue.nil)
    (hn : REGISTRY < w.next)
    (hroom : (w.stack.length : Int) + 2 + JNLUA_MINSTACK ≤ w.limit)
    (hnew : H.newObjectOk JClass.LuaRuntimeException = true) (hthrow : H.throwOk = true)
    (hset : H.setLuaErrorThrows = none)
    (hmeta : ∀ f e, ∃ rs, H.call f [e] = CallOutcome.returns rs)
    (hlight : w.basemt LUA_TLIGHTUSERDATA = none) :
    ∃ w1 exc, push_args H 0 0 [JValue.array [JValue.null]] [LUA_TJAVAOBJECT + 16] w =
        Res.ok [LUA_TJAVAOBJECT] w1 ∧
      w1.stack = w.stack ∧ w1.pending = some exc ∧ w1.raised = w.raised ++ [exc] ∧
      tget (w1.heap.entries t) (LuaValue.number 1) = LuaValue.table w.next := by
  obtain ⟨s, h, n, l, b, p, r, rl⟩ := w
  simp only at hstack hpend hnil hn hroom hlight
  subst hstack hpend
  have hn0 : REGISTRY ≠ n := Nat.ne_of_lt hn
  have hn1 : REGISTRY ≠ n + 1 := by omega
  obtain ⟨msg, linked, e⟩ := jcall_pushjavaobject_nameless H JValue.null
    (LuaValue.table n :: LuaValue.table t :: rest) (Function.update h n (some (GCObject.table [] none)))
    (n + 1) l b r rl hname (by simp [hn0, hnil]) hn1
    (by simp only [List.length_cons] at hroom ⊢; push_cast at hroom ⊢; omega)
    hnew hthrow hset hmeta hlight
  have hslot : push_slot H (depthFor (LUA_TJAVAOBJECT + 16)) (JValue.array [JValue.null]) (LUA_TJAVAOBJECT + 16)
      ⟨LuaValue.table t :: rest, h, n, l, b, none, r, rl⟩ =
      Res.ok LUA_TJAVAOBJECT ⟨LuaValue.table t :: rest,
        Function.update (Function.update (Function.update (Function.update (Function.update h n
          (some (GCObject.table [] none))) (n + 1)
          (some (GCObject.cclosure CFunction.pushmetafunction_protected []))) (n + 1 + 1)
          (some (GCObject.table [] none))) (n + 1 + 1 + 1)
          (some (GCObject.cclosure CFunction.throw_protected []))) t
          (some (GCObject.table (tset (Heap.entries (Function.update (Function.update (Function.update
            (Function.update h n (some (GCObject.table [] none))) (n + 1)
            (some (GCObject.cclosure CFunction.pushmetafunction_protected []))) (n + 1 + 1)
            (some (GCObject.table [] none))) (n + 1 + 1 + 1)
            (some (GCObject.cclosure CFunction.throw_protected []))) t) (LuaValue.number 1) (LuaValue.table n))
            (Heap.tmeta (Function.update (Function.update (Function.update
            (Function.update h n (some (GCObject.table [] none))) (n + 1)
            (some (GCObject.cclosure CFunction.pushmetafunction_protected []))) (n + 1 + 1)
            (some (GCObject.table [] none))) (n + 1 + 1 + 1)
            (some (GCObject.cclosure CFunction.throw_protected []))) t))),
        n + 1 + 1 + 1 + 1, l, b, some (JValue.throwable JClass.LuaRuntimeException msg linked),
        r ++ [JValue.throwable JClass.LuaRuntimeException msg linked], rl⟩ := by
    have hd : depthFor (LUA_TJAVAOBJECT + 16) = 2 := by decide
    rw [hd]
    simp only [push_slot, push_elements, LUA_TJAVAOBJECT, LUA_TUSERDATA, LUA_TNIL, LUA_TBOOLEAN, LUA_TSTRING,
      LUA_TNUMBER, LUA_TJAVAFUNCTION, LUA_TFUNCTION, List.length_singleton, hmalloc, bind_apply,
      lua_createtable_apply, pure_apply] at e ⊢
    simp [e, lua_rawseti, tableAt, World.store]
  refine ⟨_, _, push_args_one H _ _ _ _ _ _ _ rfl rfl hslot, rfl, rfl, rfl, ?_⟩
  simp only [entries_update_table, if_true, tget_tset_same]

/-- Witness for C7: the array `[null]` under tag 26 in the state `callerWorld`. -/
theorem push_args_object_array_null_element_witness :
    ∃ w1 exc, push_args exampleHost 0 0 [JValue.array [JValue.null]] [LUA_TJAVAOBJECT + 16] callerWorld =
        Res.ok [LUA_TJAVAOBJECT] w1 ∧
      w1.stack = [LuaValue.table 6] ∧ w1.pending = some exc ∧ w1.raised = [] ++ [exc] ∧
      tget (w1.heap.entries 6) (LuaValue.number 1) = LuaValue.table 7 :=
  push_args_object_array_null_element exampleHost callerWorld 6 [] rfl rfl rfl rfl (by decide) (by decide)
    (by decide) rfl rfl rfl (fun _ _ => ⟨[], rfl⟩) rfl

/-! ## C8: the element cap of `push_args` -/

/-- The element loop of `push_args` over byte arrays under the string tag: every element is
pushed and stored, the table stays on top, and the tag left in `t[0]` is the string tag. -/
theorem push_elements_strings (H : Host) (hmalloc : ∀ n, H.mallocOk n = true) (bs : List Bytes) :
    ∀ (j : Nat) (t0 : Option Int) (t : Nat) (s : List LuaValue) (h : Heap) (n l : Nat)
      (b : Int → Option Nat) (p : Option JValue) (r rl : List JValue),
      ∃ h1 t1, push_elements (push_slot H 1) LUA_TSTRING (bs.map JValue.bytes) j t0
          ⟨LuaValue.table t :: s, h, n, l, b, p, r, rl⟩ =
          Res.ok t1 ⟨LuaValue.table t :: s, h1, n, l, b, p, r, rl⟩ ∧
        (t1 = some LUA_TSTRING ∨ t1 = t0) := by
  induction bs with
  | nil =>
    intro j t0 t s h n l b p r rl
    exact ⟨h, t0, rfl, Or.inr rfl⟩
  | cons a rest ih =>
    intro j t0 t s h n l b p r rl
    obtain ⟨h1, t1, e, ht⟩ := ih (j + 1) (if j = 0 then some LUA_TSTRING else t0) t s
      (Function.update h t (some (GCObject.table (tset (h.entries t) (LuaValue.number ((j : Int) + 1))
        (LuaValue.string a)) (h.tmeta t)))) n l b p r rl
    refine ⟨h1, t1, ?_, ?_⟩
    · simp only [List.map_cons, push_elements, bind_apply, push_slot_string H _ a hmalloc]
      simp only [lua_rawseti, tableAt, index2value_m2, World.store]
      exact_mod_cast e
    · rcases ht with ht | ht
      · exact Or.inl ht
      · by_cases hj : j = 0
        · simp only [hj, if_true] at ht
          exact Or.inl ht
        · simp only [hj, if_false] at ht
          exact Or.inr ht

/-- C8: for every array-tagged slot (tag > 16) whose host array has more than 100000 elements,
`push_args` pushes nil for the slot and changes nothing else: no element is converted, no
exception is raised, the tag is left as it was.  An array of exactly 100000 elements is still
converted: for 100000 byte arrays under the tag string + 16 the new table is what is pushed, and
the tag left is the element tag.  `malloc` is taken to succeed. -/
theorem push_args_array_cap (H : Host) (w : World) (hmalloc : ∀ n, H.mallocOk n = true) :
    (∀ (tag : Int) (elems : List JValue), 16 < tag → 100000 < elems.length →
      push_args H 0 0 [JValue.array elems] [tag] w =
        Res.ok [tag] { w with stack := LuaValue.nil :: w.stack }) ∧
    (∀ bs : List Bytes, bs.length = 100000 →
      ∃ h1, push_args H 0 0 [JValue.array (bs.map JValue.bytes)] [LUA_TSTRING + 16] w =
        Res.ok [LUA_TSTRING] { w with stack := LuaValue.table w.next :: w.stack, heap := h1,
                                      next := w.next + 1 }) := by
  constructor
  · intro tag elems htag hlen
    have hslot : push_slot H (depthFor tag) (JValue.array elems) tag w =
        Res.ok tag { w with stack := LuaValue.nil :: w.stack } := by
      have hd : depthFor tag = (tag.toNat / 16) + 1 := rfl
      rw [hd]
      simp [push_slot, htag, hlen]
    exact push_args_one H w _ _ _ _ tag tag rfl rfl hslot
  · intro bs hlen
    obtain ⟨s, h, n, l, b, p, r, rl⟩ := w
    obtain ⟨h1, t1, e, ht⟩ := push_elements_strings H hmalloc bs 0 none n s
      (Function.update h n (some (GCObject.table [] none))) (n + 1) l b p r rl
    refine ⟨h1, ?_⟩
    have hslot : push_slot H (depthFor (LUA_TSTRING + 16)) (JValue.array (bs.map JValue.bytes))
        (LUA_TSTRING + 16) ⟨s, h, n, l, b, p, r, rl⟩ =
        Res.ok LUA_TSTRING ⟨LuaValue.table n :: s, h1, n + 1, l, b, p, r, rl⟩ := by
      have hd : depthFor (LUA_TSTRING + 16) = 2 := by decide
      have h16 : (16 : Int) < LUA_TSTRING + 16 := by decide
      have h4 : LUA_TSTRING + 16 - 16 = LUA_TSTRING := by decide
      have hl : ¬ (100000 < (bs.map JValue.bytes).length) := by simp [hlen]
      rw [hd, push_slot]
      simp only [h16, if_true, hl, if_false, hmalloc, Bool.not_true, Bool.false_eq_true, bind_apply,
        lua_createtable_apply, h4, e, pure_apply]
      rcases ht with ht | ht <;> simp [ht]
    exact push_args_one H _ _ _ _ _ _ _ rfl rfl hslot

/-- Witness for C8: 100001 null elements under tag 17 give nil; 100000 one-byte strings under
tag 20 give a table. -/
theorem push_args_array_cap_witness :
    push_args exampleHost 0 0 [JValue.array (List.replicate 100001 JValue.null)] [17] exampleWorld =
      Res.ok [17] { exampleWorld with stack := [LuaValue.nil] } ∧
    ∃ h1, push_args exampleHost 0 0 [JValue.array ((List.replicate 100000 [97]).map JValue.bytes)]
        [LUA_TSTRING + 16] exampleWorld =
      Res.ok [LUA_TSTRING] { exampleWorld with stack := [LuaValue.table 2], heap := h1, next := 3 } :=
  ⟨(push_args_array_cap exampleHost exampleWorld (fun _ => rfl)).1 17 _ (by decide)
      (by rw [List.length_replicate]; decide),
    (push_args_array_cap exampleHost exampleWorld (fun _ => rfl)).2 _ (by rw [List.length_replicate])⟩

/-! ## C9: the number slot of `push_args` -/

/-- C9: a slot tagged number whose host value is non-null but has no `doubleValue` (the call
raises a host exception): `push_args` clears the exception and pushes exactly one value, the
string form of the host value as an engine string, or nil when the host gives no string form;
the call completes normally and no exception is left pending or thrown by the bridge.  A null
host value under the number tag gives nil.  For the string the stack must be able to grow by
LUA_MINSTACK and `GetStringUTFChars` must succeed. -/
theorem push_args_number_fallback (H : Host) (w : World) (o : JValue)
    (ho : o.isNull = false) (hd : doubleValue o = none)
    (hroom : (w.stack.length : Int) + JNLUA_MINSTACK ≤ w.limit)
    (hutf : H.utfCharsOk = true) :
    push_args H 0 0 [o] [LUA_TNUMBER] w =
      Res.ok [LUA_TNUMBER] { w with
        stack := (match H.toStringOf o with
          | some str => LuaValue.string str
          | none => LuaValue.nil) :: w.stack,
        pending := none } ∧
    push_args H 0 0 [JValue.null] [LUA_TNUMBER] w =
      Res.ok [LUA_TNUMBER] { w with stack := LuaValue.nil :: w.stack } := by
  constructor
  · have hslot : push_slot H (depthFor LUA_TNUMBER) o LUA_TNUMBER w =
        Res.ok LUA_TNUMBER { w with
          stack := (match H.toStringOf o with
            | some str => LuaValue.string str
            | none => LuaValue.nil) :: w.stack,
          pending := none } := by
      have hdp : depthFor LUA_TNUMBER = 1 := by decide
      have hr1 : (({ w with pending := none } : World).stack.length : Int) + JNLUA_MINSTACK ≤
          ({ w with pending := none } : World).limit := hroom
      rw [hdp]
      cases hs : H.toStringOf o with
      | none =>
        simp [push_slot, LUA_TNUMBER, LUA_TNIL, LUA_TBOOLEAN, LUA_TSTRING, ho, hd, hs]
      | some str =>
        simp [push_slot, LUA_TNUMBER, LUA_TNIL, LUA_TBOOLEAN, LUA_TSTRING, ho, hd, hs, jcall_pushstring,
          checkstack_room _ _ hr1, check, hutf]
    exact push_args_one H w _ _ _ _ LUA_TNUMBER LUA_TNUMBER rfl rfl hslot
  · have hslot : push_slot H (depthFor LUA_TNUMBER) JValue.null LUA_TNUMBER w =
        Res.ok LUA_TNUMBER { w with stack := LuaValue.nil :: w.stack } := by
      have hdp : depthFor LUA_TNUMBER = 1 := by decide
      rw [hdp]
      simp [push_slot, LUA_TNUMBER, LUA_TNIL, LUA_TBOOLEAN, LUA_TSTRING, JValue.isNull]
    exact push_args_one H w _ _ _ _ LUA_TNUMBER LUA_TNUMBER rfl rfl hslot

/-- Witness for C9: host object 7, which is no `Double`, under the number tag. -/
theorem push_args_number_fallback_witness :
    push_args textHost 0 0 [JValue.object 7] [LUA_TNUMBER] exampleWorld =
      Res.ok [LUA_TNUMBER] { exampleWorld with
        stack := [LuaValue.string (lit "2024-01-01")], pending := none } ∧
    push_args textHost 0 0 [JValue.null] [LUA_TNUMBER] exampleWorld =
      Res.ok [LUA_TNUMBER] { exampleWorld with stack := [LuaValue.nil] } :=
  push_args_number_fallback textHost exampleWorld (JValue.object 7) rfl rfl (by decide) rfl

/-! ## C10: the finalizer -/

/-- Indexing with metamethods returns a value or raises an error; it leaves the state as it was. -/
theorem luaV_gettable_keeps (H : Host) (fuel : Nat) :
    ∀ (t key : LuaValue) (w : World),
      (∃ v, luaV_gettable H fuel t key w = Res.ok v w) ∨ (∃ e, luaV_gettable H fuel t key w = Res.raise e w) := by
  induction fuel with
  | zero =>
    intro t key w
    exact Or.inr ⟨_, rfl⟩
  | succ n ih =>
    intro t key w
    unfold luaV_gettable
    simp only []
    repeat' split
    all_goals first
      | exact Or.inl ⟨_, rfl⟩
      | exact Or.inr ⟨_, rfl⟩
      | exact ih _ _ _

/-- `gcjavaobject` without `thread_env`, or on a handle whose payload is null, does nothing. -/
theorem gcjavaobject_idle (H : Host) (envPresent : Bool) (trace : Int) (r : Nat) (h : Heap) (n l : Nat)
    (b : Int → Option Nat) (p : Option JValue) (rs rl : List JValue)
    (hidle : envPresent = false ∨ (h.payload r).isNull = true) :
    gcjavaobject H envPresent trace ⟨[LuaValue.userdata r], h, n, l, b, p, rs, rl⟩ =
      Res.ok 0 ⟨[LuaValue.userdata r], h, n, l, b, p, rs, rl⟩ := by
  rcases hidle with he | hn
  · simp [gcjavaobject, he]
  · cases envPresent <;> simp [gcjavaobject, lua_isuserdata, index2value_one, hn]

/-- `gcjavaobject` on a handle with a non-null payload: the payload is null afterwards in every
outcome; the payload is released when the call returns and not released when the traced lookup
of the class name raises. -/
theorem gcjavaobject_live (H : Host) (trace : Int) (r : Nat) (h : Heap) (n l : Nat)
    (b : Int → Option Nat) (p : Option JValue) (rs rl : List JValue)
    (hlive : (h.payload r).isNull = false) :
    ∃ h3, h3.payload r = JValue.null ∧
      (gcjavaobject H true trace ⟨[LuaValue.userdata r], h, n, l, b, p, rs, rl⟩ =
          Res.ok 0 ⟨[LuaValue.userdata r], h3, n + 1, l, b, p, rs, rl ++ [h.payload r]⟩ ∨
        ∃ st e, gcjavaobject H true trace ⟨[LuaValue.userdata r], h, n, l, b, p, rs, rl⟩ =
          Res.raise e ⟨st, h3, n + 1, l, b, p, rs, rl⟩) := by
  have hpl : Heap.payload (Function.update (Function.update h r
      (some (GCObject.userdata JValue.null (h.umeta r) (h.uenv r)))) n (some (GCObject.table [] none))) r =
      JValue.null := by
    unfold Heap.payload
    by_cases hrn : r = n
    · subst hrn; simp
    · simp [Function.update_noteq hrn]
  by_cases ht : Int.land trace 9 = 1
  · refine ⟨
      Function.update (Function.update (Function.update h r
        (some (GCObject.userdata JValue.null (h.umeta r) (h.uenv r)))) n (some (GCObject.table [] none))) r
        (some (GCObject.userdata (Heap.payload (Function.update (Function.update h r
          (some (GCObject.userdata JValue.null (h.umeta r) (h.uenv r)))) n (some (GCObject.table [] none))) r)
          (some n) (Heap.uenv (Function.update (Function.update h r
          (some (GCObject.userdata JValue.null (h.umeta r) (h.uenv r)))) n (some (GCObject.table [] none))) r))),
      ?_, ?_⟩
    · simp [hpl]
    · rcases luaV_gettable_keeps H 100 (LuaValue.table (Heap.uenv (Function.update (Function.update h r
          (some (GCObject.userdata JValue.null (h.umeta r) (h.uenv r)))) n (some (GCObject.table [] none))) r))
          (LuaValue.string (cstr CLASS_NAME))
          ⟨[LuaValue.table (Heap.uenv (Function.update (Function.update h r
          (some (GCObject.userdata JValue.null (h.umeta r) (h.uenv r)))) n (some (GCObject.table [] none))) r),
            LuaValue.userdata r],
          Function.update (Function.update (Function.update h r
        (some (GCObject.userdata JValue.null (h.umeta r) (h.uenv r)))) n (some (GCObject.table [] none))) r
        (some (GCObject.userdata (Heap.payload (Function.update (Function.update h r
          (some (GCObject.userdata JValue.null (h.umeta r) (h.uenv r)))) n (some (GCObject.table [] none))) r)
          (some n) (Heap.uenv (Function.update (Function.update h r
          (some (GCObject.userdata JValue.null (h.umeta r) (h.uenv r)))) n (some (GCObject.table [] none))) r))),
          n + 1, l, b, p, rs, rl⟩ with ⟨v, hv⟩ | ⟨e, he⟩
      · left
        simp only [World.store, hpl] at hv
        cases v <;>
          simp [gcjavaobject, lua_isuserdata, index2value_one, hlive, ht, DeleteGlobalRef, World.store,
            lua_getfenv, lua_getfield, hv, lua_tolstring, lua_isfunction, hpl, slot, LUA_REGISTRYINDEX]
      · right
        refine ⟨[LuaValue.table (Heap.uenv (Function.update (Function.update h r
          (some (GCObject.userdata JValue.null (h.umeta r) (h.uenv r)))) n (some (GCObject.table [] none))) r),
            LuaValue.userdata r], e, ?_⟩
        simp only [World.store, hpl] at he
        simp [gcjavaobject, lua_isuserdata, index2value_one, hlive, ht, DeleteGlobalRef, World.store,
            lua_getfenv, lua_getfield, he, hpl]
  · refine ⟨
      Function.update (Function.update (Function.update h r
        (some (GCObject.userdata JValue.null (h.umeta r) (h.uenv r)))) n (some (GCObject.table [] none))) r
        (some (GCObject.userdata (Heap.payload (Function.update (Function.update h r
          (some (GCObject.userdata JValue.null (h.umeta r) (h.uenv r)))) n (some (GCObject.table [] none))) r)
          (some n) (Heap.uenv (Function.update (Function.update h r
          (some (GCObject.userdata JValue.null (h.umeta r) (h.uenv r)))) n (some (GCObject.table [] none))) r))),
      ?_, Or.inl ?_⟩
    · simp [hpl]
    · simp [gcjavaobject, lua_isuserdata, index2value_one, hlive, ht, DeleteGlobalRef, World.store]

/-- Finalizing a handle whose payload is null, any number of times, changes nothing. -/
theorem finalizeAll_null (H : Host) (r : Nat) (runs : List (Bool × Int)) (w : World)
    (hn : (w.heap.payload r).isNull = true) : finalizeAll H r runs w = some w := by
  induction runs with
  | nil => rfl
  | cons a rest ih =>
    obtain ⟨envPresent, trace⟩ := a
    obtain ⟨s, h, n, l, b, p, rs, rl⟩ := w
    simp only [finalizeAll, gcjavaobject_idle H envPresent trace r h n l b p rs rl (Or.inr hn)]
    exact ih

/-- C10: for every handle (the userdata at address `r`) and every sequence of `gcjavaobject`
invocations on it, whatever `thread_env` and the trace mask are at each invocation, the sequence
runs to its end and `DeleteGlobalRef` is called at most once, on the payload the handle had:
the log of released references is unchanged or extended by that one payload.  An invocation that
finds a null payload changes nothing; an invocation that finds a non-null payload (with
`thread_env` set) leaves the payload null in every outcome, and releases the payload exactly when
it returns (an error of the traced class-name lookup happens after the payload was cleared and
before the release). -/
theorem gcjavaobject_releases_at_most_once (H : Host) (r : Nat) :
    (∀ (runs : List (Bool × Int)) (w : World), ∃ w1, finalizeAll H r runs w = some w1 ∧
      (w1.released = w.released ∨
        ((w.heap.payload r).isNull = false ∧ w1.released = w.released ++ [w.heap.payload r]))) ∧
    (∀ (envPresent : Bool) (trace : Int) (w : World), (w.heap.payload r).isNull = true →
      gcjavaobject H envPresent trace { w with stack := [LuaValue.userdata r] } =
        Res.ok 0 { w with stack := [LuaValue.userdata r] }) ∧
    (∀ (trace : Int) (w : World), (w.heap.payload r).isNull = false →
      ∃ w1, w1.heap.payload r = JValue.null ∧
        ((gcjavaobject H true trace { w with stack := [LuaValue.userdata r] } = Res.ok 0 w1 ∧
            w1.released = w.released ++ [w.heap.payload r]) ∨
          ∃ e, gcjavaobject H true trace { w with stack := [LuaValue.userdata r] } = Res.raise e w1 ∧
            w1.released = w.released)) := by
  refine ⟨?_, ?_, ?_⟩
  · intro runs
    induction runs with
    | nil =>
      intro w
      exact ⟨w, rfl, Or.inl rfl⟩
    | cons a rest ih =>
      intro w
      obtain ⟨envPresent, trace⟩ := a
      obtain ⟨s, h, n, l, b, p, rs, rl⟩ := w
      by_cases hidle : envPresent = false ∨ (h.payload r).isNull = true
      · obtain ⟨w1, e1, h1⟩ := ih ⟨s, h, n, l, b, p, rs, rl⟩
        refine ⟨w1, ?_, h1⟩
        simp only [finalizeAll, gcjavaobject_idle H envPresent trace r h n l b p rs rl hidle]
        exact e1
      · have he : envPresent = true := by
          cases envPresent
          · exact absurd (Or.inl rfl) hidle
          · rfl
        have hlive : (h.payload r).isNull = false := by
          cases hp : (h.payload r).isNull
          · rfl
          · exact absurd (Or.inr hp) hidle
        subst he
        obtain ⟨h3, hp3, hres | ⟨st, e, hres⟩⟩ := gcjavaobject_live H trace r h n l b p rs rl hlive
        · refine ⟨⟨s, h3, n + 1, l, b, p, rs, rl ++ [h.payload r]⟩, ?_, Or.inr ⟨hlive, rfl⟩⟩
          simp only [finalizeAll, hres]
          exact finalizeAll_null H r rest _ (by simp [hp3, JValue.isNull])
        · refine ⟨⟨s, h3, n + 1, l, b, p, rs, rl⟩, ?_, Or.inl rfl⟩
          simp only [finalizeAll, hres]
          exact finalizeAll_null H r rest _ (by simp [hp3, JValue.isNull])
  · intro envPresent trace w hn
    obtain ⟨s, h, n, l, b, p, rs, rl⟩ := w
    exact gcjavaobject_idle H envPresent trace r h n l b p rs rl (Or.inr hn)
  · intro trace w hlive
    obtain ⟨s, h, n, l, b, p, rs, rl⟩ := w
    obtain ⟨h3, hp3, hres | ⟨st, e, hres⟩⟩ := gcjavaobject_live H trace r h n l b p rs rl hlive
    · exact ⟨_, hp3, Or.inl ⟨hres, rfl⟩⟩
    · exact ⟨⟨st, h3, n + 1, l, b, p, rs, rl⟩, hp3, Or.inr ⟨e, hres, rfl⟩⟩

/-- Witness for C10: three invocations on the handle of host object 42 (address 4 of
`handleWorld`), the second one traced, the third one without `thread_env`. -/
theorem gcjavaobject_releases_at_most_once_witness :
    (∃ w1, finalizeAll exampleHost 4 [(true, 0), (true, 1), (false, 0)] handleWorld = some w1 ∧
      (w1.released = [] ∨
        ((handleWorld.heap.payload 4).isNull = false ∧ w1.released = [] ++ [JValue.object 42]))) ∧
    (∃ w1, w1.heap.payload 4 = JValue.null ∧
      ((gcjavaobject exampleHost true 0 { handleWorld with stack := [LuaValue.userdata 4] } = Res.ok 0 w1 ∧
          w1.released = [] ++ [JValue.object 42]) ∨
        ∃ e, gcjavaobject exampleHost true 0 { handleWorld with stack := [LuaValue.userdata 4] } =
            Res.raise e w1 ∧
          w1.released = [])) :=
  ⟨(gcjavaobject_releases_at_most_once exampleHost 4).1 [(true, 0), (true, 1), (false, 0)] handleWorld,
    (gcjavaobject_releases_at_most_once exampleHost 4).2.2 0 handleWorld rfl⟩

/-! ## C11, C12: `tojavaobject` -/

/-- C11: `tojavaobject(L, index, class)` returns a non-null host reference only if the value at
the index is a full userdata whose metatable is the very table registered as "jnlua.Object"
(the same heap address) and, when a class is supplied, the payload is an instance of it; the
reference returned is then the payload.  A userdata whose metatable is another table yields null,
also when the two tables have identical contents and the same metatable.  The call leaves the
state as it was, and it returns whenever light userdata carry no metatable. -/
theorem tojavaobject_only_handles (H : Host) (w : World) (index : Int) (cls : Option JClass) :
    (w.basemt LUA_TLIGHTUSERDATA = none → ∃ o, tojavaobject H index cls w = Res.ok o w) ∧
    (∀ o w1, tojavaobject H index cls w = Res.ok o w1 → o.isNull = false →
      w1 = w ∧ ∃ r m, index2value w index = some (LuaValue.userdata r) ∧ w.heap.umeta r = some m ∧
        tget (w.heap.entries REGISTRY) (LuaValue.string JNLUA_OBJECT) = LuaValue.table m ∧
        o = w.heap.payload r ∧ ∀ c, cls = some c → IsInstanceOf H o c = true) ∧
    (∀ r m1 m, index2value w index = some (LuaValue.userdata r) → w.heap.umeta r = some m1 →
      tget (w.heap.entries REGISTRY) (LuaValue.string JNLUA_OBJECT) = LuaValue.table m →
      m1 ≠ m → w.heap.entries m1 = w.heap.entries m → w.heap.tmeta m1 = w.heap.tmeta m →
      tojavaobject H index cls w = Res.ok JValue.null w) := by
  refine ⟨fun hlight => tojavaobject_keeps H w index cls hlight, ?_, ?_⟩
  · intro o w1 hres hnn
    obtain ⟨s, h, n, l, b, p, rs, rl⟩ := w
    unfold tojavaobject at hres
    simp only [bind_apply, lua_isuserdata] at hres
    cases hidx : index2value ⟨s, h, n, l, b, p, rs, rl⟩ index with
    | none =>
      simp [hidx] at hres
      obtain ⟨rfl, rfl⟩ := hres
      simp [JValue.isNull] at hnn
    | some e =>
      cases e with
      | userdata r =>
        cases hm : h.umeta r with
        | none =>
          simp [hidx, lua_getmetatable, metatableOf, hm] at hres
          obtain ⟨rfl, rfl⟩ := hres
          simp [JValue.isNull] at hnn
        | some m =>
          by_cases heq : tget (h.entries REGISTRY) (LuaValue.string JNLUA_OBJECT) = LuaValue.table m
          · cases cls with
            | none =>
              simp [hidx, lua_getmetatable, metatableOf, hm, luaL_getmetatable, lua_rawequal, heq] at hres
              obtain ⟨rfl, rfl⟩ := hres
              exact ⟨rfl, r, m, rfl, hm, heq, rfl, fun c hc => by cases hc⟩
            | some c =>
              by_cases hi : IsInstanceOf H (h.payload r) c = true
              · simp [hidx, lua_getmetatable, metatableOf, hm, luaL_getmetatable, lua_rawequal, heq, hi] at hres
                obtain ⟨rfl, rfl⟩ := hres
                refine ⟨rfl, r, m, rfl, hm, heq, rfl, ?_⟩
                intro c1 hc
                cases hc
                exact hi
              · simp [hidx, lua_getmetatable, metatableOf, hm, luaL_getmetatable, lua_rawequal, heq, hi] at hres
                obtain ⟨rfl, rfl⟩ := hres
                simp [JValue.isNull] at hnn
          · have heq1 : ¬ (LuaValue.table m = tget (h.entries REGISTRY) (LuaValue.string JNLUA_OBJECT)) :=
              fun hh => heq hh.symm
            simp [hidx, lua_getmetatable, metatableOf, hm, luaL_getmetatable, lua_rawequal, heq, heq1] at hres
            obtain ⟨rfl, rfl⟩ := hres
            simp [JValue.isNull] at hnn
      | lightuserdata q =>
        exfalso
        cases hb : b LUA_TLIGHTUSERDATA with
        | none =>
          simp [hidx, lua_getmetatable, metatableOf, LuaValue.tag, hb] at hres
          obtain ⟨rfl, rfl⟩ := hres
          simp [JValue.isNull] at hnn
        | some m =>
          by_cases heq : tget (h.entries REGISTRY) (LuaValue.string JNLUA_OBJECT) = LuaValue.table m
          · simp [hidx, lua_getmetatable, metatableOf, LuaValue.tag, hb, luaL_getmetatable, lua_rawequal, heq,
              undefined] at hres
          · have heq1 : ¬ (LuaValue.table m = tget (h.entries REGISTRY) (LuaValue.string JNLUA_OBJECT)) :=
              fun hh => heq hh.symm
            simp [hidx, lua_getmetatable, metatableOf, LuaValue.tag, hb, luaL_getmetatable, lua_rawequal, heq,
              heq1] at hres
            obtain ⟨rfl, rfl⟩ := hres
            simp [JValue.isNull] at hnn
      | _ =>
        simp [hidx] at hres
        obtain ⟨rfl, rfl⟩ := hres
        simp [JValue.isNull] at hnn
  · intro r m1 m hidx hm hreg hne _ _
    have hne1 : ¬ (m = m1) := fun hh => hne hh.symm
    obtain ⟨s, h, n, l, b, p, rs, rl⟩ := w
    simp [tojavaobject, lua_isuserdata, hidx, lua_getmetatable, metatableOf, hm, luaL_getmetatable, hreg,
      lua_rawequal, hne, hne1]

/-- Witness for C11: in `forgedWorld` the lookup returns for the handle at index 1, and the
userdata at index 2, whose metatable is another table with the same contents, yields null. -/
theorem tojavaobject_only_handles_witness :
    (∃ o, tojavaobject exampleHost 1 none forgedWorld = Res.ok o forgedWorld) ∧
    tojavaobject exampleHost 2 none forgedWorld = Res.ok JValue.null forgedWorld :=
  ⟨(tojavaobject_only_handles exampleHost forgedWorld 1 none).1 rfl,
    (tojavaobject_only_handles exampleHost forgedWorld 2 none).2.2 6 3 2 (by decide) (by decide) (by decide)
      (by decide) (by decide) (by decide)⟩

/-- `tojavaobject` on a userdata whose payload is null returns null, whatever the metatable
and the class asked for. -/
theorem tojavaobject_null_payload (H : Host) (w : World) (index : Int) (cls : Option JClass) (r : Nat)
    (hidx : index2value w index = some (LuaValue.userdata r))
    (hnull : w.heap.payload r = JValue.null) :
    tojavaobject H index cls w = Res.ok JValue.null w := by
  obtain ⟨s, h, n, l, b, p, rs, rl⟩ := w
  simp only at hnull
  cases hm : h.umeta r with
  | none => simp [tojavaobject, lua_isuserdata, hidx, lua_getmetatable, metatableOf, hm]
  | some m =>
    by_cases heq : tget (h.entries REGISTRY) (LuaValue.string JNLUA_OBJECT) = LuaValue.table m
    · cases cls with
      | none =>
        simp [tojavaobject, lua_isuserdata, hidx, lua_getmetatable, metatableOf, hm, luaL_getmetatable,
          lua_rawequal, heq, hnull]
      | some c =>
        simp [tojavaobject, lua_isuserdata, hidx, lua_getmetatable, metatableOf, hm, luaL_getmetatable,
          lua_rawequal, heq, hnull]
    · have heq1 : ¬ (LuaValue.table m = tget (h.entries REGISTRY) (LuaValue.string JNLUA_OBJECT)) :=
        fun hh => heq hh.symm
      simp [tojavaobject, lua_isuserdata, hidx, lua_getmetatable, metatableOf, hm, luaL_getmetatable,
        lua_rawequal, heq, heq1]

/-- C12: once `gcjavaobject` has run on a handle (with `thread_env` set), whether it returned or
raised in the traced lookup, the payload of the userdata is null, and in every state in which that
payload is null `tojavaobject` applied to the userdata returns null, for every index that denotes
it and every type constraint: the released reference is never handed back. -/
theorem tojavaobject_after_gcjavaobject (H : Host) (trace : Int) (r : Nat) (w : World) :
    ∃ w1, (gcjavaobject H true trace { w with stack := [LuaValue.userdata r] } = Res.ok 0 w1 ∨
        ∃ e, gcjavaobject H true trace { w with stack := [LuaValue.userdata r] } = Res.raise e w1) ∧
      w1.heap.payload r = JValue.null ∧
      (∀ (stack : List LuaValue) (index : Int) (cls : Option JClass),
        index2value { w1 with stack := stack } index = some (LuaValue.userdata r) →
        tojavaobject H index cls { w1 with stack := stack } = Res.ok JValue.null { w1 with stack := stack }) ∧
      (∀ (w2 : World) (index : Int) (cls : Option JClass), w2.heap.payload r = JValue.null →
        index2value w2 index = some (LuaValue.userdata r) →
        tojavaobject H index cls w2 = Res.ok JValue.null w2) := by
  obtain ⟨s, h, n, l, b, p, rs, rl⟩ := w
  have hall : ∀ (w2 : World) (index : Int) (cls : Option JClass), w2.heap.payload r = JValue.null →
      index2value w2 index = some (LuaValue.userdata r) →
      tojavaobject H index cls w2 = Res.ok JValue.null w2 :=
    fun w2 index cls hn hi => tojavaobject_null_payload H w2 index cls r hi hn
  cases hp : (h.payload r).isNull with
  | true =>
    have hnull : h.payload r = JValue.null := by
      cases hq : h.payload r <;> simp [hq, JValue.isNull] at hp
      rfl
    exact ⟨_, Or.inl (gcjavaobject_idle H true trace r h n l b p rs rl (Or.inr hp)), hnull,
      fun stack index cls hi => hall _ index cls hnull hi, hall⟩
  | false =>
    obtain ⟨h3, hp3, hres | ⟨st, e, hres⟩⟩ := gcjavaobject_live H trace r h n l b p rs rl hp
    · exact ⟨_, Or.inl hres, hp3, fun stack index cls hi => hall _ index cls hp3 hi, hall⟩
    · exact ⟨⟨st, h3, n + 1, l, b, p, rs, rl⟩, Or.inr ⟨e, hres⟩, hp3,
        fun stack index cls hi => hall _ index cls hp3 hi, hall⟩

/-- Witness for C12: the handle of host object 42 is finalized in `handleWorld`. -/
theorem tojavaobject_after_gcjavaobject_witness :
    ∃ w1, (gcjavaobject exampleHost true 0 { handleWorld with stack := [LuaValue.userdata 4] } = Res.ok 0 w1 ∨
        ∃ e, gcjavaobject exampleHost true 0 { handleWorld with stack := [LuaValue.userdata 4] } =
          Res.raise e w1) ∧
      w1.heap.payload 4 = JValue.null ∧
      tojavaobject exampleHost 1 (some JClass.JavaFunction) { w1 with stack := [LuaValue.userdata 4] } =
        Res.ok JValue.null { w1 with stack := [LuaValue.userdata 4] } := by
  obtain ⟨w1, h1, h2, h3, _⟩ := tojavaobject_after_gcjavaobject exampleHost 0 4 handleWorld
  exact ⟨w1, h1, h2, h3 [LuaValue.userdata 4] 1 (some JClass.JavaFunction) (by
    obtain ⟨s, h, n, l, b, p, rs, rl⟩ := w1
    exact index2value_one _ _ _ _ _ _ _ _)⟩

/-! ## C13, C14: member lookup and the negative cache -/

/-- Popping three values. -/
@[simp] theorem lua_pop_3 (v u x : LuaValue) (s : List LuaValue) (h : Heap) (n l : Nat)
    (b : Int → Option Nat) (p : Option JValue) (r rl : List JValue) :
    lua_pop 3 ⟨v :: u :: x :: s, h, n, l, b, p, r, rl⟩ = Res.ok () ⟨s, h, n, l, b, p, r, rl⟩ := by
  have h3 : (3 : Int) ≤ (s.length : Int) + 1 + 1 + 1 := by omega
  simp [lua_pop, lua_settop, h3]

/-- Popping four values. -/
@[simp] theorem lua_pop_4 (v u x y : LuaValue) (s : List LuaValue) (h : Heap) (n l : Nat)
    (b : Int → Option Nat) (p : Option JValue) (r rl : List JValue) :
    lua_pop 4 ⟨v :: u :: x :: y :: s, h, n, l, b, p, r, rl⟩ = Res.ok () ⟨s, h, n, l, b, p, r, rl⟩ := by
  have h4 : (4 : Int) ≤ (s.length : Int) + 1 + 1 + 1 + 1 := by omega
  simp [lua_pop, lua_settop, h4]

/-- `lua_tolstring` of the top value: a number is converted in place. -/
@[simp] theorem lua_tolstring_m1 (H : Host) (v : LuaValue) (s : List LuaValue) (h : Heap) (n l : Nat)
    (b : Int → Option Nat) (p : Option JValue) (r rl : List JValue) :
    lua_tolstring H (-1) ⟨v :: s, h, n, l, b, p, r, rl⟩ =
      match v with
      | LuaValue.string x => Res.ok (some x) ⟨v :: s, h, n, l, b, p, r, rl⟩
      | LuaValue.number q =>
        Res.ok (some (H.fmtNumber q)) ⟨LuaValue.string (H.fmtNumber q) :: s, h, n, l, b, p, r, rl⟩
      | _ => Res.ok none ⟨v :: s, h, n, l, b, p, r, rl⟩ := by
  cases v <;> simp [lua_tolstring]

/-- The value found is the negative-cache marker: nil is returned at once. -/
theorem findjavafunction_found_hit (H : Host) (q : Nat) (k obj : LuaValue) (rest : List LuaValue) (h : Heap)
    (n l : Nat) (b : Int → Option Nat) (p : Option JValue) (rs rl : List JValue)
    (hmark : tget (h.entries REGISTRY) (LuaValue.string JNLUA_NEGATIVE_CACHE) = LuaValue.lightuserdata q) :
    findjavafunction_found H ⟨LuaValue.lightuserdata q :: k :: obj :: rest, h, n, l, b, p, rs, rl⟩ =
      Res.ok 1 ⟨LuaValue.nil :: rest, h, n, l, b, p, rs, rl⟩ := by
  have hc : cstr JNLUA_NEGATIVE_CACHE = JNLUA_NEGATIVE_CACHE := by decide
  simp [findjavafunction_found, lua_islightuserdata, lua_touserdata, hc, hmark]

/-- A lookup of a key whose entry in the environment table of a live handle is the
negative-cache marker returns nil, for every host and trace mask. -/
theorem findjavafunction_negative_hit (H : Host) (trace : Int) (k : Bytes) (r m ct q : Nat)
    (rest : List LuaValue) (h : Heap) (n l : Nat) (b : Int → Option Nat) (p : Option JValue)
    (rs rl : List JValue)
    (hm : h.umeta r = some m)
    (hreg : tget (h.entries REGISTRY) (LuaValue.string JNLUA_OBJECT) = LuaValue.table m)
    (hlive : (h.payload r).isNull = false)
    (henv : h.uenv r = ct)
    (hneg : tget (h.entries ct) (LuaValue.string (cstr k)) = LuaValue.lightuserdata q)
    (hmark : tget (h.entries REGISTRY) (LuaValue.string JNLUA_NEGATIVE_CACHE) = LuaValue.lightuserdata q) :
    findjavafunction H trace ⟨LuaValue.string k :: LuaValue.userdata r :: rest, h, n, l, b, p, rs, rl⟩ =
      Res.ok 1 ⟨LuaValue.nil :: rest, h, n, l, b, p, rs, rl⟩ := by
  have hobj := tojavaobject_handle H ⟨LuaValue.string k :: LuaValue.userdata r :: rest, h, n, l, b, p, rs, rl⟩
    (-2) r m (index2value_m2 _ _ _ _ _ _ _ _ _ _) hm hreg
  have hfound := findjavafunction_found_hit H q (LuaValue.string k) (LuaValue.userdata r) rest h n l b p rs rl
    hmark
  have hcn : cstr CLASS_NAME = CLASS_NAME := by decide
  by_cases hk : cstr k = cstr CLASS_NAME
  · have hneg1 : tget (h.entries ct) (LuaValue.string CLASS_NAME) = LuaValue.lightuserdata q := by
      rw [← hcn, ← hk]; exact hneg
    simp [findjavafunction, lua_type, LuaValue.tag, LUA_TSTRING, hobj, hlive, lua_getfenv, henv,
      hk, hcn, hneg1]
  · have hk1 : ¬ cstr k = CLASS_NAME := by rwa [hcn] at hk
    by_cases hd : Int.land trace 9 = 1
    · cases hv : tget (h.entries ct) (LuaValue.string CLASS_NAME) <;>
        simp [findjavafunction, lua_type, LuaValue.tag, LUA_TSTRING, hobj, hlive, lua_getfenv,
          henv, hk, hk1, hcn, hd, hv, hneg, hfound]
    · simp [findjavafunction, lua_type, LuaValue.tag, LUA_TSTRING, hobj, hlive, lua_getfenv,
        henv, hk, hk1, hcn, hd, hneg, hfound]

/-- Moving the top value below the two values under it. -/
@[simp] theorem lua_insert_m3 (v u x : LuaValue) (s : List LuaValue) (h : Heap) (n l : Nat)
    (b : Int → Option Nat) (p : Option JValue) (r rl : List JValue) :
    lua_insert (-3) ⟨v :: u :: x :: s, h, n, l, b, p, r, rl⟩ = Res.ok () ⟨u :: x :: v :: s, h, n, l, b, p, r, rl⟩ := by
  simp [lua_insert]

/-- The fallback of `findjavafunction` is one call of the registered index function on object
and key. -/
theorem findjavafunction_fallback_calls (H : Host) (k obj : LuaValue) (rest : List LuaValue) (h : Heap)
    (n l : Nat) (b : Int → Option Nat) (p : Option JValue) (rs rl : List JValue) :
    findjavafunction_fallback H ⟨k :: obj :: rest, h, n, l, b, p, rs, rl⟩ =
      match H.call (tget (h.entries REGISTRY) (LuaValue.string JNLUA_OBJECT_INDEX)) [obj, k] with
      | CallOutcome.returns res => Res.ok 1 ⟨res.headD LuaValue.nil :: rest, h, n, l, b, p, rs, rl⟩
      | CallOutcome.fails _ e => Res.raise e ⟨rest, h, n, l, b, p, rs, rl⟩ := by
  have hc : cstr JNLUA_OBJECT_INDEX = JNLUA_OBJECT_INDEX := by decide
  have hlen : ¬ (rest.length + 1 + 1 + 1 < 3) := by omega
  simp only [findjavafunction_fallback, bind_apply, lua_pushstring_apply, hc, lua_rawget_registry,
    lua_insert_m3, lua_call1, List.length_cons, hlen, if_false]
  cases hcall : H.call (tget (h.entries REGISTRY) (LuaValue.string JNLUA_OBJECT_INDEX)) [obj, k] <;>
    simp [hcall]

/-- A lookup of a key that has no entry in the environment table of a live handle is one call
of the registered index function. -/
theorem findjavafunction_miss (H : Host) (trace : Int) (k : Bytes) (r m ct : Nat)
    (rest : List LuaValue) (h : Heap) (n l : Nat) (b : Int → Option Nat) (p : Option JValue)
    (rs rl : List JValue)
    (hm : h.umeta r = some m)
    (hreg : tget (h.entries REGISTRY) (LuaValue.string JNLUA_OBJECT) = LuaValue.table m)
    (hlive : (h.payload r).isNull = false)
    (henv : h.uenv r = ct)
    (hk : cstr k ≠ cstr CLASS_NAME)
    (hnone : tget (h.entries ct) (LuaValue.string (cstr k)) = LuaValue.nil) :
    findjavafunction H trace ⟨LuaValue.string k :: LuaValue.userdata r :: rest, h, n, l, b, p, rs, rl⟩ =
      match H.call (tget (h.entries REGISTRY) (LuaValue.string JNLUA_OBJECT_INDEX))
          [LuaValue.userdata r, LuaValue.string k] with
      | CallOutcome.returns res => Res.ok 1 ⟨res.headD LuaValue.nil :: rest, h, n, l, b, p, rs, rl⟩
      | CallOutcome.fails _ e => Res.raise e ⟨rest, h, n, l, b, p, rs, rl⟩ := by
  have hobj := tojavaobject_handle H ⟨LuaValue.string k :: LuaValue.userdata r :: rest, h, n, l, b, p, rs, rl⟩
    (-2) r m (index2value_m2 _ _ _ _ _ _ _ _ _ _) hm hreg
  have hfb := findjavafunction_fallback_calls H (LuaValue.string k) (LuaValue.userdata r) rest h n l b p rs rl
  have hfound : findjavafunction_found H
      ⟨LuaValue.nil :: LuaValue.string k :: LuaValue.userdata r :: rest, h, n, l, b, p, rs, rl⟩ =
      findjavafunction_fallback H ⟨LuaValue.string k :: LuaValue.userdata r :: rest, h, n, l, b, p, rs, rl⟩ := by
    simp [findjavafunction_found, lua_islightuserdata, lua_iscfunction]
  have hcn : cstr CLASS_NAME = CLASS_NAME := by decide
  have hk1 : ¬ cstr k = CLASS_NAME := by rwa [hcn] at hk
  rw [← hfb, ← hfound]
  by_cases hd : Int.land trace 9 = 1
  · cases hv : tget (h.entries ct) (LuaValue.string CLASS_NAME) <;>
      simp [findjavafunction, lua_type, LuaValue.tag, LUA_TSTRING, hobj, hlive, lua_getfenv,
        henv, hk, hk1, hcn, hd, hv, hnone]
  · simp [findjavafunction, lua_type, LuaValue.tag, LUA_TSTRING, hobj, hlive, lua_getfenv,
      henv, hk, hk1, hcn, hd, hnone]

/-- `bytes2string(L, bytes, -1, 0)` returns the bytes and leaves them on the stack as a string. -/
theorem bytes2string_keep (H : Host) (k : Bytes) (s : List LuaValue) (h : Heap) (n l : Nat)
    (b : Int → Option Nat) (p : Option JValue) (r rl : List JValue)
    (hmalloc : H.mallocOk k.length = true) :
    bytes2string H (JValue.bytes k) (-1) 0 ⟨s, h, n, l, b, p, r, rl⟩ =
      Res.ok (some k) ⟨LuaValue.string k :: s, h, n, l, b, p, r, rl⟩ := by
  by_cases hz : k = []
  · subst hz
    simp [bytes2string, cstr]
  · have hl : ¬ ((k.length : Int) = 0) := by
      intro hh
      exact hz (List.length_eq_zero.mp (by exact_mod_cast hh))
    simp [bytes2string, hl, hmalloc, push]

/-- Index -4 denotes the fourth value from the top. -/
@[simp] theorem index2value_m4 (v u x y : LuaValue) (s : List LuaValue) (h : Heap) (n l : Nat)
    (b : Int → Option Nat) (p : Option JValue) (r rl : List JValue) :
    index2value ⟨v :: u :: x :: y :: s, h, n, l, b, p, r, rl⟩ (-4) = some y := by
  have h4 : (4 : Int) ≤ (s.length : Int) + 1 + 1 + 1 + 1 := by omega
  simp [index2value, slot, LUA_REGISTRYINDEX, LUA_GLOBALSINDEX, LUA_ENVIRONINDEX, h4]

/-- Raw write into the table that lies below key, value and one more value. -/
@[simp] theorem lua_rawset_m4 (v k x : LuaValue) (t : Nat) (s : List LuaValue) (h : Heap) (n l : Nat)
    (b : Int → Option Nat) (p : Option JValue) (r rl : List JValue) :
    lua_rawset (-4) ⟨v :: k :: x :: LuaValue.table t :: s, h, n, l, b, p, r, rl⟩ =
      if k = LuaValue.nil then
        Res.raise (LuaValue.string (lit "table index is nil"))
          ⟨v :: k :: x :: LuaValue.table t :: s, h, n, l, b, p, r, rl⟩
      else Res.ok () ⟨x :: LuaValue.table t :: s, Function.update h t
        (some (GCObject.table (tset (h.entries t) k v) (h.tmeta t))), n, l, b, p, r, rl⟩ := by
  simp [lua_rawset, tableAt, World.store]

/-- `jcall_set_negative_cache` for a class whose metadata table exists: the registry's marker is
stored under the key in the class table, and the key string stays on the stack. -/
theorem jcall_set_negative_cache_ok (H : Host) (cn k : Bytes) (ct : Nat) (marker : LuaValue)
    (s : List LuaValue) (h : Heap) (n l : Nat) (b : Int → Option Nat) (p : Option JValue) (rs rl : List JValue)
    (hcls : tget (h.entries REGISTRY) (LuaValue.string (cstr cn)) = LuaValue.table ct)
    (hmark : tget (h.entries REGISTRY) (LuaValue.string JNLUA_NEGATIVE_CACHE) = marker)
    (hroom : (s.length : Int) + JNLUA_MINSTACK ≤ l)
    (hmc : H.mallocOk cn.length = true) (hmk : H.mallocOk k.length = true) :
    jcall_set_negative_cache H (JValue.bytes cn) (JValue.bytes k) ⟨s, h, n, l, b, p, rs, rl⟩ =
      Res.ok () ⟨LuaValue.string k :: s,
        Function.update h ct (some (GCObject.table
          (tset (h.entries ct) (LuaValue.string (cstr k)) marker) (h.tmeta ct))),
        n, l, b, p, rs, rl⟩ := by
  have hc : cstr JNLUA_NEGATIVE_CACHE = JNLUA_NEGATIVE_CACHE := by decide
  have hr0 : ((⟨s, h, n, l, b, p, rs, rl⟩ : World).stack.length : Int) + JNLUA_MINSTACK ≤
      (⟨s, h, n, l, b, p, rs, rl⟩ : World).limit := hroom
  simp [jcall_set_negative_cache, checkstack_room _ _ hr0, bytes2string_name H cn s h n l b p rs rl hmc,
    bytes2string_keep H k s h n l b p rs rl hmk, hcls, hc, hmark]

/-- C13: let the class `cn` have a metadata table `ct` and let `r` be a live handle whose
environment is `ct`.  A lookup of a key that has no entry in `ct` is one call of the registered
index function (the host resolver).  `jcall_set_negative_cache(cn, k)` then stores the registry's
negative-cache marker under `k` in `ct`, and from that state on, and in every later state in which
that entry is still the marker, every `findjavafunction` lookup of the key on the handle returns
nil with the state otherwise unchanged, for every host and every trace mask: the index function is
not consulted.  The environment is the ordinary one: registry set up by `jcall_newstate`, stack
room and `malloc` for the call of `jcall_set_negative_cache`. -/
theorem negative_cache_convergence (H : Host) (cn k : Bytes) (r m ct q : Nat) (s : List LuaValue)
    (h : Heap) (n l : Nat) (b : Int → Option Nat) (p : Option JValue) (rs rl : List JValue)
    (hcls : tget (h.entries REGISTRY) (LuaValue.string (cstr cn)) = LuaValue.table ct)
    (hmark : tget (h.entries REGISTRY) (LuaValue.string JNLUA_NEGATIVE_CACHE) = LuaValue.lightuserdata q)
    (hreg : tget (h.entries REGISTRY) (LuaValue.string JNLUA_OBJECT) = LuaValue.table m)
    (hm : h.umeta r = some m) (hlive : (h.payload r).isNull = false) (henv : h.uenv r = ct)
    (hct0 : ct ≠ REGISTRY) (hctr : ct ≠ r)
    (hroom : (s.length : Int) + JNLUA_MINSTACK ≤ l)
    (hmc : H.mallocOk cn.length = true) (hmk : H.mallocOk k.length = true) :
    (cstr k ≠ cstr CLASS_NAME → tget (h.entries ct) (LuaValue.string (cstr k)) = LuaValue.nil →
      ∀ (trace : Int) (rest : List LuaValue),
        findjavafunction H trace ⟨LuaValue.string k :: LuaValue.userdata r :: rest, h, n, l, b, p, rs, rl⟩ =
          match H.call (tget (h.entries REGISTRY) (LuaValue.string JNLUA_OBJECT_INDEX))
              [LuaValue.userdata r, LuaValue.string k] with
          | CallOutcome.returns res => Res.ok 1 ⟨res.headD LuaValue.nil :: rest, h, n, l, b, p, rs, rl⟩
          | CallOutcome.fails _ e => Res.raise e ⟨rest, h, n, l, b, p, rs, rl⟩) ∧
    (∃ h1, jcall_set_negative_cache H (JValue.bytes cn) (JValue.bytes k) ⟨s, h, n, l, b, p, rs, rl⟩ =
        Res.ok () ⟨LuaValue.string k :: s, h1, n, l, b, p, rs, rl⟩ ∧
      ∀ (H1 : Host) (trace : Int) (k2 : Bytes) (rest : List LuaValue), cstr k2 = cstr k →
        findjavafunction H1 trace ⟨LuaValue.string k2 :: LuaValue.userdata r :: rest, h1, n, l, b, p, rs, rl⟩ =
          Res.ok 1 ⟨LuaValue.nil :: rest, h1, n, l, b, p, rs, rl⟩) ∧
    (∀ (H1 : Host) (trace : Int) (k2 : Bytes) (w2 : World) (rest : List LuaValue) (m2 q2 : Nat),
      cstr k2 = cstr k → w2.stack = LuaValue.string k2 :: LuaValue.userdata r :: rest →
      w2.heap.umeta r = some m2 →
      tget (w2.heap.entries REGISTRY) (LuaValue.string JNLUA_OBJECT) = LuaValue.table m2 →
      (w2.heap.payload r).isNull = false → w2.heap.uenv r = ct →
      tget (w2.heap.entries ct) (LuaValue.string (cstr k)) = LuaValue.lightuserdata q2 →
      tget (w2.heap.entries REGISTRY) (LuaValue.string JNLUA_NEGATIVE_CACHE) = LuaValue.lightuserdata q2 →
      findjavafunction H1 trace w2 = Res.ok 1 { w2 with stack := LuaValue.nil :: rest }) := by
  refine ⟨?_, ?_, ?_⟩
  · intro hk hnone trace rest
    exact findjavafunction_miss H trace k r m ct rest h n l b p rs rl hm hreg hlive henv hk hnone
  · refine ⟨_, jcall_set_negative_cache_ok H cn k ct (LuaValue.lightuserdata q) s h n l b p rs rl hcls hmark
      hroom hmc hmk, ?_⟩
    intro H1 trace k2 rest hk2
    have hr : REGISTRY ≠ ct := fun hh => hct0 hh.symm
    have hrc : r ≠ ct := fun hh => hctr hh.symm
    refine findjavafunction_negative_hit H1 trace k2 r m ct q rest _ n l b p rs rl ?_ ?_ ?_ ?_ ?_ ?_
    · simp [Heap.umeta, Function.update_noteq hrc]
      exact hm
    · simp [hr, hreg]
    · simp [Heap.payload, Function.update_noteq hrc]
      exact hlive
    · simp [Heap.uenv, Function.update_noteq hrc]
      exact henv
    · rw [hk2]
      simp [tget_tset_same]
    · simp [hr, hmark]
  · intro H1 trace k2 w2 rest m2 q2 hk2 hst hm2 hreg2 hlive2 henv2 hneg2 hmark2
    obtain ⟨s2, h2, n2, l2, b2, p2, rs2, rl2⟩ := w2
    simp only at hst hm2 hreg2 hlive2 henv2 hneg2 hmark2
    subst hst
    rw [← hk2] at hneg2
    exact findjavafunction_negative_hit H1 trace k2 r m2 ct q2 rest h2 n2 l2 b2 p2 rs2 rl2 hm2 hreg2 hlive2
      henv2 hneg2 hmark2

/-- Witness for C13: the member `typoMethod` of `java.lang.Object` in `cacheWorld`. -/
theorem negative_cache_convergence_witness :
    ∃ h1, jcall_set_negative_cache exampleHost (JValue.bytes (lit "java.lang.Object"))
        (JValue.bytes (lit "typoMethod")) cacheWorld =
        Res.ok () ⟨[LuaValue.string (lit "typoMethod")], h1, 9, 8000, fun _ => none, none, [], []⟩ ∧
      ∀ (H1 : Host) (trace : Int) (k2 : Bytes) (rest : List LuaValue), cstr k2 = cstr (lit "typoMethod") →
        findjavafunction H1 trace
            ⟨LuaValue.string k2 :: LuaValue.userdata 4 :: rest, h1, 9, 8000, fun _ => none, none, [], []⟩ =
          Res.ok 1 ⟨LuaValue.nil :: rest, h1, 9, 8000, fun _ => none, none, [], []⟩ :=
  (negative_cache_convergence exampleHost (lit "java.lang.Object") (lit "typoMethod") 4 2 5 99 []
    cacheWorld.heap 9 8000 (fun _ => none) none [] [] (by decide) (by decide) (by decide) (by decide)
    (by decide) (by decide) (by decide) (by decide) (by decide) rfl rfl).2.1

/-! ## C14: the writers of a class metadata table -/

/-- `pushjavaobject` with a call type above 1: a fresh handle of the object becomes upvalue 1 of a
fresh `calljavafunction` closure, which is pushed. -/
theorem pushjavaobject_accessor (H : Host) (o : JValue) (name : Bytes) (ty : Int) (m : Nat)
    (s : List LuaValue) (h : Heap) (n l : Nat) (b : Int → Option Nat) (p : Option JValue) (r rl : List JValue)
    (hty : 1 < ty) (ho : o.isNull = false) (hg : H.globalRefOk = true)
    (hreg : tget (h.entries REGISTRY) (LuaValue.string JNLUA_OBJECT) = LuaValue.table m)
    (hn : REGISTRY ≠ n) :
    pushjavaobject H o (some name) ty ⟨s, h, n, l, b, p, r, rl⟩ =
      Res.ok () ⟨LuaValue.function (n + 1) :: s,
        Function.update (Function.update h n (some (GCObject.userdata o (some m) GLOBALS))) (n + 1)
          (some (GCObject.cclosure CFunction.calljavafunction
            [LuaValue.userdata n, LuaValue.boolean (decide (ty = 3)), LuaValue.string (cstr name)])),
        n + 1 + 1, l, b, p, r, rl⟩ := by
  have hng : NewGlobalRef H o = o := by
    cases o <;> simp_all [NewGlobalRef, JValue.isNull]
  simp [pushjavaobject, hn, hreg, hng, ho, hty, lua_pushcclosure, push]

/-- `lua_settable` into the table below key and value, when that table has no metatable. -/
theorem lua_settable_m3 (v k : LuaValue) (t : Nat) (s : List LuaValue) (h : Heap) (n l : Nat)
    (b : Int → Option Nat) (p : Option JValue) (r rl : List JValue)
    (hmeta : h.tmeta t = none) (hk : k ≠ LuaValue.nil) :
    lua_settable (-3) ⟨v :: k :: LuaValue.table t :: s, h, n, l, b, p, r, rl⟩ =
      Res.ok () ⟨LuaValue.table t :: s, Function.update h t
        (some (GCObject.table (tset (h.entries t) k v) (h.tmeta t))), n, l, b, p, r, rl⟩ := by
  simp [lua_settable, tableAt, hmeta, hk]

/-- The method branch of `pushmetafunction_protected` for a class whose metadata table exists:
a fresh accessor closure is stored under the member key in the class table and returned. -/
theorem pushmetafunction_protected_store (H : Host) (o : JValue) (cn k : Bytes) (ty : Int) (ct m : Nat)
    (s : List LuaValue) (h : Heap) (n l : Nat) (b : Int → Option Nat) (p : Option JValue) (r rl : List JValue)
    (hty : 1 < ty) (ho : o.isNull = false) (hg : H.globalRefOk = true)
    (hmc : H.mallocOk cn.length = true) (hmk : H.mallocOk k.length = true)
    (hreg : tget (h.entries REGISTRY) (LuaValue.string JNLUA_OBJECT) = LuaValue.table m)
    (hcls : tget (h.entries REGISTRY) (LuaValue.string (cstr cn)) = LuaValue.table ct)
    (hnometa : h.tmeta ct = none)
    (hn : REGISTRY ≠ n) (hct : ct < n) :
    pushmetafunction_protected H (JValue.bytes cn) (JValue.bytes k) o ty ⟨s, h, n, l, b, p, r, rl⟩ =
      Res.ok (if ty = 3 then 0 else 1)
        ⟨(if ty = 3 then [] else [tget (tset (h.entries ct) (LuaValue.string k) (LuaValue.function (n + 1)))
              (LuaValue.string (cstr k))]) ++ s,
          Function.update
            (Function.update (Function.update h n (some (GCObject.userdata o (some m) GLOBALS))) (n + 1)
              (some (GCObject.cclosure CFunction.calljavafunction
                [LuaValue.userdata n, LuaValue.boolean (decide (ty = 3)),
                  LuaValue.string (cstr (cstr cn ++ lit "." ++ cstr k))])))
            ct (some (GCObject.table (tset (h.entries ct) (LuaValue.string k) (LuaValue.function (n + 1)))
              (h.tmeta ct))),
          n + 1 + 1, l, b, p, r, rl⟩ := by
  have hctn : ct ≠ n := by omega
  have hctn1 : ct ≠ n + 1 := by omega
  have hacc := pushjavaobject_accessor H o (cstr cn ++ (lit "." ++ cstr k)) ty m
    (LuaValue.string k :: LuaValue.table ct :: s) h n l b p r rl hty ho hg hreg hn
  have hmeta1 : ∀ x y, Heap.tmeta (Function.update (Function.update h n x) (n + 1) y) ct = none := by
    intro x y
    unfold Heap.tmeta
    rw [Function.update_noteq hctn1, Function.update_noteq hctn]
    exact hnometa
  have hent1 : ∀ x y, Heap.entries (Function.update (Function.update h n x) (n + 1) y) ct = h.entries ct := by
    intro x y
    unfold Heap.entries
    rw [Function.update_noteq hctn1, Function.update_noteq hctn]
  by_cases h3 : ty = 3
  · subst h3
    simp [pushmetafunction_protected, JValue.isNull, bytes2string_name H cn s h n l b p r rl hmc, hcls,
      bytes2string_keep H k _ h n l b p r rl hmk, hacc, lua_settable_m3, hmeta1, hent1, hnometa]
  · simp [pushmetafunction_protected, JValue.isNull, bytes2string_name H cn s h n l b p r rl hmc, hcls,
      bytes2string_keep H k _ h n l b p r rl hmk, hacc, lua_settable_m3, hmeta1, hent1, h3, hnometa]

/-- The metatable read at an address depends on the object at that address only. -/
theorem tmeta_congr (h h1 : Heap) (r : Nat) (e : h1 r = h r) : h1.tmeta r = h.tmeta r := by
  unfold Heap.tmeta
  rw [e]

/-- One caching step from the shared metatable keeps the class table a table without
metatable. -/
theorem precache_from_metatable_keeps (name field : String) (ct m : Nat) (s : List LuaValue) (h : Heap)
    (n l : Nat) (b : Int → Option Nat) (p : Option JValue) (r rl : List JValue)
    (hreg : tget (h.entries REGISTRY) (LuaValue.string JNLUA_OBJECT) = LuaValue.table m) :
    ∃ h1, precache_from_metatable name field ⟨LuaValue.table ct :: s, h, n, l, b, p, r, rl⟩ =
        Res.ok () ⟨LuaValue.table ct :: s, h1, n, l, b, p, r, rl⟩ ∧ (∀ a, a ≠ ct → h1 a = h a) ∧
      h1.tmeta ct = h.tmeta ct := by
  refine ⟨Function.update h ct (some (GCObject.table (tset (h.entries ct) (LuaValue.string (cstr (lit name)))
    (tget (h.entries m) (LuaValue.string (cstr (lit field))))) (h.tmeta ct))), ?_, ?_, ?_⟩
  · simp [precache_from_metatable, hreg]
  · intro a ha
    simp [Function.update_noteq ha]
  · simp [Heap.tmeta]

/-- One caching step from the `java` module keeps the class table a table without metatable. -/
theorem precache_from_module_keeps (name field : String) (ct : Nat) (s : List LuaValue) (h : Heap)
    (n l : Nat) (b : Int → Option Nat) (p : Option JValue) (r rl : List JValue) :
    ∃ h1, precache_from_module name field ⟨LuaValue.table ct :: s, h, n, l, b, p, r, rl⟩ =
        Res.ok () ⟨LuaValue.table ct :: s, h1, n, l, b, p, r, rl⟩ ∧ (∀ a, a ≠ ct → h1 a = h a) ∧
      h1.tmeta ct = h.tmeta ct := by
  cases hj : tget (h.entries GLOBALS) (LuaValue.string (cstr (lit "java"))) with
  | table j =>
    refine ⟨Function.update h ct (some (GCObject.table (tset (h.entries ct) (LuaValue.string (cstr (lit name)))
      (tget (h.entries j) (LuaValue.string (cstr (lit field))))) (h.tmeta ct))), ?_, ?_, ?_⟩
    · simp [precache_from_module, hj]
    · intro a ha
      simp [Function.update_noteq ha]
    · simp [Heap.tmeta]
  | _ =>
    refine ⟨h, ?_, fun _ _ => rfl, rfl⟩
    simp [precache_from_module, hj]

/-- `precache_metadata_functions` for a registered class writes into the class table only, keeps
its metatable and leaves the stack as it found it. -/
theorem precache_metadata_functions_keeps (cn : Bytes) (ct m : Nat) (s : List LuaValue) (h : Heap)
    (n l : Nat) (b : Int → Option Nat) (p : Option JValue) (r rl : List JValue)
    (hreg : tget (h.entries REGISTRY) (LuaValue.string JNLUA_OBJECT) = LuaValue.table m)
    (hcls : tget (h.entries REGISTRY) (LuaValue.string (cstr cn)) = LuaValue.table ct)
    (hct : REGISTRY ≠ ct) :
    ∃ h1, precache_metadata_functions (some cn) ⟨s, h, n, l, b, p, r, rl⟩ =
        Res.ok () ⟨s, h1, n, l, b, p, r, rl⟩ ∧ (∀ a, a ≠ ct → h1 a = h a) ∧ h1.tmeta ct = h.tmeta ct := by
  obtain ⟨h1, e1, f1, t1⟩ := precache_from_metatable_keeps "JNI_GC" "__gc" ct m s h n l b p r rl hreg
  have r1 : tget (h1.entries REGISTRY) (LuaValue.string JNLUA_OBJECT) = LuaValue.table m := by
    rw [entries_congr h h1 REGISTRY (f1 _ hct)]; exact hreg
  obtain ⟨h2, e2, f2, t2⟩ := precache_from_metatable_keeps "java_fields" "__javafields" ct m s h1 n l b p r rl r1
  have r2 : tget (h2.entries REGISTRY) (LuaValue.string JNLUA_OBJECT) = LuaValue.table m := by
    rw [entries_congr h1 h2 REGISTRY (f2 _ hct)]; exact r1
  obtain ⟨h3, e3, f3, t3⟩ := precache_from_metatable_keeps "java_methods" "__javamethods" ct m s h2 n l b p r rl r2
  have r3 : tget (h3.entries REGISTRY) (LuaValue.string JNLUA_OBJECT) = LuaValue.table m := by
    rw [entries_congr h2 h3 REGISTRY (f3 _ hct)]; exact r2
  obtain ⟨h4, e4, f4, t4⟩ :=
    precache_from_metatable_keeps "java_properties" "__javaproperties" ct m s h3 n l b p r rl r3
  obtain ⟨h5, e5, f5, t5⟩ := precache_from_module_keeps "to_table" "totable" ct s h4 n l b p r rl
  obtain ⟨h6, e6, f6, t6⟩ := precache_from_module_keeps "to_lua" "tolua" ct s h5 n l b p r rl
  refine ⟨h6, ?_, ?_, ?_⟩
  · simp [precache_metadata_functions, hcls, e1, e2, e3, e4, e5, e6]
  · intro a ha
    rw [f6 a ha, f5 a ha, f4 a ha, f3 a ha, f2 a ha, f1 a ha]
  · rw [t6, t5, t4, t3, t2, t1]

/-- The class-table creation block on a registry without a table for the class: a new table
without metatable, at a fresh address, is registered under the class name and left twice on the
stack; apart from the registry and the class index nothing that existed before is written. -/
theorem create_class_table_frame (cn : Bytes) (s : List LuaValue) (h : Heap) (n l : Nat)
    (b : Int → Option Nat) (p : Option JValue) (r rl : List JValue) (m mm : Nat)
    (hreg : tget (h.entries REGISTRY) (LuaValue.string JNLUA_OBJECT) = LuaValue.table m)
    (hmeta : tget (h.entries REGISTRY) (LuaValue.string JNLUA_OBJECT_META) = LuaValue.table mm)
    (hcls : tget (h.entries REGISTRY) (LuaValue.string (cstr cn)) = LuaValue.nil)
    (hn : REGISTRY ≠ n) (hmm : REGISTRY ≠ mm) :
    ∃ h1, create_class_table (some cn) ⟨LuaValue.nil :: s, h, n, l, b, p, r, rl⟩ =
        Res.ok () ⟨LuaValue.table n :: LuaValue.table n :: s, h1, n + 1, l, b, p, r, rl⟩ ∧
      tget (h1.entries REGISTRY) (LuaValue.string JNLUA_OBJECT) = LuaValue.table m ∧
      tget (h1.entries REGISTRY) (LuaValue.string (cstr cn)) = LuaValue.table n ∧
      h1.tmeta n = none ∧
      (∀ a, a ≠ REGISTRY → a ≠ mm → a ≠ n → h1 a = h a) := by
  have hne : LuaValue.string JNLUA_OBJECT ≠ LuaValue.string (cstr cn) := by
    intro hh
    rw [← hh, hreg] at hcls
    cases hcls
  have key : ∀ h4 : Heap, tget (h4.entries REGISTRY) (LuaValue.string JNLUA_OBJECT) = LuaValue.table m →
      tget (h4.entries REGISTRY) (LuaValue.string (cstr cn)) = LuaValue.table n →
      h4.tmeta n = none →
      (∀ a, a ≠ REGISTRY → a ≠ mm → a ≠ n → h4 a = h a) →
      ∃ h1, (precache_metadata_functions (some cn) >>= fun _ =>
          lua_pushstring (some cn) >>= fun _ => lua_rawget LUA_REGISTRYINDEX)
            ⟨LuaValue.table n :: s, h4, n + 1, l, b, p, r, rl⟩ =
          Res.ok () ⟨LuaValue.table n :: LuaValue.table n :: s, h1, n + 1, l, b, p, r, rl⟩ ∧
        tget (h1.entries REGISTRY) (LuaValue.string JNLUA_OBJECT) = LuaValue.table m ∧
        tget (h1.entries REGISTRY) (LuaValue.string (cstr cn)) = LuaValue.table n ∧
        h1.tmeta n = none ∧
        (∀ a, a ≠ REGISTRY → a ≠ mm → a ≠ n → h1 a = h a) := by
    intro h4 r4 c4 t4 f4
    obtain ⟨h5, e5, f5, t5⟩ := precache_metadata_functions_keeps cn n m (LuaValue.table n :: s) h4 (n + 1) l b p
      r rl r4 c4 hn
    have q := entries_congr h4 h5 REGISTRY (f5 _ hn)
    refine ⟨h5, ?_, ?_, ?_, ?_, ?_⟩
    · simp [e5, q, c4]
    · rw [q]; exact r4
    · rw [q]; exact c4
    · rw [t5]; exact t4
    · intro a h0 h1 h2
      rw [f5 a h2]; exact f4 a h0 h1 h2
  have hn1 : n ≠ REGISTRY := Ne.symm hn
  have hmm1 : mm ≠ REGISTRY := Ne.symm hmm
  simp only [bind_apply, lua_pushstring_apply, lua_rawget_registry] at key
  simp [create_class_table, hreg, hmeta, cstr_JNLUA_OBJECT_META, hn, hmm, hn1, hmm1, tget_tset_same]
  refine key _ ?_ ?_ ?_ ?_
  · simp [hn, hmm, hn1, hmm1, tget_tset_ne _ _ _ _ hne, hreg]
  · simp [hn, hmm, hn1, hmm1, tget_tset_same]
  · simp [Heap.tmeta]
    intro e1 e2
    exact absurd e1.symm e2
  · intro a h0 h1 h2
    simp [Function.update_noteq, h0, h1, h2]

/-- The method branch of `pushmetafunction_protected` for a class without metadata table: the
table is created at a fresh address and the fresh accessor closure is stored in it; apart from
the registry and the class index nothing that existed before is written. -/
theorem pushmetafunction_protected_store_new (H : Host) (o : JValue) (cn k : Bytes) (ty : Int) (m mm : Nat)
    (s : List LuaValue) (h : Heap) (n l : Nat) (b : Int → Option Nat) (p : Option JValue) (r rl : List JValue)
    (hty : 1 < ty) (ho : o.isNull = false) (hg : H.globalRefOk = true)
    (hmc : H.mallocOk cn.length = true) (hmk : H.mallocOk k.length = true)
    (hreg : tget (h.entries REGISTRY) (LuaValue.string JNLUA_OBJECT) = LuaValue.table m)
    (hmeta : tget (h.entries REGISTRY) (LuaValue.string JNLUA_OBJECT_META) = LuaValue.table mm)
    (hcls : tget (h.entries REGISTRY) (LuaValue.string (cstr cn)) = LuaValue.nil)
    (hn : REGISTRY < n) (hmm : REGISTRY ≠ mm) :
    ∃ h1 st1, pushmetafunction_protected H (JValue.bytes cn) (JValue.bytes k) o ty ⟨s, h, n, l, b, p, r, rl⟩ =
        Res.ok (if ty = 3 then 0 else 1) ⟨st1, h1, n + 1 + 1 + 1, l, b, p, r, rl⟩ ∧
      tget (h1.entries REGISTRY) (LuaValue.string (cstr cn)) = LuaValue.table n ∧
      tget (h1.entries n) (LuaValue.string k) = LuaValue.function (n + 1 + 1) ∧
      (∀ a, a ≠ REGISTRY → a ≠ mm → a < n → h1 a = h a) := by
  have hn0 : REGISTRY ≠ n := Nat.ne_of_lt hn
  have hn1 : REGISTRY ≠ n + 1 := by omega
  obtain ⟨h1, e1, r1, c1, t1, f1⟩ := create_class_table_frame cn s h n l b p r rl m mm hreg hmeta hcls hn0 hmm
  have hacc := pushjavaobject_accessor H o (cstr cn ++ (lit "." ++ cstr k)) ty m
    (LuaValue.string k :: LuaValue.table n :: LuaValue.table n :: s) h1 (n + 1) l b p r rl hty ho hg r1 hn1
  have hmeta1 : ∀ x y, Heap.tmeta (Function.update (Function.update h1 (n + 1) x) (n + 1 + 1) y) n = none := by
    intro x y
    unfold Heap.tmeta
    rw [Function.update_noteq (by omega), Function.update_noteq (by omega)]
    exact t1
  have hent1 : ∀ x y, Heap.entries (Function.update (Function.update h1 (n + 1) x) (n + 1 + 1) y) n =
      h1.entries n := by
    intro x y
    unfold Heap.entries
    rw [Function.update_noteq (by omega), Function.update_noteq (by omega)]
  have hkn : LuaValue.string k ≠ LuaValue.nil := by intro hh; cases hh
  refine ⟨Function.update
      (Function.update (Function.update h1 (n + 1) (some (GCObject.userdata o (some m) GLOBALS))) (n + 1 + 1)
        (some (GCObject.cclosure CFunction.calljavafunction
          [LuaValue.userdata (n + 1), LuaValue.boolean (decide (ty = 3)),
            LuaValue.string (cstr (cstr cn ++ (lit "." ++ cstr k)))])))
      n (some (GCObject.table (tset (h1.entries n) (LuaValue.string k) (LuaValue.function (n + 1 + 1))) none)),
    (if ty = 3 then [] else [tget (tset (h1.entries n) (LuaValue.string k) (LuaValue.function (n + 1 + 1)))
      (LuaValue.string (cstr k))]) ++ LuaValue.table n :: s, ?_, ?_, ?_, ?_⟩
  · by_cases h3 : ty = 3
    · subst h3
      simp [pushmetafunction_protected, JValue.isNull, bytes2string_name H cn s h n l b p r rl hmc, hcls, e1,
        bytes2string_keep H k _ h1 (n + 1) l b p r rl hmk, hacc, lua_settable_m3, hmeta1, hent1, t1]
    · simp [pushmetafunction_protected, JValue.isNull, bytes2string_name H cn s h n l b p r rl hmc, hcls, e1,
        bytes2string_keep H k _ h1 (n + 1) l b p r rl hmk, hacc, lua_settable_m3, hmeta1, hent1, h3, t1]
  · rw [entries_congr _ _ REGISTRY (Function.update_noteq hn0 _ _),
      entries_congr _ _ REGISTRY (Function.update_noteq (by omega) _ _),
      entries_congr _ _ REGISTRY (Function.update_noteq (by omega) _ _)]
    exact c1
  · simp only [entries_update_table, if_true, tget_tset_same]
  · intro a h0 hm1 ha
    rw [Function.update_noteq (by omega), Function.update_noteq (by omega), Function.update_noteq (by omega)]
    exact f1 a h0 hm1 (by omega)

/-- Counterexample to C14 as stated: in `cacheWorld` the class table of `java.lang.Object`
(table 5) holds a real accessor under `hashCode`, the `calljavafunction` closure 7.
`jcall_set_negative_cache` for that class and key replaces it by the negative-cache marker, and
`pushmetafunction_protected` for that class and member replaces it by the closure it has just
built (function 10): both writers overwrite the entry whatever it holds. -/
theorem class_table_accessor_overwritten :
    tget (cacheWorld.heap.entries 5) (LuaValue.string (lit "hashCode")) = LuaValue.function 7 ∧
    cacheWorld.heap 7 = some (GCObject.cclosure CFunction.calljavafunction
      [LuaValue.userdata 8, LuaValue.boolean false, LuaValue.string (lit "java.lang.Object.hashCode")]) ∧
    (∃ w1, jcall_set_negative_cache exampleHost (JValue.bytes (lit "java.lang.Object"))
        (JValue.bytes (lit "hashCode")) cacheWorld = Res.ok () w1 ∧
      tget (w1.heap.entries 5) (LuaValue.string (lit "hashCode")) = LuaValue.lightuserdata 99) ∧
    (∃ w1, pushmetafunction_protected exampleHost (JValue.bytes (lit "java.lang.Object"))
        (JValue.bytes (lit "hashCode")) (JValue.object 42) 2 cacheWorld = Res.ok 1 w1 ∧
      tget (w1.heap.entries 5) (LuaValue.string (lit "hashCode")) = LuaValue.function 10) := by
  have hc : cstr (lit "hashCode") = lit "hashCode" := by decide
  refine ⟨by decide, rfl, ⟨_, jcall_set_negative_cache_ok exampleHost (lit "java.lang.Object") (lit "hashCode") 5
    (LuaValue.lightuserdata 99) [] cacheWorld.heap 9 8000 (fun _ => none) none [] [] (by decide) (by decide)
    (by decide) rfl rfl, ?_⟩, ⟨_, pushmetafunction_protected_store exampleHost (JValue.object 42)
      (lit "java.lang.Object") (lit "hashCode") 2 5 2 [] cacheWorld.heap 9 8000 (fun _ => none) none [] []
      (by decide) rfl rfl rfl rfl (by decide) (by decide) (by decide) (by decide) (by decide), ?_⟩⟩
  · simp only [entries_update_table, if_true, hc, tget_tset_same]
  · simp only [entries_update_table, if_true, tget_tset_same]

/-- C14, amended: what the three writers of a class metadata table do.  The environment is the
ordinary one: the registry holds the shared object metatable and the class index, the object is
not null, `malloc` and `NewGlobalRef` succeed, addresses from `n` on are free, and the call type
is one of an accessor (above 1).
Creation with pre-caching: the creation block of `pushmetafunction_protected`, entered for a
class without table, builds the table at the fresh address `n`, registers it under the class
name and pre-caches into it; apart from the registry and the class index no object that existed
before is written.  The same holds for the whole of `pushmetafunction_protected` with a member
name, which then stores the new accessor in the new table.
Accessor store: for a class whose table `ct` exists (without metatable),
`pushmetafunction_protected` stores the accessor closure it has just built under the member key
whatever was stored there before; every other entry of the table, its metatable, and every other
object that existed before are unchanged.
Negative cache: `jcall_set_negative_cache` stores the negative-cache marker of the registry (a
light userdata) under the key whatever was stored there before; every other entry of the table,
its metatable and every other object are unchanged.
No writer removes an entry: each stored value is a function or the marker, and the entries under
all other keys stay. -/
theorem class_table_writes (H : Host) (o : JValue) (cn k : Bytes) (ty : Int) (m mm : Nat)
    (s : List LuaValue) (h : Heap) (n l : Nat) (b : Int → Option Nat) (p : Option JValue) (rs rl : List JValue)
    (hty : 1 < ty) (ho : o.isNull = false) (hg : H.globalRefOk = true)
    (hmc : H.mallocOk cn.length = true) (hmk : H.mallocOk k.length = true)
    (hreg : tget (h.entries REGISTRY) (LuaValue.string JNLUA_OBJECT) = LuaValue.table m)
    (hmeta : tget (h.entries REGISTRY) (LuaValue.string JNLUA_OBJECT_META) = LuaValue.table mm)
    (hn : REGISTRY < n) (hmm : REGISTRY ≠ mm)
    (hroom : (s.length : Int) + JNLUA_MINSTACK ≤ l) :
    (tget (h.entries REGISTRY) (LuaValue.string (cstr cn)) = LuaValue.nil →
      ∃ h1, create_class_table (some cn) ⟨LuaValue.nil :: s, h, n, l, b, p, rs, rl⟩ =
          Res.ok () ⟨LuaValue.table n :: LuaValue.table n :: s, h1, n + 1, l, b, p, rs, rl⟩ ∧
        tget (h1.entries REGISTRY) (LuaValue.string (cstr cn)) = LuaValue.table n ∧
        h1.tmeta n = none ∧
        (∀ a, a ≠ REGISTRY → a ≠ mm → a ≠ n → h1 a = h a)) ∧
    (tget (h.entries REGISTRY) (LuaValue.string (cstr cn)) = LuaValue.nil →
      ∃ h1 st1, pushmetafunction_protected H (JValue.bytes cn) (JValue.bytes k) o ty
            ⟨s, h, n, l, b, p, rs, rl⟩ =
          Res.ok (if ty = 3 then 0 else 1) ⟨st1, h1, n + 1 + 1 + 1, l, b, p, rs, rl⟩ ∧
        tget (h1.entries REGISTRY) (LuaValue.string (cstr cn)) = LuaValue.table n ∧
        tget (h1.entries n) (LuaValue.string k) = LuaValue.function (n + 1 + 1) ∧
        (∀ a, a ≠ REGISTRY → a ≠ mm → a < n → h1 a = h a)) ∧
    (∀ ct, tget (h.entries REGISTRY) (LuaValue.string (cstr cn)) = LuaValue.table ct →
        h.tmeta ct = none → ct < n →
      ∃ h1 st1, pushmetafunction_protected H (JValue.bytes cn) (JValue.bytes k) o ty
            ⟨s, h, n, l, b, p, rs, rl⟩ =
          Res.ok (if ty = 3 then 0 else 1) ⟨st1, h1, n + 1 + 1, l, b, p, rs, rl⟩ ∧
        tget (h1.entries ct) (LuaValue.string k) = LuaValue.function (n + 1) ∧
        h1 (n + 1) = some (GCObject.cclosure CFunction.calljavafunction
          [LuaValue.userdata n, LuaValue.boolean (decide (ty = 3)),
            LuaValue.string (cstr (cstr cn ++ lit "." ++ cstr k))]) ∧
        (∀ key, key ≠ LuaValue.string k → tget (h1.entries ct) key = tget (h.entries ct) key) ∧
        (∀ key, tget (h.entries ct) key ≠ LuaValue.nil → tget (h1.entries ct) key ≠ LuaValue.nil) ∧
        h1.tmeta ct = h.tmeta ct ∧
        (∀ a, a ≠ ct → a < n → h1 a = h a)) ∧
    (∀ ct q, tget (h.entries REGISTRY) (LuaValue.string (cstr cn)) = LuaValue.table ct →
        tget (h.entries REGISTRY) (LuaValue.string JNLUA_NEGATIVE_CACHE) = LuaValue.lightuserdata q →
      ∃ h1, jcall_set_negative_cache H (JValue.bytes cn) (JValue.bytes k) ⟨s, h, n, l, b, p, rs, rl⟩ =
          Res.ok () ⟨LuaValue.string k :: s, h1, n, l, b, p, rs, rl⟩ ∧
        tget (h1.entries ct) (LuaValue.string (cstr k)) = LuaValue.lightuserdata q ∧
        (∀ key, key ≠ LuaValue.string (cstr k) → tget (h1.entries ct) key = tget (h.entries ct) key) ∧
        (∀ key, tget (h.entries ct) key ≠ LuaValue.nil → tget (h1.entries ct) key ≠ LuaValue.nil) ∧
        h1.tmeta ct = h.tmeta ct ∧
        (∀ a, a ≠ ct → h1 a = h a)) := by
  refine ⟨?_, ?_, ?_, ?_⟩
  · intro hcls
    obtain ⟨h1, e1, _, c1, t1, f1⟩ := create_class_table_frame cn s h n l b p rs rl m mm hreg hmeta hcls
      (Nat.ne_of_lt hn) hmm
    exact ⟨h1, e1, c1, t1, f1⟩
  · intro hcls
    exact pushmetafunction_protected_store_new H o cn k ty m mm s h n l b p rs rl hty ho hg hmc hmk hreg hmeta
      hcls hn hmm
  · intro ct hcls hnometa hct
    have hctn : ct ≠ n := by omega
    have hctn1 : ct ≠ n + 1 := by omega
    refine ⟨_, _, pushmetafunction_protected_store H o cn k ty ct m s h n l b p rs rl hty ho hg hmc hmk hreg
      hcls hnometa (Nat.ne_of_lt hn) hct, ?_, ?_, ?_, ?_, ?_, ?_⟩
    · simp only [entries_update_table, if_true, tget_tset_same]
    · rw [Function.update_noteq (Ne.symm hctn1), Function.update_same]
    · intro key hkey
      simp only [entries_update_table, if_true]
      rw [tget_tset_ne _ _ _ _ hkey]
    · intro key hkey
      simp only [entries_update_table, if_true]
      by_cases hk : key = LuaValue.string k
      · rw [hk, tget_tset_same]
        intro hh
        cases hh
      · rw [tget_tset_ne _ _ _ _ hk]
        exact hkey
    · simp [Heap.tmeta]
    · intro a ha hlt
      rw [Function.update_noteq ha, Function.update_noteq (by omega), Function.update_noteq (by omega)]
  · intro ct q hcls hmark
    refine ⟨_, jcall_set_negative_cache_ok H cn k ct (LuaValue.lightuserdata q) s h n l b p rs rl hcls hmark
      hroom hmc hmk,
      ?_, ?_, ?_, ?_, ?_⟩
    · simp only [entries_update_table, if_true, tget_tset_same]
    · intro key hkey
      simp only [entries_update_table, if_true]
      exact tget_tset_ne _ _ _ _ hkey
    · intro key hkey
      simp only [entries_update_table, if_true]
      by_cases hk : key = LuaValue.string (cstr k)
      · rw [hk, tget_tset_same]
        intro hh
        cases hh
      · rw [tget_tset_ne _ _ _ _ hk]
        exact hkey
    · simp
    · intro a ha
      exact Function.update_noteq ha _ _

/-- Witness for C14 (amended), on the heap of `cacheWorld`: the member `length` of the class
`java.lang.String`, which has no table yet; the member `hashCode` of `java.lang.Object`, whose
table (table 5) holds an accessor under that key; and the key `typoMethod` of that class. -/
theorem class_table_writes_witness :
    (∃ h1, create_class_table (some (lit "java.lang.String"))
          ⟨LuaValue.nil :: [], cacheWorld.heap, 9, 8000, fun _ => none, none, [], []⟩ =
          Res.ok () ⟨LuaValue.table 9 :: LuaValue.table 9 :: [], h1, 9 + 1, 8000, fun _ => none, none, [], []⟩ ∧
        tget (h1.entries REGISTRY) (LuaValue.string (cstr (lit "java.lang.String"))) = LuaValue.table 9 ∧
        h1.tmeta 9 = none ∧
        (∀ a, a ≠ REGISTRY → a ≠ 3 → a ≠ 9 → h1 a = cacheWorld.heap a)) ∧
    (∃ h1 st1, pushmetafunction_protected exampleHost (JValue.bytes (lit "java.lang.String"))
          (JValue.bytes (lit "length")) (JValue.object 42) 2
            ⟨[], cacheWorld.heap, 9, 8000, fun _ => none, none, [], []⟩ =
          Res.ok (if (2 : Int) = 3 then 0 else 1) ⟨st1, h1, 9 + 1 + 1 + 1, 8000, fun _ => none, none, [], []⟩ ∧
        tget (h1.entries REGISTRY) (LuaValue.string (cstr (lit "java.lang.String"))) = LuaValue.table 9 ∧
        tget (h1.entries 9) (LuaValue.string (lit "length")) = LuaValue.function (9 + 1 + 1) ∧
        (∀ a, a ≠ REGISTRY → a ≠ 3 → a < 9 → h1 a = cacheWorld.heap a)) ∧
    (∃ h1 st1, pushmetafunction_protected exampleHost (JValue.bytes (lit "java.lang.Object"))
          (JValue.bytes (lit "hashCode")) (JValue.object 42) 2
            ⟨[], cacheWorld.heap, 9, 8000, fun _ => none, none, [], []⟩ =
          Res.ok (if (2 : Int) = 3 then 0 else 1) ⟨st1, h1, 9 + 1 + 1, 8000, fun _ => none, none, [], []⟩ ∧
        tget (h1.entries 5) (LuaValue.string (lit "hashCode")) = LuaValue.function (9 + 1) ∧
        h1 (9 + 1) = some (GCObject.cclosure CFunction.calljavafunction
          [LuaValue.userdata 9, LuaValue.boolean (decide ((2 : Int) = 3)),
            LuaValue.string (cstr (cstr (lit "java.lang.Object") ++ lit "." ++ cstr (lit "hashCode")))]) ∧
        (∀ key, key ≠ LuaValue.string (lit "hashCode") →
          tget (h1.entries 5) key = tget (cacheWorld.heap.entries 5) key) ∧
        (∀ key, tget (cacheWorld.heap.entries 5) key ≠ LuaValue.nil → tget (h1.entries 5) key ≠ LuaValue.nil) ∧
        h1.tmeta 5 = cacheWorld.heap.tmeta 5 ∧
        (∀ a, a ≠ 5 → a < 9 → h1 a = cacheWorld.heap a)) ∧
    (∃ h1, jcall_set_negative_cache exampleHost (JValue.bytes (lit "java.lang.Object"))
          (JValue.bytes (lit "typoMethod")) ⟨[], cacheWorld.heap, 9, 8000, fun _ => none, none, [], []⟩ =
          Res.ok () ⟨[LuaValue.string (lit "typoMethod")], h1, 9, 8000, fun _ => none, none, [], []⟩ ∧
        tget (h1.entries 5) (LuaValue.string (cstr (lit "typoMethod"))) = LuaValue.lightuserdata 99 ∧
        (∀ key, key ≠ LuaValue.string (cstr (lit "typoMethod")) →
          tget (h1.entries 5) key = tget (cacheWorld.heap.entries 5) key) ∧
        (∀ key, tget (cacheWorld.heap.entries 5) key ≠ LuaValue.nil → tget (h1.entries 5) key ≠ LuaValue.nil) ∧
        h1.tmeta 5 = cacheWorld.heap.tmeta 5 ∧
        (∀ a, a ≠ 5 → h1 a = cacheWorld.heap a)) :=
  ⟨(class_table_writes exampleHost (JValue.object 42) (lit "java.lang.String") (lit "length") 2 2 3 []
      cacheWorld.heap 9 8000 (fun _ => none) none [] [] (by decide) rfl rfl rfl rfl (by decide) (by decide)
      (by decide) (by decide) (by decide)).1 (by decide),
    (class_table_writes exampleHost (JValue.object 42) (lit "java.lang.String") (lit "length") 2 2 3 []
      cacheWorld.heap 9 8000 (fun _ => none) none [] [] (by decide) rfl rfl rfl rfl (by decide) (by decide)
      (by decide) (by decide) (by decide)).2.1 (by decide),
    (class_table_writes exampleHost (JValue.object 42) (lit "java.lang.Object") (lit "hashCode") 2 2 3 []
      cacheWorld.heap 9 8000 (fun _ => none) none [] [] (by decide) rfl rfl rfl rfl (by decide) (by decide)
      (by decide) (by decide) (by decide)).2.2.1 5 (by decide) (by decide) (by decide),
    (class_table_writes exampleHost (JValue.object 42) (lit "java.lang.Object") (lit "typoMethod") 2 2 3 []
      cacheWorld.heap 9 8000 (fun _ => none) none [] [] (by decide) rfl rfl rfl rfl (by decide) (by decide)
      (by decide) (by decide) (by decide)).2.2.2 5 99 (by decide) (by decide)⟩

/-! ## C15: thread enter and leave -/

/-- Crossings nested inside an entered thread change nothing: they neither attach nor detach
nor touch `JNLUA_CONTROL`. -/
theorem nestedCrossings_inner (attachOk : Bool) (depth : Nat) (t : ThreadState)
    (hc : t.JNLUA_CONTROL ≠ 0) : nestedCrossings attachOk depth t = t := by
  induction depth with
  | zero => rfl
  | succ d ih =>
    have he : JNLUA_ENV attachOk t = (0 + 10, t) := by simp [JNLUA_ENV, hc]
    simp only [nestedCrossings, he, ih]
    simp [JNLUA_DETACH]

/-- C15: on a thread that is not attached and not inside a crossing, `N = depth + 1` nested
enter steps followed by their leave steps in reverse order call `AttachCurrentThread` exactly once,
at the outermost enter, and `DetachCurrentThread` exactly once, at the outermost leave; the
crossings nested inside leave the thread state as the outermost enter made it (no attach, no
detach, `JNLUA_CONTROL` untouched), and at the end `JNLUA_CONTROL` is 0 again. -/
theorem nested_crossings_attach_once (attachOk : Bool) (depth : Nat) (t : ThreadState)
    (hc : t.JNLUA_CONTROL = 0) (hd : t.attached = false) :
    (JNLUA_ENV attachOk t).1 = JNI_EDETACHED ∧
    (JNLUA_ENV attachOk t).2 =
      { JNLUA_CONTROL := 1, attached := attachOk, attachCalls := t.attachCalls + 1,
        detachCalls := t.detachCalls } ∧
    nestedCrossings attachOk depth (JNLUA_ENV attachOk t).2 = (JNLUA_ENV attachOk t).2 ∧
    nestedCrossings attachOk (depth + 1) t =
      { JNLUA_CONTROL := 0, attached := false, attachCalls := t.attachCalls + 1,
        detachCalls := t.detachCalls + 1 } := by
  have he : JNLUA_ENV attachOk t = (JNI_EDETACHED,
      { JNLUA_CONTROL := 1, attached := attachOk, attachCalls := t.attachCalls + 1,
        detachCalls := t.detachCalls }) := by
    simp [JNLUA_ENV, hc, GetEnv, hd, AttachCurrentThread]
  have hin := nestedCrossings_inner attachOk depth
    { JNLUA_CONTROL := 1, attached := attachOk, attachCalls := t.attachCalls + 1,
      detachCalls := t.detachCalls } (by simp)
  refine ⟨by rw [he], by rw [he], by rw [he]; exact hin, ?_⟩
  simp only [nestedCrossings, he, hin]
  simp [JNLUA_DETACH, JNI_EDETACHED, DetachCurrentThread]

/-- Witness for C15: three nested crossings on a fresh thread. -/
theorem nested_crossings_attach_once_witness :
    (JNLUA_ENV true ⟨0, false, 0, 0⟩).1 = JNI_EDETACHED ∧
    (JNLUA_ENV true ⟨0, false, 0, 0⟩).2 = ⟨1, true, 1, 0⟩ ∧
    nestedCrossings true 2 (JNLUA_ENV true ⟨0, false, 0, 0⟩).2 = (JNLUA_ENV true ⟨0, false, 0, 0⟩).2 ∧
    nestedCrossings true 3 ⟨0, false, 0, 0⟩ = ⟨0, false, 1, 1⟩ :=
  nested_crossings_attach_once true 2 ⟨0, false, 0, 0⟩ rfl rfl

/-! ## C16, C17, C18: the capped allocator -/

/-- C16, at the failing inputs: with a cap `total > 0` and a recorded usage `0 <= used <= total`,
every fresh allocation larger than the cap itself, and every reallocation that grows a block by
more than the cap, is granted: `total - nsize` is computed in `size_t` and wraps around to a huge
value, which is never below `used`.  The recorded usage then exceeds the cap (up to the `jint`
conversion).  Requests that would pass the cap by less are refused: a fresh allocation with
`total - used < nsize <= total`, a growth with `total - used < nsize - osize <= total`. -/
theorem l_alloc_grants_beyond_cap (total used osize nsize : Int)
    (htotal : 0 < total ∧ total < 2147483648) (hused : 0 ≤ used ∧ used ≤ total)
    (hosize : 0 ≤ osize) (hnsize : nsize < 18446744073709551616) :
    (total < nsize → l_alloc total used true osize nsize =
      (AllocCall.malloc nsize, jint (used + nsize))) ∧
    (total < nsize - osize → l_alloc total used false osize nsize =
      (AllocCall.realloc nsize, jint (used + (nsize - osize)))) ∧
    (total - used < nsize → nsize ≤ total → l_alloc total used true osize nsize =
      (AllocCall.refused, used)) ∧
    (total - used < nsize - osize → nsize - osize ≤ total → l_alloc total used false osize nsize =
      (AllocCall.refused, used)) := by
  obtain ⟨ht0, ht1⟩ := htotal
  obtain ⟨hu0, hu1⟩ := hused
  refine ⟨?_, ?_, ?_, ?_⟩
  · intro h
    have hn0 : nsize ≠ 0 := by omega
    have hcond : total ≥ 0 ∧ size_t (size_t total - nsize) ≥ size_t used := by
      unfold size_t
      omega
    have hval : jint (size_t (size_t used + nsize)) = jint (used + nsize) := by
      unfold jint size_t
      omega
    simp only [l_alloc, hn0, if_false, if_true, hcond, and_self, hval]
  · intro h
    have hn0 : nsize ≠ 0 := by omega
    have hcond : nsize ≤ osize ∨ size_t (size_t total - size_t (nsize - osize)) ≥ size_t used := by
      right
      unfold size_t
      omega
    have hval : jint (size_t (size_t used + size_t (nsize - osize))) = jint (used + (nsize - osize)) := by
      unfold jint size_t
      omega
    simp only [l_alloc, hn0, if_false, Bool.false_eq_true, hcond, if_true, hval]
  · intro h1 h2
    have hn0 : nsize ≠ 0 := by omega
    have hcond : ¬ (total ≥ 0 ∧ size_t (size_t total - nsize) ≥ size_t used) := by
      unfold size_t
      omega
    simp only [l_alloc, hn0, if_false, if_true, hcond]
  · intro h1 h2
    have hn0 : nsize ≠ 0 := by omega
    have hcond : ¬ (nsize ≤ osize ∨ size_t (size_t total - size_t (nsize - osize)) ≥ size_t used) := by
      unfold size_t
      omega
    simp only [l_alloc, hn0, if_false, Bool.false_eq_true, hcond]

/-- Witness for C16: a cap of 1024 bytes, nothing in use, and a fresh request of 2000 bytes: the
request is granted and 2000 bytes are recorded as used. -/
theorem l_alloc_grants_beyond_cap_witness :
    l_alloc 1024 0 true 0 2000 = (AllocCall.malloc 2000, 2000) ∧ (1024 : Int) < 0 + 2000 :=
  ⟨(l_alloc_grants_beyond_cap 1024 0 0 2000 (by decide) (by decide) (by decide) (by decide)).1 (by decide),
    by decide⟩

/-- C17: every reallocation request with `ptr != NULL` and `0 < nsize <= osize` is passed to
`realloc`, whatever the cap `total` and the recorded usage `used` are (also when `used` exceeds
`total`, and for a negative or zero cap); the recorded usage becomes `used - (osize - nsize)` in
`jint` arithmetic, which is that very number whenever it is not below the least `jint`. -/
theorem l_alloc_shrink_granted (total used osize nsize : Int)
    (hused : -2147483648 ≤ used ∧ used < 2147483648)
    (hn : 0 < nsize ∧ nsize ≤ osize) (hosize : osize < 18446744073709551616) :
    l_alloc total used false osize nsize = (AllocCall.realloc nsize, jint (used - (osize - nsize))) ∧
    (-2147483648 ≤ used - (osize - nsize) → jint (used - (osize - nsize)) = used - (osize - nsize)) := by
  obtain ⟨hu0, hu1⟩ := hused
  obtain ⟨hn0, hn1⟩ := hn
  constructor
  · have hz : nsize ≠ 0 := by omega
    have hval : jint (size_t (size_t used + size_t (nsize - osize))) = jint (used - (osize - nsize)) := by
      unfold jint size_t
      omega
    simp only [l_alloc, hz, if_false, Bool.false_eq_true, hn1, true_or, if_true, hval]
  · intro h
    unfold jint
    omega

/-- Witness for C17: a block of 64 bytes shrunk to 16 bytes while 2000 bytes are recorded as
used under a cap of 1024 bytes. -/
theorem l_alloc_shrink_granted_witness :
    l_alloc 1024 2000 false 64 16 = (AllocCall.realloc 16, jint (2000 - (64 - 16))) ∧
    (-2147483648 ≤ (2000 : Int) - (64 - 16) → jint (2000 - (64 - 16)) = 2000 - (64 - 16)) :=
  l_alloc_shrink_granted 1024 2000 64 16 (by decide) (by decide) (by decide)

/-- C18: a request that `l_alloc` refuses leaves the recorded usage as it was; hence, after a
refused request, a fresh allocation of `nsize > 0` bytes with `used + nsize <= total` is granted
and raises the recorded usage by exactly `nsize` (the usage being a byte count, `0 <= used`); a
release request (`nsize = 0`) lowers the recorded usage by `osize` in `jint` arithmetic, which is
exactly `used - osize` whenever that number is not below the least `jint`. -/
theorem l_alloc_refusal_keeps_usage (total used : Int)
    (htotal : total < 2147483648) (hused : 0 ≤ used ∧ used < 2147483648) :
    (∀ (ptrNull : Bool) (osize nsize : Int),
      (l_alloc total used ptrNull osize nsize).1 = AllocCall.refused →
      (l_alloc total used ptrNull osize nsize).2 = used) ∧
    (∀ (ptrNull : Bool) (osize nsize1 nsize : Int),
      (l_alloc total used ptrNull osize nsize1).1 = AllocCall.refused →
      0 < nsize → used + nsize ≤ total →
      l_alloc total (l_alloc total used ptrNull osize nsize1).2 true 0 nsize =
        (AllocCall.malloc nsize, used + nsize)) ∧
    (∀ (ptrNull : Bool) (osize : Int), 0 ≤ osize → osize < 18446744073709551616 →
      l_alloc total used ptrNull osize 0 = (AllocCall.freed, jint (used - osize)) ∧
      (-2147483648 ≤ used - osize → jint (used - osize) = used - osize)) := by
  obtain ⟨hu0, hu1⟩ := hused
  have hrefused : ∀ (ptrNull : Bool) (osize nsize : Int),
      (l_alloc total used ptrNull osize nsize).1 = AllocCall.refused →
      (l_alloc total used ptrNull osize nsize).2 = used := by
    intro ptrNull osize nsize h
    unfold l_alloc at h ⊢
    split_ifs at h ⊢ <;> rfl
  refine ⟨hrefused, ?_, ?_⟩
  · intro ptrNull osize nsize1 nsize href hn hle
    rw [hrefused ptrNull osize nsize1 href]
    have hz : nsize ≠ 0 := by omega
    have hcond : total ≥ 0 ∧ size_t (size_t total - nsize) ≥ size_t used := by
      unfold size_t
      omega
    have hval : jint (size_t (size_t used + nsize)) = used + nsize := by
      unfold jint size_t
      omega
    simp only [l_alloc, hz, if_false, if_true, hcond, and_self, hval]
  · intro ptrNull osize ho0 ho1
    constructor
    · have hval : jint (size_t (size_t used - osize)) = jint (used - osize) := by
        unfold jint size_t
        omega
      simp only [l_alloc, if_true, hval]
    · intro h
      unfold jint
      omega

/-- Witness for C18: under a cap of 1024 bytes with 1000 bytes in use a request of 100 bytes is
refused; the request of 8 bytes that follows is granted and 1008 bytes are recorded. -/
theorem l_alloc_refusal_keeps_usage_witness :
    (l_alloc 1024 1000 true 0 100).1 = AllocCall.refused ∧
    l_alloc 1024 (l_alloc 1024 1000 true 0 100).2 true 0 8 = (AllocCall.malloc 8, 1000 + 8) ∧
    l_alloc 1024 1000 false 64 0 = (AllocCall.freed, jint (1000 - 64)) :=
  ⟨by decide,
    (l_alloc_refusal_keeps_usage 1024 1000 (by decide) (by decide)).2.1 true 0 100 8 (by decide) (by decide)
      (by decide),
    ((l_alloc_refusal_keeps_usage 1024 1000 (by decide) (by decide)).2.2 false 64 (by decide) (by decide)).1⟩

/-! ## C19: `throw` on an unknown status -/

/-- C19: for every status that is not one of the five abort statuses, `throw(L, status)` with the
error value on top of the stack raises exactly one exception, a `java.lang.Error` with the
message "unknown Lua status <status>" (the text `throw_protected` raises as an engine error and
`throw` reads back with `lua_tostring`); none of the five typed exceptions is raised and the call
does not return without a pending exception.  The stack must be able to grow by LUA_MINSTACK. -/
theorem throw_unknown_status (H : Host) (w : World) (e : LuaValue) (rest : List LuaValue) (status : Int)
    (hstack : w.stack = e :: rest)
    (hroom : (w.stack.length : Int) + JNLUA_MINSTACK ≤ w.limit)
    (hstatus : status ∉ [LUA_ERRRUN, LUA_ERRSYNTAX, LUA_ERRMEM, LUA_ERRGCMM, LUA_ERRERR]) :
    throw H status w = Res.ok () { w with
      stack := LuaValue.string (lit ("unknown Lua status " ++ toString status)) :: rest,
      heap := Function.update w.heap w.next (some (GCObject.cclosure CFunction.throw_protected [])),
      next := w.next + 1,
      pending := some (JValue.throwable JClass.Error
        (some (cstr (lit ("unknown Lua status " ++ toString status)))) JValue.null),
      raised := w.raised ++ [JValue.throwable JClass.Error
        (some (cstr (lit ("unknown Lua status " ++ toString status)))) JValue.null] } ∧
    JClass.Error ∉ [JClass.LuaRuntimeException, JClass.LuaSyntaxException,
      JClass.LuaMemoryAllocationException, JClass.LuaGcMetamethodException,
      JClass.LuaMessageHandlerException] := by
  refine ⟨?_, by decide⟩
  obtain ⟨s, h, n, l, b, p, rs, rl⟩ := w
  simp only at hstack hroom
  subst hstack
  have hc : throwClass status = none := by
    simp only [List.mem_cons, List.mem_singleton, List.not_mem_nil, or_false, not_or] at hstatus
    obtain ⟨h1, h2, h3, h4, h5⟩ := hstatus
    simp [throwClass, h1, h2, h3, h4, h5]
  have hbody : throw_protected H status
      ⟨[e], Function.update h n (some (GCObject.cclosure CFunction.throw_protected [])), n + 1, l, b, p, rs, rl⟩ =
      Res.raise (LuaValue.string (lit ("unknown Lua status " ++ toString status)))
        ⟨[LuaValue.string (lit ("unknown Lua status " ++ toString status)), e],
          Function.update h n (some (GCObject.cclosure CFunction.throw_protected [])), n + 1, l, b, p, rs, rl⟩ := by
    simp [throw_protected, hc, lua_error]
  have hlen : ¬ (rest.length + 1 + 1 < 2) := by omega
  simp only [throw, checkstack, lua_checkstack, bind_apply, hroom, decide_True, check, if_true,
    pure_apply, lua_pushcfunction, lua_pushcclosure, Nat.zero_le, List.take_zero, List.reverse_nil,
    List.drop_zero, lua_insert, slot_m2, List.take_succ_cons, List.take_zero, List.drop_succ_cons,
    List.drop_zero, List.nil_append, List.cons_append, pcallC]
  simp [hbody, hlen, LUA_ERRRUN, ThrowNew]

/-- Witness for C19: status 99 with the error value "boom". -/
theorem throw_unknown_status_witness :
    throw exampleHost 99 { exampleWorld with stack := [LuaValue.string (lit "boom")] } =
      Res.ok () { exampleWorld with
        stack := [LuaValue.string (lit ("unknown Lua status " ++ toString (99 : Int)))],
        heap := Function.update exampleWorld.heap 2 (some (GCObject.cclosure CFunction.throw_protected [])),
        next := 2 + 1,
        pending := some (JValue.throwable JClass.Error
          (some (cstr (lit ("unknown Lua status " ++ toString (99 : Int))))) JValue.null),
        raised := [] ++ [JValue.throwable JClass.Error
          (some (cstr (lit ("unknown Lua status " ++ toString (99 : Int))))) JValue.null] } ∧
    JClass.Error ∉ [JClass.LuaRuntimeException, JClass.LuaSyntaxException,
      JClass.LuaMemoryAllocationException, JClass.LuaGcMetamethodException,
      JClass.LuaMessageHandlerException] :=
  throw_unknown_status exampleHost { exampleWorld with stack := [LuaValue.string (lit "boom")] }
    (LuaValue.string (lit "boom")) [] 99 rfl (by decide) (by decide)

/-! ## C20: failures of the stack operations -/

/-- Counterexample to C20 as stated: `jcall_pop(L, 1)` on an empty stack raises a
`java.lang.IllegalArgumentException` ("illegal count"), which is none of the five typed
failures. -/
theorem jcall_pop_raises_illegal_argument :
    jcall_pop 1 exampleWorld =
      Res.ok () { exampleWorld with
        pending := some (JValue.throwable JClass.IllegalArgumentException (some (lit "illegal count"))
          JValue.null),
        raised := [JValue.throwable JClass.IllegalArgumentException (some (lit "illegal count"))
          JValue.null] } ∧
    JClass.IllegalArgumentException ∉ [JClass.LuaRuntimeException, JClass.LuaSyntaxException,
      JClass.LuaMemoryAllocationException, JClass.LuaGcMetamethodException,
      JClass.LuaMessageHandlerException] := by
  refine ⟨?_, by decide⟩
  have hc : cstr (lit "illegal count") = lit "illegal count" := by decide
  simp [jcall_pop, exampleWorld, checkarg, check, ThrowNew, hc]

/-- C20, amended: the stack operations validate their arguments with `checkarg`, `checknelems`
and `checkstack`.  `jcall_pop(n)` with `0 <= n <= top` pops `n` values and raises nothing; with
any other count it raises exactly one `IllegalArgumentException` ("illegal count").
`jcall_insert` with an index outside both `1 .. top` and `-top .. -1` raises exactly one
`IllegalArgumentException` ("illegal index"); with the index of a stack slot (`1 .. top`, or
`-top .. -1` above `LUA_REGISTRYINDEX`) it completes and raises nothing.  `jcall_call` with
`nargs < 0` raises exactly one `IllegalArgumentException` ("illegal argument count"); with
`0 <= nargs < INT_MAX` and fewer than `nargs + 1` values on the stack exactly one
`IllegalStateException` ("stack underflow"); with enough values and `nresults < -1` exactly one
`IllegalArgumentException` ("illegal return count"); with `nresults > nargs + 1` and no room for
`nresults - (nargs + 1)` more slots exactly one `IllegalStateException` ("stack overflow"); for
`nargs = INT_MAX` the sum `nargs + 1` overflows, which C leaves undefined.  In each failing case
the call returns with the rest of the state, the stack included, unchanged.  Neither class is one
of the five typed failures. -/
theorem stack_operations_argument_failures (H : Host) (w : World) :
    (∀ n : Int, 0 ≤ n → n ≤ w.stack.length →
      jcall_pop n w = Res.ok () { w with stack := w.stack.drop n.toNat }) ∧
    (∀ n : Int, ¬ (0 ≤ n ∧ n ≤ w.stack.length) →
      jcall_pop n w = Res.ok () { w with
        pending := some (JValue.throwable JClass.IllegalArgumentException
          (some (cstr (lit "illegal count"))) JValue.null),
        raised := w.raised ++ [JValue.throwable JClass.IllegalArgumentException
          (some (cstr (lit "illegal count"))) JValue.null] }) ∧
    (∀ index : Int, ¬ ((1 ≤ index ∧ index ≤ w.stack.length) ∨
        (-(w.stack.length : Int) ≤ index ∧ index ≤ -1)) →
      jcall_insert index w = Res.ok () { w with
        pending := some (JValue.throwable JClass.IllegalArgumentException
          (some (cstr (lit "illegal index"))) JValue.null),
        raised := w.raised ++ [JValue.throwable JClass.IllegalArgumentException
          (some (cstr (lit "illegal index"))) JValue.null] }) ∧
    (∀ index : Int, (1 ≤ index ∧ index ≤ w.stack.length) ∨
        (-(w.stack.length : Int) ≤ index ∧ index ≤ -1 ∧ LUA_REGISTRYINDEX < index) →
      ∃ stack1, jcall_insert index w = Res.ok () { w with stack := stack1 } ∧
        stack1.length = w.stack.length) ∧
    (∀ nargs nresults : Int, nargs < 0 →
      jcall_call H nargs nresults w = Res.ok 0 { w with
        pending := some (JValue.throwable JClass.IllegalArgumentException
          (some (cstr (lit "illegal argument count"))) JValue.null),
        raised := w.raised ++ [JValue.throwable JClass.IllegalArgumentException
          (some (cstr (lit "illegal argument count"))) JValue.null] }) ∧
    (∀ nargs nresults : Int, 0 ≤ nargs → nargs < INT_MAX → (w.stack.length : Int) < nargs + 1 →
      jcall_call H nargs nresults w = Res.ok 0 { w with
        pending := some (JValue.throwable JClass.IllegalStateException
          (some (cstr (lit "stack underflow"))) JValue.null),
        raised := w.raised ++ [JValue.throwable JClass.IllegalStateException
          (some (cstr (lit "stack underflow"))) JValue.null] }) ∧
    (∀ nargs nresults : Int, 0 ≤ nargs → nargs < INT_MAX → nargs + 1 ≤ (w.stack.length : Int) →
        nresults < LUA_MULTRET →
      jcall_call H nargs nresults w = Res.ok 0 { w with
        pending := some (JValue.throwable JClass.IllegalArgumentException
          (some (cstr (lit "illegal return count"))) JValue.null),
        raised := w.raised ++ [JValue.throwable JClass.IllegalArgumentException
          (some (cstr (lit "illegal return count"))) JValue.null] }) ∧
    (∀ nargs nresults : Int, 0 ≤ nargs → nargs < INT_MAX → nargs + 1 ≤ (w.stack.length : Int) →
        nargs + 1 < nresults → (w.limit : Int) < (w.stack.length : Int) + (nresults - (nargs + 1)) →
      jcall_call H nargs nresults w = Res.ok 0 { w with
        pending := some (JValue.throwable JClass.IllegalStateException
          (some (cstr (lit "stack overflow"))) JValue.null),
        raised := w.raised ++ [JValue.throwable JClass.IllegalStateException
          (some (cstr (lit "stack overflow"))) JValue.null] }) ∧
    (∀ nresults : Int, jcall_call H INT_MAX nresults w = Res.undef) ∧
    JClass.IllegalArgumentException ∉ [JClass.LuaRuntimeException, JClass.LuaSyntaxException,
      JClass.LuaMemoryAllocationException, JClass.LuaGcMetamethodException,
      JClass.LuaMessageHandlerException] ∧
    JClass.IllegalStateException ∉ [JClass.LuaRuntimeException, JClass.LuaSyntaxException,
      JClass.LuaMemoryAllocationException, JClass.LuaGcMetamethodException,
      JClass.LuaMessageHandlerException] := by
  obtain ⟨s, h, n0, l, b, p, rs, rl⟩ := w
  refine ⟨?_, ?_, ?_, ?_, ?_, ?_, ?_, ?_, ?_, by decide, by decide⟩
  · intro n h0 h1
    simp only at h1
    have hle : -(-n - 1 + 1) ≤ (s.length : Int) := by omega
    have hneg : ¬ (0 ≤ -n - 1) := by omega
    have heq : (-(-n - 1 + 1)).toNat = n.toNat := by
      congr 1
      omega
    simp [jcall_pop, checkarg, check, h0, h1, lua_pop, lua_settop, hneg, hle, heq]
  · intro n hn
    simp only at hn
    simp [jcall_pop, checkarg, check, hn, ThrowNew]
  · intro index hidx
    simp only at hidx
    have hidx1 : ¬ (1 ≤ (if index ≤ 0 then (s.length : Int) + index + 1 else index) ∧
        (if index ≤ 0 then (s.length : Int) + index + 1 else index) ≤ s.length) := by
      split_ifs <;> omega
    simp [jcall_insert, checkrealindex, checkarg, check, hidx1, ThrowNew]
  · intro index hidx
    simp only at hidx
    have hidx1 : (1 ≤ (if index ≤ 0 then (s.length : Int) + index + 1 else index) ∧
        (if index ≤ 0 then (s.length : Int) + index + 1 else index) ≤ s.length) := by
      split_ifs <;> omega
    cases s with
    | nil => simp at hidx; omega
    | cons t rest =>
      simp only [List.length_cons, Nat.cast_add, Nat.cast_one] at hidx hidx1
      rcases hidx with ⟨h1, h2⟩ | ⟨h1, h2, h3⟩
      · have hs : slot ⟨t :: rest, h, n0, l, b, p, rs, rl⟩ index = some (rest.length + 1 - index.toNat) := by
          have h0 : 0 < index := by omega
          have h5 : index ≤ ((rest.length + 1 : Nat) : Int) := by
            push_cast; omega
          simp only [slot, h0, if_true, List.length_cons, h5]
        refine ⟨rest.take (rest.length + 1 - index.toNat) ++ t :: rest.drop (rest.length + 1 - index.toNat), ?_, ?_⟩
        · simp only [jcall_insert, checkrealindex, lua_gettop, bind_apply, checkarg, check, List.length_cons,
            Nat.cast_add, Nat.cast_one, ge_iff_le, hidx1, and_self, decide_True, if_true, pure_apply,
            lua_insert, hs]
        · simp only [List.length_append, List.length_take, List.length_cons, List.length_drop]
          omega
      · have hs : slot ⟨t :: rest, h, n0, l, b, p, rs, rl⟩ index = some ((-index).toNat - 1) := by
          have h0 : ¬ 0 < index := by omega
          have h4 : index < 0 ∧ LUA_REGISTRYINDEX < index := ⟨by omega, h3⟩
          have h5 : -index ≤ (((t :: rest).length : Nat) : Int) := by
            simp only [List.length_cons]; push_cast; omega
          simp only [slot, h0, if_false, h4, and_self, if_true, h5]
        refine ⟨rest.take ((-index).toNat - 1) ++ t :: rest.drop ((-index).toNat - 1), ?_, ?_⟩
        · simp only [jcall_insert, checkrealindex, lua_gettop, bind_apply, checkarg, check, List.length_cons,
            Nat.cast_add, Nat.cast_one, ge_iff_le, hidx1, and_self, decide_True, if_true, pure_apply,
            lua_insert, hs]
        · simp only [List.length_append, List.length_take, List.length_cons, List.length_drop]
          omega
  · intro nargs nresults hneg
    have h1 : ¬ (nargs ≥ 0) := by omega
    simp [jcall_call, checkarg, check, h1, ThrowNew]
  · intro nargs nresults h0 hmax hlen
    simp only at hlen
    have h1 : ¬ (nargs + 1 > INT_MAX) := by omega
    have h2 : ¬ ((s.length : Int) ≥ nargs + 1) := by omega
    simp [jcall_call, checkarg, check, h0, h1, checknelems, checkstate, h2, ThrowNew]
  · intro nargs nresults h0 hmax hlen hres
    simp only at hlen
    simp only [LUA_MULTRET] at hres
    have h1 : ¬ (nargs + 1 > INT_MAX) := by omega
    have h2 : (s.length : Int) ≥ nargs + 1 := by omega
    have h3 : ¬ (nresults ≥ 0 ∨ nresults = LUA_MULTRET) := by simp only [LUA_MULTRET]; omega
    simp [jcall_call, checkarg, check, h0, h1, checknelems, checkstate, h2, h3, ThrowNew]
  · intro nargs nresults h0 hmax hlen hres hroom
    simp only at hlen hroom
    have h1 : ¬ (nargs + 1 > INT_MAX) := by omega
    have h2 : (s.length : Int) ≥ nargs + 1 := by omega
    have h3 : (nresults ≥ 0 ∨ nresults = LUA_MULTRET) := Or.inl (by omega)
    have h4 : ¬ (nresults = LUA_MULTRET ∨ nresults ≤ nargs + 1) := by simp only [LUA_MULTRET]; omega
    have h5 : ¬ ((s.length : Int) + (nresults - (nargs + 1)) ≤ l) := by omega
    simp [jcall_call, jcall_call_room, checkarg, check, h0, h1, checknelems, checkstate, h2, h3, h4,
      checkstack, lua_checkstack, h5, ThrowNew]
  · intro nresults
    simp [jcall_call, checkarg, check, INT_MAX, undefined]

/-- Witness for C20 (amended): operations on the state `callerWorld`, whose stack holds one
value. -/
theorem stack_operations_argument_failures_witness :
    jcall_pop 1 callerWorld = Res.ok () { callerWorld with stack := [] } ∧
    jcall_pop 2 callerWorld = Res.ok () { callerWorld with
      pending := some (JValue.throwable JClass.IllegalArgumentException
        (some (cstr (lit "illegal count"))) JValue.null),
      raised := [] ++ [JValue.throwable JClass.IllegalArgumentException
        (some (cstr (lit "illegal count"))) JValue.null] } ∧
    jcall_insert (-2) callerWorld = Res.ok () { callerWorld with
      pending := some (JValue.throwable JClass.IllegalArgumentException
        (some (cstr (lit "illegal index"))) JValue.null),
      raised := [] ++ [JValue.throwable JClass.IllegalArgumentException
        (some (cstr (lit "illegal index"))) JValue.null] } ∧
    (∃ stack1, jcall_insert (-1) callerWorld = Res.ok () { callerWorld with stack := stack1 } ∧
      stack1.length = 1) ∧
    jcall_call exampleHost 1 0 callerWorld = Res.ok 0 { callerWorld with
      pending := some (JValue.throwable JClass.IllegalStateException
        (some (cstr (lit "stack underflow"))) JValue.null),
      raised := [] ++ [JValue.throwable JClass.IllegalStateException
        (some (cstr (lit "stack underflow"))) JValue.null] } ∧
    jcall_call exampleHost 0 (-2) callerWorld = Res.ok 0 { callerWorld with
      pending := some (JValue.throwable JClass.IllegalArgumentException
        (some (cstr (lit "illegal return count"))) JValue.null),
      raised := [] ++ [JValue.throwable JClass.IllegalArgumentException
        (some (cstr (lit "illegal return count"))) JValue.null] } ∧
    jcall_call exampleHost 0 8001 callerWorld = Res.ok 0 { callerWorld with
      pending := some (JValue.throwable JClass.IllegalStateException
        (some (cstr (lit "stack overflow"))) JValue.null),
      raised := [] ++ [JValue.throwable JClass.IllegalStateException
        (some (cstr (lit "stack overflow"))) JValue.null] } :=
  ⟨(stack_operations_argument_failures exampleHost callerWorld).1 1 (by decide) (by decide),
    (stack_operations_argument_failures exampleHost callerWorld).2.1 2 (by decide),
    (stack_operations_argument_failures exampleHost callerWorld).2.2.1 (-2) (by decide),
    (stack_operations_argument_failures exampleHost callerWorld).2.2.2.1 (-1) (Or.inr (by decide)),
    (stack_operations_argument_failures exampleHost callerWorld).2.2.2.2.2.1 1 0 (by decide) (by decide)
      (by decide),
    (stack_operations_argument_failures exampleHost callerWorld).2.2.2.2.2.2.1 0 (-2) (by decide) (by decide)
      (by decide) (by decide),
    (stack_operations_argument_failures exampleHost callerWorld).2.2.2.2.2.2.2.1 0 8001 (by decide)
      (by decide) (by decide) (by decide) (by decide)⟩

/-! ## Real indices: `checkrealindex` -/

/-- C26: `checkrealindex` converts every index `<= 0` with `top + index + 1` and tests the result
against `1 .. top`, without looking at `LUA_REGISTRYINDEX`.  While the stack holds fewer than
10000 values this accepts exactly the real stack slots, and for every other index, every
pseudo-index included, one `IllegalArgumentException` "illegal index" is raised and
`jcall_insert` / `jcall_remove` leave the stack unchanged.  On a stack of 10000 values or more the
pseudo-index `LUA_REGISTRYINDEX` is accepted without any exception, and `jcall_insert` /
`jcall_remove` hand it to `lua_insert` / `lua_remove`, which are defined for stack slots only. -/
theorem checkrealindex_accepts_pseudo_index (w : World) :
    (w.stack.length < 10000 → ∀ index : Int,
      (((1 ≤ index ∧ index ≤ w.stack.length) ∨ (-(w.stack.length : Int) ≤ index ∧ index ≤ -1)) →
        checkrealindex index w = Res.ok true w ∧ (slot w index).isSome = true) ∧
      (¬ ((1 ≤ index ∧ index ≤ w.stack.length) ∨ (-(w.stack.length : Int) ≤ index ∧ index ≤ -1)) →
        checkrealindex index w = Res.ok false { w with
          pending := some (JValue.throwable JClass.IllegalArgumentException
            (some (cstr (lit "illegal index"))) JValue.null),
          raised := w.raised ++ [JValue.throwable JClass.IllegalArgumentException
            (some (cstr (lit "illegal index"))) JValue.null] } ∧
        jcall_insert index w = Res.ok () { w with
          pending := some (JValue.throwable JClass.IllegalArgumentException
            (some (cstr (lit "illegal index"))) JValue.null),
          raised := w.raised ++ [JValue.throwable JClass.IllegalArgumentException
            (some (cstr (lit "illegal index"))) JValue.null] } ∧
        jcall_remove index w = Res.ok () { w with
          pending := some (JValue.throwable JClass.IllegalArgumentException
            (some (cstr (lit "illegal index"))) JValue.null),
          raised := w.raised ++ [JValue.throwable JClass.IllegalArgumentException
            (some (cstr (lit "illegal index"))) JValue.null] })) ∧
    (10000 ≤ w.stack.length →
      checkrealindex LUA_REGISTRYINDEX w = Res.ok true w ∧
      slot w LUA_REGISTRYINDEX = none ∧
      jcall_insert LUA_REGISTRYINDEX w = Res.undef ∧
      jcall_remove LUA_REGISTRYINDEX w = Res.undef) := by
  obtain ⟨s, h, n0, l, b, p, rs, rl⟩ := w
  refine ⟨?_, ?_⟩
  · intro hlt index
    simp only at hlt
    refine ⟨?_, ?_⟩
    · intro hreal
      have hidx : (1 ≤ (if index ≤ 0 then (s.length : Int) + index + 1 else index) ∧
          (if index ≤ 0 then (s.length : Int) + index + 1 else index) ≤ s.length) := by
        simp only at hreal
        split_ifs <;> omega
      refine ⟨by simp [checkrealindex, checkarg, check, hidx], ?_⟩
      simp only at hreal
      rcases hreal with ⟨h1, h2⟩ | ⟨h1, h2⟩
      · have h0 : 0 < index := by omega
        simp [slot, h0, h2]
      · have h0 : ¬ 0 < index := by omega
        have h3 : index < 0 ∧ LUA_REGISTRYINDEX < index := by
          simp only [LUA_REGISTRYINDEX]; omega
        have h4 : -index ≤ (s.length : Int) := by omega
        simp [slot, h0, h3, h4]
    · intro hreal
      have hidx : ¬ (1 ≤ (if index ≤ 0 then (s.length : Int) + index + 1 else index) ∧
          (if index ≤ 0 then (s.length : Int) + index + 1 else index) ≤ s.length) := by
        simp only at hreal
        split_ifs <;> omega
      refine ⟨?_, ?_, ?_⟩
      · simp [checkrealindex, checkarg, check, hidx, ThrowNew]
      · simp [jcall_insert, checkrealindex, checkarg, check, hidx, ThrowNew]
      · simp [jcall_remove, checkrealindex, checkarg, check, hidx, ThrowNew]
  · intro hge
    simp only at hge
    have hidx : (1 ≤ (if LUA_REGISTRYINDEX ≤ 0 then (s.length : Int) + LUA_REGISTRYINDEX + 1
          else LUA_REGISTRYINDEX) ∧
        (if LUA_REGISTRYINDEX ≤ 0 then (s.length : Int) + LUA_REGISTRYINDEX + 1 else LUA_REGISTRYINDEX)
          ≤ s.length) := by
      simp only [LUA_REGISTRYINDEX]
      split_ifs <;> omega
    have hslot : slot ⟨s, h, n0, l, b, p, rs, rl⟩ LUA_REGISTRYINDEX = none := by
      simp [slot, LUA_REGISTRYINDEX]
    refine ⟨?_, hslot, ?_, ?_⟩
    · simp [checkrealindex, checkarg, check, hidx]
    · simp [jcall_insert, checkrealindex, checkarg, check, hidx, lua_insert, hslot]
    · simp [jcall_remove, checkrealindex, checkarg, check, hidx, lua_remove, hslot]

/-- Witness for C26: index 2 on the one-value stack of `callerWorld` is rejected, and
`LUA_REGISTRYINDEX` is accepted on the 10000 values of `bigStackWorld`. -/
theorem checkrealindex_accepts_pseudo_index_witness :
    (checkrealindex 2 callerWorld = Res.ok false { callerWorld with
        pending := some (JValue.throwable JClass.IllegalArgumentException
          (some (cstr (lit "illegal index"))) JValue.null),
        raised := [] ++ [JValue.throwable JClass.IllegalArgumentException
          (some (cstr (lit "illegal index"))) JValue.null] }) ∧
    (checkrealindex LUA_REGISTRYINDEX bigStackWorld = Res.ok true bigStackWorld ∧
      jcall_insert LUA_REGISTRYINDEX bigStackWorld = Res.undef) :=
  ⟨(((checkrealindex_accepts_pseudo_index callerWorld).1 (by decide) 2).2 (by decide)).1,
    ((checkrealindex_accepts_pseudo_index bigStackWorld).2
      (by simp only [bigStackWorld, List.length_append, List.length_replicate, List.length_singleton]; omega)).1,
    ((checkrealindex_accepts_pseudo_index bigStackWorld).2
      (by simp only [bigStackWorld, List.length_append, List.length_replicate, List.length_singleton]; omega)).2.2.1⟩

/-! ## Recursion of `push_args` -/

/-- The element loop of `push_args` calls nothing but the function it is given, on the element
tag it is given. -/
theorem push_elements_congr (f g : JValue → Int → LuaM Int) (elemTag : Int)
    (hfg : ∀ o, f o elemTag = g o elemTag) (elems : List JValue) (j : Nat) (t0 : Option Int) :
    push_elements f elemTag elems j t0 = push_elements g elemTag elems j t0 := by
  induction elems generalizing j t0 with
  | nil => rfl
  | cons o rest ih =>
    simp only [push_elements, hfg o]
    funext w
    simp only [bind_apply]
    cases g o elemTag w with
    | ok a w1 =>
      simp only
      cases lua_rawseti (-2) ((j : Int) + 1) w1 with
      | ok a2 w2 => simp only [ih]
      | raise e w2 => rfl
      | undef => rfl
    | raise e w1 => rfl
    | undef => rfl

/-- One level of nesting uses up 16 of the tag. -/
theorem depthFor_sub (tag : Int) (h : tag > 16) : depthFor (tag - 16) + 1 = depthFor tag := by
  unfold depthFor
  have h1 : tag.toNat = (tag - 16).toNat + 16 := by omega
  rw [h1, Nat.add_div_right _ (by decide : 0 < 16)]

/-- The loop body of `push_args` gives the same result for every recursion budget that is at
least `depthFor tag`. -/
theorem push_slot_fuel (H : Host) (d1 d2 : Nat) (o : JValue) (tag : Int)
    (h1 : depthFor tag ≤ d1) (h2 : depthFor tag ≤ d2) :
    push_slot H d1 o tag = push_slot H d2 o tag := by
  induction d1 generalizing d2 o tag with
  | zero => unfold depthFor at h1; omega
  | succ d1 ih =>
    cases d2 with
    | zero => unfold depthFor at h2; omega
    | succ d2 =>
      by_cases ht : tag > 16
      · have hs := depthFor_sub tag ht
        have hrec : ∀ o1, push_slot H d1 o1 (tag - 16) = push_slot H d2 o1 (tag - 16) :=
          fun o1 => ih d2 o1 (tag - 16) (by omega) (by omega)
        cases o with
        | array elems =>
          simp only [push_slot, ht, if_true]
          rw [push_elements_congr (push_slot H d1) (push_slot H d2) (tag - 16) hrec]
        | null => simp only [push_slot, ht, if_true]
        | bytes b => simp only [push_slot, ht, if_true]
        | double d => simp only [push_slot, ht, if_true]
        | throwable c m l => simp only [push_slot, ht, if_true]
        | object i => simp only [push_slot, ht, if_true]
      · simp only [push_slot, ht, if_false]

/-- A run of the loop body at the deepest nesting a signed-byte tag allows: tag 113 on
`sevenDeep` returns, with seven tables created and the outermost one pushed. -/
theorem push_slot_sevenDeep (H : Host) (s : List LuaValue) (h : Heap) (n l : Nat)
    (b : Int → Option Nat) (p : Option JValue) (r rl : List JValue)
    (hmalloc : ∀ k, H.mallocOk k = true) :
    ∃ h1, push_slot H 8 sevenDeep 113 ⟨s, h, n, l, b, p, r, rl⟩ =
      Res.ok 1 ⟨LuaValue.table n :: s, h1, n + 7, l, b, p, r, rl⟩ := by
  simp [push_slot, push_elements, sevenDeep, hmalloc, lua_createtable, lua_rawseti, tableAt, LUA_TNIL,
    LUA_TBOOLEAN, JValue.isNull, World.store]

/-- One step of `push_slot`: the array branch or the switch. -/
theorem push_slot_succ (H : Host) (d : Nat) (o : JValue) (tag : Int) :
    push_slot H (d + 1) o tag =
      if tag > 16 then push_array H (push_slot H d) o tag else push_scalar H o tag := by
  by_cases ht : tag > 16
  · cases o <;> (simp only [push_slot, push_array, ht, if_true]; try rfl)
  · simp only [push_slot, push_scalar, ht, if_false]
    try rfl

/-- The budgeted loop body `push_slot` is `push_slot_with` answering `undefined` when the
budget is used up. -/
theorem push_slot_eq_with (H : Host) (d : Nat) (o : JValue) (tag : Int) :
    push_slot H d o tag = push_slot_with H undefined d o tag := by
  induction d generalizing o tag with
  | zero => simp only [push_slot, push_slot_with]
  | succ d ih =>
    have hrec : push_slot H d = push_slot_with H undefined d := by
      funext o1 t1; exact ih o1 t1
    rw [push_slot_succ, push_slot_with, hrec]

/-- The array branch calls nothing but the function it is given, on the tag minus 16. -/
theorem push_array_congr (H : Host) (f g : JValue → Int → LuaM Int) (o : JValue) (tag : Int)
    (hfg : ∀ o1, f o1 (tag - 16) = g o1 (tag - 16)) :
    push_array H f o tag = push_array H g o tag := by
  cases o with
  | array elems => simp only [push_array, push_elements_congr f g (tag - 16) hfg]
  | null => rfl
  | bytes b => rfl
  | double d => rfl
  | throwable c m l => rfl
  | object i => rfl

/-- The defining equation of `push_args_slot`. -/
theorem push_args_slot_eq (H : Host) (o : JValue) (tag : Int) :
    push_args_slot H o tag =
      if tag > 16 then push_array H (fun o1 _ => push_args_slot H o1 (tag - 16)) o tag
      else push_scalar H o tag := by
  rw [push_args_slot]
  split <;> rfl

/-- With a budget of at least `depthFor tag` levels the budget is never used up: whatever
`push_slot_with` answers at the end of the budget, its run is the run of `push_args_slot`. -/
theorem push_slot_with_enough (H : Host) (out : LuaM Int) (d : Nat) (o : JValue) (tag : Int)
    (hd : depthFor tag ≤ d) :
    push_slot_with H out d o tag = push_args_slot H o tag := by
  induction d generalizing o tag with
  | zero => unfold depthFor at hd; omega
  | succ d ih =>
    rw [push_slot_with, push_args_slot_eq]
    by_cases ht : tag > 16
    · have hs := depthFor_sub tag ht
      simp only [ht, if_true]
      exact push_array_congr H _ _ o tag (fun o1 => ih o1 (tag - 16) (by omega))
    · simp only [ht, if_false]

/-- The loop of `push_args` gives every slot a budget that is never used up. -/
theorem push_args_loop_total (H : Host) (values : List JValue) (count : Nat) (i : Int)
    (types : List Int) :
    push_args_loop H values count i types = push_args_total_loop H values count i types := by
  induction count generalizing i types with
  | zero => rfl
  | succ count ih =>
    have hslot : ∀ o tag, push_slot H (depthFor tag) o tag = push_args_slot H o tag := fun o tag => by
      rw [push_slot_eq_with]; exact push_slot_with_enough H undefined _ o tag (le_refl _)
    have hih : push_args_loop H values count = push_args_total_loop H values count := by
      funext i1 t1; exact ih i1 t1
    simp only [push_args_loop, push_args_total_loop, hslot, hih]
    try rfl

/-- C28: `push_args` terminates on every input, by the tag alone.  The loop body makes its
recursive call only in the branch `types[i] > 16` and on the tag minus 16, so the recursion is
well-founded on the tag whatever the host value is: `push_args_slot` is that loop body as a total
function without any budget, with the two defining equations stated here, and `push_args` is the
loop over it.  The budgeted form used elsewhere agrees with it: with a budget of at least
`depthFor tag = tag / 16 + 1` levels the end of the budget is never reached, since the run is the
same whatever is answered there (`push_slot` answers `undefined`).  Each level of nesting uses up
one unit of `depthFor`, and for a tag that fits a signed byte `depthFor tag` is at most 8, so a
budget of 8 levels, the slot itself and 7 nested calls, is never used up. -/
theorem push_args_terminates (H : Host) :
    (∀ (start stop : Int) (values : List JValue) (types : List Int),
      push_args H start stop values types = push_args_total H start stop values types) ∧
    (∀ (out : LuaM Int) (d : Nat) (o : JValue) (tag : Int), depthFor tag ≤ d →
      push_slot_with H out d o tag = push_args_slot H o tag) ∧
    (∀ (d : Nat) (o : JValue) (tag : Int), push_slot H d o tag = push_slot_with H undefined d o tag) ∧
    (∀ (o : JValue) (tag : Int), tag > 16 →
      push_args_slot H o tag = push_array H (fun o1 _ => push_args_slot H o1 (tag - 16)) o tag) ∧
    (∀ (o : JValue) (tag : Int), tag ≤ 16 → push_args_slot H o tag = push_scalar H o tag) ∧
    (∀ tag : Int, tag > 16 → depthFor (tag - 16) + 1 = depthFor tag) ∧
    (∀ (out : LuaM Int) (o : JValue) (tag : Int), tag ≤ 127 →
      depthFor tag ≤ 8 ∧ push_slot_with H out 8 o tag = push_args_slot H o tag) := by
  refine ⟨?_, fun out d o tag hd => push_slot_with_enough H out d o tag hd,
    fun d o tag => push_slot_eq_with H d o tag, ?_, ?_, fun tag ht => depthFor_sub tag ht, ?_⟩
  · intro start stop values types
    exact push_args_loop_total H values _ start types
  · intro o tag ht
    rw [push_args_slot_eq]
    simp only [ht, if_true]
  · intro o tag ht
    have ht1 : ¬ tag > 16 := by omega
    rw [push_args_slot_eq]
    simp only [ht1, if_false]
  · intro out o tag ht
    have h8 : depthFor tag ≤ 8 := by
      unfold depthFor
      have : tag.toNat ≤ 127 := by omega
      omega
    exact ⟨h8, push_slot_with_enough H out 8 o tag h8⟩

/-- Witness for C28: tag 113 (booleans under seven levels of arrays) on the host array
`sevenDeep`, the deepest nesting a signed-byte tag allows: the run returns with seven tables
created and the outermost one pushed, and a budget of 8 levels is not used up. -/
theorem push_args_terminates_witness :
    depthFor 113 ≤ 8 ∧
    (∃ h1, push_args_slot exampleHost sevenDeep 113
        ⟨[], exampleWorld.heap, 2, 8000, fun _ => none, none, [], []⟩ =
      Res.ok 1 ⟨[LuaValue.table 2], h1, 2 + 7, 8000, fun _ => none, none, [], []⟩) ∧
    (∀ out : LuaM Int,
      push_slot_with exampleHost out 8 sevenDeep 113 = push_args_slot exampleHost sevenDeep 113) ∧
    depthFor (113 - 16) + 1 = depthFor 113 :=
  ⟨((push_args_terminates exampleHost).2.2.2.2.2.2 undefined sevenDeep 113 (by decide)).1,
    (push_args_terminates exampleHost).2.1 undefined 8 sevenDeep 113 (by decide) ▸
      (push_args_terminates exampleHost).2.2.1 8 sevenDeep 113 ▸
        push_slot_sevenDeep exampleHost [] exampleWorld.heap 2 8000 (fun _ => none) none [] [] (fun _ => rfl),
    fun out => ((push_args_terminates exampleHost).2.2.2.2.2.2 out sevenDeep 113 (by decide)).2,
    (push_args_terminates exampleHost).2.2.2.2.2.1 113 (by decide)⟩

/-! ## Table moves: `jcall_tablemove` -/

/-- Index 1 of a two-value frame. -/
theorem index2value_one_of_two (v e : LuaValue) (h : Heap) (n l : Nat)
    (b : Int → Option Nat) (p : Option JValue) (r rl : List JValue) :
    index2value ⟨[v, e], h, n, l, b, p, r, rl⟩ 1 = some e := by
  simp [index2value, slot, LUA_REGISTRYINDEX, LUA_GLOBALSINDEX, LUA_ENVIRONINDEX]

/-- One step of the loops of `tablemove_protected` on a frame holding the table: the entry at
the source key is copied to the destination key. -/
theorem tablemove_step (t : Nat) (es : List (LuaValue × LuaValue)) (m : Option Nat) (src dst : Int)
    (h : Heap) (n l : Nat) (b : Int → Option Nat) (p : Option JValue) (r rl : List JValue)
    (ht : h t = some (GCObject.table es m)) :
    (do lua_rawgeti 1 src; lua_rawseti 1 dst : LuaM Unit) ⟨[LuaValue.table t], h, n, l, b, p, r, rl⟩ =
      Res.ok () ⟨[LuaValue.table t],
        Function.update h t (some (GCObject.table
          (tset es (LuaValue.number dst) (tget es (LuaValue.number src))) m)), n, l, b, p, r, rl⟩ := by
  have he : h.entries t = es := by simp [Heap.entries, ht]
  have hm : h.tmeta t = m := by simp [Heap.tmeta, ht]
  simp [lua_rawgeti, lua_rawseti, tableAt, index2value_one, index2value_one_of_two, he, hm, World.store]

/-- Integer keys are different values when the integers differ. -/
theorem number_key_ne (a b : Int) (h : a ≠ b) :
    LuaValue.number (a : ℚ) ≠ LuaValue.number (b : ℚ) := by
  intro hh
  injection hh with h1
  exact h (Int.cast_injective h1)

/-- The descending loop of `tablemove_protected` (`from < to`): every destination key reads what
the source key read before, all other keys are as before. -/
theorem tablemove_down_ok (tf tt : Int) (t : Nat) (m : Option Nat) (hlt : tf < tt) (k : Nat) :
    ∀ (es : List (LuaValue × LuaValue)) (h : Heap) (n l : Nat) (b : Int → Option Nat)
      (p : Option JValue) (r rl : List JValue),
      h t = some (GCObject.table es m) →
      INT_MIN ≤ tf → tt + k ≤ INT_MAX + 1 →
      ∃ es1 h1, tablemove_down tf tt k ⟨[LuaValue.table t], h, n, l, b, p, r, rl⟩ =
          Res.ok () ⟨[LuaValue.table t], h1, n, l, b, p, r, rl⟩ ∧
        h1 t = some (GCObject.table es1 m) ∧ (∀ a, a ≠ t → h1 a = h a) ∧
        (∀ i : Nat, i < k → tget es1 (LuaValue.number ((tt + i : Int) : ℚ)) =
          tget es (LuaValue.number ((tf + i : Int) : ℚ))) ∧
        (∀ key, (∀ i : Nat, i < k → key ≠ LuaValue.number ((tt + i : Int) : ℚ)) →
          tget es1 key = tget es key) := by
  induction k with
  | zero =>
    intro es h n l b p r rl ht _ _
    exact ⟨es, h, rfl, ht, fun _ _ => rfl, fun i hi => absurd hi (Nat.not_lt_zero i), fun _ _ => rfl⟩
  | succ k ih =>
    intro es h n l b p r rl ht hmin hmax
    have hb1 : INT_MIN ≤ tf + (k : Int) ∧ tf + (k : Int) ≤ INT_MAX := by
      unfold INT_MIN INT_MAX at *; push_cast at hmax; omega
    have hb2 : INT_MIN ≤ tt + (k : Int) ∧ tt + (k : Int) ≤ INT_MAX := by
      unfold INT_MIN INT_MAX at *; push_cast at hmax; omega
    have hstep := tablemove_step t es m (tf + k) (tt + k) h n l b p r rl ht
    simp only [bind_apply] at hstep
    obtain ⟨es1, h1, hrun, h1t, hframe, hmove, hkeep⟩ := ih
      (tset es (LuaValue.number ((tt + k : Int) : ℚ)) (tget es (LuaValue.number ((tf + k : Int) : ℚ))))
      (Function.update h t (some (GCObject.table
        (tset es (LuaValue.number ((tt + k : Int) : ℚ)) (tget es (LuaValue.number ((tf + k : Int) : ℚ)))) m)))
      n l b p r rl (by simp) hmin (by push_cast at hmax; omega)
    refine ⟨es1, h1, ?_, h1t, ?_, ?_, ?_⟩
    · simp only [tablemove_down, bind_apply, addInt, hb1, hb2, and_self, if_true, pure_apply]
      cases hg : lua_rawgeti 1 (tf + (k : Int)) ⟨[LuaValue.table t], h, n, l, b, p, r, rl⟩ with
      | ok a w1 =>
        rw [hg] at hstep
        simp only at hstep ⊢
        rw [hstep]
        exact hrun
      | raise e w1 => rw [hg] at hstep; simp at hstep
      | undef => rw [hg] at hstep; simp at hstep
    · intro a ha
      rw [hframe a ha, Function.update_noteq ha]
    · intro i hi
      by_cases hik : i = k
      · subst hik
        rw [hkeep _ (fun j hj => number_key_ne _ _ (by omega)), tget_tset_same]
      · rw [hmove i (by omega), tget_tset_ne _ _ _ _ (number_key_ne _ _ (by omega))]
    · intro key hkey
      rw [hkeep key (fun i hi => hkey i (by omega)), tget_tset_ne _ _ _ _ (hkey k (by omega))]

/-- The ascending loop of `tablemove_protected` (`from > to`), started at `i0`: every
destination key reads what the source key read before, all other keys are as before. -/
theorem tablemove_up_ok (tf tt : Int) (t : Nat) (m : Option Nat) (hgt : tf > tt) (k : Nat) :
    ∀ (i0 : Int) (es : List (LuaValue × LuaValue)) (h : Heap) (n l : Nat) (b : Int → Option Nat)
      (p : Option JValue) (r rl : List JValue),
      h t = some (GCObject.table es m) →
      INT_MIN ≤ tt + i0 → tf + i0 + k ≤ INT_MAX + 1 →
      ∃ es1 h1, tablemove_up tf tt k i0 ⟨[LuaValue.table t], h, n, l, b, p, r, rl⟩ =
          Res.ok () ⟨[LuaValue.table t], h1, n, l, b, p, r, rl⟩ ∧
        h1 t = some (GCObject.table es1 m) ∧ (∀ a, a ≠ t → h1 a = h a) ∧
        (∀ i : Nat, i < k → tget es1 (LuaValue.number ((tt + i0 + i : Int) : ℚ)) =
          tget es (LuaValue.number ((tf + i0 + i : Int) : ℚ))) ∧
        (∀ key, (∀ i : Nat, i < k → key ≠ LuaValue.number ((tt + i0 + i : Int) : ℚ)) →
          tget es1 key = tget es key) := by
  induction k with
  | zero =>
    intro i0 es h n l b p r rl ht _ _
    exact ⟨es, h, rfl, ht, fun _ _ => rfl, fun i hi => absurd hi (Nat.not_lt_zero i), fun _ _ => rfl⟩
  | succ k ih =>
    intro i0 es h n l b p r rl ht hmin hmax
    have hb1 : INT_MIN ≤ tf + i0 ∧ tf + i0 ≤ INT_MAX := by
      unfold INT_MIN INT_MAX at *; push_cast at hmax; omega
    have hb2 : INT_MIN ≤ tt + i0 ∧ tt + i0 ≤ INT_MAX := by
      unfold INT_MIN INT_MAX at *; push_cast at hmax; omega
    have hstep := tablemove_step t es m (tf + i0) (tt + i0) h n l b p r rl ht
    simp only [bind_apply] at hstep
    obtain ⟨es1, h1, hrun, h1t, hframe, hmove, hkeep⟩ := ih (i0 + 1)
      (tset es (LuaValue.number ((tt + i0 : Int) : ℚ)) (tget es (LuaValue.number ((tf + i0 : Int) : ℚ))))
      (Function.update h t (some (GCObject.table
        (tset es (LuaValue.number ((tt + i0 : Int) : ℚ)) (tget es (LuaValue.number ((tf + i0 : Int) : ℚ)))) m)))
      n l b p r rl (by simp) (by unfold INT_MIN at *; omega) (by push_cast at hmax; omega)
    refine ⟨es1, h1, ?_, h1t, ?_, ?_, ?_⟩
    · simp only [tablemove_up, bind_apply, addInt, hb1, hb2, and_self, if_true, pure_apply]
      cases hg : lua_rawgeti 1 (tf + i0) ⟨[LuaValue.table t], h, n, l, b, p, r, rl⟩ with
      | ok a w1 =>
        rw [hg] at hstep
        simp only at hstep ⊢
        rw [hstep]
        exact hrun
      | raise e w1 => rw [hg] at hstep; simp at hstep
      | undef => rw [hg] at hstep; simp at hstep
    · intro a ha
      rw [hframe a ha, Function.update_noteq ha]
    · intro i hi
      cases i with
      | zero =>
        have e1 : (tt + i0 + ((0 : Nat) : Int)) = tt + i0 := by simp
        have e2 : (tf + i0 + ((0 : Nat) : Int)) = tf + i0 := by simp
        rw [e1, e2, hkeep _ (fun j hj => number_key_ne _ _ (by omega)), tget_tset_same]
      | succ i =>
        have e1 : (tt + i0 + ((i + 1 : Nat) : Int)) = tt + (i0 + 1) + (i : Int) := by push_cast; ring
        have e2 : (tf + i0 + ((i + 1 : Nat) : Int)) = tf + (i0 + 1) + (i : Int) := by push_cast; ring
        rw [e1, e2, hmove i (by omega), tget_tset_ne _ _ _ _ (number_key_ne _ _ (by omega))]
    · intro key hkey
      have hk0 := hkey 0 (by omega)
      have e1 : (tt + i0 + ((0 : Nat) : Int)) = tt + i0 := by simp
      rw [e1] at hk0
      rw [hkeep key (fun i hi => by
        have := hkey (i + 1) (by omega)
        have e2 : (tt + i0 + ((i + 1 : Nat) : Int)) = tt + (i0 + 1) + (i : Int) := by push_cast; ring
        rw [e2] at this
        exact this), tget_tset_ne _ _ _ _ hk0]


/-- The value at the absolute index of `v`. -/
theorem index2value_above (up below : List LuaValue) (v : LuaValue) (h : Heap) (n l : Nat)
    (b : Int → Option Nat) (p : Option JValue) (r rl : List JValue) :
    index2value ⟨up ++ v :: below, h, n, l, b, p, r, rl⟩ ((below.length : Int) + 1) = some v := by
  have h1 : ¬ ((below.length : Int) + 1 = LUA_REGISTRYINDEX) := by simp only [LUA_REGISTRYINDEX]; omega
  have h2 : ¬ ((below.length : Int) + 1 = LUA_GLOBALSINDEX ∨ (below.length : Int) + 1 = LUA_ENVIRONINDEX) := by
    simp only [LUA_GLOBALSINDEX, LUA_ENVIRONINDEX]; omega
  simp only [index2value, h1, h2, if_false, slot_above]
  simp only [List.get?_eq_getElem?]
  rw [List.getElem?_append_right (Nat.le_refl _)]
  simp

/-- The value at the index of `v` counted from the top, while that is a real index. -/
theorem index2value_below (up below : List LuaValue) (v : LuaValue) (h : Heap) (n l : Nat)
    (b : Int → Option Nat) (p : Option JValue) (r rl : List JValue)
    (hsmall : up.length + 1 < 10000) :
    index2value ⟨up ++ v :: below, h, n, l, b, p, r, rl⟩ (-((up.length : Int) + 1)) = some v := by
  have h1 : ¬ (-((up.length : Int) + 1) = LUA_REGISTRYINDEX) := by simp only [LUA_REGISTRYINDEX]; omega
  have h2 : ¬ (-((up.length : Int) + 1) = LUA_GLOBALSINDEX ∨ -((up.length : Int) + 1) = LUA_ENVIRONINDEX) := by
    simp only [LUA_GLOBALSINDEX, LUA_ENVIRONINDEX]; omega
  have h3 : ¬ (0 < -((up.length : Int) + 1)) := by omega
  have h4 : -((up.length : Int) + 1) < 0 ∧ LUA_REGISTRYINDEX < -((up.length : Int) + 1) := by
    simp only [LUA_REGISTRYINDEX]; omega
  have h5 : - -((up.length : Int) + 1) ≤ ((up ++ v :: below).length : Nat) := by
    simp only [List.length_append, List.length_cons]; omega
  have h6 : (- -((up.length : Int) + 1)).toNat - 1 = up.length := by omega
  simp only [index2value, h1, h2, if_false, slot, h3, h4, and_self, if_true, h5, h6]
  simp only [List.get?_eq_getElem?]
  rw [List.getElem?_append_right (Nat.le_refl _)]
  simp

/-- The protected body of `jcall_tablemove` on a frame holding the table. -/
theorem tablemove_protected_ok (tf tt count : Int) (t : Nat) (m : Option Nat)
    (es : List (LuaValue × LuaValue)) (h : Heap) (n l : Nat) (b : Int → Option Nat)
    (p : Option JValue) (r rl : List JValue)
    (ht : h t = some (GCObject.table es m))
    (hcount : 0 ≤ count) (hf : INT_MIN ≤ tf) (htt : INT_MIN ≤ tt)
    (hfmax : tf + count ≤ INT_MAX + 1) (htmax : tt + count ≤ INT_MAX + 1) :
    ∃ es1 h1, tablemove_protected tf tt count ⟨[LuaValue.table t], h, n, l, b, p, r, rl⟩ =
        Res.ok 0 ⟨[LuaValue.table t], h1, n, l, b, p, r, rl⟩ ∧
      h1 t = some (GCObject.table es1 m) ∧ (∀ a, a ≠ t → h1 a = h a) ∧
      (∀ i : Int, 0 ≤ i → i < count → tget es1 (LuaValue.number ((tt + i : Int) : ℚ)) =
        tget es (LuaValue.number ((tf + i : Int) : ℚ))) ∧
      (∀ key, (∀ i : Int, 0 ≤ i → i < count → key ≠ LuaValue.number ((tt + i : Int) : ℚ)) →
        tget es1 key = tget es key) ∧
      (tf = tt → h1 = h) := by
  have hc : ((count.toNat : Nat) : Int) = count := Int.toNat_of_nonneg hcount
  rcases lt_trichotomy tf tt with hlt | heq | hgt
  · obtain ⟨es1, h1, hrun, h1t, hframe, hmove, hkeep⟩ :=
      tablemove_down_ok tf tt t m hlt count.toNat es h n l b p r rl ht hf (by rw [hc]; exact htmax)
    refine ⟨es1, h1, ?_, h1t, hframe, ?_, ?_, fun e => absurd e (ne_of_lt hlt)⟩
    · simp [tablemove_protected, hlt, hrun]
    · intro i h0 hi
      have := hmove i.toNat (by omega)
      rwa [Int.toNat_of_nonneg h0] at this
    · intro key hkey
      exact hkeep key (fun i hi => hkey i (by omega) (by omega))
  · subst heq
    refine ⟨es, h, ?_, ht, fun _ _ => rfl, fun _ _ _ => rfl, fun _ _ => rfl, fun _ => rfl⟩
    simp [tablemove_protected]
  · obtain ⟨es1, h1, hrun, h1t, hframe, hmove, hkeep⟩ :=
      tablemove_up_ok tf tt t m hgt count.toNat 0 es h n l b p r rl ht (by simpa using htt)
        (by rw [hc]; simpa using hfmax)
    have hng : ¬ tf < tt := by omega
    refine ⟨es1, h1, ?_, h1t, hframe, ?_, ?_, fun e => absurd e (ne_of_gt hgt)⟩
    · simp [tablemove_protected, hng, hgt, hrun]
    · intro i h0 hi
      have := hmove i.toNat (by omega)
      rw [Int.toNat_of_nonneg h0] at this
      simpa using this
    · intro key hkey
      exact hkeep key (fun i hi => by
        have := hkey i (by omega) (by omega)
        simpa using this)

/-- `jcall_tablemove` on a table: no exception, the stack as before, and every destination key
reads what the source key read before the call; all other keys read what they read before. -/
theorem jcall_tablemove_ok (H : Host) (up below : List LuaValue) (t : Nat) (m : Option Nat)
    (es : List (LuaValue × LuaValue)) (h : Heap) (n l : Nat) (b : Int → Option Nat)
    (p : Option JValue) (r rl : List JValue) (index tf tt count : Int)
    (hidx : index = (below.length : Int) + 1 ∨ (index = -((up.length : Int) + 1) ∧ up.length + 1 < 10000))
    (ht : h t = some (GCObject.table es m)) (htn : t ≠ n)
    (hroom : ((up ++ LuaValue.table t :: below).length : Int) + JNLUA_MINSTACK ≤ l)
    (hcount : 0 ≤ count) (hf : INT_MIN ≤ tf) (htt : INT_MIN ≤ tt)
    (hfmax : tf + count ≤ INT_MAX + 1) (htmax : tt + count ≤ INT_MAX + 1) :
    ∃ es1 h1, jcall_tablemove H index tf tt count ⟨up ++ LuaValue.table t :: below, h, n, l, b, p, r, rl⟩ =
        Res.ok () ⟨up ++ LuaValue.table t :: below, h1, n + 1, l, b, p, r, rl⟩ ∧
      h1 t = some (GCObject.table es1 m) ∧ (∀ a, a ≠ t → a ≠ n → h1 a = h a) ∧
      (∀ i : Int, 0 ≤ i → i < count → tget es1 (LuaValue.number ((tt + i : Int) : ℚ)) =
        tget es (LuaValue.number ((tf + i : Int) : ℚ))) ∧
      (∀ key, (∀ i : Int, 0 ≤ i → i < count → key ≠ LuaValue.number ((tt + i : Int) : ℚ)) →
        tget es1 key = tget es key) ∧
      (tf = tt → es1 = es) := by
  have ht1 : Function.update h n (some (GCObject.cclosure CFunction.tablemove_protected [])) t =
      some (GCObject.table es m) := by
    rw [Function.update_noteq htn]; exact ht
  obtain ⟨es1, h1, hrun, h1t, hframe, hmove, hkeep, hsame⟩ :=
    tablemove_protected_ok tf tt count t m es
      (Function.update h n (some (GCObject.cclosure CFunction.tablemove_protected []))) (n + 1) l b p r rl ht1
      hcount hf htt hfmax htmax
  refine ⟨es1, h1, ?_, h1t, ?_, hmove, hkeep, ?_⟩
  · have hval : index2value ⟨up ++ LuaValue.table t :: below, h, n, l, b, p, r, rl⟩ index =
        some (LuaValue.table t) := by
      rcases hidx with h0 | ⟨h0, hs⟩
      · rw [h0]; exact index2value_above _ _ _ _ _ _ _ _ _ _
      · rw [h0]; exact index2value_below _ _ _ _ _ _ _ _ _ _ hs
    have hreal : (1 ≤ index ∧ index ≤ ((up ++ LuaValue.table t :: below).length : Nat)) ∨
        (LUA_REGISTRYINDEX < index ∧ index ≤ -1 ∧ -index ≤ ((up ++ LuaValue.table t :: below).length : Nat)) := by
      simp only [List.length_append, List.length_cons, LUA_REGISTRYINDEX]
      rcases hidx with h0 | ⟨h0, hs⟩
      · left; omega
      · right; omega
    have habs : lua_absindex index ⟨up ++ LuaValue.table t :: below, h, n, l, b, p, r, rl⟩ =
        Res.ok ((below.length : Int) + 1) ⟨up ++ LuaValue.table t :: below, h, n, l, b, p, r, rl⟩ := by
      rcases hidx with h0 | ⟨h0, hs⟩
      · have : index > 0 ∨ index ≤ LUA_REGISTRYINDEX := by left; omega
        simp [lua_absindex, this, h0]
      · have : ¬ (index > 0 ∨ index ≤ LUA_REGISTRYINDEX) := by
          simp only [LUA_REGISTRYINDEX]; omega
        simp only [lua_absindex, this, if_false, bind_apply, lua_gettop, pure_apply, List.length_append,
          List.length_cons]
        congr 1
        push_cast
        omega
    have hpush := index2value_above (LuaValue.function n :: up) below (LuaValue.table t)
      (Function.update h n (some (GCObject.cclosure CFunction.tablemove_protected []))) (n + 1) l b p r rl
    simp only [List.cons_append] at hpush
    have hlen : ¬ ((up ++ LuaValue.table t :: below).length + 1 + 1 < 1 + 1) := by omega
    simp only [jcall_tablemove, bind_apply,
      checkstack_room ⟨up ++ LuaValue.table t :: below, h, n, l, b, p, r, rl⟩ _ hroom, if_true, checktype,
      checkindex_real ⟨up ++ LuaValue.table t :: below, h, n, l, b, p, r, rl⟩ _ hreal, Bool.not_true, Bool.false_eq_true, if_false, lua_type, hval, LuaValue.tag,
      checkarg, check, decide_True, ge_iff_le, hcount, pure_apply, habs, lua_pushcfunction, lua_pushcclosure,
      Nat.zero_le, List.take_zero, List.reverse_nil, List.drop_zero, lua_pushvalue, hpush, JNLUA_PCALL,
      pcallC, List.length_cons, hlen, List.take_succ_cons, hrun, ne_eq, not_true_eq_false]
    simp [adjustResults, LUA_MULTRET]
  · intro a ha han
    rw [hframe a ha, Function.update_noteq han]
  · intro e
    have := hsame e
    rw [this, ht1] at h1t
    injection h1t with h2
    injection h2 with h3
    exact h3.symm


/-- C27: `jcall_tablemove(index, from, to, count)` on a table, for `count >= 0` and `int` sums
that do not overflow, returns without raising anything, leaves the stack as it was, and moves the
entries as `memmove` moves bytes: afterwards the key `to + i` reads what the key `from + i` read
before the call, for every `0 <= i < count`, overlapping ranges included (the loop runs downward
for `from < to` and upward for `from > to`); every key outside `to .. to + count - 1` reads what
it read before, and for `from = to` the heap is untouched apart from the C closure the call
allocates.  The environment is the ordinary one: the index denotes the table (by its absolute or
its top-relative index), the stack can grow by `JNLUA_MINSTACK`, and the table is not at the
address the engine allocates next. -/
theorem jcall_tablemove_moves (H : Host) (up below : List LuaValue) (t : Nat) (m : Option Nat)
    (es : List (LuaValue × LuaValue)) (h : Heap) (n l : Nat) (b : Int → Option Nat)
    (p : Option JValue) (r rl : List JValue) (index tf tt count : Int)
    (hidx : index = (below.length : Int) + 1 ∨ (index = -((up.length : Int) + 1) ∧ up.length + 1 < 10000))
    (ht : h t = some (GCObject.table es m)) (htn : t ≠ n)
    (hroom : ((up ++ LuaValue.table t :: below).length : Int) + JNLUA_MINSTACK ≤ l)
    (hcount : 0 ≤ count) (hf : INT_MIN ≤ tf) (htt : INT_MIN ≤ tt)
    (hfmax : tf + count ≤ INT_MAX + 1) (htmax : tt + count ≤ INT_MAX + 1) :
    ∃ es1 h1, jcall_tablemove H index tf tt count ⟨up ++ LuaValue.table t :: below, h, n, l, b, p, r, rl⟩ =
        Res.ok () ⟨up ++ LuaValue.table t :: below, h1, n + 1, l, b, p, r, rl⟩ ∧
      h1 t = some (GCObject.table es1 m) ∧ (∀ a, a ≠ t → a ≠ n → h1 a = h a) ∧
      (∀ i : Int, 0 ≤ i → i < count → tget es1 (LuaValue.number ((tt + i : Int) : ℚ)) =
        tget es (LuaValue.number ((tf + i : Int) : ℚ))) ∧
      (∀ key, (∀ i : Int, 0 ≤ i → i < count → key ≠ LuaValue.number ((tt + i : Int) : ℚ)) →
        tget es1 key = tget es key) ∧
      (tf = tt → es1 = es) :=
  jcall_tablemove_ok H up below t m es h n l b p r rl index tf tt count hidx ht htn hroom hcount hf htt hfmax htmax

/-- Witness for C27: moving the two entries at keys 1, 2 of the table of `seqWorld` to the
overlapping keys 2, 3. -/
theorem jcall_tablemove_moves_witness :
    ∃ es1 h1, jcall_tablemove exampleHost 1 1 2 2
        ⟨[] ++ LuaValue.table 6 :: [], seqWorld.heap, 8, 8000, fun _ => none, none, [], []⟩ =
        Res.ok () ⟨[] ++ LuaValue.table 6 :: [], h1, 8 + 1, 8000, fun _ => none, none, [], []⟩ ∧
      h1 6 = some (GCObject.table es1 none) ∧ (∀ a, a ≠ 6 → a ≠ 8 → h1 a = seqWorld.heap a) ∧
      (∀ i : Int, 0 ≤ i → i < 2 → tget es1 (LuaValue.number ((2 + i : Int) : ℚ)) =
        tget [(LuaValue.number 1, LuaValue.string (lit "a")), (LuaValue.number 2, LuaValue.string (lit "b")),
          (LuaValue.number 3, LuaValue.string (lit "c"))] (LuaValue.number ((1 + i : Int) : ℚ))) ∧
      (∀ key, (∀ i : Int, 0 ≤ i → i < 2 → key ≠ LuaValue.number ((2 + i : Int) : ℚ)) →
        tget es1 key =
          tget [(LuaValue.number 1, LuaValue.string (lit "a")), (LuaValue.number 2, LuaValue.string (lit "b")),
            (LuaValue.number 3, LuaValue.string (lit "c"))] key) ∧
      ((1 : Int) = 2 → es1 = [(LuaValue.number 1, LuaValue.string (lit "a")),
        (LuaValue.number 2, LuaValue.string (lit "b")), (LuaValue.number 3, LuaValue.string (lit "c"))]) :=
  jcall_tablemove_moves exampleHost [] [] 6 none _ seqWorld.heap 8 8000 (fun _ => none) none [] [] 1 1 2 2
    (Or.inl rfl) rfl (by decide) (by decide) (by decide) (by decide) (by decide) (by decide) (by decide)

/-! ## Thread leave step: `jcall_table_pair_get` -/

/-- The rejection path of `jcall_table_pair_get` (lines 3436-3443), for an index given directly
or as a reference id: the value found is not a table, one `IllegalArgumentException` is raised,
the stack is left as it was, and the function returns with the thread as the enter step left
it. -/
theorem jcall_table_pair_get_not_table (H : Host) (attachOk : Bool) (args : ArgBuf)
    (table_pair_obj obj : JValue) (index options : Int) (t : ThreadState)
    (s : List LuaValue) (h : Heap) (n l : Nat) (b : Int → Option Nat) (p : Option JValue)
    (r rl : List JValue)
    (hnt : (Int.land options 2 = 0 ∧ 0 ≤ index ∧
        ∀ a, index2value ⟨s, h, n, l, b, p, r, rl⟩ index ≠ some (LuaValue.table a)) ∨
      (Int.land options 2 ≠ 0 ∧ ∀ a, tget (h.entries REGISTRY) (LuaValue.number index) ≠ LuaValue.table a)) :
    jcall_table_pair_get H attachOk args table_pair_obj obj index options t ⟨s, h, n, l, b, p, r, rl⟩ =
      Res.ok (JNLUA_ENV attachOk t).2 ⟨s, h, n, l, b,
        some (JValue.throwable JClass.IllegalArgumentException
          (some (cstr (lit "illegal table at the specific index."))) JValue.null),
        r ++ [JValue.throwable JClass.IllegalArgumentException
          (some (cstr (lit "illegal table at the specific index."))) JValue.null], rl⟩ := by
  rcases hnt with ⟨hopt, hidx, hv⟩ | ⟨hopt, hv⟩
  · have hneg : ¬ index < 0 := by omega
    have hist : lua_istable index ⟨s, h, n, l, b, p, r, rl⟩ = Res.ok false ⟨s, h, n, l, b, p, r, rl⟩ := by
      unfold lua_istable
      cases hi : index2value ⟨s, h, n, l, b, p, r, rl⟩ index with
      | none => rfl
      | some v =>
        cases v with
        | table a => exact absurd hi (hv a)
        | _ => rfl
    simp [jcall_table_pair_get, hopt, hneg, hist, check, ThrowNew]
  · have habs : ¬ ((-1 : Int) > 0 ∨ (-1 : Int) ≤ LUA_REGISTRYINDEX) := by
      simp [LUA_REGISTRYINDEX]
    have hist : ∀ v, (∀ a, v ≠ LuaValue.table a) →
        lua_istable ((s.length : Int) + 1 + -1 + 1) ⟨v :: s, h, n, l, b, p, r, rl⟩ =
          Res.ok false ⟨v :: s, h, n, l, b, p, r, rl⟩ := by
      intro v hv1
      have hi := index2value_above [] s v h n l b p r rl
      simp only [List.nil_append] at hi
      have e : (s.length : Int) + 1 + -1 + 1 = (s.length : Int) + 1 := by omega
      rw [e]
      unfold lua_istable
      rw [hi]
      cases v with
      | table a => exact absurd rfl (hv1 a)
      | _ => rfl
    simp only [jcall_table_pair_get, hopt, ne_eq, not_false_eq_true, if_true, bind_apply, lua_rawgeti,
      index2value_registry, tableAt, lua_absindex, habs, if_false, lua_gettop, pure_apply,
      List.length_cons, Nat.cast_add, Nat.cast_one, show ((-1 : Int) < 0) by decide]
    rw [hist _ hv]
    simp [check, ThrowNew]

/-- C29: `jcall_table_pair_get` does not run the leave step on its rejection path.  Called as
an outermost operation (`JNLUA_CONTROL = 0`) with an index that holds no table, it raises the
`IllegalArgumentException` and returns at line 3442 with the thread as `JNLUA_ENV` left it:
`JNLUA_CONTROL` is 1, not 0, and a thread the enter step attached is still attached, with no
call of `DetachCurrentThread`.  The leave step, had it run, would have reset the flag and detached
the thread; and since the flag stays set, every later crossing of that thread takes the nested
branch and leaves the thread as it is. -/
theorem jcall_table_pair_get_returns_without_detach (H : Host) (attachOk : Bool) (args : ArgBuf)
    (table_pair_obj obj : JValue) (index options : Int) (t : ThreadState) (w : World)
    (houter : t.JNLUA_CONTROL = 0)
    (hopt : Int.land options 2 = 0) (hidx : 0 ≤ index)
    (hnt : ∀ a, index2value w index ≠ some (LuaValue.table a)) :
    ∃ t1, jcall_table_pair_get H attachOk args table_pair_obj obj index options t w =
        Res.ok t1 { w with
          pending := some (JValue.throwable JClass.IllegalArgumentException
            (some (cstr (lit "illegal table at the specific index."))) JValue.null),
          raised := w.raised ++ [JValue.throwable JClass.IllegalArgumentException
            (some (cstr (lit "illegal table at the specific index."))) JValue.null] } ∧
      t1.JNLUA_CONTROL = 1 ∧ t1.detachCalls = t.detachCalls ∧
      (t.attached = false → t1.attachCalls = t.attachCalls + 1 ∧ t1.attached = attachOk) ∧
      (JNLUA_DETACH (JNLUA_ENV attachOk t).1 t1).JNLUA_CONTROL = 0 ∧
      (t.attached = false →
        (JNLUA_DETACH (JNLUA_ENV attachOk t).1 t1).attached = false ∧
        (JNLUA_DETACH (JNLUA_ENV attachOk t).1 t1).detachCalls = t.detachCalls + 1) ∧
      (∀ depth, nestedCrossings attachOk depth t1 = t1) := by
  obtain ⟨s, h, n, l, b, p, r, rl⟩ := w
  refine ⟨(JNLUA_ENV attachOk t).2,
    jcall_table_pair_get_not_table H attachOk args table_pair_obj obj index options t s h n l b p r rl
      (Or.inl ⟨hopt, hidx, hnt⟩), ?_, ?_, ?_, ?_, ?_, ?_⟩
  · simp only [JNLUA_ENV, houter, if_true]
    split <;> simp [AttachCurrentThread]
  · simp only [JNLUA_ENV, houter, if_true]
    split <;> simp [AttachCurrentThread]
  · intro hatt
    simp [JNLUA_ENV, houter, GetEnv, hatt, AttachCurrentThread, JNI_EDETACHED]
  · simp only [JNLUA_ENV, houter, if_true]
    split <;> simp [JNLUA_DETACH, GetEnv, JNI_OK, JNI_EDETACHED] <;> split <;> simp
  · intro hatt
    simp [JNLUA_ENV, houter, GetEnv, hatt, AttachCurrentThread, JNI_EDETACHED, JNLUA_DETACH,
      DetachCurrentThread]
  · intro depth
    apply nestedCrossings_inner
    simp only [JNLUA_ENV, houter, if_true]
    split <;> simp [AttachCurrentThread]

/-- Witness for C29: a detached thread calls `jcall_table_pair_get` with index 1 on the stack of
`forgedWorld`, where index 1 is a userdata. -/
theorem jcall_table_pair_get_returns_without_detach_witness :
    ∃ t1, jcall_table_pair_get exampleHost true ⟨[], [], []⟩ JValue.null (JValue.object 1) 1 0
          ⟨0, false, 0, 0⟩ forgedWorld =
        Res.ok t1 { forgedWorld with
          pending := some (JValue.throwable JClass.IllegalArgumentException
            (some (cstr (lit "illegal table at the specific index."))) JValue.null),
          raised := forgedWorld.raised ++ [JValue.throwable JClass.IllegalArgumentException
            (some (cstr (lit "illegal table at the specific index."))) JValue.null] } ∧
      t1.JNLUA_CONTROL = 1 ∧ t1.detachCalls = (⟨0, false, 0, 0⟩ : ThreadState).detachCalls ∧
      ((⟨0, false, 0, 0⟩ : ThreadState).attached = false →
        t1.attachCalls = (⟨0, false, 0, 0⟩ : ThreadState).attachCalls + 1 ∧ t1.attached = true) ∧
      (JNLUA_DETACH (JNLUA_ENV true ⟨0, false, 0, 0⟩).1 t1).JNLUA_CONTROL = 0 ∧
      ((⟨0, false, 0, 0⟩ : ThreadState).attached = false →
        (JNLUA_DETACH (JNLUA_ENV true ⟨0, false, 0, 0⟩).1 t1).attached = false ∧
        (JNLUA_DETACH (JNLUA_ENV true ⟨0, false, 0, 0⟩).1 t1).detachCalls =
          (⟨0, false, 0, 0⟩ : ThreadState).detachCalls + 1) ∧
      (∀ depth, nestedCrossings true depth t1 = t1) :=
  jcall_table_pair_get_returns_without_detach exampleHost true ⟨[], [], []⟩ JValue.null (JValue.object 1) 1 0
    ⟨0, false, 0, 0⟩ forgedWorld rfl (by decide) (by decide) (by
      intro a
      have : index2value forgedWorld 1 = some (LuaValue.userdata 4) := by
        simp [forgedWorld, handleWorld, index2value, slot, LUA_REGISTRYINDEX, LUA_GLOBALSINDEX,
          LUA_ENVIRONINDEX]
      rw [this]
      intro hh
      cases hh)

/-! ## Tables by reference: `build_args` and `jcall_table_pair_get` -/

/-- `luaL_ref(L, LUA_GLOBALSINDEX)` with an empty free list: the value on top is stored in the
globals table under the key after its border. -/
theorem luaL_ref_globals (H : Host) (v : LuaValue) (s : List LuaValue) (h : Heap) (n l : Nat)
    (b : Int → Option Nat) (p : Option JValue) (r rl : List JValue)
    (g : List (LuaValue × LuaValue)) (mg : Option Nat)
    (hg : h GLOBALS = some (GCObject.table g mg))
    (hfree : tget g (LuaValue.number 0) = LuaValue.nil)
    (hv : v ≠ LuaValue.nil) :
    luaL_ref H LUA_GLOBALSINDEX ⟨v :: s, h, n, l, b, p, r, rl⟩ =
      Res.ok ((border g : Int) + 1) ⟨s,
        Function.update h GLOBALS (some (GCObject.table
          (tset g (LuaValue.number (((border g : Int) + 1 : Int) : ℚ)) v) mg)), n, l, b, p, r, rl⟩ := by
  have he : h.entries GLOBALS = g := by simp [Heap.entries, hg]
  have hm : h.tmeta GLOBALS = mg := by simp [Heap.tmeta, hg]
  have hnil : lua_isnil (-1) ⟨v :: s, h, n, l, b, p, r, rl⟩ = Res.ok false ⟨v :: s, h, n, l, b, p, r, rl⟩ := by
    cases v <;> simp [lua_isnil] at hv ⊢
  simp only [luaL_ref, bind_apply, hnil, Bool.false_eq_true, if_false, lua_rawgeti, tableAt,
    index2value_globals, he, Int.cast_zero, hfree, lua_tointeger, index2value_m1, lua_pop_1, ne_eq,
    not_true_eq_false, getW_apply, lua_rawseti, pure_apply, World.store, hm]

/-- The loop body of `build_args` on a table slot with `pushtable`: the table is stored in the
globals table by `luaL_ref` and the slot is sent as the boxed reference id. -/
theorem build_args_slot_table_ref (H : Host) (t : Nat) (s : List LuaValue) (h : Heap) (n l : Nat)
    (b : Int → Option Nat) (p : Option JValue) (r rl : List JValue) (buf : ArgBuf)
    (g : List (LuaValue × LuaValue)) (mg : Option Nat)
    (hg : h GLOBALS = some (GCObject.table g mg))
    (hfree : tget g (LuaValue.number 0) = LuaValue.nil)
    (hbytes : 0 < buf.bytes.length) (hvalues : 0 < buf.values.length) (hbox : H.boxOk = true) :
    build_args_slot H true (-1) 0 buf ⟨LuaValue.table t :: s, h, n, l, b, p, r, rl⟩ =
      Res.ok { buf with bytes := buf.bytes.set 0 LUA_TTABLE,
                        values := buf.values.set 0 (JValue.double (((border g : Int) + 1 : Int) : ℚ)) }
        ⟨LuaValue.table t :: s,
          Function.update h GLOBALS (some (GCObject.table
            (tset g (LuaValue.number (((border g : Int) + 1 : Int) : ℚ)) (LuaValue.table t)) mg)),
          n, l, b, p, r, rl⟩ := by
  have hb : ¬ buf.bytes.length ≤ 0 := by omega
  have href := luaL_ref_globals H (LuaValue.table t) (LuaValue.table t :: s) h n l b p r rl g mg hg hfree
    (by simp)
  simp [build_args_slot, hb, lua_type, LuaValue.tag, LUA_TTABLE, LUA_TSTRING, LUA_TNUMBER, LUA_TBOOLEAN,
    LUA_TFUNCTION, LUA_TUSERDATA, lua_pushvalue, href, boxDouble, hbox, SetObjectArrayElement, hvalues]

/-- C24: `build_args` with `pushtable` stores the table with `luaL_ref(L, LUA_GLOBALSINDEX)`:
the reference id `r` it emits (boxed as a `Double`, under the tag of a table) is a key of the
globals table, which then maps `r` to the table, and the registry is left exactly as it was.
`jcall_table_pair_get` with option bit 2 looks the id up with
`lua_rawgeti(L, LUA_REGISTRYINDEX, r)`; so in a state whose registry holds no table under `r` the
call finds no table: it raises `IllegalArgumentException` ("illegal table at the specific
index.") and never reaches the table that was packed. -/
theorem build_args_table_reference_not_in_registry (H : Host) (attachOk : Bool) (args : ArgBuf)
    (table_pair_obj obj : JValue) (thread : ThreadState)
    (t : Nat) (s : List LuaValue) (h : Heap) (n l : Nat)
    (b : Int → Option Nat) (p : Option JValue) (r rl : List JValue) (buf : ArgBuf)
    (g : List (LuaValue × LuaValue)) (mg : Option Nat)
    (hg : h GLOBALS = some (GCObject.table g mg))
    (hfree : tget g (LuaValue.number 0) = LuaValue.nil)
    (hbytes : 0 < buf.bytes.length) (hvalues : 0 < buf.values.length) (htypes : 0 < buf.types.length)
    (hbox : H.boxOk = true)
    (hreg : ∀ a, tget (h.entries REGISTRY) (LuaValue.number (((border g : Int) + 1 : Int) : ℚ)) ≠
      LuaValue.table a) :
    ∃ buf1 w1, build_args H (-1) (-1) buf true true ⟨LuaValue.table t :: s, h, n, l, b, p, r, rl⟩ =
        Res.ok buf1 w1 ∧
      buf1.values.get? 0 = some (JValue.double (((border g : Int) + 1 : Int) : ℚ)) ∧
      buf1.types.get? 0 = some LUA_TTABLE ∧
      tget (w1.heap.entries GLOBALS) (LuaValue.number (((border g : Int) + 1 : Int) : ℚ)) = LuaValue.table t ∧
      w1.heap.entries REGISTRY = h.entries REGISTRY ∧
      tget (w1.heap.entries REGISTRY) (LuaValue.number (((border g : Int) + 1 : Int) : ℚ)) ≠ LuaValue.table t ∧
      jcall_table_pair_get H attachOk args table_pair_obj obj ((border g : Int) + 1) 2 thread w1 =
        Res.ok (JNLUA_ENV attachOk thread).2 { w1 with
          pending := some (JValue.throwable JClass.IllegalArgumentException
            (some (cstr (lit "illegal table at the specific index."))) JValue.null),
          raised := w1.raised ++ [JValue.throwable JClass.IllegalArgumentException
            (some (cstr (lit "illegal table at the specific index."))) JValue.null] } := by
  have hslot := build_args_slot_table_ref H t s h n l b p r rl buf g mg hg hfree hbytes hvalues hbox
  have hne : REGISTRY ≠ GLOBALS := by decide
  have hregs : Heap.entries (Function.update h GLOBALS (some (GCObject.table
      (tset g (LuaValue.number (((border g : Int) + 1 : Int) : ℚ)) (LuaValue.table t)) mg))) REGISTRY =
      h.entries REGISTRY := by
    simp [hne]
  refine ⟨{ buf with
      bytes := buf.bytes.set 0 LUA_TTABLE,
      values := buf.values.set 0 (JValue.double (((border g : Int) + 1 : Int) : ℚ)),
      types := (buf.bytes.set 0 LUA_TTABLE).take 1 ++ buf.types.drop 1 },
    ⟨LuaValue.table t :: s,
      Function.update h GLOBALS (some (GCObject.table
        (tset g (LuaValue.number (((border g : Int) + 1 : Int) : ℚ)) (LuaValue.table t)) mg)),
      n, l, b, p, r, rl⟩, ?_, ?_, ?_, ?_, hregs, ?_, ?_⟩
  · have h1 : ¬ ((1 : Int) < 0 ∨ (buf.types.length : Int) < 1) := by omega
    have h2 : ¬ ((buf.bytes.length : Int) < 1) := by omega
    simp only [build_args, build_args_loop, bind_apply, hslot, pure_apply, if_true, SetByteArrayRegion,
      show ((-1 : Int) - -1 + 1).toNat = 1 by decide, show ((-1 : Int) - -1 + 1) = 1 by decide, h1, h2,
      if_false, List.length_set]
    rfl
  · simp only [List.get?_eq_getElem?]
    rw [List.getElem?_set_self hvalues]
  · cases hb : buf.bytes with
    | nil => rw [hb] at hbytes; simp at hbytes
    | cons x xs => simp
  · simp [tget_tset_same]
  · rw [hregs]; exact hreg t
  · refine jcall_table_pair_get_not_table H attachOk args table_pair_obj obj _ 2 thread _ _ _ _ _ _ _ _
      (Or.inr ⟨by decide, ?_⟩)
    rw [hregs]
    exact hreg

/-- Witness for C24: the table of `seqWorld` packed by reference in a state whose globals table
and registry hold no integer keys: the id is 1, and `jcall_table_pair_get(1, 2)` is rejected. -/
theorem build_args_table_reference_not_in_registry_witness :
    ∃ buf1 w1, build_args exampleHost (-1) (-1) ⟨[JValue.null], [0], [0]⟩ true true
        ⟨LuaValue.table 6 :: [], seqWorld.heap, 8, 8000, fun _ => none, none, [], []⟩ = Res.ok buf1 w1 ∧
      buf1.values.get? 0 =
        some (JValue.double (((border ([] : List (LuaValue × LuaValue)) : Int) + 1 : Int) : ℚ)) ∧
      buf1.types.get? 0 = some LUA_TTABLE ∧
      tget (w1.heap.entries GLOBALS)
        (LuaValue.number (((border ([] : List (LuaValue × LuaValue)) : Int) + 1 : Int) : ℚ)) = LuaValue.table 6 ∧
      w1.heap.entries REGISTRY = seqWorld.heap.entries REGISTRY ∧
      tget (w1.heap.entries REGISTRY)
        (LuaValue.number (((border ([] : List (LuaValue × LuaValue)) : Int) + 1 : Int) : ℚ)) ≠ LuaValue.table 6 ∧
      jcall_table_pair_get exampleHost true ⟨[], [], []⟩ JValue.null (JValue.object 1)
          ((border ([] : List (LuaValue × LuaValue)) : Int) + 1) 2 ⟨0, false, 0, 0⟩ w1 =
        Res.ok (JNLUA_ENV true ⟨0, false, 0, 0⟩).2 { w1 with
          pending := some (JValue.throwable JClass.IllegalArgumentException
            (some (cstr (lit "illegal table at the specific index."))) JValue.null),
          raised := w1.raised ++ [JValue.throwable JClass.IllegalArgumentException
            (some (cstr (lit "illegal table at the specific index."))) JValue.null] } :=
  build_args_table_reference_not_in_registry exampleHost true ⟨[], [], []⟩ JValue.null (JValue.object 1)
    ⟨0, false, 0, 0⟩ 6 [] seqWorld.heap 8 8000 (fun _ => none) none [] [] ⟨[JValue.null], [0], [0]⟩ [] none
    rfl rfl (by decide) (by decide) (by decide) rfl
    (by
      intro a
      have hb : border ([] : List (LuaValue × LuaValue)) = 0 := by decide
      have he : seqWorld.heap.entries REGISTRY =
          [(LuaValue.string JNLUA_OBJECT, LuaValue.table 2),
            (LuaValue.string JNLUA_OBJECT_META, LuaValue.table 3),
            (LuaValue.string JNLUA_PAIRS, LuaValue.userdata 5),
            (LuaValue.string JNLUA_ARGS, LuaValue.userdata 5),
            (LuaValue.string JNLUA_JAVASTATE, LuaValue.userdata 7)] := rfl
      rw [he, hb]
      simp [tget])

/-! ## Pair push in insert mode: `pcall_table_pair_push` -/

theorem cstr_JNLUA_PAIRS : cstr JNLUA_PAIRS = JNLUA_PAIRS := by decide

/-- `table_pair` when the registry holds a full userdata under "JNLUA.Pairs": the pointer to
its block, with the state unchanged. -/
theorem table_pair_block (pb : Nat) (s : List LuaValue) (h : Heap) (n l : Nat)
    (b : Int → Option Nat) (p : Option JValue) (r rl : List JValue)
    (hpairs : tget (h.entries REGISTRY) (LuaValue.string JNLUA_PAIRS) = LuaValue.userdata pb) :
    table_pair ⟨s, h, n, l, b, p, r, rl⟩ = Res.ok (CPointer.block pb) ⟨s, h, n, l, b, p, r, rl⟩ := by
  simp [table_pair, lua_pushstring, cstr_JNLUA_PAIRS, hpairs, lua_isuserdata, lua_touserdata]

/-- The integer a key holds: an integer that fits an `int` is read back unchanged by
`lua_tointegerx` and the narrowing to `int`. -/
theorem jint_toLuaInteger (k : Int) (h1 : -2147483648 ≤ k) (h2 : k < 2147483648) :
    jint (toLuaInteger (k : ℚ)) = k := by
  have e : toLuaInteger (k : ℚ) = k := by
    have hr : -(2 : Int) ^ 63 ≤ k ∧ k < (2 : Int) ^ 63 := by
      constructor <;> norm_num <;> omega
    have hn : ((k : ℚ)).num = k := Rat.num_intCast k
    have hd : ((k : ℚ)).den = 1 := Rat.den_intCast k
    unfold toLuaInteger
    rw [hn, hd]
    simp only [Nat.cast_one, Int.tdiv_one]
    rw [if_pos hr]
  rw [e]
  unfold jint
  omega

/-- `push_args` over the one-slot range `1 .. 1` on a number-tagged slot holding a `Double`. -/
theorem push_args_second_double (H : Host) (w : World) (values : List JValue) (types : List Int) (d : ℚ)
    (hv : values.get? 1 = some (JValue.double d)) (ht : types.get? 1 = some LUA_TNUMBER)
    (hroom : (w.stack.length : Int) + JNLUA_MINSTACK ≤ w.limit) :
    push_args H 1 1 values types w =
      Res.ok (types.set 1 LUA_TNUMBER) { w with stack := LuaValue.number d :: w.stack } := by
  have hd : depthFor LUA_TNUMBER = 1 := by decide
  have hs := push_slot_double H w d hroom
  simp only [push_args, push_args_loop, show ((1 : Int) - 1 + 1).toNat = 1 by decide,
    show ¬ ((1 : Int) < 0) by decide, if_false, show (1 : Int).toNat = 1 by decide, ht, hv, bind_apply,
    pure_apply, hd, hs]

/-- The store step of the pair push in insert mode (lines 3399-3422) for a non-nil number
value: one element is moved from `size` to `size + 1` when `size <= len`, then the value is
stored at `size`. -/
theorem pcall_table_pair_push_store_insert (H : Host) (buf : ArgBuf) (options size : Int) (d : ℚ)
    (key : LuaValue) (t : Nat) (es : List (LuaValue × LuaValue)) (m : Option Nat)
    (h : Heap) (n l : Nat) (b : Int → Option Nat) (p : Option JValue) (r rl : List JValue)
    (hopt4 : Int.land options 4 > 0)
    (hv1 : buf.values.get? 1 = some (JValue.double d))
    (hb1 : buf.bytes.get? 1 = some LUA_TNUMBER)
    (ht : h t = some (GCObject.table es m)) (htn : t ≠ n)
    (hroom : (1 : Int) + JNLUA_MINSTACK ≤ l)
    (h0 : 0 ≤ size) (h1 : size ≤ (border es : Int) + 1) (hlen : (border es : Int) < 2147483646) :
    ∃ es2 h2 n2, pcall_table_pair_push_store H buf 1 options size (border es)
          ⟨[key, LuaValue.table t], h, n, l, b, p, r, rl⟩ =
        Res.ok 0 ⟨[LuaValue.table t], h2, n2, l, b, p, r, rl⟩ ∧
      h2 t = some (GCObject.table es2 m) ∧
      tget es2 (LuaValue.number ((size : Int) : ℚ)) = LuaValue.number d ∧
      (size ≤ border es → tget es2 (LuaValue.number ((size + 1 : Int) : ℚ)) =
        tget es (LuaValue.number ((size : Int) : ℚ))) ∧
      (∀ k, k ≠ LuaValue.number ((size : Int) : ℚ) →
        (size ≤ border es → k ≠ LuaValue.number ((size + 1 : Int) : ℚ)) → tget es2 k = tget es k) := by
  have hnil : ¬ (LUA_TNUMBER = LUA_TNIL) := by decide
  by_cases hmove : (border es : Int) > size - 1
  · obtain ⟨es1, h1', hrun, h1t, hframe, hmv, hkeep, _⟩ :=
      jcall_tablemove_ok H [] [] t m es h n l b p r rl 1 size (size + 1) 1 (Or.inl (by simp)) ht htn
        (by simpa using hroom) (by decide) (by unfold INT_MIN; omega) (by unfold INT_MIN; omega)
        (by unfold INT_MAX; omega) (by unfold INT_MAX; omega)
    simp only [List.nil_append] at hrun
    have hpush := push_args_second_double H ⟨[LuaValue.table t], h1', n + 1, l, b, p, r, rl⟩ buf.values buf.bytes d
      hv1 hb1 (by simpa using hroom)
    have he1 : h1'.entries t = es1 := by simp [Heap.entries, h1t]
    have hm1 : h1'.tmeta t = m := by simp [Heap.tmeta, h1t]
    refine ⟨tset es1 (LuaValue.number ((size : Int) : ℚ)) (LuaValue.number d),
      Function.update h1' t (some (GCObject.table
        (tset es1 (LuaValue.number ((size : Int) : ℚ)) (LuaValue.number d)) m)), n + 1, ?_, by simp,
      tget_tset_same _ _ _, ?_, ?_⟩
    · simp only [pcall_table_pair_push_store, hb1, bind_apply, hopt4, if_true, lua_pop_1, hmove, hnil,
        if_false, hrun, pure_apply, hpush, lua_rawseti, tableAt, index2value_one_of_two, he1, hm1,
        World.store]
    · intro _
      have hne : LuaValue.number ((size + 1 : Int) : ℚ) ≠ LuaValue.number ((size : Int) : ℚ) :=
        number_key_ne _ _ (by omega)
      rw [tget_tset_ne _ _ _ _ hne]
      have := hmv 0 (by decide) (by decide)
      simpa using this
    · intro k hk hk1
      rw [tget_tset_ne _ _ _ _ hk]
      apply hkeep
      intro i hi0 hi1
      have hi : i = 0 := by omega
      subst hi
      simpa using hk1 (by omega)
  · have hpush := push_args_second_double H ⟨[LuaValue.table t], h, n, l, b, p, r, rl⟩ buf.values buf.bytes d
      hv1 hb1 (by simpa using hroom)
    have he1 : h.entries t = es := by simp [Heap.entries, ht]
    have hm1 : h.tmeta t = m := by simp [Heap.tmeta, ht]
    refine ⟨tset es (LuaValue.number ((size : Int) : ℚ)) (LuaValue.number d),
      Function.update h t (some (GCObject.table
        (tset es (LuaValue.number ((size : Int) : ℚ)) (LuaValue.number d)) m)), n, ?_, by simp,
      tget_tset_same _ _ _, ?_, ?_⟩
    · simp only [pcall_table_pair_push_store, hb1, bind_apply, hopt4, if_true, lua_pop_1, hmove,
        if_false, pure_apply, hpush, lua_rawseti, tableAt, index2value_one_of_two, he1, hm1,
        World.store]
    · intro hle
      omega
    · intro k hk _
      rw [tget_tset_ne _ _ _ _ hk]

/-- The front of `pcall_table_pair_push` in insert mode (lines 3355-3381) for an integer key
sent as a `Double`: the key is pushed, read back as an `int`, and a key `<= 0` is replaced by
`key + len + 1`. -/
theorem pcall_table_pair_push_front (H : Host) (args : ArgBuf) (options kk : Int) (pb t : Nat)
    (es : List (LuaValue × LuaValue)) (m : Option Nat)
    (h : Heap) (n l : Nat) (b : Int → Option Nat) (p : Option JValue) (r rl : List JValue)
    (hopt4 : Int.land options 4 > 0)
    (hpairs : tget (h.entries REGISTRY) (LuaValue.string JNLUA_PAIRS) = LuaValue.userdata pb)
    (hv0 : args.values.get? 0 = some (JValue.double (kk : ℚ)))
    (htypes : args.types.take 2 = [LUA_TNUMBER, LUA_TNUMBER])
    (hbytes : 2 ≤ args.bytes.length)
    (ht : h t = some (GCObject.table es m))
    (hroom : (1 : Int) + JNLUA_MINSTACK ≤ l)
    (hk1 : -2147483648 ≤ kk) (hk2 : kk < 2147483648) :
    pcall_table_pair_push H args 1 options ⟨[LuaValue.table t], h, n, l, b, p, r, rl⟩ =
      (if (if kk ≤ 0 then kk + ((border es : Int) + 1) else kk) < 0 ∨
          (if kk ≤ 0 then kk + ((border es : Int) + 1) else kk) > (border es : Int) + 1 then
        Res.ok 0 ⟨if Int.land options 2 > 0 then [] else [LuaValue.table t], h, n, l, b,
          some (JValue.throwable JClass.IllegalArgumentException
            (some (cstr (lit "lua_table_pair_push: key index out of range."))) JValue.null),
          r ++ [JValue.throwable JClass.IllegalArgumentException
            (some (cstr (lit "lua_table_pair_push: key index out of range."))) JValue.null], rl⟩
      else
        (do
          let buf1 ← pcall_table_pair_push_original H
            { args with bytes := LUA_TNUMBER :: LUA_TNUMBER :: args.bytes.drop 2 } 1 options
          pcall_table_pair_push_store H buf1 1 options
            (if kk ≤ 0 then kk + ((border es : Int) + 1) else kk) (border es))
          ⟨[LuaValue.number (((if kk ≤ 0 then kk + ((border es : Int) + 1) else kk : Int)) : ℚ),
            LuaValue.table t], h, n, l, b, p, r, rl⟩) := by
  have htl : ¬ (args.types.length < 0 + 2) := by
    intro hlt
    have : (args.types.take 2).length = 2 := by rw [htypes]; rfl
    rw [List.length_take] at this
    omega
  have hbl : ¬ (args.bytes.length < 2) := by omega
  have hgb : GetByteArrayRegion args 0 2 ⟨[LuaValue.table t], h, n, l, b, p, r, rl⟩ =
      Res.ok { args with bytes := LUA_TNUMBER :: LUA_TNUMBER :: args.bytes.drop 2 }
        ⟨[LuaValue.table t], h, n, l, b, p, r, rl⟩ := by
    simp [GetByteArrayRegion, htl, hbl, htypes]
  have hd : depthFor LUA_TNUMBER = 1 := by decide
  have hslot := push_slot_double H ⟨[LuaValue.table t], h, n, l, b, p, r, rl⟩ (kk : ℚ) (by simpa using hroom)
  dsimp only at hslot
  rw [← hd] at hslot
  have hpush := push_args_one H ⟨[LuaValue.table t], h, n, l, b, p, r, rl⟩ _ args.values
    (LUA_TNUMBER :: LUA_TNUMBER :: args.bytes.drop 2) (JValue.double (kk : ℚ)) LUA_TNUMBER LUA_TNUMBER
    (by simpa using hv0) (by simp) hslot
  simp only [List.set_cons_zero] at hpush
  have he : h.entries t = es := by simp [Heap.entries, ht]
  have hj := jint_toLuaInteger kk hk1 hk2
  simp only [pcall_table_pair_push, bind_apply, table_pair_block pb _ h n l b p r rl hpairs, hgb, hpush,
    hopt4, if_true, lua_tointegerx, index2value_m1, Bool.not_true, Bool.false_eq_true, if_false, lua_objlen,
    index2value_one_of_two, he, hj, List.set_cons_zero]
  by_cases hk0 : kk ≤ 0
  · simp only [hk0, if_true, bind_apply, lua_pop_1, lua_pushinteger, push_apply, pure_apply]
    by_cases hrej : kk + ((border es : Int) + 1) < 0 ∨ kk + ((border es : Int) + 1) > (border es : Int) + 1
    · simp only [hrej, if_true, bind_apply]
      by_cases ho2 : Int.land options 2 > 0
      · simp [ho2, check, ThrowNew]
      · simp [ho2, check, ThrowNew]
    · simp only [hrej, if_false, bind_apply]
  · simp only [hk0, if_false, pure_apply]
    by_cases hrej : kk < 0 ∨ kk > (border es : Int) + 1
    · simp only [hrej, if_true, bind_apply]
      by_cases ho2 : Int.land options 2 > 0
      · simp [ho2, check, ThrowNew]
      · simp [ho2, check, ThrowNew]
    · simp only [bind_apply, pure_apply, hrej, if_false]

/-- The pair push in insert mode with an integer key that is accepted (it normalises to a
position `0 .. len + 1`) and a number value, without the option that reports the old value:
the value is stored at the position, after one element was moved from the position to the next
one when the position is at most `len`; nothing is raised. -/
theorem pcall_table_pair_push_insert_ok (H : Host) (args : ArgBuf) (options kk : Int) (d : ℚ)
    (pb t : Nat) (es : List (LuaValue × LuaValue)) (m : Option Nat)
    (h : Heap) (n l : Nat) (b : Int → Option Nat) (p : Option JValue) (r rl : List JValue)
    (hopt4 : Int.land options 4 > 0) (hopt8 : ¬ Int.land options 8 > 0)
    (hpairs : tget (h.entries REGISTRY) (LuaValue.string JNLUA_PAIRS) = LuaValue.userdata pb)
    (hv0 : args.values.get? 0 = some (JValue.double (kk : ℚ)))
    (hv1 : args.values.get? 1 = some (JValue.double d))
    (htypes : args.types.take 2 = [LUA_TNUMBER, LUA_TNUMBER])
    (hbytes : 2 ≤ args.bytes.length)
    (ht : h t = some (GCObject.table es m)) (htn : t ≠ n)
    (hroom : (1 : Int) + JNLUA_MINSTACK ≤ l)
    (hk1 : -2147483648 ≤ kk) (hk2 : kk < 2147483648) (hlen : (border es : Int) < 2147483646)
    (pos : Int) (hpos : pos = if kk ≤ 0 then kk + ((border es : Int) + 1) else kk)
    (h0 : 0 ≤ pos) (h1 : pos ≤ (border es : Int) + 1) :
    ∃ es2 h2 n2, pcall_table_pair_push H args 1 options ⟨[LuaValue.table t], h, n, l, b, p, r, rl⟩ =
        Res.ok 0 ⟨[LuaValue.table t], h2, n2, l, b, p, r, rl⟩ ∧
      h2 t = some (GCObject.table es2 m) ∧
      tget es2 (LuaValue.number ((pos : Int) : ℚ)) = LuaValue.number d ∧
      (pos ≤ border es → tget es2 (LuaValue.number ((pos + 1 : Int) : ℚ)) =
        tget es (LuaValue.number ((pos : Int) : ℚ))) ∧
      (∀ k, k ≠ LuaValue.number ((pos : Int) : ℚ) →
        (pos ≤ border es → k ≠ LuaValue.number ((pos + 1 : Int) : ℚ)) → tget es2 k = tget es k) := by
  have hfront := pcall_table_pair_push_front H args options kk pb t es m h n l b p r rl hopt4 hpairs hv0
    htypes hbytes ht hroom hk1 hk2
  rw [← hpos] at hfront
  have hacc : ¬ (pos < 0 ∨ pos > (border es : Int) + 1) := by omega
  rw [if_neg hacc] at hfront
  obtain ⟨es2, h2, n2, hrun, hrest⟩ := pcall_table_pair_push_store_insert H
    { args with bytes := LUA_TNUMBER :: LUA_TNUMBER :: args.bytes.drop 2 } options pos d
    (LuaValue.number ((pos : Int) : ℚ)) t es m h n l b p r rl hopt4 hv1 (by simp) ht htn hroom h0 h1 hlen
  refine ⟨es2, h2, n2, ?_, hrest⟩
  rw [hfront]
  simp only [bind_apply, pcall_table_pair_push_original, hopt8, if_false, pure_apply, hrun]

/-- C25: in insert mode the pair push moves one element only.  For a table holding a sequence
of length `len` (its border, with position `len + 1` empty), an integer key that normalises to a
position `1 <= pos <= len + 1` and a number value `v`, the operation returns without raising
anything and stores `v` at `pos`; for `pos <= len` it first calls
`jcall_tablemove(index, pos, pos + 1, 1)`, which copies the element at `pos` to `pos + 1` and
nothing else: every key other than `pos` and `pos + 1` reads what it read before.  So for
`pos = len` and `pos = len + 1` (also key 0) the result is that of `table.insert`, while for
`pos < len` the element that was at `pos + 1` is overwritten, the elements above it stay where
they were, and position `len + 1` is still empty: the sequence has not grown. -/
theorem pair_push_insert_moves_one_element (H : Host) (args : ArgBuf) (options kk : Int) (d : ℚ)
    (pb t : Nat) (es : List (LuaValue × LuaValue)) (m : Option Nat)
    (h : Heap) (n l : Nat) (b : Int → Option Nat) (p : Option JValue) (r rl : List JValue)
    (hopt4 : Int.land options 4 > 0) (hopt8 : ¬ Int.land options 8 > 0)
    (hpairs : tget (h.entries REGISTRY) (LuaValue.string JNLUA_PAIRS) = LuaValue.userdata pb)
    (hv0 : args.values.get? 0 = some (JValue.double (kk : ℚ)))
    (hv1 : args.values.get? 1 = some (JValue.double d))
    (htypes : args.types.take 2 = [LUA_TNUMBER, LUA_TNUMBER])
    (hbytes : 2 ≤ args.bytes.length)
    (ht : h t = some (GCObject.table es m)) (htn : t ≠ n)
    (hroom : (1 : Int) + JNLUA_MINSTACK ≤ l)
    (hk1 : -2147483648 ≤ kk) (hk2 : kk < 2147483648) (hlen : (border es : Int) < 2147483646)
    (hend : tget es (LuaValue.number (((border es : Int) + 1 : Int) : ℚ)) = LuaValue.nil)
    (pos : Int) (hpos : pos = if kk ≤ 0 then kk + ((border es : Int) + 1) else kk)
    (h1 : 1 ≤ pos) (h2 : pos ≤ (border es : Int) + 1) :
    ∃ es2 h2 n2, pcall_table_pair_push H args 1 options ⟨[LuaValue.table t], h, n, l, b, p, r, rl⟩ =
        Res.ok 0 ⟨[LuaValue.table t], h2, n2, l, b, p, r, rl⟩ ∧
      h2 t = some (GCObject.table es2 m) ∧
      tget es2 (LuaValue.number ((pos : Int) : ℚ)) = LuaValue.number d ∧
      (pos ≤ border es → tget es2 (LuaValue.number ((pos + 1 : Int) : ℚ)) =
        tget es (LuaValue.number ((pos : Int) : ℚ))) ∧
      (∀ k, k ≠ LuaValue.number ((pos : Int) : ℚ) →
        (pos ≤ border es → k ≠ LuaValue.number ((pos + 1 : Int) : ℚ)) → tget es2 k = tget es k) ∧
      (pos < border es →
        tget es2 (LuaValue.number (((border es : Int) + 1 : Int) : ℚ)) = LuaValue.nil ∧
        ∀ q : Int, pos < q → q ≤ border es →
          tget es2 (LuaValue.number ((q + 1 : Int) : ℚ)) = tget es (LuaValue.number ((q + 1 : Int) : ℚ))) := by
  obtain ⟨es2, h2', n2, hrun, h2t, hat, hnext, hother⟩ :=
    pcall_table_pair_push_insert_ok H args options kk d pb t es m h n l b p r rl hopt4 hopt8 hpairs hv0 hv1
      htypes hbytes ht htn hroom hk1 hk2 hlen pos hpos (by omega) h2
  refine ⟨es2, h2', n2, hrun, h2t, hat, hnext, hother, ?_⟩
  intro hlt
  refine ⟨?_, ?_⟩
  · rw [hother _ (number_key_ne _ _ (by omega)) (fun _ => number_key_ne _ _ (by omega)), hend]
  · intro q hq1 _
    exact hother _ (number_key_ne _ _ (by omega)) (fun _ => number_key_ne _ _ (by omega))

/-- Witness for C25: the value 9 inserted at position 1 of the sequence "a", "b", "c" of
`seqWorld`. -/
theorem pair_push_insert_moves_one_element_witness :
    ∃ es2 h2 n2, pcall_table_pair_push exampleHost
          ⟨[JValue.double ((1 : Int) : ℚ), JValue.double 9], [LUA_TNUMBER, LUA_TNUMBER], [0, 0]⟩ 1 4
          ⟨[LuaValue.table 6], seqWorld.heap, 8, 8000, fun _ => none, none, [], []⟩ =
        Res.ok 0 ⟨[LuaValue.table 6], h2, n2, 8000, fun _ => none, none, [], []⟩ ∧
      h2 6 = some (GCObject.table es2 none) ∧
      tget es2 (LuaValue.number ((1 : Int) : ℚ)) = LuaValue.number 9 ∧
      ((1 : Int) ≤ border [(LuaValue.number 1, LuaValue.string (lit "a")),
          (LuaValue.number 2, LuaValue.string (lit "b")), (LuaValue.number 3, LuaValue.string (lit "c"))] →
        tget es2 (LuaValue.number ((1 + 1 : Int) : ℚ)) =
          tget [(LuaValue.number 1, LuaValue.string (lit "a")),
            (LuaValue.number 2, LuaValue.string (lit "b")), (LuaValue.number 3, LuaValue.string (lit "c"))]
            (LuaValue.number ((1 : Int) : ℚ))) ∧
      (∀ k, k ≠ LuaValue.number ((1 : Int) : ℚ) →
        ((1 : Int) ≤ border [(LuaValue.number 1, LuaValue.string (lit "a")),
          (LuaValue.number 2, LuaValue.string (lit "b")), (LuaValue.number 3, LuaValue.string (lit "c"))] →
          k ≠ LuaValue.number ((1 + 1 : Int) : ℚ)) →
        tget es2 k = tget [(LuaValue.number 1, LuaValue.string (lit "a")),
          (LuaValue.number 2, LuaValue.string (lit "b")), (LuaValue.number 3, LuaValue.string (lit "c"))] k) ∧
      ((1 : Int) < border [(LuaValue.number 1, LuaValue.string (lit "a")),
          (LuaValue.number 2, LuaValue.string (lit "b")), (LuaValue.number 3, LuaValue.string (lit "c"))] →
        tget es2 (LuaValue.number (((border [(LuaValue.number 1, LuaValue.string (lit "a")),
          (LuaValue.number 2, LuaValue.string (lit "b")),
          (LuaValue.number 3, LuaValue.string (lit "c"))] : Int) + 1 : Int) : ℚ)) = LuaValue.nil ∧
        ∀ q : Int, 1 < q → q ≤ border [(LuaValue.number 1, LuaValue.string (lit "a")),
            (LuaValue.number 2, LuaValue.string (lit "b")), (LuaValue.number 3, LuaValue.string (lit "c"))] →
          tget es2 (LuaValue.number ((q + 1 : Int) : ℚ)) =
            tget [(LuaValue.number 1, LuaValue.string (lit "a")),
              (LuaValue.number 2, LuaValue.string (lit "b")), (LuaValue.number 3, LuaValue.string (lit "c"))]
              (LuaValue.number ((q + 1 : Int) : ℚ))) :=
  pair_push_insert_moves_one_element exampleHost
    ⟨[JValue.double ((1 : Int) : ℚ), JValue.double 9], [LUA_TNUMBER, LUA_TNUMBER], [0, 0]⟩ 4 1 9 5 6
    [(LuaValue.number 1, LuaValue.string (lit "a")), (LuaValue.number 2, LuaValue.string (lit "b")),
      (LuaValue.number 3, LuaValue.string (lit "c"))] none seqWorld.heap 8 8000 (fun _ => none) none [] []
    (by decide) (by decide) (by decide) rfl rfl rfl (by decide) rfl (by decide) (by decide) (by decide)
    (by decide) (by decide) (by decide) 1 (by decide) (by decide) (by decide)

/-- C30: in insert mode the pair push normalises an integer key `k` to `pos = k` for `k > 0` and
`pos = k + len + 1` otherwise, and rejects it with `size < 0 || size > len + 1`.  A key with
`pos < 0` or `pos > len + 1` raises `IllegalArgumentException` ("lua_table_pair_push: key index
out of range.") and leaves the heap, hence the table, as it was; a key with
`1 <= pos <= len + 1` is stored at `pos`.  The key `k = -len - 1`, which normalises to
`pos = 0`, outside `1 .. len + 1`, passes the test: nothing is raised, the element at key 0 is
copied over position 1 and the value is stored under key 0. -/
theorem pair_push_insert_accepts_position_zero (H : Host) (args : ArgBuf) (options kk : Int) (d : ℚ)
    (pb t : Nat) (es : List (LuaValue × LuaValue)) (m : Option Nat)
    (h : Heap) (n l : Nat) (b : Int → Option Nat) (p : Option JValue) (r rl : List JValue)
    (hopt4 : Int.land options 4 > 0) (hopt8 : ¬ Int.land options 8 > 0)
    (hpairs : tget (h.entries REGISTRY) (LuaValue.string JNLUA_PAIRS) = LuaValue.userdata pb)
    (hv0 : args.values.get? 0 = some (JValue.double (kk : ℚ)))
    (hv1 : args.values.get? 1 = some (JValue.double d))
    (htypes : args.types.take 2 = [LUA_TNUMBER, LUA_TNUMBER])
    (hbytes : 2 ≤ args.bytes.length)
    (ht : h t = some (GCObject.table es m)) (htn : t ≠ n)
    (hroom : (1 : Int) + JNLUA_MINSTACK ≤ l)
    (hk1 : -2147483648 ≤ kk) (hk2 : kk < 2147483648) (hlen : (border es : Int) < 2147483646)
    (pos : Int) (hpos : pos = if kk ≤ 0 then kk + ((border es : Int) + 1) else kk) :
    (pos < 0 ∨ pos > (border es : Int) + 1 →
      pcall_table_pair_push H args 1 options ⟨[LuaValue.table t], h, n, l, b, p, r, rl⟩ =
        Res.ok 0 ⟨if Int.land options 2 > 0 then [] else [LuaValue.table t], h, n, l, b,
          some (JValue.throwable JClass.IllegalArgumentException
            (some (cstr (lit "lua_table_pair_push: key index out of range."))) JValue.null),
          r ++ [JValue.throwable JClass.IllegalArgumentException
            (some (cstr (lit "lua_table_pair_push: key index out of range."))) JValue.null], rl⟩) ∧
    (1 ≤ pos → pos ≤ (border es : Int) + 1 →
      ∃ es2 h2 n2, pcall_table_pair_push H args 1 options ⟨[LuaValue.table t], h, n, l, b, p, r, rl⟩ =
          Res.ok 0 ⟨[LuaValue.table t], h2, n2, l, b, p, r, rl⟩ ∧
        h2 t = some (GCObject.table es2 m) ∧
        tget es2 (LuaValue.number ((pos : Int) : ℚ)) = LuaValue.number d) ∧
    (kk = -(border es : Int) - 1 →
      pos = 0 ∧
      ∃ es2 h2 n2, pcall_table_pair_push H args 1 options ⟨[LuaValue.table t], h, n, l, b, p, r, rl⟩ =
          Res.ok 0 ⟨[LuaValue.table t], h2, n2, l, b, p, r, rl⟩ ∧
        h2 t = some (GCObject.table es2 m) ∧
        tget es2 (LuaValue.number ((0 : Int) : ℚ)) = LuaValue.number d ∧
        tget es2 (LuaValue.number ((1 : Int) : ℚ)) = tget es (LuaValue.number ((0 : Int) : ℚ))) := by
  refine ⟨?_, ?_, ?_⟩
  · intro hrej
    have hfront := pcall_table_pair_push_front H args options kk pb t es m h n l b p r rl hopt4 hpairs hv0
      htypes hbytes ht hroom hk1 hk2
    rw [← hpos, if_pos hrej] at hfront
    exact hfront
  · intro h1 h2
    obtain ⟨es2, h2', n2, hrun, h2t, hat, _, _⟩ :=
      pcall_table_pair_push_insert_ok H args options kk d pb t es m h n l b p r rl hopt4 hopt8 hpairs hv0 hv1
        htypes hbytes ht htn hroom hk1 hk2 hlen pos hpos (by omega) h2
    exact ⟨es2, h2', n2, hrun, h2t, hat⟩
  · intro hk
    have hk0 : kk ≤ 0 := by omega
    have hp0 : pos = 0 := by rw [hpos, if_pos hk0]; omega
    obtain ⟨es2, h2', n2, hrun, h2t, hat, hnext, _⟩ :=
      pcall_table_pair_push_insert_ok H args options kk d pb t es m h n l b p r rl hopt4 hopt8 hpairs hv0 hv1
        htypes hbytes ht htn hroom hk1 hk2 hlen pos hpos (by omega) (by omega)
    subst hp0
    exact ⟨rfl, es2, h2', n2, hrun, h2t, hat, by simpa using hnext (by omega)⟩

/-- Witness for C30: key -4 on the sequence "a", "b", "c" of `seqWorld` (length 3) is accepted
at position 0, and key 7 is rejected. -/
theorem pair_push_insert_accepts_position_zero_witness :
    ((-4 : Int) + ((border [(LuaValue.number 1, LuaValue.string (lit "a")),
        (LuaValue.number 2, LuaValue.string (lit "b")),
        (LuaValue.number 3, LuaValue.string (lit "c"))] : Int) + 1) = 0 ∧
      ∃ es2 h2 n2, pcall_table_pair_push exampleHost
            ⟨[JValue.double ((-4 : Int) : ℚ), JValue.double 9], [LUA_TNUMBER, LUA_TNUMBER], [0, 0]⟩ 1 4
            ⟨[LuaValue.table 6], seqWorld.heap, 8, 8000, fun _ => none, none, [], []⟩ =
          Res.ok 0 ⟨[LuaValue.table 6], h2, n2, 8000, fun _ => none, none, [], []⟩ ∧
        h2 6 = some (GCObject.table es2 none) ∧
        tget es2 (LuaValue.number ((0 : Int) : ℚ)) = LuaValue.number 9 ∧
        tget es2 (LuaValue.number ((1 : Int) : ℚ)) =
          tget [(LuaValue.number 1, LuaValue.string (lit "a")), (LuaValue.number 2, LuaValue.string (lit "b")),
            (LuaValue.number 3, LuaValue.string (lit "c"))] (LuaValue.number ((0 : Int) : ℚ))) ∧
    pcall_table_pair_push exampleHost
        ⟨[JValue.double ((7 : Int) : ℚ), JValue.double 9], [LUA_TNUMBER, LUA_TNUMBER], [0, 0]⟩ 1 4
        ⟨[LuaValue.table 6], seqWorld.heap, 8, 8000, fun _ => none, none, [], []⟩ =
      Res.ok 0 ⟨if Int.land 4 2 > 0 then [] else [LuaValue.table 6], seqWorld.heap, 8, 8000, fun _ => none,
        some (JValue.throwable JClass.IllegalArgumentException
          (some (cstr (lit "lua_table_pair_push: key index out of range."))) JValue.null),
        [] ++ [JValue.throwable JClass.IllegalArgumentException
          (some (cstr (lit "lua_table_pair_push: key index out of range."))) JValue.null], []⟩ :=
  ⟨(pair_push_insert_accepts_position_zero exampleHost
      ⟨[JValue.double ((-4 : Int) : ℚ), JValue.double 9], [LUA_TNUMBER, LUA_TNUMBER], [0, 0]⟩ 4 (-4) 9 5 6
      [(LuaValue.number 1, LuaValue.string (lit "a")), (LuaValue.number 2, LuaValue.string (lit "b")),
        (LuaValue.number 3, LuaValue.string (lit "c"))] none seqWorld.heap 8 8000 (fun _ => none) none [] []
      (by decide) (by decide) (by decide) rfl rfl rfl (by decide) rfl (by decide) (by decide) (by decide)
      (by decide) (by decide) _ rfl).2.2 (by decide),
    (pair_push_insert_accepts_position_zero exampleHost
      ⟨[JValue.double ((7 : Int) : ℚ), JValue.double 9], [LUA_TNUMBER, LUA_TNUMBER], [0, 0]⟩ 4 7 9 5 6
      [(LuaValue.number 1, LuaValue.string (lit "a")), (LuaValue.number 2, LuaValue.string (lit "b")),
        (LuaValue.number 3, LuaValue.string (lit "c"))] none seqWorld.heap 8 8000 (fun _ => none) none [] []
      (by decide) (by decide) (by decide) rfl rfl rfl (by decide) rfl (by decide) (by decide) (by decide)
      (by decide) (by decide) _ rfl).1 (by decide)⟩

/-! ## Message handler and error objects: `messagehandler`, `throw` -/

theorem cstr_lit_C : cstr (lit "C") = lit "C" := by decide

/-- The name `isrelevant` leaves in the record. -/
theorem isrelevant_name (ar : lua_Debug) : (isrelevant ar).2.name.map cstr = frameName ar := by
  obtain ⟨name, what, source, line⟩ := ar
  cases name with
  | none => simp [isrelevant, frameName]
  | some n =>
    by_cases hn : cstr n = []
    · simp [isrelevant, frameName, hn]
    · have : ¬ (cstr n).length = 0 := by simpa [List.length_eq_zero] using hn
      simp [isrelevant, frameName, hn, this]

/-- The source `isrelevant` leaves in the record. -/
theorem isrelevant_source (ar : lua_Debug) : (isrelevant ar).2.source.map cstr = frameSource ar := by
  obtain ⟨name, what, source, line⟩ := ar
  have hsrc : (isrelevant ⟨name, none, source, line⟩).2.source.map cstr =
      frameSource ⟨name, none, source, line⟩ := by
    cases source with
    | none => simp [isrelevant, frameSource]
    | some s =>
      cases s with
      | nil => simp [isrelevant, frameSource, cstr]
      | cons c rest => by_cases hc : c = 61 ∨ c = 64 <;> simp [isrelevant, frameSource, hc]
  cases what with
  | none => exact hsrc
  | some wh =>
    by_cases hw : cstr wh = lit "C"
    · simp [isrelevant, frameSource, hw, cstr_lit_C]
    · have e1 : (isrelevant ⟨name, some wh, source, line⟩).2.source =
          (isrelevant ⟨name, none, source, line⟩).2.source := by
        simp [isrelevant, hw, cstr_lit_C]
      have e2 : frameSource ⟨name, some wh, source, line⟩ = frameSource ⟨name, none, source, line⟩ := by
        simp [frameSource, hw]
      rw [e1, e2]
      exact hsrc

/-- The answer of `isrelevant`: the frame has a name or a source. -/
theorem isrelevant_answer (ar : lua_Debug) :
    (isrelevant ar).1 = ((frameName ar).isSome || (frameSource ar).isSome) := by
  rw [← isrelevant_name, ← isrelevant_source, Option.isSome_map', Option.isSome_map']
  rfl

/-- The first loop of `messagehandler` counts the frames that have a name or a source. -/
theorem messagehandler_count_eq (frames : List lua_Debug) (count : Nat) :
    messagehandler_count frames count =
      count + (frames.filter (fun ar => (frameName ar).isSome || (frameSource ar).isSome)).length := by
  induction frames generalizing count with
  | nil => simp [messagehandler_count]
  | cons ar rest ih =>
    simp only [messagehandler_count, ih, isrelevant_answer, List.filter_cons]
    split
    · simp; omega
    · simp

/-- The count of the first loop is the length of the trace of the specification. -/
theorem messagehandler_count_spec (frames : List lua_Debug) :
    messagehandler_count frames 0 = (spec_trace frames).length := by
  simp [messagehandler_count_eq, spec_trace]

/-- The second loop of `messagehandler`, started at position `pre.length` of an array that has
one more slot for each frame with a name or a source that is still to come: every one of these
slots is filled, in the order of the levels, and nothing is raised. -/
theorem messagehandler_fill_ok (H : Host) (hnew : H.newObjectOk JClass.LuaStackTraceElement = true)
    (frames : List lua_Debug) :
    ∀ (pre rest : List (Option LuaStackTraceElement)) (w : World),
      rest.length = (spec_trace frames).length →
      messagehandler_fill H frames pre.length (pre ++ rest) w =
        Res.ok (some (pre ++ (spec_trace frames).map some)) w := by
  induction frames with
  | nil =>
    intro pre rest w hlen
    have : rest = [] := by simpa [spec_trace] using hlen
    subst this
    simp [messagehandler_fill, spec_trace]
  | cons ar fs ih =>
    intro pre rest w hlen
    by_cases hrel : ((frameName ar).isSome || (frameSource ar).isSome) = true
    · have hspec : spec_trace (ar :: fs) =
          (LuaStackTraceElement.mk (frameName ar) (frameSource ar) ar.currentline) ::
            spec_trace fs := by
        simp [spec_trace, List.filter_cons, hrel]
      rw [hspec] at hlen ⊢
      cases rest with
      | nil => simp at hlen
      | cons x rest1 =>
        have hl : ¬ ((pre ++ x :: rest1).length ≤ pre.length) := by simp
        have hset : (pre ++ x :: rest1).set pre.length
            (some (LuaStackTraceElement.mk (frameName ar) (frameSource ar) ar.currentline)) =
            (pre ++ [some (LuaStackTraceElement.mk (frameName ar) (frameSource ar) ar.currentline)]) ++ rest1 := by
          simp [List.set_append_right]
        have hih := ih (pre ++ [some (LuaStackTraceElement.mk (frameName ar) (frameSource ar) ar.currentline)]) rest1 w (by simpa using hlen)
        simp only [List.length_append, List.length_singleton] at hih
        have hcl : (isrelevant ar).2.currentline = ar.currentline := rfl
        simp only [messagehandler_fill, isrelevant_answer, hrel, if_true, hnew, Bool.not_true,
          Bool.false_eq_true, if_false, hl, isrelevant_name, isrelevant_source, hcl, hset, hih]
        simp
    · have hspec : spec_trace (ar :: fs) = spec_trace fs := by
        simp [spec_trace, List.filter_cons, hrel]
      rw [hspec] at hlen ⊢
      simp only [messagehandler_fill, isrelevant_answer, hrel, Bool.false_eq_true, if_false]
      exact ih pre rest w hlen

/-- `tojavaobject` with a class on a handle whose payload is an instance of the class. -/
theorem tojavaobject_handle_class (H : Host) (w : World) (i : Int) (r m : Nat) (c : JClass)
    (hidx : index2value w i = some (LuaValue.userdata r))
    (hm : w.heap.umeta r = some m)
    (hreg : tget (w.heap.entries REGISTRY) (LuaValue.string JNLUA_OBJECT) = LuaValue.table m)
    (hinst : IsInstanceOf H (w.heap.payload r) c = true) :
    tojavaobject H i (some c) w = Res.ok (w.heap.payload r) w := by
  simp [tojavaobject, lua_isuserdata, hidx, lua_getmetatable, metatableOf, hm, luaL_getmetatable, hreg,
    lua_rawequal, hinst]

/-- `messagehandler` in the ordinary environment (the JNI calls succeed, nothing is pending, a
`__tostring` metamethod of the error value returns): the array it builds is the trace of the
specification, `setLuaStackTrace` is called with it on the `LuaError` found behind the error
value, or on a new one when there is none, and a new handle to that object is pushed as the
error value. -/
theorem messagehandler_ok (H : Host) (frames : List lua_Debug) (e : LuaValue) (s : List LuaValue)
    (h : Heap) (n l : Nat) (b : Int → Option Nat) (r rl : List JValue) (m : Nat)
    (harr : H.newArrayOk (spec_trace frames).length = true)
    (hel : H.newObjectOk JClass.LuaStackTraceElement = true)
    (herr : H.newObjectOk JClass.LuaError = true)
    (hset : H.setLuaStackTraceThrows = none)
    (hg : H.globalRefOk = true)
    (hreg : tget (h.entries REGISTRY) (LuaValue.string JNLUA_OBJECT) = LuaValue.table m)
    (hfresh : REGISTRY ≠ n)
    (hcls : tget (h.entries REGISTRY) (LuaValue.string (cstr (lit "com.naef.jnlua.LuaError"))) = LuaValue.nil ∨
      ∃ ct, tget (h.entries REGISTRY) (LuaValue.string (cstr (lit "com.naef.jnlua.LuaError"))) =
        LuaValue.table ct)
    (hmeta : ∀ f, ∃ rs, H.call f [e] = CallOutcome.returns rs)
    (hlight : b LUA_TLIGHTUSERDATA = none) :
    ∃ found msg env,
      tojavaobject H (-1) (some JClass.LuaError) ⟨e :: s, h, n, l, b, none, r, rl⟩ =
        Res.ok found ⟨e :: s, h, n, l, b, none, r, rl⟩ ∧
      messagehandler H frames ⟨e :: s, h, n, l, b, none, r, rl⟩ =
        Res.ok (1, some (if found.isNull then JValue.throwable JClass.LuaError msg JValue.null else found,
            (spec_trace frames).map some))
          ⟨LuaValue.userdata n :: e :: s,
            Function.update h n (some (GCObject.userdata
              (if found.isNull then JValue.throwable JClass.LuaError msg JValue.null else found) (some m) env)),
            n + 1, l, b, none, r, rl⟩ := by
  obtain ⟨found, hfound⟩ := tojavaobject_keeps H ⟨e :: s, h, n, l, b, none, r, rl⟩ (-1)
    (some JClass.LuaError) hlight
  obtain ⟨msg, hmsg⟩ := to_string_keeps H ⟨e :: s, h, n, l, b, none, r, rl⟩ (-1) e
    (index2value_m1 _ _ _ _ _ _ _ _ _) hmeta
  have hfill := messagehandler_fill_ok H hel frames [] (List.replicate (spec_trace frames).length none)
    ⟨e :: s, h, n, l, b, none, r, rl⟩ (by simp)
  simp only [List.length_nil, List.nil_append] at hfill
  have hE : (if found.isNull then JValue.throwable JClass.LuaError (msg.map cstr) JValue.null else found).isNull
      = false := by
    cases found <;> simp [JValue.isNull]
  obtain ⟨env, hpush⟩ := pushjavaobject_object H ⟨e :: s, h, n, l, b, none, r, rl⟩
    (if found.isNull then JValue.throwable JClass.LuaError (msg.map cstr) JValue.null else found)
    (lit "com.naef.jnlua.LuaError") m hreg hfresh hcls hE hg
  refine ⟨found, msg.map cstr, env, hfound, ?_⟩
  simp only [messagehandler, messagehandler_count_spec, harr, Bool.not_true, Bool.false_eq_true, if_false,
    bind_apply, hfill, hfound]
  by_cases hn : found.isNull = true
  · simp only [hn, if_true] at hpush hE ⊢
    simp only [bind_apply, tostring, hmsg, pure_apply, herr, if_true, JValue.isNull, Bool.false_eq_true,
      if_false, hset, handlejavaexception, getW_apply, hpush]
  · simp only [hn, Bool.false_eq_true, if_false] at hpush hE ⊢
    simp only [bind_apply, pure_apply, hE, hn, Bool.false_eq_true, if_false, hset, handlejavaexception,
      getW_apply, hpush]

/-- A sequence that completes: its first part completed, and the rest completed from there. -/
theorem bind_ok_inv {α β : Type} (m : LuaM α) (f : α → LuaM β) (w w1 : World) (x : β)
    (h : (m >>= f) w = Res.ok x w1) : ∃ a w2, m w = Res.ok a w2 ∧ f a w2 = Res.ok x w1 := by
  simp only [bind_apply] at h
  cases hm : m w with
  | ok a w2 => rw [hm] at h; exact ⟨a, w2, rfl, h⟩
  | raise e w2 => rw [hm] at h; simp at h
  | undef => rw [hm] at h; simp at h

/-- Whatever array the second loop of `messagehandler` completes is the trace of the
specification, also when the creation of an element can fail. -/
theorem messagehandler_fill_sound (H : Host) (frames : List lua_Debug) :
    ∀ (pre rest : List (Option LuaStackTraceElement)) (w w1 : World)
      (arr : List (Option LuaStackTraceElement)),
      rest.length = (spec_trace frames).length →
      messagehandler_fill H frames pre.length (pre ++ rest) w = Res.ok (some arr) w1 →
      arr = pre ++ (spec_trace frames).map some := by
  by_cases hnew : H.newObjectOk JClass.LuaStackTraceElement = true
  · intro pre rest w w1 arr hlen hrun
    rw [messagehandler_fill_ok H hnew frames pre rest w hlen] at hrun
    injection hrun with h1 _
    injection h1 with h2
    exact h2.symm
  · induction frames with
    | nil =>
      intro pre rest w w1 arr hlen hrun
      have : rest = [] := by simpa [spec_trace] using hlen
      subst this
      simp only [messagehandler_fill, pure_apply, List.append_nil] at hrun
      injection hrun with h1 _
      injection h1 with h2
      simp [spec_trace, ← h2]
    | cons ar fs ih =>
      intro pre rest w w1 arr hlen hrun
      by_cases hrel : ((frameName ar).isSome || (frameSource ar).isSome) = true
      · simp [messagehandler_fill, isrelevant_answer, hrel, hnew] at hrun
      · have hspec : spec_trace (ar :: fs) = spec_trace fs := by
          simp [spec_trace, List.filter_cons, hrel]
        rw [hspec] at hlen ⊢
        simp only [messagehandler_fill, isrelevant_answer, hrel, Bool.false_eq_true, if_false] at hrun
        exact ih pre rest w w1 arr hlen hrun

/-- Whenever `messagehandler` calls `setLuaStackTrace`, the array it passes is the trace of the
specification, with every slot filled. -/
theorem messagehandler_sound (H : Host) (frames : List lua_Debug) (w w1 : World) (res : Int)
    (E : JValue) (trace : List (Option LuaStackTraceElement))
    (hrun : messagehandler H frames w = Res.ok (res, some (E, trace)) w1) :
    trace = (spec_trace frames).map some := by
  have hrest : ∀ (y : JValue) (w4 : World),
      (if y.isNull then (pure (1, none) : LuaM (Int × Option (JValue × List (Option LuaStackTraceElement))))
        else do
          match H.setLuaStackTraceThrows with
          | some t => hostThrows t
          | none => pure ()
          let _ ← handlejavaexception H 3
          pushjavaobject H y (some (lit "com.naef.jnlua.LuaError")) 1
          pure (1, some (y, (spec_trace frames).map some))) w4 = Res.ok (res, some (E, trace)) w1 →
      trace = (spec_trace frames).map some := by
    intro y w4 h
    split at h
    · simp at h
    · split at h
      · obtain ⟨_, w5, _, h⟩ := bind_ok_inv _ _ _ _ _ h
        obtain ⟨_, w6, _, h⟩ := bind_ok_inv _ _ _ _ _ h
        obtain ⟨_, w7, _, h⟩ := bind_ok_inv _ _ _ _ _ h
        simp only [pure_apply] at h
        injection h with h5 _
        injection h5 with _ h6
        injection h6 with h7
        injection h7 with _ h8
        exact h8.symm
      · obtain ⟨_, w5, _, h⟩ := bind_ok_inv _ _ _ _ _ h
        obtain ⟨_, w6, _, h⟩ := bind_ok_inv _ _ _ _ _ h
        obtain ⟨_, w7, _, h⟩ := bind_ok_inv _ _ _ _ _ h
        simp only [pure_apply] at h
        injection h with h5 _
        injection h5 with _ h6
        injection h6 with h7
        injection h7 with _ h8
        exact h8.symm
  unfold messagehandler at hrun
  split at hrun
  · simp at hrun
  · obtain ⟨filled, w2, hfill, hrun⟩ := bind_ok_inv _ _ _ _ _ hrun
    cases filled with
    | none => simp at hrun
    | some arr =>
      have harr := messagehandler_fill_sound H frames [] (List.replicate (messagehandler_count frames 0) none)
        w w2 arr (by simp [messagehandler_count_spec]) (by simpa using hfill)
      simp only [List.nil_append] at harr
      subst harr
      simp only at hrun
      obtain ⟨found, w3, _, hrun⟩ := bind_ok_inv _ _ _ _ _ hrun
      split at hrun
      · obtain ⟨message, w4, _, hrun⟩ := bind_ok_inv _ _ _ _ _ hrun
        split at hrun
        · obtain ⟨y, w5, _, hrun⟩ := bind_ok_inv _ _ _ _ _ hrun
          exact hrest _ _ hrun
        · obtain ⟨y, w5, _, hrun⟩ := bind_ok_inv _ _ _ _ _ hrun
          exact hrest _ _ hrun
      · obtain ⟨y, w5, _, hrun⟩ := bind_ok_inv _ _ _ _ _ hrun
        exact hrest _ _ hrun

/-- C23: the trace `messagehandler` builds is the trace of the specification.  The first loop
counts, from level 1 upward, the frames that have a name or a source (`isrelevant` answers false
exactly for a frame with neither, where an empty name is no name and a C function has no
source); the array is created with that length; the second loop visits the same frames in the
same order and fills the slots 0, 1, ... one by one.  So whenever `messagehandler` attaches a
trace, it is the list of those frames in order of increasing level, its length is the count, and
no slot is left unfilled; and in the ordinary environment (the JNI calls succeed, nothing is
pending, a `__tostring` metamethod of the error value returns) it does attach it. -/
theorem messagehandler_trace (H : Host) (frames : List lua_Debug) :
    messagehandler_count frames 0 = (spec_trace frames).length ∧
    (∀ ar, (isrelevant ar).1 = false ↔ (frameName ar = none ∧ frameSource ar = none)) ∧
    (∀ w w1 res E trace, messagehandler H frames w = Res.ok (res, some (E, trace)) w1 →
      trace = (spec_trace frames).map some ∧ trace.length = messagehandler_count frames 0 ∧
      none ∉ trace) ∧
    (∀ (e : LuaValue) (s : List LuaValue) (h : Heap) (n l : Nat) (b : Int → Option Nat)
      (r rl : List JValue) (m : Nat),
      H.newArrayOk (spec_trace frames).length = true →
      H.newObjectOk JClass.LuaStackTraceElement = true →
      H.newObjectOk JClass.LuaError = true →
      H.setLuaStackTraceThrows = none →
      H.globalRefOk = true →
      tget (h.entries REGISTRY) (LuaValue.string JNLUA_OBJECT) = LuaValue.table m →
      REGISTRY ≠ n →
      (tget (h.entries REGISTRY) (LuaValue.string (cstr (lit "com.naef.jnlua.LuaError"))) = LuaValue.nil ∨
        ∃ ct, tget (h.entries REGISTRY) (LuaValue.string (cstr (lit "com.naef.jnlua.LuaError"))) =
          LuaValue.table ct) →
      (∀ f, ∃ rs, H.call f [e] = CallOutcome.returns rs) →
      b LUA_TLIGHTUSERDATA = none →
      ∃ E w1, messagehandler H frames ⟨e :: s, h, n, l, b, none, r, rl⟩ =
        Res.ok (1, some (E, (spec_trace frames).map some)) w1) := by
  refine ⟨messagehandler_count_spec frames, ?_, ?_, ?_⟩
  · intro ar
    rw [isrelevant_answer]
    cases frameName ar <;> cases frameSource ar <;> simp
  · intro w w1 res E trace hrun
    have ht := messagehandler_sound H frames w w1 res E trace hrun
    subst ht
    refine ⟨rfl, by simp [messagehandler_count_spec], ?_⟩
    simp
  · intro e s h n l b r rl m harr hel herr hset hg hreg hfresh hcls hmeta hlight
    obtain ⟨found, msg, env, _, hrun⟩ := messagehandler_ok H frames e s h n l b r rl m harr hel herr hset hg
      hreg hfresh hcls hmeta hlight
    exact ⟨_, _, hrun⟩

/-- Witness for C23: the three frames of `exampleFrames` with the `LuaError` handle of
`errorWorld` as error value: the C function without a name is skipped, the two other frames are
listed in order. -/
theorem messagehandler_trace_witness :
    spec_trace exampleFrames =
      [LuaStackTraceElement.mk (some (lit "f")) (some (lit "main.lua")) 3,
        LuaStackTraceElement.mk none (some (lit "main.lua")) 7] ∧
    ∃ E w1, messagehandler exampleHost exampleFrames
        ⟨LuaValue.userdata 6 :: [], errorWorld.heap, 7, 8000, fun _ => none, none, [], []⟩ =
      Res.ok (1, some (E, (spec_trace exampleFrames).map some)) w1 :=
  ⟨by decide,
    (messagehandler_trace exampleHost exampleFrames).2.2.2 (LuaValue.userdata 6) [] errorWorld.heap 7 8000
      (fun _ => none) [] [] 2 rfl rfl rfl rfl rfl (by decide) (by decide) (Or.inl (by decide))
      (fun _ => ⟨[], rfl⟩) rfl⟩

/-- The protected body of `throw` on a frame holding a handle to a `LuaError`: the exception
thrown carries the `LuaError` exactly when its class is `LuaRuntimeException`. -/
theorem throw_protected_on_handle (H : Host) (u m : Nat) (E : JValue) (h : Heap) (n l : Nat)
    (b : Int → Option Nat) (r rl : List JValue) (status : Int) (cls : JClass)
    (hcls : throwClass status = some cls)
    (hm : h.umeta u = some m) (hp : h.payload u = E)
    (hreg : tget (h.entries REGISTRY) (LuaValue.string JNLUA_OBJECT) = LuaValue.table m)
    (hE : E.isNull = false) (hinst : IsInstanceOf H E JClass.LuaError = true)
    (hnew : H.newObjectOk cls = true) (hthrow : H.throwOk = true)
    (hset : H.setLuaErrorThrows = none)
    (hmeta : ∀ f, ∃ rs, H.call f [LuaValue.userdata u] = CallOutcome.returns rs) :
    ∃ msg, throw_protected H status ⟨[LuaValue.userdata u], h, n, l, b, none, r, rl⟩ =
      Res.ok 0 ⟨[LuaValue.userdata u], h, n, l, b,
        some (JValue.throwable cls msg (if cls = JClass.LuaRuntimeException then E else JValue.null)),
        r ++ [JValue.throwable cls msg (if cls = JClass.LuaRuntimeException then E else JValue.null)], rl⟩ := by
  have h1 := index2value_one (LuaValue.userdata u) h n l b none r rl
  obtain ⟨msg, hmsg⟩ := to_string_keeps H ⟨[LuaValue.userdata u], h, n, l, b, none, r, rl⟩ 1 _ h1 hmeta
  have hobj := tojavaobject_handle_class H ⟨[LuaValue.userdata u], h, n, l, b, none, r, rl⟩ 1 u m
    JClass.LuaError h1 hm hreg (by rw [hp]; exact hinst)
  simp only [hp] at hobj
  refine ⟨msg.map cstr, ?_⟩
  unfold throw_protected
  simp only [hcls, tostring, bind_apply, hmsg, pure_apply, hnew, Bool.not_true, Bool.false_eq_true, if_false,
    hobj, hE, Bool.true_and]
  by_cases hc : cls = JClass.LuaRuntimeException
  · simp [hc, hset, handlejavaexception, hthrow, Throw]
  · simp [hc, hthrow, Throw]

/-- `throw` with a handle to a `LuaError` on top: one exception of the class of the status
becomes pending, and it carries the `LuaError` exactly when the status is `LUA_ERRRUN`. -/
theorem throw_on_handle (H : Host) (u m : Nat) (E : JValue) (rest : List LuaValue) (h : Heap) (n l : Nat)
    (b : Int → Option Nat) (r rl : List JValue) (status : Int) (cls : JClass)
    (hcls : throwClass status = some cls)
    (hm : h.umeta u = some m) (hp : h.payload u = E) (hun : u ≠ n) (hfresh : REGISTRY ≠ n)
    (hreg : tget (h.entries REGISTRY) (LuaValue.string JNLUA_OBJECT) = LuaValue.table m)
    (hE : E.isNull = false) (hinst : IsInstanceOf H E JClass.LuaError = true)
    (hroom : (rest.length : Int) + 1 + JNLUA_MINSTACK ≤ l)
    (hnew : H.newObjectOk cls = true) (hthrow : H.throwOk = true)
    (hset : H.setLuaErrorThrows = none)
    (hmeta : ∀ f, ∃ rs, H.call f [LuaValue.userdata u] = CallOutcome.returns rs) :
    ∃ msg, throw H status ⟨LuaValue.userdata u :: rest, h, n, l, b, none, r, rl⟩ =
      Res.ok () ⟨rest, Function.update h n (some (GCObject.cclosure CFunction.throw_protected [])), n + 1, l, b,
        some (JValue.throwable cls msg (if cls = JClass.LuaRuntimeException then E else JValue.null)),
        r ++ [JValue.throwable cls msg (if cls = JClass.LuaRuntimeException then E else JValue.null)], rl⟩ := by
  have hm1 : Heap.umeta (Function.update h n (some (GCObject.cclosure CFunction.throw_protected []))) u =
      some m := by
    unfold Heap.umeta; rw [Function.update_noteq hun]; exact hm
  have hp1 : Heap.payload (Function.update h n (some (GCObject.cclosure CFunction.throw_protected []))) u =
      E := by
    unfold Heap.payload; rw [Function.update_noteq hun]; exact hp
  have hreg1 : tget (Heap.entries (Function.update h n (some (GCObject.cclosure CFunction.throw_protected [])))
      REGISTRY) (LuaValue.string JNLUA_OBJECT) = LuaValue.table m := by
    rw [entries_congr h _ REGISTRY (Function.update_noteq hfresh _ _)]; exact hreg
  obtain ⟨msg, hb⟩ := throw_protected_on_handle H u m E
    (Function.update h n (some (GCObject.cclosure CFunction.throw_protected []))) (n + 1) l b r rl status cls
    hcls hm1 hp1 hreg1 hE hinst hnew hthrow hset hmeta
  refine ⟨msg, ?_⟩
  have hroom1 : ((rest.length + 1 : Nat) : Int) + JNLUA_MINSTACK ≤ (l : Int) := by push_cast; exact hroom
  simp only [throw, checkstack, lua_checkstack, bind_apply, List.length_cons, hroom1, decide_True, check, if_true,
    pure_apply, lua_pushcfunction, lua_pushcclosure, Nat.zero_le, List.take_zero, List.reverse_nil,
    List.drop_zero, lua_insert, slot_m2, List.take_succ_cons, List.take_zero, List.drop_succ_cons,
    List.drop_zero, List.nil_append, List.cons_append, pcallC]
  have hlen : ¬ (rest.length + 1 + 1 < 2) := by omega
  simp [hb, adjustResults, LUA_MULTRET, hlen]

/-- C22: when the error value handed to `messagehandler` is a handle to a `LuaError` `E`, the
handler creates no new `LuaError`: it calls `setLuaStackTrace` on `E` itself with the captured
trace and pushes a new handle whose payload is `E` as the error value.  The handler is installed
by `jcall_call` only and runs for a runtime error, so the status that `lua_pcall` returns with
the value the handler left is `LUA_ERRRUN`; `throw` with that status on that error value raises
one `LuaRuntimeException` linked to the same `E`, which keeps the throwable `E` wraps as the
root cause.  The environment is the ordinary one: the JNI calls succeed, nothing is pending,
engine functions called as metamethods return, the registry holds the shared object metatable,
and the stack can grow by `JNLUA_MINSTACK`. -/
theorem messagehandler_keeps_lua_error (H : Host) (frames : List lua_Debug) (u m : Nat) (E : JValue)
    (s : List LuaValue) (h : Heap) (n l : Nat) (b : Int → Option Nat) (r rl : List JValue)
    (harr : H.newArrayOk (spec_trace frames).length = true)
    (hel : H.newObjectOk JClass.LuaStackTraceElement = true)
    (hallnew : ∀ c, H.newObjectOk c = true)
    (hsetTrace : H.setLuaStackTraceThrows = none) (hset : H.setLuaErrorThrows = none)
    (hg : H.globalRefOk = true) (hthrow : H.throwOk = true)
    (hreg : tget (h.entries REGISTRY) (LuaValue.string JNLUA_OBJECT) = LuaValue.table m)
    (hfresh : REGISTRY ≠ n) (hfresh1 : REGISTRY ≠ n + 1)
    (hcls : tget (h.entries REGISTRY) (LuaValue.string (cstr (lit "com.naef.jnlua.LuaError"))) = LuaValue.nil ∨
      ∃ ct, tget (h.entries REGISTRY) (LuaValue.string (cstr (lit "com.naef.jnlua.LuaError"))) =
        LuaValue.table ct)
    (hmeta : ∀ f args, ∃ rs, H.call f args = CallOutcome.returns rs)
    (hlight : b LUA_TLIGHTUSERDATA = none)
    (hm : h.umeta u = some m) (hp : h.payload u = E)
    (hE : E.isNull = false) (hinst : IsInstanceOf H E JClass.LuaError = true)
    (hroom : (s.length : Int) + 2 + JNLUA_MINSTACK ≤ l) :
    ∃ env, messagehandler H frames ⟨LuaValue.userdata u :: s, h, n, l, b, none, r, rl⟩ =
        Res.ok (1, some (E, (spec_trace frames).map some))
          ⟨LuaValue.userdata n :: LuaValue.userdata u :: s,
            Function.update h n (some (GCObject.userdata E (some m) env)), n + 1, l, b, none, r, rl⟩ ∧
      (∃ msg, throw H LUA_ERRRUN ⟨LuaValue.userdata n :: LuaValue.userdata u :: s,
            Function.update h n (some (GCObject.userdata E (some m) env)), n + 1, l, b, none, r, rl⟩ =
          Res.ok () ⟨LuaValue.userdata u :: s,
            Function.update (Function.update h n (some (GCObject.userdata E (some m) env))) (n + 1)
              (some (GCObject.cclosure CFunction.throw_protected [])), n + 1 + 1, l, b,
            some (JValue.throwable JClass.LuaRuntimeException msg E),
            r ++ [JValue.throwable JClass.LuaRuntimeException msg E], rl⟩) := by
  obtain ⟨found, msg0, env, hfound, hrun⟩ := messagehandler_ok H frames (LuaValue.userdata u) s h n l b r rl m
    harr hel (hallnew _) hsetTrace hg hreg hfresh hcls (fun f => hmeta f _) hlight
  have hobj := tojavaobject_handle_class H ⟨LuaValue.userdata u :: s, h, n, l, b, none, r, rl⟩ (-1) u m
    JClass.LuaError (index2value_m1 _ _ _ _ _ _ _ _ _) hm hreg (by rw [hp]; exact hinst)
  simp only [hp] at hobj
  rw [hobj] at hfound
  injection hfound with hf _
  subst hf
  simp only [hE, Bool.false_eq_true, if_false] at hrun
  have hm1 : Heap.umeta (Function.update h n (some (GCObject.userdata E (some m) env))) n = some m := by
    simp [Heap.umeta]
  have hp1 : Heap.payload (Function.update h n (some (GCObject.userdata E (some m) env))) n = E := by
    simp [Heap.payload]
  have hreg1 : tget (Heap.entries (Function.update h n (some (GCObject.userdata E (some m) env))) REGISTRY)
      (LuaValue.string JNLUA_OBJECT) = LuaValue.table m := by
    rw [entries_congr h _ REGISTRY (Function.update_noteq hfresh _ _)]; exact hreg
  have hroom1 : (((LuaValue.userdata u :: s).length : Nat) : Int) + 1 + JNLUA_MINSTACK ≤ l := by
    simp only [List.length_cons]; push_cast; omega
  refine ⟨env, hrun, ?_⟩
  obtain ⟨msg, ht⟩ := throw_on_handle H n m E (LuaValue.userdata u :: s)
    (Function.update h n (some (GCObject.userdata E (some m) env))) (n + 1) l b r rl LUA_ERRRUN
    JClass.LuaRuntimeException (by decide) hm1 hp1 (by omega) hfresh1 hreg1 hE hinst hroom1 (hallnew _) hthrow
    hset (fun f => hmeta f _)
  simp only [if_true] at ht
  exact ⟨msg, ht⟩

/-- Witness for C22: the handle of `errorWorld` as error value, with the frames of
`exampleFrames`. -/
theorem messagehandler_keeps_lua_error_witness :
    ∃ env, messagehandler exampleHost exampleFrames
          ⟨LuaValue.userdata 6 :: [], errorWorld.heap, 7, 8000, fun _ => none, none, [], []⟩ =
        Res.ok (1, some (JValue.throwable JClass.LuaError (some (lit "boom")) (JValue.object 7),
            (spec_trace exampleFrames).map some))
          ⟨LuaValue.userdata 7 :: LuaValue.userdata 6 :: [],
            Function.update errorWorld.heap 7 (some (GCObject.userdata
              (JValue.throwable JClass.LuaError (some (lit "boom")) (JValue.object 7)) (some 2) env)),
            7 + 1, 8000, fun _ => none, none, [], []⟩ ∧
      (∃ msg, throw exampleHost LUA_ERRRUN ⟨LuaValue.userdata 7 :: LuaValue.userdata 6 :: [],
            Function.update errorWorld.heap 7 (some (GCObject.userdata
              (JValue.throwable JClass.LuaError (some (lit "boom")) (JValue.object 7)) (some 2) env)),
            7 + 1, 8000, fun _ => none, none, [], []⟩ =
          Res.ok () ⟨LuaValue.userdata 6 :: [],
            Function.update (Function.update errorWorld.heap 7 (some (GCObject.userdata
              (JValue.throwable JClass.LuaError (some (lit "boom")) (JValue.object 7)) (some 2) env))) (7 + 1)
              (some (GCObject.cclosure CFunction.throw_protected [])), 7 + 1 + 1, 8000, fun _ => none,
            some (JValue.throwable JClass.LuaRuntimeException msg
              (JValue.throwable JClass.LuaError (some (lit "boom")) (JValue.object 7))),
            [] ++ [JValue.throwable JClass.LuaRuntimeException msg
              (JValue.throwable JClass.LuaError (some (lit "boom")) (JValue.object 7))], []⟩) :=
  messagehandler_keeps_lua_error exampleHost exampleFrames 6 2 _ [] errorWorld.heap 7 8000 (fun _ => none) [] []
    rfl rfl (fun _ => rfl) rfl rfl rfl rfl (by decide) (by decide) (by decide) (Or.inl (by decide))
    (fun _ _ => ⟨[], rfl⟩) rfl rfl rfl rfl rfl (by decide)

/-! ## Calling a host callable: `calljavafunction` -/

theorem cstr_JNLUA_JAVASTATE : cstr JNLUA_JAVASTATE = JNLUA_JAVASTATE := by decide

theorem cstr_JNLUA_ARGS : cstr JNLUA_ARGS = JNLUA_ARGS := by decide

/-- The string form of a string on top of the stack, when strings have no `__tostring`
metamethod: the string itself, with the state unchanged. -/
theorem tostring_top_string (H : Host) (x : Bytes) (s : List LuaValue) (h : Heap) (n l : Nat)
    (b : Int → Option Nat) (p : Option JValue) (r rl : List JValue)
    (hstr : ∀ mt, b LUA_TSTRING = some mt →
      tget (h.entries mt) (LuaValue.string (lit "__tostring")) = LuaValue.nil) :
    tostring H (-1) ⟨LuaValue.string x :: s, h, n, l, b, p, r, rl⟩ =
      Res.ok (some (cstr x)) ⟨LuaValue.string x :: s, h, n, l, b, p, r, rl⟩ := by
  cases hb : b LUA_TSTRING with
  | none =>
    simp [tostring, to_string, luaL_callmeta, metatableOf, LuaValue.tag, hb, lua_pushvalue, lua_tolstring]
  | some mt =>
    simp [tostring, to_string, luaL_callmeta, metatableOf, LuaValue.tag, hb, hstr mt hb, lua_pushvalue,
      lua_tolstring]

/-- `handlejavaexception(L, 0)` with a host exception pending: the exception is cleared and a
handle to a new `LuaError`, made of the position text and the exception as its cause, is pushed;
the answer is 1. -/
theorem handlejavaexception_wraps (H : Host) (T : JValue) (s : List LuaValue) (h : Heap) (n l : Nat)
    (b : Int → Option Nat) (r rl : List JValue) (m : Nat)
    (hnew : H.newObjectOk JClass.LuaError = true) (hg : H.globalRefOk = true)
    (hreg : tget (h.entries REGISTRY) (LuaValue.string JNLUA_OBJECT) = LuaValue.table m)
    (hfresh : REGISTRY ≠ n)
    (hcls : tget (h.entries REGISTRY) (LuaValue.string (cstr (lit "com.naef.jnlua.LuaError"))) = LuaValue.nil ∨
      ∃ ct, tget (h.entries REGISTRY) (LuaValue.string (cstr (lit "com.naef.jnlua.LuaError"))) =
        LuaValue.table ct)
    (hstr : ∀ mt, b LUA_TSTRING = some mt →
      tget (h.entries mt) (LuaValue.string (lit "__tostring")) = LuaValue.nil) :
    ∃ env, handlejavaexception H 0 ⟨s, h, n, l, b, some T, r, rl⟩ =
      Res.ok 1 ⟨LuaValue.userdata n :: s,
        Function.update h n (some (GCObject.userdata
          (JValue.throwable JClass.LuaError (some (cstr H.whereStr)) T) (some m) env)),
        n + 1, l, b, none, r, rl⟩ := by
  obtain ⟨env, hpush⟩ := pushjavaobject_object H ⟨s, h, n, l, b, none, r, rl⟩
    (JValue.throwable JClass.LuaError (some (cstr H.whereStr)) T) (lit "com.naef.jnlua.LuaError") m hreg hfresh
    hcls rfl hg
  refine ⟨env, ?_⟩
  simp only [handlejavaexception, bind_apply, getW_apply, push_apply,
    tostring_top_string H H.whereStr s h n l b (some T) r rl hstr, ExceptionClear_apply,
    show (0 : Nat) &&& 2 = 0 by decide, if_true, hnew, lua_pop_1, hpush,
    show ¬ ((0 : Nat) &&& 1 ≠ 0) by decide, if_false, pure_apply]

/-- The middle of `calljavafunction` when the host method throws: the exception is wrapped by
`handlejavaexception` and raised as an engine error. -/
theorem calljavafunction_call_throws (H : Host) (jf js : JValue) (args args1 : ArgBuf) (mainThread : Bool)
    (w wb : World) (nres : Int) (T : JValue)
    (s2 : List LuaValue) (h2 : Heap) (n2 l2 : Nat) (b2 : Int → Option Nat) (r2 rl2 : List JValue) (m : Nat)
    (hpack : (if (w.stack.length : Int) = 0 then (pure args : LuaM ArgBuf)
      else build_args H 1 w.stack.length args false true) w = Res.ok args1 wb)
    (hinv : H.invoke jf js w.stack.length wb = (nres, ⟨s2, h2, n2, l2, b2, some T, r2, rl2⟩))
    (hnew : H.newObjectOk JClass.LuaError = true) (hg : H.globalRefOk = true)
    (hreg : tget (h2.entries REGISTRY) (LuaValue.string JNLUA_OBJECT) = LuaValue.table m)
    (hfresh : REGISTRY ≠ n2)
    (hcls : tget (h2.entries REGISTRY) (LuaValue.string (cstr (lit "com.naef.jnlua.LuaError"))) = LuaValue.nil ∨
      ∃ ct, tget (h2.entries REGISTRY) (LuaValue.string (cstr (lit "com.naef.jnlua.LuaError"))) =
        LuaValue.table ct)
    (hstr : ∀ mt, b2 LUA_TSTRING = some mt →
      tget (h2.entries mt) (LuaValue.string (lit "__tostring")) = LuaValue.nil) :
    ∃ env, calljavafunction_call H jf js args mainThread w =
      Res.raise (LuaValue.userdata n2) ⟨LuaValue.userdata n2 :: s2,
        Function.update h2 n2 (some (GCObject.userdata
          (JValue.throwable JClass.LuaError (some (cstr H.whereStr)) T) (some m) env)),
        n2 + 1, l2, b2, none, r2, rl2⟩ := by
  obtain ⟨env, hwrap⟩ := handlejavaexception_wraps H T s2 h2 n2 l2 b2 r2 rl2 m hnew hg hreg hfresh hcls hstr
  refine ⟨env, ?_⟩
  by_cases h0 : (w.stack.length : Int) = 0
  · simp only [h0, if_true] at hpack
    simp only [pure_apply] at hpack
    injection hpack with ha hw
    subst hw
    simp only [calljavafunction_call, bind_apply, lua_gettop_apply, h0, if_true, pure_apply,
      CallIntMethod_invoke]
    rw [h0] at hinv
    simp only [hinv, hwrap]
    simp [lua_error]
  · simp only [h0, if_false] at hpack
    simp only [calljavafunction_call, bind_apply, lua_gettop_apply, h0, if_false, hpack,
      CallIntMethod_invoke, hinv, hwrap]
    simp [lua_error]

/-- C21: when the host method that `calljavafunction` invokes throws a throwable `T`,
`calljavafunction` does not return: it raises an engine error whose error value is a new handle
(a fresh userdata carrying the shared object metatable) to a new `LuaError` made of the
call-site position text and `T` as its cause, and no host exception is pending afterwards.  The
environment is the ordinary one: the registry holds the Java state, the argument block and the
shared object metatable, upvalue 1 is the handle of the host callable, the arguments were
packed, `NewObject` and `NewGlobalRef` succeed, and strings have no `__tostring` metamethod. -/
theorem calljavafunction_wraps_host_throwable (H : Host) (upvalues : List LuaValue) (trace : Int)
    (args args1 : ArgBuf) (mainThread : Bool) (jstate jargs f m0 : Nat) (jf : JValue)
    (s : List LuaValue) (h : Heap) (n l : Nat) (b : Int → Option Nat) (p : Option JValue) (r rl : List JValue)
    (wb : World) (nres : Int) (T : JValue)
    (s2 : List LuaValue) (h2 : Heap) (n2 l2 : Nat) (b2 : Int → Option Nat) (r2 rl2 : List JValue) (m : Nat)
    (hstate : tget (h.entries REGISTRY) (LuaValue.string JNLUA_JAVASTATE) = LuaValue.userdata jstate)
    (hargs : tget (h.entries REGISTRY) (LuaValue.string JNLUA_ARGS) = LuaValue.userdata jargs)
    (hup : upvalues.getD 0 LuaValue.nil = LuaValue.userdata f)
    (hfm : h.umeta f = some m0) (hfp : h.payload f = jf) (hjf : jf.isNull = false)
    (hreg0 : tget (h.entries REGISTRY) (LuaValue.string JNLUA_OBJECT) = LuaValue.table m0)
    (hpack : (if (s.length : Int) = 0 then (pure args : LuaM ArgBuf)
      else build_args H 1 s.length args false true) ⟨s, h, n, l, b, p, r, rl⟩ = Res.ok args1 wb)
    (hinv : H.invoke jf (h.payload jstate) s.length wb = (nres, ⟨s2, h2, n2, l2, b2, some T, r2, rl2⟩))
    (hnew : H.newObjectOk JClass.LuaError = true) (hg : H.globalRefOk = true)
    (hreg : tget (h2.entries REGISTRY) (LuaValue.string JNLUA_OBJECT) = LuaValue.table m)
    (hfresh : REGISTRY ≠ n2)
    (hcls : tget (h2.entries REGISTRY) (LuaValue.string (cstr (lit "com.naef.jnlua.LuaError"))) = LuaValue.nil ∨
      ∃ ct, tget (h2.entries REGISTRY) (LuaValue.string (cstr (lit "com.naef.jnlua.LuaError"))) =
        LuaValue.table ct)
    (hstr : ∀ mt, b2 LUA_TSTRING = some mt →
      tget (h2.entries mt) (LuaValue.string (lit "__tostring")) = LuaValue.nil) :
    ∃ env, calljavafunction H upvalues trace args mainThread ⟨s, h, n, l, b, p, r, rl⟩ =
      Res.raise (LuaValue.userdata n2) ⟨LuaValue.userdata n2 :: s2,
        Function.update h2 n2 (some (GCObject.userdata
          (JValue.throwable JClass.LuaError (some (cstr H.whereStr)) T) (some m) env)),
        n2 + 1, l2, b2, none, r2, rl2⟩ := by
  obtain ⟨env, hcall⟩ := calljavafunction_call_throws H jf (h.payload jstate) args args1 mainThread
    ⟨s, h, n, l, b, p, r, rl⟩ wb nres T s2 h2 n2 l2 b2 r2 rl2 m hpack hinv hnew hg hreg hfresh hcls hstr
  refine ⟨env, ?_⟩
  have hobj := tojavaobject_handle H
    ⟨LuaValue.userdata f :: LuaValue.userdata jstate :: s, h, n, l, b, p, r, rl⟩ (-1) f m0
    (index2value_m1 _ _ _ _ _ _ _ _ _) hfm hreg0
  simp only [hfp] at hobj
  simp only [calljavafunction, bind_apply, lua_pushstring, cstr_JNLUA_JAVASTATE, push_apply,
    lua_rawget_registry, hstate, lua_isuserdata, index2value_m1, Bool.not_true, Bool.false_eq_true, if_false,
    getW_apply, lua_pushupvalue, Nat.sub_self, hup, hobj]
  generalize (if Int.land (Int.land trace 11) 8 > 0 then Int.land trace 11 * 0
    else Int.land trace 11) = dbg
  by_cases hd : Int.land dbg 1 > 0
  · simp only [hd, if_true, bind_apply, push_apply]
    cases upvalues.getD (3 - 1) LuaValue.nil <;>
      simp [lua_tolstring, hjf, cstr_JNLUA_ARGS, hargs, lua_isuserdata, lua_touserdata, hcall]
  · simp [hd, hjf, cstr_JNLUA_ARGS, hargs, lua_isuserdata, lua_touserdata, hcall]

/-- Witness for C21: the host callable behind handle 4 of `seqWorld`, called without arguments
in a host whose callables throw the throwable 7. -/
theorem calljavafunction_wraps_host_throwable_witness :
    ∃ env, calljavafunction throwingHost
        [LuaValue.userdata 4, LuaValue.boolean false, LuaValue.string (lit "f")] 0 ⟨[], [], []⟩ true
        ⟨[], seqWorld.heap, 8, 8000, fun _ => none, none, [], []⟩ =
      Res.raise (LuaValue.userdata 8) ⟨LuaValue.userdata 8 :: [],
        Function.update seqWorld.heap 8 (some (GCObject.userdata
          (JValue.throwable JClass.LuaError (some (cstr throwingHost.whereStr)) (JValue.object 7)) (some 2) env)),
        8 + 1, 8000, fun _ => none, none, [], []⟩ :=
  calljavafunction_wraps_host_throwable throwingHost
    [LuaValue.userdata 4, LuaValue.boolean false, LuaValue.string (lit "f")] 0 ⟨[], [], []⟩ ⟨[], [], []⟩ true
    7 5 4 2 (JValue.object 42) [] seqWorld.heap 8 8000 (fun _ => none) none [] []
    ⟨[], seqWorld.heap, 8, 8000, fun _ => none, none, [], []⟩ 0 (JValue.object 7)
    [] seqWorld.heap 8 8000 (fun _ => none) [] [] 2
    (by decide) (by decide) rfl rfl rfl rfl (by decide) rfl rfl rfl rfl (by decide) (by decide)
    (Or.inl (by decide)) (fun _ hh => by cases hh)

end JNLua
